import Mathlib

/-!
# gramarye-query-engine: tokenizer, parser, AST and executor

A shallow embedding of `src/src/parser.c`, `src/src/executor.c` and
`src/src/query.c`, followed by theorems about it.

Conventions of the embedding

* A C string is the list of its bytes before the terminating NUL; a byte is
  the character with that code.  Reading index `length` yields the NUL.
* `size_t` counters (`position`, `line`, `column`, `count`, `capacity`) are
  natural numbers: each stays within a small multiple of the input length.
* A pointer into the input (`Token.value`) is its offset; `none` is `NULL`.
* `ALLOC` (from `mem.h`, which is not among these sources) is taken never to
  return `NULL`: an allocation always yields a block, and the `if (!ptr)`
  branches that follow one are not taken.
* The registry (`ECS`) is an external collaborator: a record of the
  operations the executor calls.
-/

namespace GramaryeQuery

/-! ## `ctype.h` and `strings.h` in the "C" locale -/

/-- The NUL byte that terminates a C string. -/
def NUL : Char := Char.ofNat 0

/-- C `isspace`: space, `\t`, `\n`, `\v`, `\f`, `\r`. -/
def isspace (c : Char) : Bool :=
  c.toNat == 32 || (decide (9 ≤ c.toNat) && decide (c.toNat ≤ 13))

/-- C `isdigit`. -/
def isdigit (c : Char) : Bool :=
  decide (48 ≤ c.toNat) && decide (c.toNat ≤ 57)

/-- C `isalpha`. -/
def isalpha (c : Char) : Bool :=
  (decide (65 ≤ c.toNat) && decide (c.toNat ≤ 90)) ||
    (decide (97 ≤ c.toNat) && decide (c.toNat ≤ 122))

/-- C `isalnum`. -/
def isalnum (c : Char) : Bool :=
  isalpha c || isdigit c

/-- C `tolower`. -/
def tolower (c : Char) : Char :=
  if 65 ≤ c.toNat ∧ c.toNat ≤ 90 then Char.ofNat (c.toNat + 32) else c

/-- C `strncasecmp(s1, s2, n)`: compares at most `n` bytes ignoring letter
case and stops after a NUL; the lists are the bytes before each NUL. -/
def strncasecmp : List Char → List Char → Nat → Int
  | _, _, 0 => 0
  | s1, s2, n + 1 =>
    let c1 := tolower (s1.headD NUL)
    let c2 := tolower (s2.headD NUL)
    if c1 ≠ c2 then (c1.toNat : Int) - (c2.toNat : Int)
    else if c1 = NUL then 0
    else strncasecmp s1.tail s2.tail n

/-! ## Tokens and the parser cursor (`parser.h`, `parser.c`) -/

/-- The `TokenType` enumeration. -/
inductive TokenType where
  | TOKEN_SELECT | TOKEN_COUNT | TOKEN_SHOW | TOKEN_WHERE
  | TOKEN_HAS | TOKEN_HAS_ANY | TOKEN_NOT_HAS
  | TOKEN_AND | TOKEN_OR | TOKEN_OF | TOKEN_ENTITY | TOKEN_ENTITIES | TOKEN_ALL
  | TOKEN_IDENTIFIER | TOKEN_NUMBER | TOKEN_STRING | TOKEN_OPERATOR
  | TOKEN_LPAREN | TOKEN_RPAREN | TOKEN_DOT | TOKEN_COMMA
  | TOKEN_EOF | TOKEN_ERROR
deriving DecidableEq, Repr

open TokenType

/-- The `Token` record; `value` is the offset of the token text in the input. -/
structure Token where
  type : TokenType
  value : Option Nat
  length : Nat
  line : Nat
  column : Nat
deriving DecidableEq, Repr

/-- The `struct QueryParser` record. -/
structure QueryParser where
  input : List Char
  position : Nat
  length : Nat
  line : Nat
  column : Nat
deriving DecidableEq, Repr

/-- The byte `parser->input[i]`. -/
def QueryParser.byteAt (parser : QueryParser) (i : Nat) : Char :=
  parser.input.getD i NUL

/-- The C string that starts at `&parser->input[i]`. -/
def QueryParser.strAt (parser : QueryParser) (i : Nat) : List Char :=
  parser.input.drop i

/-- The bytes a token views: `length` bytes from `value`. -/
def Token.text (input : List Char) (token : Token) : List Char :=
  match token.value with
  | some off => (input.drop off).take token.length
  | none => []

/-- C `strlen` of a string given by its bytes before the NUL. -/
def strlen (s : List Char) : Nat := s.length

/-- Function `QueryParser_new`; `none` is a `NULL` query string or parser. -/
def QueryParser_new (queryString : Option (List Char)) : Option QueryParser :=
  match queryString with
  | none => none
  | some s =>
    some { input := s, position := 0, length := strlen s, line := 1, column := 1 }

/-- The `while` loop of `skip_whitespace`; at most `length - position` rounds. -/
def skip_whitespace_loop : Nat → QueryParser → QueryParser
  | 0, parser => parser
  | fuel + 1, parser =>
    if parser.position < parser.length && isspace (parser.byteAt parser.position) then
      if parser.byteAt parser.position = '\n' then
        skip_whitespace_loop fuel
          { parser with line := parser.line + 1, column := 1, position := parser.position + 1 }
      else
        skip_whitespace_loop fuel
          { parser with column := parser.column + 1, position := parser.position + 1 }
    else parser

/-- Function `skip_whitespace`. -/
def skip_whitespace (parser : QueryParser) : QueryParser :=
  skip_whitespace_loop (parser.length - parser.position) parser

/-- Function `is_identifier_char`. -/
def is_identifier_char (c : Char) : Bool :=
  isalnum c || c = '_'

/-- The macro `MATCH_KEYWORD(str, len)` of `read_identifier`. -/
def MATCH_KEYWORD (parser : QueryParser) (token : Token) (str : String) (len : Nat) : Bool :=
  token.length == len &&
    strncasecmp (parser.strAt (token.value.getD 0)) str.toList len == 0

/-- The scanning loop of `read_identifier`. -/
def read_identifier_loop : Nat → QueryParser → QueryParser
  | 0, parser => parser
  | fuel + 1, parser =>
    if parser.position < parser.length && is_identifier_char (parser.byteAt parser.position) then
      read_identifier_loop fuel
        { parser with position := parser.position + 1, column := parser.column + 1 }
    else parser

/-- Function `read_identifier`. -/
def read_identifier (parser0 : QueryParser) : Token × QueryParser :=
  let start := parser0.position
  let parser := read_identifier_loop (parser0.length - parser0.position) parser0
  let token : Token :=
    { type := TOKEN_IDENTIFIER, line := parser0.line, column := parser0.column,
      value := some parser0.position, length := parser.position - start }
  let type :=
    if MATCH_KEYWORD parser token "ENTITIES" 8 then TOKEN_ENTITIES
    else if MATCH_KEYWORD parser token "HAS_ANY" 7 then TOKEN_HAS_ANY
    else if MATCH_KEYWORD parser token "NOT_HAS" 7 then TOKEN_NOT_HAS
    else if MATCH_KEYWORD parser token "SELECT" 6 then TOKEN_SELECT
    else if MATCH_KEYWORD parser token "ENTITY" 6 then TOKEN_ENTITY
    else if MATCH_KEYWORD parser token "COUNT" 5 then TOKEN_COUNT
    else if MATCH_KEYWORD parser token "WHERE" 5 then TOKEN_WHERE
    else if MATCH_KEYWORD parser token "SHOW" 4 then TOKEN_SHOW
    else if MATCH_KEYWORD parser token "HAS" 3 then TOKEN_HAS
    else if MATCH_KEYWORD parser token "ALL" 3 then TOKEN_ALL
    else if MATCH_KEYWORD parser token "AND" 3 then TOKEN_AND
    else if MATCH_KEYWORD parser token "OF" 2 then TOKEN_OF
    else if MATCH_KEYWORD parser token "OR" 2 then TOKEN_OR
    else token.type
  ({ token with type := type }, parser)

/-- The scanning loop of `read_number`. -/
def read_number_loop : Nat → QueryParser → QueryParser
  | 0, parser => parser
  | fuel + 1, parser =>
    if parser.position < parser.length && isdigit (parser.byteAt parser.position) then
      read_number_loop fuel
        { parser with position := parser.position + 1, column := parser.column + 1 }
    else parser

/-- Function `read_number`. -/
def read_number (parser0 : QueryParser) : Token × QueryParser :=
  let start := parser0.position
  let parser := read_number_loop (parser0.length - parser0.position) parser0
  ({ type := TOKEN_NUMBER, line := parser0.line, column := parser0.column,
     value := some parser0.position, length := parser.position - start }, parser)

/-- Function `QueryParser_next_token` on a non-null parser: the token and the
advanced cursor. -/
def QueryParser_next_token (parser0 : QueryParser) : Token × QueryParser :=
  let parser := skip_whitespace parser0
  if parser.position ≥ parser.length then
    ({ type := TOKEN_EOF, value := none, length := 0,
       line := parser.line, column := parser.column }, parser)
  else
    let c := parser.byteAt parser.position
    if c = '(' then
      let parser := { parser with position := parser.position + 1, column := parser.column + 1 }
      ({ type := TOKEN_LPAREN, value := some (parser.position - 1), length := 1,
         line := parser.line, column := parser.column - 1 }, parser)
    else if c = ')' then
      let parser := { parser with position := parser.position + 1, column := parser.column + 1 }
      ({ type := TOKEN_RPAREN, value := some (parser.position - 1), length := 1,
         line := parser.line, column := parser.column - 1 }, parser)
    else if c = '.' then
      let parser := { parser with position := parser.position + 1, column := parser.column + 1 }
      ({ type := TOKEN_DOT, value := some (parser.position - 1), length := 1,
         line := parser.line, column := parser.column - 1 }, parser)
    else if c = ',' then
      let parser := { parser with position := parser.position + 1, column := parser.column + 1 }
      ({ type := TOKEN_COMMA, value := some (parser.position - 1), length := 1,
         line := parser.line, column := parser.column - 1 }, parser)
    else if c = '>' ∨ c = '<' ∨ c = '=' ∨ c = '!' then
      let start := parser.position
      let parser := { parser with position := parser.position + 1, column := parser.column + 1 }
      let parser :=
        if parser.position < parser.length && parser.byteAt parser.position = '=' then
          { parser with position := parser.position + 1, column := parser.column + 1 }
        else parser
      ({ type := TOKEN_OPERATOR, value := some start, length := parser.position - start,
         line := parser.line, column := parser.column - (parser.position - start) }, parser)
    else if isdigit c then
      read_number parser
    else if isalpha c || c = '_' then
      read_identifier parser
    else
      ({ type := TOKEN_ERROR, value := some parser.position, length := 1,
         line := parser.line, column := parser.column },
       { parser with position := parser.position + 1, column := parser.column + 1 })

/-- Function `QueryParser_peek_token` on a non-null parser: the next token,
with position, line and column restored. -/
def QueryParser_peek_token (parser : QueryParser) : Token × QueryParser :=
  let savedPos := parser.position
  let savedLine := parser.line
  let savedCol := parser.column
  let (token, parser) := QueryParser_next_token parser
  (token, { parser with position := savedPos, line := savedLine, column := savedCol })

/-! ## The AST (`parser.h`, `parser.c`) -/

/-- The `ASTNodeType` enumeration. -/
inductive ASTNodeType where
  | AST_SELECT | AST_COUNT | AST_SHOW | AST_WHERE
  | AST_HAS | AST_HAS_ANY | AST_NOT_HAS
  | AST_FILTER | AST_AND | AST_OR
deriving DecidableEq, Repr

open ASTNodeType

/-- The `ComponentList` record: the array of owned name strings (its
initialised entries, in index order) and `count`. -/
structure ComponentList where
  componentNames : List (List Char)
  count : Nat
deriving DecidableEq, Repr

/-- The `EntityIdData` record: two `uint64_t` halves. -/
structure EntityIdData where
  high : Nat
  low : Nat
deriving DecidableEq, Repr

/-- The `ShowQueryData` record; `componentName = none` is `NULL`, meaning ALL. -/
structure ShowQueryData where
  componentName : Option (List Char)
  entityId : Option EntityIdData
deriving DecidableEq, Repr

/-- What the `void* data` of a node points to. -/
inductive ASTData where
  | null
  | componentList (list : ComponentList)
  | showData (data : ShowQueryData)
deriving DecidableEq, Repr

/-- The `struct QueryAST` node; `none` is a `NULL` pointer. -/
inductive QueryAST where
  | node (type : ASTNodeType) (data : ASTData) (left : Option QueryAST)
      (right : Option QueryAST) (children : Option (List QueryAST)) (childCount : Nat)
deriving Repr

/-- Function `QueryAST_get_type`. -/
def QueryAST_get_type (ast : Option QueryAST) : ASTNodeType :=
  match ast with
  | none => AST_SELECT
  | some (.node type _ _ _ _ _) => type

/-- Function `QueryAST_get_data`. -/
def QueryAST_get_data (ast : Option QueryAST) : ASTData :=
  match ast with
  | none => .null
  | some (.node _ data _ _ _ _) => data

/-- Function `QueryAST_get_left`. -/
def QueryAST_get_left (ast : Option QueryAST) : Option QueryAST :=
  match ast with
  | none => none
  | some (.node _ _ left _ _ _) => left

/-- Function `QueryAST_get_right`. -/
def QueryAST_get_right (ast : Option QueryAST) : Option QueryAST :=
  match ast with
  | none => none
  | some (.node _ _ _ right _ _) => right

/-! ## The parser (`parser.c`) -/

/-- The string left in a fresh buffer of `n + 1` bytes by
`strncpy(dst, src, n); dst[n] = 0`. -/
def strncpy_terminated (src : List Char) (n : Nat) : List Char :=
  (src.take n).takeWhile (fun c => c ≠ NUL)

/-- The owned copy of a token's text made with `ALLOC(token.length + 1)`,
`strncpy` and a terminating NUL. -/
def copy_token_text (parser : QueryParser) (token : Token) : List Char :=
  strncpy_terminated (parser.strAt (token.value.getD 0)) token.length

/-- The identifier branch of the loop of `parse_component_list`: when
`count >= capacity` the capacity doubles and the `count` stored pointers are
copied (`memcpy`) into the new array; then the name is stored at index `count`
and `count` grows by one.  The result is the list and the capacity. -/
def append_component_name (list : ComponentList) (capacity : Nat) (name : List Char) :
    ComponentList × Nat :=
  let grown : ComponentList × Nat :=
    if list.count ≥ capacity then
      ({ list with componentNames := list.componentNames.take list.count }, capacity * 2)
    else (list, capacity)
  ({ componentNames := grown.1.componentNames.take grown.1.count ++ [name],
     count := grown.1.count + 1 }, grown.2)

/-- State of the `while (1)` loop of `parse_component_list`. -/
structure ComponentListLoop where
  list : ComponentList
  capacity : Nat
  first : Bool
  parser : QueryParser

/-- The `while (1)` loop of `parse_component_list`.  The result is `none` when
the rounds run out, and otherwise the list after the loop (`none` for a
`return NULL` inside the loop) with the cursor. -/
def parse_component_list_loop :
    Nat → ComponentListLoop → Option (Option ComponentList × QueryParser)
  | 0, _ => none
  | fuel + 1, st =>
    let (token, parser) := QueryParser_next_token st.parser
    if token.type = TOKEN_RPAREN then some (some st.list, parser)
    else
      let step : Option (Token × QueryParser) :=
        if !st.first then
          if token.type ≠ TOKEN_COMMA then none
          else some (QueryParser_next_token parser)
        else some (token, parser)
      match step with
      | none => some (none, parser)
      | some (token, parser) =>
        if token.type = TOKEN_IDENTIFIER then
          let (list, capacity) :=
            append_component_name st.list st.capacity (copy_token_text parser token)
          parse_component_list_loop fuel
            { list := list, capacity := capacity, first := false, parser := parser }
        else some (none, parser)

/-- Function `parse_component_list`: the list (`none` for `NULL`) and the cursor. -/
def parse_component_list (parser0 : QueryParser) : Option ComponentList × QueryParser :=
  let list : ComponentList := { componentNames := [], count := 0 }
  let (token, parser) := QueryParser_next_token parser0
  if token.type ≠ TOKEN_LPAREN then (none, parser)
  else
    let capacity := 4
    match parse_component_list_loop (parser.length - parser.position + 1)
        { list := list, capacity := capacity, first := true, parser := parser } with
    | none => (none, parser)
    | some (none, parser) => (none, parser)
    | some (some list, parser) =>
      if list.count = 0 then (none, parser) else (some list, parser)

/-- The constant `ULLONG_MAX`. -/
def ULLONG_MAX : Nat := 18446744073709551615

/-- C `strtoull(nptr, &endptr, 10)`: the value and the number of bytes
consumed, `endptr - nptr`.  Leading white space and one sign are skipped, the
longest run of digits is converted, a value that does not fit gives
`ULLONG_MAX`, and without a digit nothing is consumed and the value is 0. -/
def strtoull (nptr : List Char) : Nat × Nat :=
  let ws := (nptr.takeWhile isspace).length
  let s1 := nptr.drop ws
  let sign : Bool × Nat :=
    match s1.head? with
    | some c => if c = '-' then (true, 1) else if c = '+' then (false, 1) else (false, 0)
    | none => (false, 0)
  let digits := (s1.drop sign.2).takeWhile isdigit
  if digits.length = 0 then (0, 0)
  else
    let v := digits.foldl (fun acc c => acc * 10 + (c.toNat - 48)) 0
    let v :=
      if v > ULLONG_MAX then ULLONG_MAX
      else if sign.1 then (ULLONG_MAX + 1 - v) % (ULLONG_MAX + 1)
      else v
    (v, ws + sign.2 + digits.length)

/-- The two digit-scanning loops of `parse_entity_id`, over the local `pos`. -/
def parse_entity_id_loop (parser : QueryParser) : Nat → Nat → Nat
  | 0, pos => pos
  | fuel + 1, pos =>
    if pos < parser.length && isdigit (parser.byteAt pos) then
      parse_entity_id_loop parser fuel (pos + 1)
    else pos

/-- Function `parse_entity_id`: the id (`none` for `NULL`) and the cursor. -/
def parse_entity_id (parser0 : QueryParser) : Option EntityIdData × QueryParser :=
  let parser := skip_whitespace parser0
  if parser.position ≥ parser.length then (none, parser)
  else
    let startPos := parser.position
    let pos := parse_entity_id_loop parser (parser.length - startPos) startPos
    if pos ≥ parser.length || parser.byteAt pos ≠ ':' then (none, parser)
    else
      let (high, consumed) := strtoull (parser.strAt startPos)
      if startPos + consumed ≠ pos then (none, parser)
      else
        let pos := pos + 1
        if pos ≥ parser.length then (none, parser)
        else
          let lowStart := pos
          let pos := parse_entity_id_loop parser (parser.length - pos) pos
          if pos = lowStart then (none, parser)
          else
            let (low, consumed) := strtoull (parser.strAt lowStart)
            if lowStart + consumed ≠ pos then (none, parser)
            else
              let parser := { parser with position := pos }
              let parser := { parser with column := parser.column + (pos - parser.position) }
              (some { high := high, low := low }, parser)

/-- Function `parse_predicate`: the predicate node (`none` for `NULL`) and the
cursor. -/
def parse_predicate (parser0 : QueryParser) : Option QueryAST × QueryParser :=
  let (token, parser) := QueryParser_next_token parser0
  if token.type = TOKEN_HAS then
    match parse_component_list parser with
    | (none, parser) => (none, parser)
    | (some list, parser) =>
      (some (.node AST_HAS (.componentList list) none none none 0), parser)
  else if token.type = TOKEN_HAS_ANY then
    match parse_component_list parser with
    | (none, parser) => (none, parser)
    | (some list, parser) =>
      (some (.node AST_HAS_ANY (.componentList list) none none none 0), parser)
  else if token.type = TOKEN_NOT_HAS then
    match parse_component_list parser with
    | (none, parser) => (none, parser)
    | (some list, parser) =>
      (some (.node AST_NOT_HAS (.componentList list) none none none 0), parser)
  else (none, parser)

/-- Function `QueryParser_parse` on a non-null parser: the tree (`none` for
`NULL`) and the cursor. -/
def QueryParser_parse (parser0 : QueryParser) : Option QueryAST × QueryParser :=
  let (token, parser) := QueryParser_next_token parser0
  if token.type = TOKEN_SELECT then
    let (token, parser) := QueryParser_next_token parser
    if token.type ≠ TOKEN_ENTITIES then (none, parser)
    else
      let (token, parser) := QueryParser_peek_token parser
      let clause : Option (Option QueryAST) × QueryParser :=
        if token.type = TOKEN_WHERE then
          let (_, parser) := QueryParser_next_token parser
          match parse_predicate parser with
          | (none, parser) => (none, parser)
          | (some predicate, parser) => (some (some predicate), parser)
        else (some none, parser)
      match clause with
      | (none, parser) => (none, parser)
      | (some left, parser) =>
        let (token, parser) := QueryParser_next_token parser
        if token.type ≠ TOKEN_EOF then (none, parser)
        else (some (.node AST_SELECT .null left none none 0), parser)
  else if token.type = TOKEN_COUNT then
    let (token, parser) := QueryParser_next_token parser
    if token.type ≠ TOKEN_ENTITIES then (none, parser)
    else
      let (token, parser) := QueryParser_peek_token parser
      let clause : Option (Option QueryAST) × QueryParser :=
        if token.type = TOKEN_WHERE then
          let (_, parser) := QueryParser_next_token parser
          match parse_predicate parser with
          | (none, parser) => (none, parser)
          | (some predicate, parser) => (some (some predicate), parser)
        else (some none, parser)
      match clause with
      | (none, parser) => (none, parser)
      | (some left, parser) =>
        let (token, parser) := QueryParser_next_token parser
        if token.type ≠ TOKEN_EOF then (none, parser)
        else (some (.node AST_COUNT .null left none none 0), parser)
  else if token.type = TOKEN_SHOW then
    let (token, parser) := QueryParser_next_token parser
    let target : Option (Option (List Char)) :=
      if token.type = TOKEN_ALL then some none
      else if token.type = TOKEN_IDENTIFIER then some (some (copy_token_text parser token))
      else none
    match target with
    | none => (none, parser)
    | some componentName =>
      let (token, parser) := QueryParser_next_token parser
      if token.type ≠ TOKEN_OF then (none, parser)
      else
        let (token, parser) := QueryParser_next_token parser
        if token.type ≠ TOKEN_ENTITY then (none, parser)
        else
          match parse_entity_id parser with
          | (none, parser) => (none, parser)
          | (some entityId, parser) =>
            let showData : ShowQueryData :=
              { componentName := componentName, entityId := some entityId }
            let (token, parser) := QueryParser_next_token parser
            if token.type ≠ TOKEN_EOF then (none, parser)
            else (some (.node AST_SHOW (.showData showData) none none none 0), parser)
  else (none, parser)

/-! ## The registry boundary (`gramarye_ecs`) -/

/-- A component type handle of the registry. -/
abbrev ComponentTypeId := Nat

/-- The registry's `EntityId`: two `uint64_t` halves. -/
structure EntityId where
  high : Nat
  low : Nat
deriving DecidableEq, Repr

/-- The registry's `ComponentType` record, of which the executor reads `size`. -/
structure ComponentType where
  size : Nat
deriving DecidableEq, Repr

/-- The registry handle `ECS*`: the operations of `gramarye_ecs` that the
executor calls, and the constant `COMPONENT_TYPE_INVALID` of that library.
A set query returns the registry's `struct QueryResult`, a buffer `entities`
with the number `count` of its entries: the sequence of those entries.
`ECS_get_entity_components` gives the handles it writes (their number is the
count it stores); `ECS_get_component` gives the bytes stored at the pointer it
returns, `none` for `NULL`. -/
structure ECS where
  COMPONENT_TYPE_INVALID : ComponentTypeId
  ECS_get_component_type_by_name : List Char → ComponentTypeId
  ECS_query_entities : List ComponentTypeId → List EntityId
  ECS_query_entities_any : List ComponentTypeId → List EntityId
  ECS_query_entities_excluding : List ComponentTypeId → List EntityId
  Entity_exists : EntityId → Bool
  ECS_get_entity_components : EntityId → Nat → List ComponentTypeId
  ECS_get_component : EntityId → ComponentTypeId → Option (List Nat)
  ECS_get_component_type : ComponentTypeId → Option ComponentType

/-- One call into the registry, with its arguments (the accessor
`ECS_get_entity_registry` is not recorded). -/
inductive RegistryCall where
  | get_component_type_by_name (name : List Char)
  | query_entities (typeIds : List ComponentTypeId)
  | query_entities_any (typeIds : List ComponentTypeId)
  | query_entities_excluding (typeIds : List ComponentTypeId)
  | QueryResult_free
  | Entity_exists (entity : EntityId)
  | get_entity_components (entity : EntityId) (maxCount : Nat)
  | get_component (entity : EntityId) (typeId : ComponentTypeId)
  | get_component_type (typeId : ComponentTypeId)
deriving DecidableEq, Repr

/-- Whether a registry call is one of the three set queries. -/
def RegistryCall.isSetQuery : RegistryCall → Bool
  | .query_entities _ => true
  | .query_entities_any _ => true
  | .query_entities_excluding _ => true
  | _ => false

/-! ## The executor (`query.h`, `executor.c`, `query.c`) -/

/-- The `QueryStatus` enumeration. -/
inductive QueryStatus where
  | QUERY_SUCCESS
  | QUERY_ERROR_PARSE
  | QUERY_ERROR_EXECUTION
  | QUERY_ERROR_INVALID_SYNTAX
deriving DecidableEq, Repr

open QueryStatus

/-- The `struct QueryEngineResult` record; `none` is a `NULL` pointer. -/
structure QueryEngineResult where
  entities : Option (List EntityId)
  count : Nat
  capacity : Nat
  data : Option (List Nat)
deriving DecidableEq, Repr

/-- What a call of the executor leaves behind: the returned status, the
content of `*outResult` (`none` when the pointer is `NULL`), and the registry
calls made, in order. -/
structure ExecutorRun where
  status : QueryStatus
  outResult : Option QueryEngineResult
  calls : List RegistryCall
deriving DecidableEq, Repr

/-- The cast `(ComponentList*)QueryAST_get_data(predicate)`; data of another
kind is outside the model and read as `NULL`. -/
def ASTData.toComponentList : ASTData → Option ComponentList
  | .componentList list => some list
  | _ => none

/-- The cast `(ShowQueryData*)QueryAST_get_data(ast)`; data of another kind is
outside the model and read as `NULL`. -/
def ASTData.toShowQueryData : ASTData → Option ShowQueryData
  | .showData data => some data
  | _ => none

/-- The name-resolution `for` loop of `QueryExecutor_execute`: the array
`typeIds[0..validCount)` (whose length is `validCount`) and the lookups made. -/
def resolve_component_names (ecs : ECS) (componentList : ComponentList) :
    List ComponentTypeId × List RegistryCall :=
  (List.range componentList.count).foldl
    (fun acc i =>
      let name := componentList.componentNames.getD i []
      let typeId := ecs.ECS_get_component_type_by_name name
      (if typeId ≠ ecs.COMPONENT_TYPE_INVALID then acc.1 ++ [typeId] else acc.1,
        acc.2 ++ [RegistryCall.get_component_type_by_name name]))
    ([], [])

/-- Function `QueryExecutor_execute`. -/
def QueryExecutor_execute (ecs : Option ECS) (ast : Option QueryAST)
    (outResult : Option QueryEngineResult) : ExecutorRun :=
  match ecs, ast, outResult with
  | some ecs, some ast, some _ =>
    let out : QueryEngineResult := { entities := none, count := 0, capacity := 0, data := none }
    let queryType := QueryAST_get_type (some ast)
    if queryType = AST_SELECT ∨ queryType = AST_COUNT then
      let predicate := QueryAST_get_left (some ast)
      if predicate.isNone then
        { status := QUERY_SUCCESS, outResult := some out, calls := [] }
      else
        let predicateType := QueryAST_get_type predicate
        match (QueryAST_get_data predicate).toComponentList with
        | none => { status := QUERY_SUCCESS, outResult := some out, calls := [] }
        | some componentList =>
          if componentList.count = 0 then
            { status := QUERY_SUCCESS, outResult := some out, calls := [] }
          else
            let (typeIds, calls) := resolve_component_names ecs componentList
            let validCount := typeIds.length
            if validCount = 0 then
              { status := QUERY_SUCCESS, outResult := some out, calls := calls }
            else
              let query : Option (List EntityId × RegistryCall) :=
                if predicateType = AST_HAS then
                  some (ecs.ECS_query_entities typeIds, .query_entities typeIds)
                else if predicateType = AST_HAS_ANY then
                  some (ecs.ECS_query_entities_any typeIds, .query_entities_any typeIds)
                else if predicateType = AST_NOT_HAS then
                  some (ecs.ECS_query_entities_excluding typeIds,
                    .query_entities_excluding typeIds)
                else none
              match query with
              | none => { status := QUERY_ERROR_EXECUTION, outResult := some out, calls := calls }
              | some (ecsResult, call) =>
                if queryType = AST_COUNT then
                  { status := QUERY_SUCCESS,
                    outResult := some
                      { out with count := ecsResult.length, entities := none, capacity := 0,
                                 data := none },
                    calls := calls ++ [call, .QueryResult_free] }
                else
                  let out :=
                    if ecsResult.length > 0 then
                      { out with entities := some (ecsResult.take ecsResult.length),
                                 count := ecsResult.length, capacity := ecsResult.length,
                                 data := none }
                    else out
                  { status := QUERY_SUCCESS, outResult := some out,
                    calls := calls ++ [call, .QueryResult_free] }
    else if queryType = AST_SHOW then
      match (QueryAST_get_data (some ast)).toShowQueryData with
      | none => { status := QUERY_ERROR_EXECUTION, outResult := some out, calls := [] }
      | some showData =>
        match showData.entityId with
        | none => { status := QUERY_ERROR_EXECUTION, outResult := some out, calls := [] }
        | some entityId =>
          let entity : EntityId := { high := entityId.high, low := entityId.low }
          if !ecs.Entity_exists entity then
            { status := QUERY_ERROR_EXECUTION, outResult := some out,
              calls := [.Entity_exists entity] }
          else
            match showData.componentName with
            | none =>
              let MAX_COMPONENTS := 64
              let componentTypes := ecs.ECS_get_entity_components entity MAX_COMPONENTS
              let componentCount := componentTypes.length
              { status := QUERY_SUCCESS,
                outResult := some
                  { out with count := componentCount, entities := none, capacity := 0 },
                calls := [.Entity_exists entity, .get_entity_components entity MAX_COMPONENTS] }
            | some componentName =>
              let typeId := ecs.ECS_get_component_type_by_name componentName
              if typeId = ecs.COMPONENT_TYPE_INVALID then
                { status := QUERY_ERROR_EXECUTION, outResult := some out,
                  calls := [.Entity_exists entity, .get_component_type_by_name componentName] }
              else
                match ecs.ECS_get_component entity typeId with
                | none =>
                  { status := QUERY_ERROR_EXECUTION, outResult := some out,
                    calls := [.Entity_exists entity, .get_component_type_by_name componentName,
                      .get_component entity typeId] }
                | some componentData =>
                  match ecs.ECS_get_component_type typeId with
                  | none =>
                    { status := QUERY_ERROR_EXECUTION, outResult := some out,
                      calls := [.Entity_exists entity, .get_component_type_by_name componentName,
                        .get_component entity typeId, .get_component_type typeId] }
                  | some type =>
                    { status := QUERY_SUCCESS,
                      outResult := some
                        { out with data := some (componentData.take type.size), count := 1,
                                   entities := none, capacity := 0 },
                      calls := [.Entity_exists entity, .get_component_type_by_name componentName,
                        .get_component entity typeId, .get_component_type typeId] }
    else { status := QUERY_ERROR_EXECUTION, outResult := some out, calls := [] }
  | _, _, _ => { status := QUERY_ERROR_EXECUTION, outResult := outResult, calls := [] }

/-- Function `Query_execute`. -/
def Query_execute (ecs : Option ECS) (queryString : Option (List Char))
    (outResult : Option QueryEngineResult) : ExecutorRun :=
  match ecs, queryString, outResult with
  | some ecs, some queryString, some _ =>
    let out : QueryEngineResult := { entities := none, count := 0, capacity := 0, data := none }
    match QueryParser_new (some queryString) with
    | none => { status := QUERY_ERROR_PARSE, outResult := some out, calls := [] }
    | some parser =>
      match (QueryParser_parse parser).1 with
      | none => { status := QUERY_ERROR_PARSE, outResult := some out, calls := [] }
      | some ast => QueryExecutor_execute (some ecs) (some ast) (some out)
  | _, _, _ => { status := QUERY_ERROR_INVALID_SYNTAX, outResult := outResult, calls := [] }


/-! ## Definitions used by the proofs

The parser reads its input only from `position` on, so each parser function
is also given as a function of the unread text (`lexS`, `parseS`, ...); the
lemmas below prove that the functions above compute exactly these. -/

/-- The cursor is well formed: `length` is the length of the input. -/
def QueryParser.WF (p : QueryParser) : Prop := p.length = p.input.length

/-- The unread part of the input. -/
def QueryParser.rest (p : QueryParser) : List Char := p.input.drop p.position

/-- The test of `MATCH_KEYWORD` on the text of an identifier token. -/
def matchKeyword (word : List Char) (str : String) (len : Nat) : Bool :=
  word.length == len && strncasecmp word str.toList len == 0

/-- The token kind `read_identifier` gives to an identifier text. -/
def keywordType (word : List Char) : TokenType :=
  if matchKeyword word "ENTITIES" 8 then TOKEN_ENTITIES
  else if matchKeyword word "HAS_ANY" 7 then TOKEN_HAS_ANY
  else if matchKeyword word "NOT_HAS" 7 then TOKEN_NOT_HAS
  else if matchKeyword word "SELECT" 6 then TOKEN_SELECT
  else if matchKeyword word "ENTITY" 6 then TOKEN_ENTITY
  else if matchKeyword word "COUNT" 5 then TOKEN_COUNT
  else if matchKeyword word "WHERE" 5 then TOKEN_WHERE
  else if matchKeyword word "SHOW" 4 then TOKEN_SHOW
  else if matchKeyword word "HAS" 3 then TOKEN_HAS
  else if matchKeyword word "ALL" 3 then TOKEN_ALL
  else if matchKeyword word "AND" 3 then TOKEN_AND
  else if matchKeyword word "OF" 2 then TOKEN_OF
  else if matchKeyword word "OR" 2 then TOKEN_OR
  else TOKEN_IDENTIFIER

/-- Kind and length of the token at the head of a text without leading
white space. -/
def lexHead (s : List Char) : TokenType × Nat :=
  match s with
  | [] => (TOKEN_EOF, 0)
  | c :: r =>
    if c = '(' then (TOKEN_LPAREN, 1)
    else if c = ')' then (TOKEN_RPAREN, 1)
    else if c = '.' then (TOKEN_DOT, 1)
    else if c = ',' then (TOKEN_COMMA, 1)
    else if c = '>' ∨ c = '<' ∨ c = '=' ∨ c = '!' then
      (TOKEN_OPERATOR, if r.head? = some '=' then 2 else 1)
    else if isdigit c then (TOKEN_NUMBER, ((c :: r).takeWhile isdigit).length)
    else if isalpha c || c = '_' then
      (keywordType ((c :: r).takeWhile is_identifier_char),
        ((c :: r).takeWhile is_identifier_char).length)
    else (TOKEN_ERROR, 1)

/-- The next token of a text: its kind, its text, and the text after it. -/
def lexS (s : List Char) : TokenType × List Char × List Char :=
  let s1 := s.dropWhile isspace
  ((lexHead s1).1, s1.take (lexHead s1).2, s1.drop (lexHead s1).2)

/-- A `ComponentList` holding the given names. -/
def ComponentList.ofNames (names : List (List Char)) : ComponentList :=
  { componentNames := names, count := names.length }

/-- The loop of `parse_component_list` as a function of the unread text. -/
def componentListLoopS :
    Nat → List (List Char) → Bool → List Char → Option (Option (List (List Char)) × List Char)
  | 0, _, _, _ => none
  | fuel + 1, names, first, s =>
    if (lexS s).1 = TOKEN_RPAREN then some (some names, (lexS s).2.2)
    else
      let step : Option (List Char) :=
        if !first then
          if (lexS s).1 ≠ TOKEN_COMMA then none else some (lexS s).2.2
        else some s
      match step with
      | none => some (none, (lexS s).2.2)
      | some s1 =>
        if (lexS s1).1 = TOKEN_IDENTIFIER then
          componentListLoopS fuel
            (names ++ [(lexS s1).2.1.takeWhile (fun c => c ≠ NUL)]) false (lexS s1).2.2
        else some (none, (lexS s1).2.2)

/-- Function `parse_component_list` as a function of the unread text. -/
def parseComponentListS (s : List Char) : Option (List (List Char)) × List Char :=
  if (lexS s).1 ≠ TOKEN_LPAREN then (none, (lexS s).2.2)
  else
    match componentListLoopS ((lexS s).2.2.length + 1) [] true (lexS s).2.2 with
    | none => (none, (lexS s).2.2)
    | some (none, s1) => (none, s1)
    | some (some names, s1) => if names.length = 0 then (none, s1) else (some names, s1)

/-- A predicate node of the given kind over the given names. -/
def predicateNode (type : ASTNodeType) (names : List (List Char)) : QueryAST :=
  .node type (.componentList (ComponentList.ofNames names)) none none none 0

/-- Function `parse_predicate` as a function of the unread text. -/
def parsePredicateS (s : List Char) : Option QueryAST × List Char :=
  if (lexS s).1 = TOKEN_HAS then
    match parseComponentListS (lexS s).2.2 with
    | (none, s1) => (none, s1)
    | (some names, s1) => (some (predicateNode AST_HAS names), s1)
  else if (lexS s).1 = TOKEN_HAS_ANY then
    match parseComponentListS (lexS s).2.2 with
    | (none, s1) => (none, s1)
    | (some names, s1) => (some (predicateNode AST_HAS_ANY names), s1)
  else if (lexS s).1 = TOKEN_NOT_HAS then
    match parseComponentListS (lexS s).2.2 with
    | (none, s1) => (none, s1)
    | (some names, s1) => (some (predicateNode AST_NOT_HAS names), s1)
  else (none, (lexS s).2.2)

/-- Function `parse_entity_id` as a function of the unread text. -/
def parseEntityIdS (s : List Char) : Option EntityIdData × List Char :=
  let s1 := s.dropWhile isspace
  match s1 with
  | [] => (none, s1)
  | _ :: _ =>
    match s1.dropWhile isdigit with
    | [] => (none, s1)
    | c :: r =>
      if c ≠ ':' then (none, s1)
      else if (strtoull s1).2 ≠ (s1.takeWhile isdigit).length then (none, s1)
      else
        match r with
        | [] => (none, s1)
        | _ :: _ =>
          if (r.takeWhile isdigit).length = 0 then (none, s1)
          else if (strtoull r).2 ≠ (r.takeWhile isdigit).length then (none, s1)
          else (some { high := (strtoull s1).1, low := (strtoull r).1 }, r.dropWhile isdigit)

/-- The part of `QueryParser_parse` after `SELECT` or `COUNT`, as a function of
the unread text; `type` is the kind of the root. -/
def parseEntitiesS (type : ASTNodeType) (s : List Char) : Option QueryAST :=
  if (lexS s).1 ≠ TOKEN_ENTITIES then none
  else
    let s1 := (lexS s).2.2
    let clause : Option (Option QueryAST) × List Char :=
      if (lexS s1).1 = TOKEN_WHERE then
        match parsePredicateS (lexS s1).2.2 with
        | (none, s2) => (none, s2)
        | (some predicate, s2) => (some (some predicate), s2)
      else (some none, s1)
    match clause with
    | (none, _) => none
    | (some left, s2) =>
      if (lexS s2).1 ≠ TOKEN_EOF then none
      else some (.node type .null left none none 0)

/-- The part of `QueryParser_parse` after `SHOW`, as a function of the unread
text. -/
def parseShowS (s : List Char) : Option QueryAST :=
  let target : Option (Option (List Char)) :=
    if (lexS s).1 = TOKEN_ALL then some none
    else if (lexS s).1 = TOKEN_IDENTIFIER then
      some (some ((lexS s).2.1.takeWhile (fun c => c ≠ NUL)))
    else none
  match target with
  | none => none
  | some componentName =>
    let s1 := (lexS s).2.2
    if (lexS s1).1 ≠ TOKEN_OF then none
    else
      let s2 := (lexS s1).2.2
      if (lexS s2).1 ≠ TOKEN_ENTITY then none
      else
        match parseEntityIdS (lexS s2).2.2 with
        | (none, _) => none
        | (some entityId, s3) =>
          if (lexS s3).1 ≠ TOKEN_EOF then none
          else
            some (.node AST_SHOW
              (.showData { componentName := componentName, entityId := some entityId })
              none none none 0)

/-- Function `QueryParser_parse` as a function of the unread text. -/
def parseS (s : List Char) : Option QueryAST :=
  if (lexS s).1 = TOKEN_SELECT then parseEntitiesS AST_SELECT (lexS s).2.2
  else if (lexS s).1 = TOKEN_COUNT then parseEntitiesS AST_COUNT (lexS s).2.2
  else if (lexS s).1 = TOKEN_SHOW then parseShowS (lexS s).2.2
  else none

/-- A statement node as `QueryParser_parse` builds it: the kind and the
predicate, no data, no right child, no children. -/
def statementNode (type : ASTNodeType) (left : Option QueryAST) : QueryAST :=
  .node type .null left none none 0

/-- The empty result record the executor starts from. -/
def emptyResult : QueryEngineResult :=
  { entities := none, count := 0, capacity := 0, data := none }

/-- A component name resolves in the registry. -/
def ECS.resolves (ecs : ECS) (name : List Char) : Bool :=
  ecs.ECS_get_component_type_by_name name != ecs.COMPONENT_TYPE_INVALID

/-- The handles of the names that resolve, in the order of the names. -/
def ECS.handles (ecs : ECS) (names : List (List Char)) : List ComponentTypeId :=
  (names.filter ecs.resolves).map ecs.ECS_get_component_type_by_name

/-- The registry set query that serves a predicate kind. -/
def ECS.setQuery (ecs : ECS) (type : ASTNodeType) (typeIds : List ComponentTypeId) :
    List EntityId :=
  if type = AST_HAS then ecs.ECS_query_entities typeIds
  else if type = AST_HAS_ANY then ecs.ECS_query_entities_any typeIds
  else ecs.ECS_query_entities_excluding typeIds

/-- The record of the registry set query that serves a predicate kind. -/
def setQueryCall (type : ASTNodeType) (typeIds : List ComponentTypeId) : RegistryCall :=
  if type = AST_HAS then .query_entities typeIds
  else if type = AST_HAS_ANY then .query_entities_any typeIds
  else .query_entities_excluding typeIds

/-- The kind is one of the two statement kinds that take a predicate. -/
def isSelectOrCount (type : ASTNodeType) : Prop := type = AST_SELECT ∨ type = AST_COUNT

/-- The kind is one of the three predicate kinds. -/
def isPredicateKind (type : ASTNodeType) : Prop :=
  type = AST_HAS ∨ type = AST_HAS_ANY ∨ type = AST_NOT_HAS

/-! ## A sample registry

Three entities: `0:1` carries Position, `0:2` carries Position and Health,
`0:3` carries nothing.  Handle 0 is `COMPONENT_TYPE_INVALID`. -/

/-- The entities of the sample registry. -/
def sampleEntities : List EntityId :=
  [{ high := 0, low := 1 }, { high := 0, low := 2 }, { high := 0, low := 3 }]

/-- Which entity of the sample registry carries which component type. -/
def sampleCarries (e : EntityId) (t : ComponentTypeId) : Bool :=
  (t == 1 && (e.low == 1 || e.low == 2)) || (t == 2 && e.low == 2)

/-- The sample registry. -/
def sampleRegistry : ECS where
  COMPONENT_TYPE_INVALID := 0
  ECS_get_component_type_by_name name :=
    if name = "Position".toList then 1 else if name = "Health".toList then 2 else 0
  ECS_query_entities typeIds :=
    sampleEntities.filter (fun e => typeIds.all (fun t => sampleCarries e t))
  ECS_query_entities_any typeIds :=
    sampleEntities.filter (fun e => typeIds.any (fun t => sampleCarries e t))
  ECS_query_entities_excluding typeIds :=
    sampleEntities.filter (fun e => typeIds.all (fun t => !sampleCarries e t))
  Entity_exists e := decide (e ∈ sampleEntities)
  ECS_get_entity_components e maxCount := ([1, 2].filter (fun t => sampleCarries e t)).take maxCount
  ECS_get_component e t :=
    if sampleCarries e t then some [e.low, 0, 0, 0, t, 0, 0, 0] else none
  ECS_get_component_type t := if t = 1 ∨ t = 2 then some { size := 8 } else none

/-! ## Query texts -/

/-- A text is an identifier of the query language: it starts with a letter
or an underscore and consists of letters, digits and underscores. -/
def isIdentifierText (n : List Char) : Bool :=
  match n with
  | [] => false
  | c :: _ => (isalpha c || c = '_') && n.all is_identifier_char

/-- The thirteen keywords of the query language, in upper case. -/
def keywordTexts : List (List Char) :=
  ["ENTITIES".toList, "HAS_ANY".toList, "NOT_HAS".toList, "SELECT".toList, "ENTITY".toList,
    "COUNT".toList, "WHERE".toList, "SHOW".toList, "HAS".toList, "ALL".toList, "AND".toList,
    "OF".toList, "OR".toList]

/-- A text spells a keyword, letter case ignored. -/
def isKeywordText (n : List Char) : Bool :=
  keywordTexts.any (fun k => k.map tolower == n.map tolower)

/-- The text after the first name of a list: each further name preceded by a
comma and a space. -/
def commaTail (names : List (List Char)) : List Char :=
  (names.map (fun n => ',' :: ' ' :: n)).flatten

/-- The upper-case spelling of a statement or predicate keyword. -/
def keywordText : ASTNodeType → List Char
  | AST_SELECT => "SELECT".toList
  | AST_COUNT => "COUNT".toList
  | AST_SHOW => "SHOW".toList
  | AST_WHERE => "WHERE".toList
  | AST_HAS => "HAS".toList
  | AST_HAS_ANY => "HAS_ANY".toList
  | AST_NOT_HAS => "NOT_HAS".toList
  | AST_FILTER => []
  | AST_AND => "AND".toList
  | AST_OR => "OR".toList

/-- The predicate text `P(n1, ..., nk)`. -/
def predicateText (kind : ASTNodeType) (names : List (List Char)) : List Char :=
  keywordText kind ++ "(".toList ++ ", ".toList.intercalate names ++ ")".toList

/-- The query text `K ENTITIES WHERE P(n1, ..., nk)`. -/
def whereQueryText (type kind : ASTNodeType) (names : List (List Char)) : List Char :=
  keywordText type ++ " ENTITIES WHERE ".toList ++ predicateText kind names

/-- The text does not continue an identifier: it is empty or starts with a
byte that is no identifier character. -/
def stopsWord (s : List Char) : Prop :=
  ∀ c ∈ s.head?, is_identifier_char c = false

/-- An entity carries a component of the given type: the registry returns a
pointer for it. -/
def ECS.carries (ecs : ECS) (e : EntityId) (t : ComponentTypeId) : Bool :=
  (ecs.ECS_get_component e t).isSome

/-- The entity sequence of a run: empty when there is no record or no buffer. -/
def ExecutorRun.entities (run : ExecutorRun) : List EntityId :=
  (run.outResult.bind (fun r => r.entities)).getD []

/-- The value of a string of decimal digits. -/
def decimalValue (digits : List Char) : Nat :=
  digits.foldl (fun acc c => acc * 10 + (c.toNat - 48)) 0

/-- The query text `SHOW T OF ENTITY <high>:<low>`, the two halves written in
decimal. -/
def showQueryText (target : List Char) (high low : Nat) : List Char :=
  "SHOW ".toList ++ target ++ " OF ENTITY ".toList ++ Nat.toDigits 10 high ++ ":".toList ++
    Nat.toDigits 10 low

/-- The SHOW node for a target and an entity id. -/
def showNode (componentName : Option (List Char)) (high low : Nat) : QueryAST :=
  .node AST_SHOW
    (.showData { componentName := componentName, entityId := some { high := high, low := low } })
    none none none 0

/-! ## The keyword table, a registry with an unused type, and recased texts -/

/-- The keyword table of `read_identifier`, in the order of its tests: the
upper-case spelling and the token kind. -/
def keywordTable : List (List Char × TokenType) :=
  [("ENTITIES".toList, TOKEN_ENTITIES), ("HAS_ANY".toList, TOKEN_HAS_ANY),
    ("NOT_HAS".toList, TOKEN_NOT_HAS), ("SELECT".toList, TOKEN_SELECT),
    ("ENTITY".toList, TOKEN_ENTITY), ("COUNT".toList, TOKEN_COUNT),
    ("WHERE".toList, TOKEN_WHERE), ("SHOW".toList, TOKEN_SHOW), ("HAS".toList, TOKEN_HAS),
    ("ALL".toList, TOKEN_ALL), ("AND".toList, TOKEN_AND), ("OF".toList, TOKEN_OF),
    ("OR".toList, TOKEN_OR)]

/-- A registry as in `test_negative_component_type_no_entities`: Position
(handle 1) and Health (handle 2) are registered, the one entity `0:1` carries
Position, and no entity carries Health. -/
def unusedTypeRegistry : ECS where
  COMPONENT_TYPE_INVALID := 0
  ECS_get_component_type_by_name name :=
    if name = "Position".toList then 1 else if name = "Health".toList then 2 else 0
  ECS_query_entities typeIds :=
    [({ high := 0, low := 1 } : EntityId)].filter (fun _ => typeIds.all (fun t => t == 1))
  ECS_query_entities_any typeIds :=
    [({ high := 0, low := 1 } : EntityId)].filter (fun _ => typeIds.any (fun t => t == 1))
  ECS_query_entities_excluding typeIds :=
    [({ high := 0, low := 1 } : EntityId)].filter (fun _ => typeIds.all (fun t => !(t == 1)))
  Entity_exists e := decide (e = { high := 0, low := 1 })
  ECS_get_entity_components e maxCount :=
    (if e = { high := 0, low := 1 } then [1] else []).take maxCount
  ECS_get_component e t :=
    if e = { high := 0, low := 1 } ∧ t = 1 then some [10, 0, 0, 0, 20, 0, 0, 0] else none
  ECS_get_component_type t := if t = 1 ∨ t = 2 then some { size := 8 } else none

/-- The text `t` is the text `s` with the letter case of keyword tokens
changed.  Read from the left, both texts consist of the same white space and
the same tokens, except that a token that spells a keyword (an identifier
word equal to a keyword when letter case is ignored, not continued by an
identifier character) may be spelled in `t` in another letter case; from some
point on the two texts may simply be equal. -/
inductive KeywordsRecased : List Char → List Char → Prop
  | same (s : List Char) : KeywordsRecased s s
  | keyword (ws w w2 r r2 : List Char) :
      (∀ c ∈ ws, isspace c = true) → isIdentifierText w = true → isKeywordText w = true →
      (∀ c ∈ r.head?, is_identifier_char c = false) →
      w2.map tolower = w.map tolower → KeywordsRecased r r2 →
      KeywordsRecased (ws ++ (w ++ r)) (ws ++ (w2 ++ r2))
  | other (ws w r r2 : List Char) (type : TokenType) :
      (∀ c ∈ ws, isspace c = true) → lexS (w ++ r) = (type, w, r) → type ≠ TOKEN_EOF →
      KeywordsRecased r r2 →
      KeywordsRecased (ws ++ (w ++ r)) (ws ++ (w ++ r2))

/-! ## The name-list entry point, the grammar of the component list, token kinds and inserted white space -/

/-- Function `QueryExecutor_query_entities`.  `componentNames` is the array
of `componentCount` name strings (`none` for a `NULL` array); its
name-resolution loop is the loop of `QueryExecutor_execute`,
`resolve_component_names`.  The entity buffer is allocated and filled whatever
the number of entities, so an empty answer leaves an empty buffer, not `NULL`. -/
def QueryExecutor_query_entities (ecs : Option ECS) (componentNames : Option (List (List Char)))
    (componentCount : Nat) (outResult : Option QueryEngineResult) : ExecutorRun :=
  match ecs, componentNames, outResult with
  | some ecs, some componentNames, some _ =>
    let out : QueryEngineResult := { entities := none, count := 0, capacity := 0, data := none }
    let (typeIds, calls) :=
      resolve_component_names ecs { componentNames := componentNames, count := componentCount }
    let validCount := typeIds.length
    if validCount = 0 then
      { status := QUERY_SUCCESS, outResult := some out, calls := calls }
    else
      let ecsResult := ecs.ECS_query_entities typeIds
      let out :=
        { out with entities := some (ecsResult.take ecsResult.length),
                   count := ecsResult.length, capacity := ecsResult.length, data := none }
      { status := QUERY_SUCCESS, outResult := some out,
        calls := calls ++ [.query_entities typeIds, .QueryResult_free] }
  | _, _, _ => { status := QUERY_ERROR_EXECUTION, outResult := outResult, calls := [] }

/-- The tail `(',' identifier)* ')'` of the component-list grammar of the
specification, as a recogniser over the tokens of a text: the names read and
the text after the closing parenthesis, `none` when the text does not start
with such a tail. -/
def specIdentifierTail : Nat → List Char → Option (List (List Char) × List Char)
  | 0, _ => none
  | fuel + 1, s =>
    if (lexS s).1 = TOKEN_RPAREN then some ([], (lexS s).2.2)
    else if (lexS s).1 = TOKEN_COMMA then
      if (lexS (lexS s).2.2).1 = TOKEN_IDENTIFIER then
        (specIdentifierTail fuel (lexS (lexS s).2.2).2.2).map
          (fun x => ((lexS (lexS s).2.2).2.1 :: x.1, x.2))
      else none
    else none

/-- The component-list grammar of the specification,
`'(' identifier (',' identifier)* ')'`, as a recogniser over the tokens of a
text: the names read and the text after the list, `none` when the text does
not start with such a list. -/
def specComponentList (s : List Char) : Option (List (List Char) × List Char) :=
  if (lexS s).1 = TOKEN_LPAREN then
    if (lexS (lexS s).2.2).1 = TOKEN_IDENTIFIER then
      (specIdentifierTail (lexS s).2.2.length (lexS (lexS s).2.2).2.2).map
        (fun x => ((lexS (lexS s).2.2).2.1 :: x.1, x.2))
    else none
  else none

/-- The tail `(',' identifier)* ')'` of the component-list grammar of the
specification as a relation: `IdentifierTail s ns r` says that the tokens of
`s` start with such a tail, whose identifiers are `ns`, and that `r` is the
text after the closing parenthesis. -/
inductive IdentifierTail : List Char → List (List Char) → List Char → Prop
  | close (s : List Char) (hr : (lexS s).1 = TOKEN_RPAREN) : IdentifierTail s [] (lexS s).2.2
  | more (s : List Char) (ns : List (List Char)) (r : List Char)
      (hc : (lexS s).1 = TOKEN_COMMA)
      (hi : (lexS (lexS s).2.2).1 = TOKEN_IDENTIFIER)
      (ht : IdentifierTail (lexS (lexS s).2.2).2.2 ns r) :
      IdentifierTail s ((lexS (lexS s).2.2).2.1 :: ns) r

/-- The component-list grammar of the specification,
`'(' identifier (',' identifier)* ')'`, as a relation: the tokens of `s`
start with such a list, whose identifiers are `ns`, and `r` is the text after
the closing parenthesis. -/
def ComponentListText (s : List Char) (ns : List (List Char)) (r : List Char) : Prop :=
  (lexS s).1 = TOKEN_LPAREN ∧ (lexS (lexS s).2.2).1 = TOKEN_IDENTIFIER ∧
  ∃ tail, ns = (lexS (lexS s).2.2).2.1 :: tail ∧ IdentifierTail (lexS (lexS s).2.2).2.2 tail r

/-- The kind of token number `n` of a text, counted from 0: the token read
after `n` tokens have been read. -/
def tokenKindAt (n : Nat) (s : List Char) : TokenType :=
  (lexS ((fun t => (lexS t).2.2)^[n] s)).1

/-- The token kinds the parser has no rule for: the two combining keywords and
the comparison operators. -/
def isCombiningKind (type : TokenType) : Prop :=
  type = TOKEN_AND ∨ type = TOKEN_OR ∨ type = TOKEN_OPERATOR

/-- No token of the text is `AND`, `OR` or a comparison operator. -/
def NoCombiningToken (s : List Char) : Prop :=
  ∀ n, ¬ isCombiningKind (tokenKindAt n s)

/-- `SpacesInserted ws s t`: the text `t` is the text `s` with `ws` inserted at
one place, before a token: at the start of the text, or after some tokens of
the text.  The tokens passed over are no number and no error token, the kinds
the tokenizer would cut an entity reference `digits ':' digits` into, which
the parser scans as one unit. -/
inductive SpacesInserted (ws : List Char) : List Char → List Char → Prop
  | here (s : List Char) : SpacesInserted ws s (ws ++ s)
  | after (lead w r r2 : List Char) (type : TokenType)
      (hlead : ∀ c ∈ lead, isspace c = true)
      (htoken : lexS (w ++ r) = (type, w, r))
      (hkind : type ≠ TOKEN_EOF ∧ type ≠ TOKEN_NUMBER ∧ type ≠ TOKEN_ERROR)
      (hrest : SpacesInserted ws r r2) :
      SpacesInserted ws (lead ++ (w ++ r)) (lead ++ (w ++ r2))

/-! ## Heap blocks: the parser and `QueryAST_destroy` with their allocations -/

/-- Modelled from the spec: `mem.h`, which defines the macros `ALLOC` and
`FREE`, is not among the sources.  The heap as the parser sees it: blocks are
numbered in the order of their allocation, `next` is the block the next
`ALLOC` returns, `live` holds the blocks allocated and not yet freed, and
`fault` records that `FREE` was given a block that is not live: a second free
of a block, or a pointer no `ALLOC` returned. -/
structure Heap where
  next : Nat
  live : Finset Nat
  fault : Bool

/-- Modelled from the spec: the macro `ALLOC` of `mem.h`, which is not among
the sources.  It returns a block that is not live and makes it live. -/
def Heap.ALLOC (h : Heap) : Nat × Heap :=
  (h.next, { h with next := h.next + 1, live := insert h.next h.live })

/-- Modelled from the spec: the macro `FREE` of `mem.h`, which is not among
the sources.  A live block stops being live; `NULL` (`none`) is left alone;
any other pointer is a fault. -/
def Heap.FREE (h : Heap) (ptr : Option Nat) : Heap :=
  match ptr with
  | none => h
  | some block =>
    if block ∈ h.live then { h with live := h.live.erase block } else { h with fault := true }

/-- A `ComponentList` record with its blocks: `block` holds the record,
`componentNames` the array (`none` for `NULL`), and each initialised entry of
the array is the block of a name string with the string. -/
structure HeapComponentList where
  block : Nat
  componentNames : Option Nat
  names : List (Nat × List Char)
  count : Nat

/-- A `ShowQueryData` record with its blocks: the record, the name string
(`none` for `NULL`) and the `EntityIdData` record (`none` for `NULL`). -/
structure HeapShowQueryData where
  block : Nat
  componentName : Option (Nat × List Char)
  entityId : Option (Nat × EntityIdData)

/-- What the `void* data` of a node points to, with its blocks. -/
inductive HeapASTData where
  | null
  | componentList (list : HeapComponentList)
  | showData (data : HeapShowQueryData)

/-- A `struct QueryAST` node with the block that holds it; `children` is the
block of the array and the nodes stored in it. -/
inductive HeapQueryAST where
  | node (block : Nat) (type : ASTNodeType) (data : HeapASTData) (left : Option HeapQueryAST)
      (right : Option HeapQueryAST) (children : Option (Nat × List HeapQueryAST))
      (childCount : Nat)

/-- The loop `for (i = 0; i < list->count; i++) FREE(list->componentNames[i])`. -/
def free_component_names (h : Heap) (list : HeapComponentList) : Heap :=
  (list.names.take list.count).foldl (fun (h : Heap) (n : Nat × List Char) => h.FREE (some n.1)) h

/-- The part of `QueryAST_destroy` under `if (ast->data)`: the data is freed
as the kind of the node says.  Data of another type than the kind says is read
through the wrong record type, which is recorded as a fault. -/
def QueryAST_destroy_data (type : ASTNodeType) (data : HeapASTData) (h : Heap) : Heap :=
  match data with
  | .null => h
  | .componentList list =>
    if type = AST_HAS ∨ type = AST_HAS_ANY ∨ type = AST_NOT_HAS then
      let h :=
        match list.componentNames with
        | some array => (free_component_names h list).FREE (some array)
        | none => h
      h.FREE (some list.block)
    else if type = AST_SHOW then { h with fault := true }
    else h.FREE (some list.block)
  | .showData data =>
    if type = AST_HAS ∨ type = AST_HAS_ANY ∨ type = AST_NOT_HAS then { h with fault := true }
    else if type = AST_SHOW then
      let h := match data.componentName with
        | some name => h.FREE (some name.1)
        | none => h
      let h := match data.entityId with
        | some entityId => h.FREE (some entityId.1)
        | none => h
      h.FREE (some data.block)
    else h.FREE (some data.block)

mutual
/-- Function `QueryAST_destroy` on a node: the children, the left and the
right subtree, the data, then the node itself. -/
def QueryAST_destroy_node : HeapQueryAST → Heap → Heap
  | .node block type data left right children childCount, h =>
    let h := match children with
      | some (array, nodes) => (QueryAST_destroy_children childCount nodes h).FREE (some array)
      | none => h
    let h := match left with
      | some l => QueryAST_destroy_node l h
      | none => h
    let h := match right with
      | some r => QueryAST_destroy_node r h
      | none => h
    (QueryAST_destroy_data type data h).FREE (some block)
/-- The loop of `QueryAST_destroy` over the first `childCount` children. -/
def QueryAST_destroy_children : Nat → List HeapQueryAST → Heap → Heap
  | _, [], h => h
  | 0, _ :: _, h => h
  | n + 1, c :: cs, h => QueryAST_destroy_children n cs (QueryAST_destroy_node c h)
end

/-- Function `QueryAST_destroy`; `none` is a `NULL` tree. -/
def QueryAST_destroy (ast : Option HeapQueryAST) (h : Heap) : Heap :=
  match ast with
  | none => h
  | some ast => QueryAST_destroy_node ast h

/-- The identifier branch of the loop of `parse_component_list`, with its
blocks: a full array is replaced by a new one of twice the capacity and
freed, then the name is copied into a block of its own. -/
def append_component_name_heap (h : Heap) (list : HeapComponentList) (capacity : Nat)
    (name : List Char) : HeapComponentList × Nat × Heap :=
  let grown : HeapComponentList × Nat × Heap :=
    if list.count ≥ capacity then
      let (newNames, h) := h.ALLOC
      let h := h.FREE list.componentNames
      ({ list with componentNames := some newNames, names := list.names.take list.count },
        capacity * 2, h)
    else (list, capacity, h)
  let (nameBlock, h) := grown.2.2.ALLOC
  ({ grown.1 with names := grown.1.names.take grown.1.count ++ [(nameBlock, name)],
                  count := grown.1.count + 1 }, grown.2.1, h)

/-- The three statements that end a failing round of the loop of
`parse_component_list`: the names, the array and the record are freed. -/
def free_component_list (h : Heap) (list : HeapComponentList) : Heap :=
  ((free_component_names h list).FREE list.componentNames).FREE (some list.block)

/-- State of the `while (1)` loop of `parse_component_list`, with the heap. -/
structure HeapComponentListLoop where
  list : HeapComponentList
  capacity : Nat
  first : Bool
  parser : QueryParser
  heap : Heap

/-- The `while (1)` loop of `parse_component_list` with its allocations. -/
def parse_component_list_loop_heap :
    Nat → HeapComponentListLoop → Option (Option HeapComponentList × QueryParser × Heap)
  | 0, _ => none
  | fuel + 1, st =>
    let (token, parser) := QueryParser_next_token st.parser
    if token.type = TOKEN_RPAREN then some (some st.list, parser, st.heap)
    else
      let step : Option (Token × QueryParser) :=
        if !st.first then
          if token.type ≠ TOKEN_COMMA then none
          else some (QueryParser_next_token parser)
        else some (token, parser)
      match step with
      | none => some (none, parser, free_component_list st.heap st.list)
      | some (token, parser) =>
        if token.type = TOKEN_IDENTIFIER then
          let (list, capacity, h) :=
            append_component_name_heap st.heap st.list st.capacity (copy_token_text parser token)
          parse_component_list_loop_heap fuel
            { list := list, capacity := capacity, first := false, parser := parser, heap := h }
        else some (none, parser, free_component_list st.heap st.list)

/-- Function `parse_component_list` with its allocations: the list (`none`
for `NULL`), the cursor and the heap. -/
def parse_component_list_heap (h0 : Heap) (parser0 : QueryParser) :
    Option HeapComponentList × QueryParser × Heap :=
  let (block, h) := h0.ALLOC
  let list : HeapComponentList := { block := block, componentNames := none, names := [], count := 0 }
  let (token, parser) := QueryParser_next_token parser0
  if token.type ≠ TOKEN_LPAREN then (none, parser, h.FREE (some list.block))
  else
    let capacity := 4
    let (array, h) := h.ALLOC
    let list := { list with componentNames := some array }
    match parse_component_list_loop_heap (parser.length - parser.position + 1)
        { list := list, capacity := capacity, first := true, parser := parser, heap := h } with
    | none => (none, parser, h)
    | some (none, parser, h) => (none, parser, h)
    | some (some list, parser, h) =>
      if list.count = 0 then
        (none, parser, (h.FREE list.componentNames).FREE (some list.block))
      else (some list, parser, h)

/-- Function `parse_entity_id` with its allocation: every failure returns
before the one `ALLOC`. -/
def parse_entity_id_heap (h : Heap) (parser0 : QueryParser) :
    Option (Nat × EntityIdData) × QueryParser × Heap :=
  match parse_entity_id parser0 with
  | (none, parser) => (none, parser, h)
  | (some idData, parser) =>
    let (block, h) := h.ALLOC
    (some (block, idData), parser, h)

/-- Function `parse_predicate` with its allocations. -/
def parse_predicate_heap (h0 : Heap) (parser0 : QueryParser) :
    Option HeapQueryAST × QueryParser × Heap :=
  let (token, parser) := QueryParser_next_token parser0
  let (predicate, h) := h0.ALLOC
  if token.type = TOKEN_HAS then
    match parse_component_list_heap h parser with
    | (none, parser, h) => (none, parser, h.FREE (some predicate))
    | (some list, parser, h) =>
      (some (.node predicate AST_HAS (.componentList list) none none none 0), parser, h)
  else if token.type = TOKEN_HAS_ANY then
    match parse_component_list_heap h parser with
    | (none, parser, h) => (none, parser, h.FREE (some predicate))
    | (some list, parser, h) =>
      (some (.node predicate AST_HAS_ANY (.componentList list) none none none 0), parser, h)
  else if token.type = TOKEN_NOT_HAS then
    match parse_component_list_heap h parser with
    | (none, parser, h) => (none, parser, h.FREE (some predicate))
    | (some list, parser, h) =>
      (some (.node predicate AST_NOT_HAS (.componentList list) none none none 0), parser, h)
  else (none, parser, h.FREE (some predicate))

/-- The branch of `QueryParser_parse` after `SELECT` or `COUNT`, with its
allocations; `ast` is the block of the root and `type` its kind. -/
def parse_entities_heap (ast : Nat) (type : ASTNodeType) (h : Heap) (parser : QueryParser) :
    Option HeapQueryAST × QueryParser × Heap :=
  let (token, parser) := QueryParser_next_token parser
  if token.type ≠ TOKEN_ENTITIES then (none, parser, h.FREE (some ast))
  else
    let (token, parser) := QueryParser_peek_token parser
    let clause : Option (Option HeapQueryAST) × QueryParser × Heap :=
      if token.type = TOKEN_WHERE then
        let (_, parser) := QueryParser_next_token parser
        match parse_predicate_heap h parser with
        | (none, parser, h) => (none, parser, h.FREE (some ast))
        | (some predicate, parser, h) => (some (some predicate), parser, h)
      else (some none, parser, h)
    match clause with
    | (none, parser, h) => (none, parser, h)
    | (some left, parser, h) =>
      let (token, parser) := QueryParser_next_token parser
      if token.type ≠ TOKEN_EOF then
        (none, parser, QueryAST_destroy (some (.node ast type .null left none none 0)) h)
      else (some (.node ast type .null left none none 0), parser, h)

/-- The branch of `QueryParser_parse` after `SHOW`, with its allocations;
`ast` is the block of the root. -/
def parse_show_heap (ast : Nat) (h : Heap) (parser : QueryParser) :
    Option HeapQueryAST × QueryParser × Heap :=
  let (token, parser) := QueryParser_next_token parser
  let (showData, h) := h.ALLOC
  let target : Option (Option (Nat × List Char)) × Heap :=
    if token.type = TOKEN_ALL then (some none, h)
    else if token.type = TOKEN_IDENTIFIER then
      let (name, h) := h.ALLOC
      (some (some (name, copy_token_text parser token)), h)
    else (none, (h.FREE (some showData)).FREE (some ast))
  match target with
  | (none, h) => (none, parser, h)
  | (some componentName, h) =>
    let (token, parser) := QueryParser_next_token parser
    if token.type ≠ TOKEN_OF then
      (none, parser,
        ((h.FREE (componentName.map Prod.fst)).FREE (some showData)).FREE (some ast))
    else
      let (token, parser) := QueryParser_next_token parser
      if token.type ≠ TOKEN_ENTITY then
        (none, parser,
          ((h.FREE (componentName.map Prod.fst)).FREE (some showData)).FREE (some ast))
      else
        match parse_entity_id_heap h parser with
        | (none, parser, h) =>
          (none, parser,
            ((h.FREE (componentName.map Prod.fst)).FREE (some showData)).FREE (some ast))
        | (some entityId, parser, h) =>
          let data : HeapShowQueryData :=
            { block := showData, componentName := componentName, entityId := some entityId }
          let (token, parser) := QueryParser_next_token parser
          if token.type ≠ TOKEN_EOF then
            (none, parser,
              QueryAST_destroy (some (.node ast AST_SHOW (.showData data) none none none 0)) h)
          else (some (.node ast AST_SHOW (.showData data) none none none 0), parser, h)

/-- Function `QueryParser_parse` on a non-null parser, with its allocations:
the tree (`none` for `NULL`), the cursor and the heap. -/
def QueryParser_parse_heap (h0 : Heap) (parser0 : QueryParser) :
    Option HeapQueryAST × QueryParser × Heap :=
  let (token, parser) := QueryParser_next_token parser0
  let (ast, h) := h0.ALLOC
  if token.type = TOKEN_SELECT then parse_entities_heap ast AST_SELECT h parser
  else if token.type = TOKEN_COUNT then parse_entities_heap ast AST_COUNT h parser
  else if token.type = TOKEN_SHOW then parse_show_heap ast h parser
  else (none, parser, h.FREE (some ast))

/-- The `ComponentList` a record with blocks stands for. -/
def HeapComponentList.erase (list : HeapComponentList) : ComponentList :=
  { componentNames := list.names.map Prod.snd, count := list.count }

/-- The data a data pointer with blocks stands for. -/
def HeapASTData.erase : HeapASTData → ASTData
  | .null => .null
  | .componentList list => .componentList list.erase
  | .showData data =>
    .showData { componentName := data.componentName.map Prod.snd,
                entityId := data.entityId.map Prod.snd }

mutual
/-- The tree a tree with blocks stands for. -/
def HeapQueryAST.erase : HeapQueryAST → QueryAST
  | .node _ type data left right children childCount =>
    .node type data.erase
      (match left with
        | some l => some l.erase
        | none => none)
      (match right with
        | some r => some r.erase
        | none => none)
      (match children with
        | some (_, nodes) => some (HeapQueryAST.eraseList nodes)
        | none => none)
      childCount
/-- The trees a list of trees with blocks stands for. -/
def HeapQueryAST.eraseList : List HeapQueryAST → List QueryAST
  | [] => []
  | c :: cs => c.erase :: HeapQueryAST.eraseList cs
end

/-- The blocks of a `ComponentList`: the record, the array, and the strings
of its first `count` entries. -/
def HeapComponentList.blocks (list : HeapComponentList) : List Nat :=
  list.block :: (list.componentNames.toList ++ (list.names.take list.count).map Prod.fst)

/-- The blocks the data of a node points to. -/
def HeapASTData.blocks : HeapASTData → List Nat
  | .null => []
  | .componentList list => list.blocks
  | .showData data =>
    data.block :: ((data.componentName.map Prod.fst).toList ++
      (data.entityId.map Prod.fst).toList)

mutual
/-- The blocks reachable from a tree: the node, its data, its subtrees, and
the array of children with the blocks reachable from the first `childCount`
of them. -/
def HeapQueryAST.blocks : HeapQueryAST → List Nat
  | .node block _ data left right children childCount =>
    block :: (data.blocks ++
      ((match left with
        | some l => l.blocks
        | none => []) ++
      ((match right with
        | some r => r.blocks
        | none => []) ++
      (match children with
        | some (array, nodes) => array :: HeapQueryAST.blocksFirst childCount nodes
        | none => []))))
/-- The blocks reachable from the first `n` trees of a list. -/
def HeapQueryAST.blocksFirst : Nat → List HeapQueryAST → List Nat
  | _, [] => []
  | 0, _ :: _ => []
  | n + 1, c :: cs => c.blocks ++ HeapQueryAST.blocksFirst n cs
end

/-- Every live block of the heap was returned by an earlier `ALLOC`. -/
def Heap.Inv (h : Heap) : Prop := ∀ b ∈ h.live, b < h.next

/-- `Heap.Holds h0 h S`: since the heap was `h0`, the blocks of `S` were
allocated and are live, every other block allocated since has been freed, no
block that was live in `h0` has been freed, and no fault has been added. -/
def Heap.Holds (h0 h : Heap) (S : Finset Nat) : Prop :=
  h.live = h0.live ∪ S ∧ h.fault = h0.fault ∧ h0.next ≤ h.next ∧
  ∀ b ∈ S, h0.next ≤ b ∧ b < h.next

/-- The record is as `parse_component_list` keeps it: `count` entries are
initialised, the array is allocated, and no two of its blocks are the same. -/
def HeapComponentList.WF (list : HeapComponentList) : Prop :=
  list.count = list.names.length ∧ list.componentNames.isSome = true ∧ list.blocks.Nodup

/-- The heap holds the tree: the blocks reachable from the tree are pairwise
distinct, they are exactly the blocks allocated since `h0` that are live, and
`QueryAST_destroy` on the tree frees them all without a fault. -/
def Heap.HoldsTree (h0 h : Heap) (t : HeapQueryAST) : Prop :=
  t.blocks.Nodup ∧ Heap.Holds h0 h t.blocks.toFinset ∧
  Heap.Holds h0 (QueryAST_destroy (some t) h) ∅

/-! ## The parser as a function of the unread text: refinement lemmas -/

theorem drop_cons_inv {l : List Char} {i : Nat} {c : Char} {r : List Char}
    (h : l.drop i = c :: r) : i < l.length ∧ l.getD i NUL = c ∧ l.drop (i + 1) = r := by
  induction l generalizing i with
  | nil => simp at h
  | cons a t ih =>
    cases i with
    | zero =>
      simp only [List.drop_zero, List.cons.injEq] at h
      simp [h.1, h.2]
    | succ j =>
      simp only [List.drop_succ_cons] at h
      obtain ⟨h1, h2, h3⟩ := ih h
      refine ⟨by simp; omega, ?_, by simpa using h3⟩
      simpa using h2

theorem drop_nil_inv {l : List Char} {i : Nat} (h : l.drop i = []) : l.length ≤ i := by
  simpa using h

theorem takeWhile_length_drop (f : Char → Bool) (l : List Char) :
    l.drop (l.takeWhile f).length = l.dropWhile f := by
  induction l with
  | nil => simp
  | cons a t ih =>
    by_cases h : f a
    · simp [List.takeWhile_cons, List.dropWhile_cons, h, ih]
    · simp [List.takeWhile_cons, List.dropWhile_cons, h]

theorem rest_nil {p : QueryParser} (hwf : p.WF) (h : p.rest = []) :
    ¬ p.position < p.length := by
  have := drop_nil_inv h
  unfold QueryParser.WF at hwf
  omega

theorem rest_cons {p : QueryParser} {c : Char} {r : List Char} (hwf : p.WF)
    (h : p.rest = c :: r) :
    p.position < p.length ∧ p.byteAt p.position = c ∧ p.input.drop (p.position + 1) = r := by
  obtain ⟨h1, h2, h3⟩ := drop_cons_inv h
  unfold QueryParser.WF at hwf
  exact ⟨by omega, h2, h3⟩

theorem read_identifier_loop_eq (fuel : Nat) (p : QueryParser) (hwf : p.WF)
    (hf : p.length - p.position ≤ fuel) :
    read_identifier_loop fuel p =
      { p with position := p.position + (p.rest.takeWhile is_identifier_char).length,
               column := p.column + (p.rest.takeWhile is_identifier_char).length } := by
  induction fuel generalizing p with
  | zero =>
    have : p.rest = [] := by
      unfold QueryParser.rest QueryParser.WF at *
      simp; omega
    simp [read_identifier_loop, this]
  | succ n ih =>
    unfold read_identifier_loop
    cases hr : p.rest with
    | nil =>
      have hlt := rest_nil hwf hr
      simp [hlt]
    | cons c r =>
      obtain ⟨hlt, h2, h3⟩ := rest_cons hwf hr
      rw [h2]
      by_cases hc : is_identifier_char c
      · rw [if_pos (by simp [hlt, hc])]
        rw [ih _ (by simpa [QueryParser.WF] using hwf) (by simp; omega)]
        simp [QueryParser.rest, h3, List.takeWhile_cons, hc]
        omega
      · rw [if_neg (by simp [hlt, hc])]
        simp [List.takeWhile_cons, hc]

theorem read_number_loop_eq (fuel : Nat) (p : QueryParser) (hwf : p.WF)
    (hf : p.length - p.position ≤ fuel) :
    read_number_loop fuel p =
      { p with position := p.position + (p.rest.takeWhile isdigit).length,
               column := p.column + (p.rest.takeWhile isdigit).length } := by
  induction fuel generalizing p with
  | zero =>
    have : p.rest = [] := by
      unfold QueryParser.rest QueryParser.WF at *
      simp; omega
    simp [read_number_loop, this]
  | succ n ih =>
    unfold read_number_loop
    cases hr : p.rest with
    | nil =>
      have hlt := rest_nil hwf hr
      simp [hlt]
    | cons c r =>
      obtain ⟨hlt, h2, h3⟩ := rest_cons hwf hr
      rw [h2]
      by_cases hc : isdigit c
      · rw [if_pos (by simp [hlt, hc])]
        rw [ih _ (by simpa [QueryParser.WF] using hwf) (by simp; omega)]
        simp [QueryParser.rest, h3, List.takeWhile_cons, hc]
        omega
      · rw [if_neg (by simp [hlt, hc])]
        simp [List.takeWhile_cons, hc]

theorem parse_entity_id_loop_eq (p : QueryParser) (hwf : p.WF) (fuel pos : Nat)
    (hf : p.length - pos ≤ fuel) :
    parse_entity_id_loop p fuel pos = pos + ((p.input.drop pos).takeWhile isdigit).length := by
  induction fuel generalizing pos with
  | zero =>
    have : p.input.drop pos = [] := by
      unfold QueryParser.WF at *
      simp; omega
    simp [parse_entity_id_loop, this]
  | succ n ih =>
    unfold parse_entity_id_loop
    cases hr : p.input.drop pos with
    | nil =>
      have := drop_nil_inv hr
      unfold QueryParser.WF at hwf
      have hlt : ¬ pos < p.length := by omega
      simp [hlt]
    | cons c r =>
      obtain ⟨h1, h2, h3⟩ := drop_cons_inv hr
      unfold QueryParser.WF at hwf
      have hlt : pos < p.length := by omega
      have hb : p.byteAt pos = c := h2
      rw [hb]
      by_cases hc : isdigit c
      · rw [if_pos (by simp [hlt, hc])]
        rw [ih _ (by omega)]
        simp [h3, List.takeWhile_cons, hc]
        omega
      · rw [if_neg (by simp [hlt, hc])]
        simp [List.takeWhile_cons, hc]

theorem skip_whitespace_loop_eq (fuel : Nat) (p : QueryParser) (hwf : p.WF)
    (hf : p.length - p.position ≤ fuel) :
    (skip_whitespace_loop fuel p).input = p.input ∧
    (skip_whitespace_loop fuel p).length = p.length ∧
    (skip_whitespace_loop fuel p).position =
      p.position + (p.rest.takeWhile isspace).length := by
  induction fuel generalizing p with
  | zero =>
    have : p.rest = [] := by
      unfold QueryParser.rest QueryParser.WF at *
      simp; omega
    simp [skip_whitespace_loop, this]
  | succ n ih =>
    unfold skip_whitespace_loop
    cases hr : p.rest with
    | nil =>
      have hlt := rest_nil hwf hr
      simp [hlt]
    | cons c r =>
      obtain ⟨hlt, h2, h3⟩ := rest_cons hwf hr
      rw [h2]
      by_cases hc : isspace c
      · rw [if_pos (by simp [hlt, hc])]
        split
        · obtain ⟨i1, i2, i3⟩ := ih { p with line := p.line + 1, column := 1, position := p.position + 1 }
            (by simpa [QueryParser.WF] using hwf) (by simp; omega)
          refine ⟨i1, i2, ?_⟩
          rw [i3]
          simp [QueryParser.rest, h3, List.takeWhile_cons, hc]
          omega
        · obtain ⟨i1, i2, i3⟩ := ih { p with column := p.column + 1, position := p.position + 1 }
            (by simpa [QueryParser.WF] using hwf) (by simp; omega)
          refine ⟨i1, i2, ?_⟩
          rw [i3]
          simp [QueryParser.rest, h3, List.takeWhile_cons, hc]
          omega
      · rw [if_neg (by simp [hlt, hc])]
        simp [List.takeWhile_cons, hc]

theorem skip_whitespace_spec (p : QueryParser) (hwf : p.WF) :
    (skip_whitespace p).WF ∧ (skip_whitespace p).input = p.input ∧
    (skip_whitespace p).length = p.length ∧
    (skip_whitespace p).position = p.position + (p.rest.takeWhile isspace).length ∧
    (skip_whitespace p).rest = p.rest.dropWhile isspace := by
  obtain ⟨h1, h2, h3⟩ := skip_whitespace_loop_eq (p.length - p.position) p hwf (le_refl _)
  unfold skip_whitespace
  refine ⟨?_, h1, h2, h3, ?_⟩
  · unfold QueryParser.WF at *
    rw [h1, h2, hwf]
  · unfold QueryParser.rest
    rw [h1, h3, ← List.drop_drop]
    exact takeWhile_length_drop _ _

theorem strncasecmp_take (s k : List Char) (n : Nat) :
    strncasecmp (s.take n) k n = strncasecmp s k n := by
  induction n generalizing s k with
  | zero => simp [strncasecmp]
  | succ m ih =>
    cases s with
    | nil => simp
    | cons a t =>
      simp only [List.take_succ_cons, strncasecmp, List.headD_cons, List.tail_cons]
      rw [ih]

theorem take_length_takeWhile (f : Char → Bool) (l : List Char) :
    l.take (l.takeWhile f).length = l.takeWhile f := by
  induction l with
  | nil => simp
  | cons a t ih =>
    by_cases h : f a
    · simp [List.takeWhile_cons, h, ih]
    · simp [List.takeWhile_cons, h]

theorem MATCH_KEYWORD_eq (p : QueryParser) (token : Token) (off : Nat) (str : String)
    (len : Nat) (hv : token.value = some off)
    (hl : token.length = ((p.input.drop off).takeWhile is_identifier_char).length) :
    MATCH_KEYWORD p token str len =
      matchKeyword ((p.input.drop off).takeWhile is_identifier_char) str len := by
  unfold MATCH_KEYWORD matchKeyword QueryParser.strAt
  rw [hv, hl]
  by_cases h : ((p.input.drop off).takeWhile is_identifier_char).length = len
  · simp only [Option.getD_some]
    rw [← strncasecmp_take (p.input.drop off)]
    rw [← h, take_length_takeWhile]
  · have hb : ((List.takeWhile is_identifier_char (List.drop off p.input)).length == len)
        = false := by
      rw [beq_eq_false_iff_ne]; exact h
    rw [hb]; simp

theorem read_identifier_spec (p : QueryParser) (hwf : p.WF) :
    (read_identifier p).1.type = keywordType (p.rest.takeWhile is_identifier_char) ∧
    (read_identifier p).1.value = some p.position ∧
    (read_identifier p).1.length = (p.rest.takeWhile is_identifier_char).length ∧
    (read_identifier p).2.input = p.input ∧ (read_identifier p).2.length = p.length ∧
    (read_identifier p).2.position =
      p.position + (p.rest.takeWhile is_identifier_char).length := by
  unfold read_identifier
  rw [read_identifier_loop_eq _ p hwf (le_refl _)]
  refine ⟨?_, rfl, by simp, rfl, rfl, rfl⟩
  simp only [keywordType]
  repeat rw [MATCH_KEYWORD_eq _ _ p.position _ _ rfl (by simp [QueryParser.rest])]
  rfl

theorem read_number_spec (p : QueryParser) (hwf : p.WF) :
    (read_number p).1.type = TOKEN_NUMBER ∧
    (read_number p).1.value = some p.position ∧
    (read_number p).1.length = (p.rest.takeWhile isdigit).length ∧
    (read_number p).2.input = p.input ∧ (read_number p).2.length = p.length ∧
    (read_number p).2.position = p.position + (p.rest.takeWhile isdigit).length := by
  unfold read_number
  rw [read_number_loop_eq _ p hwf (le_refl _)]
  exact ⟨rfl, rfl, by simp, rfl, rfl, rfl⟩

theorem next_token_raw (p : QueryParser) (hwf : p.WF) :
    (QueryParser_next_token p).1.type = (lexHead (skip_whitespace p).rest).1 ∧
    (QueryParser_next_token p).1.length = (lexHead (skip_whitespace p).rest).2 ∧
    (QueryParser_next_token p).1.value.getD (skip_whitespace p).position =
      (skip_whitespace p).position ∧
    ((QueryParser_next_token p).1.type ≠ TOKEN_EOF →
      (QueryParser_next_token p).1.value = some (skip_whitespace p).position) ∧
    (QueryParser_next_token p).2.input = p.input ∧
    (QueryParser_next_token p).2.length = p.length ∧
    (QueryParser_next_token p).2.position =
      (skip_whitespace p).position + (lexHead (skip_whitespace p).rest).2 := by
  obtain ⟨qwf, qin, qlen, -, -⟩ := skip_whitespace_spec p hwf
  unfold QueryParser_next_token
  simp only []
  rw [← qin, ← qlen]
  generalize skip_whitespace p = q at *
  cases hr : q.rest with
  | nil =>
    have hlt := rest_nil qwf hr
    rw [if_pos (by omega)]
    simp [lexHead]
  | cons c r =>
    obtain ⟨hlt, hb, hd⟩ := rest_cons qwf hr
    rw [if_neg (by omega), hb]
    unfold lexHead
    simp only []
    by_cases h1 : c = '('
    · simp [h1]
    rw [if_neg h1, if_neg h1]
    by_cases h2 : c = ')'
    · simp [h2]
    rw [if_neg h2, if_neg h2]
    by_cases h3 : c = '.'
    · simp [h3]
    rw [if_neg h3, if_neg h3]
    by_cases h4 : c = ','
    · simp [h4]
    rw [if_neg h4, if_neg h4]
    by_cases h5 : c = '>' ∨ c = '<' ∨ c = '=' ∨ c = '!'
    · rw [if_pos h5, if_pos h5]
      cases r with
      | nil =>
        have := drop_nil_inv hd
        unfold QueryParser.WF at qwf
        have hlt2 : ¬ q.position + 1 < q.length := by omega
        simp [hlt2]
      | cons d r2 =>
        obtain ⟨g1, g2, -⟩ := drop_cons_inv hd
        unfold QueryParser.WF at qwf
        have hlt2 : q.position + 1 < q.length := by omega
        have hb2 : QueryParser.byteAt
            { q with position := q.position + 1, column := q.column + 1 } (q.position + 1) = d :=
          g2
        by_cases hd2 : d = '='
        · simp [hlt2, hb2, hd2]
          omega
        · simp [hlt2, hb2, hd2]
    rw [if_neg h5, if_neg h5]
    by_cases h6 : isdigit c
    · rw [if_pos h6, if_pos h6]
      obtain ⟨s1, s2, s3, s4, s5, s6⟩ := read_number_spec q qwf
      rw [hr] at s3 s6
      simp [s1, s2, s3, s4, s5, s6]
    rw [if_neg h6, if_neg h6]
    by_cases h7 : (isalpha c || c = '_') = true
    · rw [if_pos h7, if_pos h7]
      obtain ⟨s1, s2, s3, s4, s5, s6⟩ := read_identifier_spec q qwf
      rw [hr] at s1 s3 s6
      simp [s1, s2, s3, s4, s5, s6]
    rw [if_neg h7, if_neg h7]
    simp

theorem ite_ne_of {α : Type} {c : Prop} [Decidable c] {a b x : α} (ha : a ≠ x) (hb : b ≠ x) :
    (if c then a else b) ≠ x := by
  split <;> assumption

theorem keywordType_ne_eof (w : List Char) : keywordType w ≠ TOKEN_EOF := by
  unfold keywordType
  repeat refine ite_ne_of (by decide) ?_
  decide

theorem lexHead_eof {s : List Char} (h : (lexHead s).1 = TOKEN_EOF) : s = [] := by
  cases s with
  | nil => rfl
  | cons c r =>
    exfalso
    revert h
    unfold lexHead
    simp only []
    split_ifs <;> simp [keywordType_ne_eof]

theorem next_token_spec (p : QueryParser) (hwf : p.WF) :
    (QueryParser_next_token p).2.WF ∧
    (QueryParser_next_token p).2.input = p.input ∧
    (QueryParser_next_token p).2.rest = (lexS p.rest).2.2 ∧
    (QueryParser_next_token p).1.type = (lexS p.rest).1 ∧
    (p.input.drop ((QueryParser_next_token p).1.value.getD 0)).take
      (QueryParser_next_token p).1.length = (lexS p.rest).2.1 := by
  obtain ⟨qwf, qin, qlen, qpos, qrest⟩ := skip_whitespace_spec p hwf
  obtain ⟨t1, t2, t3, t4, t5, t6, t7⟩ := next_token_raw p hwf
  have hdrop : p.input.drop (skip_whitespace p).position = p.rest.dropWhile isspace := by
    rw [← qrest, QueryParser.rest, qin]
  refine ⟨?_, t5, ?_, ?_, ?_⟩
  · unfold QueryParser.WF at *
    rw [t5, t6, hwf]
  · unfold QueryParser.rest at *
    rw [t5, t7, ← List.drop_drop, hdrop, qrest]
    rfl
  · rw [t1, qrest]; rfl
  · by_cases he : (QueryParser_next_token p).1.type = TOKEN_EOF
    · have hl : (lexHead (p.rest.dropWhile isspace)).2 = 0 := by
        rw [t1, qrest] at he
        rw [lexHead_eof he]
        rfl
      rw [t2, qrest]
      simp [lexS, hl]
    · rw [t4 he, t2, qrest]
      simp only [Option.getD_some, hdrop]
      rfl

theorem next_token_cases (p : QueryParser) (hwf : p.WF) :
    ∃ tok p1, QueryParser_next_token p = (tok, p1) ∧ p1.WF ∧ p1.input = p.input ∧
      p1.rest = (lexS p.rest).2.2 ∧ tok.type = (lexS p.rest).1 ∧
      copy_token_text p1 tok = (lexS p.rest).2.1.takeWhile (fun c => c ≠ NUL) := by
  obtain ⟨h1, h2, h3, h4, h5⟩ := next_token_spec p hwf
  refine ⟨(QueryParser_next_token p).1, (QueryParser_next_token p).2, rfl, h1, h2, h3, h4, ?_⟩
  unfold copy_token_text strncpy_terminated QueryParser.strAt
  rw [h2, h5]

theorem rest_length {p : QueryParser} (hwf : p.WF) :
    p.rest.length = p.length - p.position := by
  unfold QueryParser.rest QueryParser.WF at *
  simp [hwf]

theorem append_component_name_ofNames (names : List (List Char)) (capacity : Nat)
    (name : List Char) :
    (append_component_name (ComponentList.ofNames names) capacity name).1 =
      ComponentList.ofNames (names ++ [name]) := by
  unfold append_component_name ComponentList.ofNames
  split <;> simp

theorem parse_component_list_loop_spec (fuel : Nat) (names : List (List Char))
    (capacity : Nat) (first : Bool) (p : QueryParser) (hwf : p.WF) :
    match parse_component_list_loop fuel
        { list := ComponentList.ofNames names, capacity := capacity, first := first,
          parser := p },
        componentListLoopS fuel names first p.rest with
    | none, none => True
    | some (l, p1), some (n, s1) =>
      p1.WF ∧ p1.input = p.input ∧ p1.rest = s1 ∧ l = n.map ComponentList.ofNames
    | _, _ => False := by
  induction fuel generalizing names capacity first p with
  | zero => simp [parse_component_list_loop, componentListLoopS]
  | succ k ih =>
    obtain ⟨tok, p1, e1, w1, i1, r1, t1, c1⟩ := next_token_cases p hwf
    unfold parse_component_list_loop componentListLoopS
    simp only [e1, t1]
    by_cases hR : (lexS p.rest).1 = TOKEN_RPAREN
    · simp only [if_pos hR]
      exact ⟨w1, i1, r1, rfl⟩
    simp only [if_neg hR]
    cases first with
    | true =>
      simp only [Bool.not_true, Bool.false_eq_true, if_false, t1]
      by_cases hI : (lexS p.rest).1 = TOKEN_IDENTIFIER
      · simp only [if_pos hI]
        have h := ih (names ++ [copy_token_text p1 tok])
          (append_component_name (ComponentList.ofNames names) capacity
            (copy_token_text p1 tok)).2 false p1 w1
        rw [← append_component_name_ofNames names capacity] at h
        rw [c1, r1] at h
        rw [c1]
        revert h
        split <;> simp_all
      · simp only [if_neg hI]
        exact ⟨w1, i1, r1, rfl⟩
    | false =>
      simp only [Bool.not_false, if_true]
      by_cases hC : (lexS p.rest).1 = TOKEN_COMMA
      · obtain ⟨tok2, p2, e2, w2, i2, r2, t2, c2⟩ := next_token_cases p1 w1
        rw [r1] at r2 t2 c2
        simp only [hC, ne_eq, not_true_eq_false, if_false, e2, t2]
        by_cases hI : (lexS (lexS p.rest).2.2).1 = TOKEN_IDENTIFIER
        · simp only [if_pos hI]
          have h := ih (names ++ [copy_token_text p2 tok2])
            (append_component_name (ComponentList.ofNames names) capacity
              (copy_token_text p2 tok2)).2 false p2 w2
          rw [← append_component_name_ofNames names capacity] at h
          rw [c2, r2] at h
          rw [c2]
          revert h
          split <;> simp_all
        · simp only [if_neg hI]
          exact ⟨w2, i2.trans i1, r2, rfl⟩
      · simp only [hC, ne_eq, not_false_eq_true, if_true]
        exact ⟨w1, i1, r1, rfl⟩

theorem parse_component_list_spec (p : QueryParser) (hwf : p.WF) :
    (parse_component_list p).2.WF ∧ (parse_component_list p).2.input = p.input ∧
    (parse_component_list p).2.rest = (parseComponentListS p.rest).2 ∧
    (parse_component_list p).1 = (parseComponentListS p.rest).1.map ComponentList.ofNames := by
  obtain ⟨tok, p1, e1, w1, i1, r1, t1, -⟩ := next_token_cases p hwf
  unfold parse_component_list parseComponentListS
  simp only [e1, t1]
  by_cases hL : (lexS p.rest).1 = TOKEN_LPAREN
  · simp only [hL, ne_eq, not_true_eq_false, if_false]
    have h := parse_component_list_loop_spec (p1.length - p1.position + 1) [] 4 true p1 w1
    have hfuel : (lexS p.rest).2.2.length + 1 = p1.length - p1.position + 1 := by
      rw [← r1, rest_length w1]
    rw [hfuel, ← r1]
    have e0 : ({ componentNames := [], count := 0 } : ComponentList) = ComponentList.ofNames [] :=
      rfl
    rw [e0]
    revert h
    generalize parse_component_list_loop (p1.length - p1.position + 1)
      { list := ComponentList.ofNames [], capacity := 4, first := true, parser := p1 } = c
    generalize componentListLoopS (p1.length - p1.position + 1) [] true p1.rest = a
    intro h
    match c, a, h with
    | none, none, _ => exact ⟨w1, i1, rfl, rfl⟩
    | some (l, p2), some (n, s1), h =>
      obtain ⟨w2, i2, r2, hl⟩ := h
      subst hl
      cases n with
      | none => exact ⟨w2, i2.trans i1, r2, rfl⟩
      | some names =>
        by_cases hz : names.length = 0
        · simp [ComponentList.ofNames, hz, w2, i2, i1, r2]
        · simp [ComponentList.ofNames, hz, w2, i2, i1, r2]
  · simp only [hL, ne_eq, not_false_eq_true, if_true]
    exact ⟨w1, i1, r1, rfl⟩

theorem parse_predicate_spec (p : QueryParser) (hwf : p.WF) :
    (parse_predicate p).2.WF ∧ (parse_predicate p).2.input = p.input ∧
    (parse_predicate p).2.rest = (parsePredicateS p.rest).2 ∧
    (parse_predicate p).1 = (parsePredicateS p.rest).1 := by
  obtain ⟨tok, p1, e1, w1, i1, r1, t1, -⟩ := next_token_cases p hwf
  obtain ⟨w2, i2, r2, l2⟩ := parse_component_list_spec p1 w1
  rw [r1] at r2 l2
  unfold parse_predicate parsePredicateS
  simp only [e1, t1]
  rcases hc : parse_component_list p1 with ⟨l, p2⟩
  rw [hc] at w2 i2 r2 l2
  rcases ha : parseComponentListS (lexS p.rest).2.2 with ⟨n, s2⟩
  rw [ha] at r2 l2
  simp only at w2 i2 r2 l2
  subst l2
  cases n <;> split_ifs <;>
    simp [w1, i1, r1, w2, i2, r2, predicateNode]

theorem peek_token_spec (p : QueryParser) (hwf : p.WF) :
    (QueryParser_peek_token p).2 = p ∧
    (QueryParser_peek_token p).1.type = (lexS p.rest).1 := by
  obtain ⟨-, -, -, t1, -⟩ := next_token_spec p hwf
  obtain ⟨-, -, -, -, t5, t6, -⟩ := next_token_raw p hwf
  unfold QueryParser_peek_token
  refine ⟨?_, t1⟩
  simp only
  rw [t5, t6]

theorem parse_entity_id_spec (p : QueryParser) (hwf : p.WF) :
    (parse_entity_id p).2.WF ∧ (parse_entity_id p).2.input = p.input ∧
    (parse_entity_id p).2.rest = (parseEntityIdS p.rest).2 ∧
    (parse_entity_id p).1 = (parseEntityIdS p.rest).1 := by
  obtain ⟨qwf, qin, -, -, qrest⟩ := skip_whitespace_spec p hwf
  unfold parse_entity_id parseEntityIdS
  simp only []
  rw [← qrest, ← qin]
  generalize skip_whitespace p = q at *
  cases hr : q.rest with
  | nil =>
    have hlt := rest_nil qwf hr
    rw [if_pos (by omega)]
    refine ⟨qwf, ?_, ?_, ?_⟩ <;> first | rfl | exact hr
  | cons c0 r0 =>
    obtain ⟨hlt, -, -⟩ := rest_cons qwf hr
    rw [if_neg (by omega)]
    simp only []
    rw [parse_entity_id_loop_eq q qwf _ _ (le_refl _)]
    have hs1 : q.input.drop q.position = c0 :: r0 := hr
    have hd1 : q.input.drop (q.position + ((c0 :: r0).takeWhile isdigit).length) =
        (c0 :: r0).dropWhile isdigit := by
      rw [← List.drop_drop, hs1]
      exact takeWhile_length_drop _ _
    rw [hs1]
    unfold QueryParser.strAt
    rw [hs1]
    cases hr1 : (c0 :: r0).dropWhile isdigit with
    | nil =>
      rw [hr1] at hd1
      have := drop_nil_inv hd1
      have hge : q.position + ((c0 :: r0).takeWhile isdigit).length ≥ q.length := by
        unfold QueryParser.WF at qwf; omega
      simp only [hge, decide_True, Bool.true_or, if_true]
      refine ⟨qwf, ?_, ?_, ?_⟩ <;> first | rfl | exact hr | trivial
    | cons c r =>
      rw [hr1] at hd1
      obtain ⟨g1, g2, g3⟩ := drop_cons_inv hd1
      have hlt1 : ¬ q.position + ((c0 :: r0).takeWhile isdigit).length ≥ q.length := by
        unfold QueryParser.WF at qwf; omega
      have hb1 : q.byteAt (q.position + ((c0 :: r0).takeWhile isdigit).length) = c := g2
      rw [hb1]
      by_cases hcol : c = ':'
      · subst hcol
        simp only [hlt1, decide_False, Bool.false_or, ne_eq, not_true_eq_false, if_false]
        by_cases hcons : (strtoull (c0 :: r0)).2 = ((c0 :: r0).takeWhile isdigit).length
        · simp only [hcons, not_true_eq_false, if_false]
          cases r with
          | nil =>
            have := drop_nil_inv g3
            have hge2 : q.position + ((c0 :: r0).takeWhile isdigit).length + 1 ≥ q.length := by
              unfold QueryParser.WF at qwf; omega
            simp only [hge2, if_true]
            refine ⟨qwf, ?_, ?_, ?_⟩ <;> first | rfl | exact hr
          | cons c2 r2 =>
            obtain ⟨k1, -, -⟩ := drop_cons_inv g3
            have hlt2 : ¬ q.position + ((c0 :: r0).takeWhile isdigit).length + 1 ≥ q.length := by
              unfold QueryParser.WF at qwf; omega
            simp only [hlt2, if_false]
            rw [parse_entity_id_loop_eq q qwf _ _ (le_refl _), g3]
            by_cases hz : ((c2 :: r2).takeWhile isdigit).length = 0
            · simp only [hz, Nat.add_zero, if_true]
              refine ⟨qwf, ?_, ?_, ?_⟩ <;> first | rfl | exact hr
            · have hne : ¬ q.position + ((c0 :: r0).takeWhile isdigit).length + 1 +
                  ((c2 :: r2).takeWhile isdigit).length =
                  q.position + ((c0 :: r0).takeWhile isdigit).length + 1 := by omega
              simp only [hne, hz, if_false]
              by_cases hcons2 : (strtoull (c2 :: r2)).2 = ((c2 :: r2).takeWhile isdigit).length
              · simp only [hcons2, ne_eq, not_true_eq_false, if_false]
                simp only [Bool.false_eq_true, if_false]
                refine ⟨qwf, ?_, ?_, ?_⟩
                · first | rfl | trivial
                · show q.input.drop _ = _
                  rw [← List.drop_drop, g3]
                  exact takeWhile_length_drop _ _
                · first | rfl | trivial
              · have hne2 : q.position + ((c0 :: r0).takeWhile isdigit).length + 1 +
                    (strtoull (c2 :: r2)).2 ≠
                    q.position + ((c0 :: r0).takeWhile isdigit).length + 1 +
                    ((c2 :: r2).takeWhile isdigit).length := by omega
                simp only [hne2, hcons2, ne_eq, not_false_eq_true, if_true]
                refine ⟨qwf, ?_, ?_, ?_⟩ <;> first | rfl | exact hr
        · have hne : q.position + (strtoull (c0 :: r0)).2 ≠
              q.position + ((c0 :: r0).takeWhile isdigit).length := by omega
          simp only [hne, hcons, ne_eq, not_false_eq_true, if_true]
          refine ⟨qwf, ?_, ?_, ?_⟩ <;> first | rfl | exact hr
      · simp only [hcol, ne_eq, not_false_eq_true, decide_True, Bool.or_true, if_true]
        refine ⟨qwf, ?_, ?_, ?_⟩ <;> first | rfl | exact hr | trivial

section Refinement

attribute [local irreducible] QueryParser_next_token QueryParser_peek_token parse_predicate
  parse_entity_id parse_component_list

theorem parse_entities_tail_spec (type : ASTNodeType) (p1 : QueryParser) (w1 : p1.WF) :
    (let (token, parser) := QueryParser_next_token p1
      if token.type ≠ TOKEN_ENTITIES then ((none : Option QueryAST), parser)
      else
        let (token, parser) := QueryParser_peek_token parser
        let clause : Option (Option QueryAST) × QueryParser :=
          if token.type = TOKEN_WHERE then
            let (_, parser) := QueryParser_next_token parser
            match parse_predicate parser with
            | (none, parser) => (none, parser)
            | (some predicate, parser) => (some (some predicate), parser)
          else (some none, parser)
        match clause with
        | (none, parser) => (none, parser)
        | (some left, parser) =>
          let (token, parser) := QueryParser_next_token parser
          if token.type ≠ TOKEN_EOF then (none, parser)
          else (some (.node type .null left none none 0), parser)).1 =
      parseEntitiesS type p1.rest := by
  obtain ⟨tok2, p2, e2, w2, i2, r2, t2, -⟩ := next_token_cases p1 w1
  simp only [e2, t2]
  unfold parseEntitiesS
  by_cases hE : (lexS p1.rest).1 = TOKEN_ENTITIES
  · simp only [hE, ne_eq, not_true_eq_false, if_false]
    obtain ⟨pk1, pk2⟩ := peek_token_spec p2 w2
    rcases hp : QueryParser_peek_token p2 with ⟨tokp, pp⟩
    rw [hp] at pk1 pk2
    simp only at pk1 pk2
    subst pk1
    rw [r2] at pk2
    simp only [pk2]
    by_cases hW : (lexS (lexS p1.rest).2.2).1 = TOKEN_WHERE
    · simp only [hW, if_true]
      obtain ⟨tok3, p3, e3, w3, i3, r3, t3, -⟩ := next_token_cases pp w2
      rw [r2] at r3
      simp only [e3]
      obtain ⟨w4, i4, r4, l4⟩ := parse_predicate_spec p3 w3
      rw [r3] at r4 l4
      rcases hc : parse_predicate p3 with ⟨l, p4⟩
      rw [hc] at w4 i4 r4 l4
      rcases ha : parsePredicateS (lexS (lexS p1.rest).2.2).2.2 with ⟨n, s4⟩
      rw [ha] at r4 l4
      simp only at w4 i4 r4 l4
      subst l4
      cases l with
      | none => rfl
      | some predicate =>
        simp only
        obtain ⟨tok5, p5, e5, w5, i5, r5, t5, -⟩ := next_token_cases p4 w4
        rw [r4] at t5
        simp only [e5, t5]
        split_ifs <;> rfl
    · simp only [hW, if_false]
      obtain ⟨tok5, p5, e5, w5, i5, r5, t5, -⟩ := next_token_cases pp w2
      rw [r2] at t5
      simp only [e5, t5]
      split_ifs <;> rfl
  · simp only [hE, ne_eq, not_false_eq_true, if_true]

theorem parse_show_tail_spec (p1 : QueryParser) (w1 : p1.WF) :
    (let (token, parser) := QueryParser_next_token p1
      let target : Option (Option (List Char)) :=
        if token.type = TOKEN_ALL then some none
        else if token.type = TOKEN_IDENTIFIER then some (some (copy_token_text parser token))
        else none
      match target with
      | none => ((none : Option QueryAST), parser)
      | some componentName =>
        let (token, parser) := QueryParser_next_token parser
        if token.type ≠ TOKEN_OF then (none, parser)
        else
          let (token, parser) := QueryParser_next_token parser
          if token.type ≠ TOKEN_ENTITY then (none, parser)
          else
            match parse_entity_id parser with
            | (none, parser) => (none, parser)
            | (some entityId, parser) =>
              let showData : ShowQueryData :=
                { componentName := componentName, entityId := some entityId }
              let (token, parser) := QueryParser_next_token parser
              if token.type ≠ TOKEN_EOF then (none, parser)
              else (some (.node AST_SHOW (.showData showData) none none none 0), parser)).1 =
      parseShowS p1.rest := by
  obtain ⟨tok2, p2, e2, w2, i2, r2, t2, c2⟩ := next_token_cases p1 w1
  obtain ⟨tok3, p3, e3, w3, i3, r3, t3, -⟩ := next_token_cases p2 w2
  obtain ⟨tok4, p4, e4, w4, i4, r4, t4, -⟩ := next_token_cases p3 w3
  obtain ⟨w5, i5, r5, l5⟩ := parse_entity_id_spec p4 w4
  rw [r2] at r3 t3
  rw [r3] at r4 t4
  rw [r4] at r5 l5
  rcases hc : parse_entity_id p4 with ⟨l, p5⟩
  rw [hc] at w5 i5 r5 l5
  rcases ha : parseEntityIdS (lexS (lexS (lexS p1.rest).2.2).2.2).2.2 with ⟨n, s5⟩
  rw [ha] at r5 l5
  simp only at w5 i5 r5 l5
  subst l5
  obtain ⟨tok6, p6, e6, w6, i6, r6, t6, -⟩ := next_token_cases p5 w5
  rw [r5] at t6
  unfold parseShowS
  simp only [e2, t2, c2, e3, t3, e4, t4, hc, ha]
  have tail : ∀ cn : Option (List Char),
      (if (lexS (lexS p1.rest).2.2).1 ≠ TOKEN_OF then ((none : Option QueryAST), p3)
        else if (lexS (lexS (lexS p1.rest).2.2).2.2).1 ≠ TOKEN_ENTITY then (none, p4)
        else
          match (l, p5) with
          | (none, parser) => (none, parser)
          | (some entityId, parser) =>
            match QueryParser_next_token parser with
            | (token, parser) =>
              if token.type ≠ TOKEN_EOF then (none, parser)
              else (some (.node AST_SHOW
                (.showData { componentName := cn, entityId := some entityId })
                none none none 0), parser)).1 =
      (if (lexS (lexS p1.rest).2.2).1 ≠ TOKEN_OF then none
        else if (lexS (lexS (lexS p1.rest).2.2).2.2).1 ≠ TOKEN_ENTITY then none
        else
          match (l, s5) with
          | (none, _) => none
          | (some entityId, s3) =>
            if (lexS s3).1 ≠ TOKEN_EOF then none
            else some (.node AST_SHOW
              (.showData { componentName := cn, entityId := some entityId })
              none none none 0)) := by
    intro cn
    cases l with
    | none => split_ifs <;> rfl
    | some entityId =>
      simp only [e6, t6]
      split_ifs <;> rfl
  by_cases hA : (lexS p1.rest).1 = TOKEN_ALL
  · simp only [hA, if_true]
    exact tail none
  · by_cases hI : (lexS p1.rest).1 = TOKEN_IDENTIFIER
    · simp only [hA, hI, if_true, if_false]
      exact tail _
    · simp only [hA, hI, if_false]

theorem QueryParser_parse_spec (p : QueryParser) (hwf : p.WF) :
    (QueryParser_parse p).1 = parseS p.rest := by
  obtain ⟨tok, p1, e1, w1, i1, r1, t1, -⟩ := next_token_cases p hwf
  unfold QueryParser_parse parseS
  simp only [e1, t1]
  rewrite [← r1]
  by_cases hS : (lexS p.rest).1 = TOKEN_SELECT
  · simp only [hS, if_true]
    exact parse_entities_tail_spec AST_SELECT p1 w1
  · by_cases hC : (lexS p.rest).1 = TOKEN_COUNT
    · simp only [hS, hC, if_true, if_false]
      exact parse_entities_tail_spec AST_COUNT p1 w1
    · by_cases hW : (lexS p.rest).1 = TOKEN_SHOW
      · simp only [hS, hC, hW, if_true, if_false]
        exact parse_show_tail_spec p1 w1
      · simp only [hS, hC, hW, if_false]

theorem QueryParser_new_spec (q : List Char) :
    ∃ p, QueryParser_new (some q) = some p ∧ p.WF ∧ p.rest = q :=
  ⟨_, rfl, rfl, rfl⟩


end Refinement
/-! ## Executor lemmas -/

theorem resolve_fold (ecs : ECS) (names : List (List Char)) (n : Nat) (hn : n ≤ names.length) :
    (List.range n).foldl
      (fun (acc : List ComponentTypeId × List RegistryCall) i =>
        let name := names.getD i []
        let typeId := ecs.ECS_get_component_type_by_name name
        (if typeId ≠ ecs.COMPONENT_TYPE_INVALID then acc.1 ++ [typeId] else acc.1,
          acc.2 ++ [RegistryCall.get_component_type_by_name name]))
      ([], []) =
    (ecs.handles (names.take n),
      (names.take n).map RegistryCall.get_component_type_by_name) := by
  induction n with
  | zero => simp [ECS.handles]
  | succ k ih =>
    have hk : k < names.length := by omega
    rw [List.range_succ, List.foldl_append, ih (by omega)]
    have ht : names.take (k + 1) = names.take k ++ [names.getD k []] := by
      rw [List.take_succ]
      simp [List.getD, List.getElem?_eq_getElem hk]
    rw [ht]
    simp only [List.foldl_cons, List.foldl_nil]
    generalize names.getD k [] = x
    by_cases hr : ecs.ECS_get_component_type_by_name x = ecs.COMPONENT_TYPE_INVALID
    · simp [ECS.handles, ECS.resolves, hr, List.filter_append]
    · simp [ECS.handles, ECS.resolves, hr, List.filter_append]

theorem resolve_component_names_ofNames (ecs : ECS) (names : List (List Char)) :
    resolve_component_names ecs (ComponentList.ofNames names) =
      (ecs.handles names, names.map RegistryCall.get_component_type_by_name) := by
  unfold resolve_component_names ComponentList.ofNames
  have h := resolve_fold ecs names names.length (le_refl _)
  simp only [List.take_length] at h
  exact h

theorem handles_eq_nil_iff (ecs : ECS) (names : List (List Char)) :
    ecs.handles names = [] ↔ ∀ n ∈ names, ecs.resolves n = false := by
  unfold ECS.handles
  simp [List.filter_eq_nil_iff]

theorem handles_filter (ecs : ECS) (names : List (List Char)) :
    ecs.handles (names.filter ecs.resolves) = ecs.handles names := by
  unfold ECS.handles
  rw [List.filter_filter]
  simp

theorem lookups_hold_no_set_query (l : List (List Char)) :
    (l.map RegistryCall.get_component_type_by_name).filter RegistryCall.isSetQuery = [] := by
  induction l with
  | nil => rfl
  | cons a t ih => simp [List.filter_cons, RegistryCall.isSetQuery, ih]

/-- What the executor does on a SELECT or COUNT statement with a predicate of
one of the three kinds. -/
theorem execute_predicate (ecs : ECS) (type kind : ASTNodeType) (names : List (List Char))
    (out0 : QueryEngineResult) (ht : isSelectOrCount type) (hk : isPredicateKind kind) :
    QueryExecutor_execute (some ecs) (some (statementNode type (some (predicateNode kind names))))
        (some out0) =
      if ecs.handles names = [] then
        { status := QUERY_SUCCESS, outResult := some emptyResult,
          calls := if names = [] then []
            else names.map RegistryCall.get_component_type_by_name }
      else
        { status := QUERY_SUCCESS,
          outResult := some
            (if type = AST_COUNT then
              { entities := none, count := (ecs.setQuery kind (ecs.handles names)).length,
                capacity := 0, data := none }
            else if (ecs.setQuery kind (ecs.handles names)).length > 0 then
              { entities := some (ecs.setQuery kind (ecs.handles names)),
                count := (ecs.setQuery kind (ecs.handles names)).length,
                capacity := (ecs.setQuery kind (ecs.handles names)).length, data := none }
            else emptyResult),
          calls := names.map RegistryCall.get_component_type_by_name ++
            [setQueryCall kind (ecs.handles names), RegistryCall.QueryResult_free] } := by
  unfold QueryExecutor_execute statementNode predicateNode
  simp only [QueryAST_get_type, QueryAST_get_left, QueryAST_get_data,
    ASTData.toComponentList, resolve_component_names_ofNames]
  have ht2 : type = AST_SELECT ∨ type = AST_COUNT := ht
  rw [if_pos ht2]
  by_cases hn : names = []
  · subst hn
    simp [ComponentList.ofNames, ECS.handles, emptyResult]
  have hlen : ¬ (ComponentList.ofNames names).count = 0 := by
    simp [ComponentList.ofNames, hn]
  simp only [Option.isNone_some, Bool.false_eq_true, if_false, hlen]
  by_cases hh : ecs.handles names = []
  · simp [hh, hn, emptyResult]
  · have hl : ¬ (ecs.handles names).length = 0 := by
      simpa using hh
    simp only [hl, hh, if_false]
    rcases hk with hk | hk | hk <;> rcases ht2 with ht3 | ht3 <;> subst hk <;> subst ht3 <;>
      simp [ECS.setQuery, setQueryCall, emptyResult]

/-! ## Lemmas about the tokens of a text -/

theorem isspace_of_alpha {c : Char} (h : (isalpha c || c = '_') = true) : isspace c = false := by
  have h95 : ('_' : Char).toNat = 95 := rfl
  simp only [isalpha, Bool.or_eq_true, Bool.and_eq_true, decide_eq_true_eq] at h
  simp only [isspace, Bool.or_eq_false_iff, beq_eq_false_iff_ne, Bool.and_eq_false_iff,
    decide_eq_false_iff_not]
  rcases h with (h | h) | h
  · exact ⟨by omega, by omega⟩
  · exact ⟨by omega, by omega⟩
  · subst h
    exact ⟨by omega, by omega⟩

theorem isdigit_of_alpha {c : Char} (h : (isalpha c || c = '_') = true) : isdigit c = false := by
  have h95 : ('_' : Char).toNat = 95 := rfl
  simp only [isalpha, Bool.or_eq_true, Bool.and_eq_true, decide_eq_true_eq] at h
  simp only [isdigit, Bool.and_eq_false_iff, decide_eq_false_iff_not]
  rcases h with (h | h) | h
  · omega
  · omega
  · subst h
    omega

theorem ne_of_alpha {c d : Char} (h : (isalpha c || c = '_') = true)
    (hd : (isalpha d || d = '_') = false) : c ≠ d := by
  intro hcd
  subst hcd
  rw [h] at hd
  exact Bool.noConfusion hd

theorem lexHead_word (c : Char) (r : List Char) (h : (isalpha c || c = '_') = true) :
    lexHead (c :: r) =
      (keywordType ((c :: r).takeWhile is_identifier_char),
        ((c :: r).takeWhile is_identifier_char).length) := by
  have n1 : c ≠ '(' := ne_of_alpha h (by decide)
  have n2 : c ≠ ')' := ne_of_alpha h (by decide)
  have n3 : c ≠ '.' := ne_of_alpha h (by decide)
  have n4 : c ≠ ',' := ne_of_alpha h (by decide)
  have n5 : c ≠ '>' := ne_of_alpha h (by decide)
  have n6 : c ≠ '<' := ne_of_alpha h (by decide)
  have n7 : c ≠ '=' := ne_of_alpha h (by decide)
  have n8 : c ≠ '!' := ne_of_alpha h (by decide)
  have n9 : ¬ (c = '>' ∨ c = '<' ∨ c = '=' ∨ c = '!') := by
    rintro (h | h | h | h) <;> contradiction
  unfold lexHead
  simp only []
  rw [if_neg n1, if_neg n2, if_neg n3, if_neg n4, if_neg n9, isdigit_of_alpha h, if_pos h]
  simp

theorem takeWhile_append_stop (f : Char → Bool) (w s : List Char)
    (hw : ∀ c ∈ w, f c = true) (hs : ∀ c ∈ s.head?, f c = false) :
    (w ++ s).takeWhile f = w := by
  induction w with
  | nil =>
    cases s with
    | nil => rfl
    | cons a t =>
      have := hs a (by simp)
      simp [List.takeWhile_cons, this]
  | cons a t ih =>
    have ha := hw a (by simp)
    simp only [List.cons_append, List.takeWhile_cons, ha, if_true]
    rw [ih (fun c hc => hw c (by simp [hc]))]

theorem lexS_space (c : Char) (s : List Char) (h : isspace c = true) :
    lexS (c :: s) = lexS s := by
  unfold lexS
  simp only [List.dropWhile_cons, h, if_true]

theorem lexS_word (w s : List Char) (hw : isIdentifierText w = true) (hs : stopsWord s) :
    lexS (w ++ s) = (keywordType w, w, s) := by
  cases w with
  | nil => simp [isIdentifierText] at hw
  | cons c t =>
    simp only [isIdentifierText, Bool.and_eq_true] at hw
    obtain ⟨hc, hall⟩ := hw
    have hall2 : ∀ x ∈ c :: t, is_identifier_char x = true := by
      simpa [List.all_eq_true] using hall
    have htw : ((c :: t) ++ s).takeWhile is_identifier_char = c :: t :=
      takeWhile_append_stop _ _ _ hall2 hs
    unfold lexS
    have hd : ((c :: t) ++ s).dropWhile isspace = (c :: t) ++ s := by
      simp only [List.cons_append, List.dropWhile_cons, isspace_of_alpha hc]
      rfl
    simp only [hd]
    have hl : lexHead ((c :: t) ++ s) = (keywordType (c :: t), (c :: t).length) := by
      have := lexHead_word c (t ++ s) hc
      rw [show c :: (t ++ s) = (c :: t) ++ s from rfl, htw] at this
      exact this
    rw [hl]
    simp

theorem lexS_word_end (w : List Char) (hw : isIdentifierText w = true) :
    lexS w = (keywordType w, w, []) := by
  have := lexS_word w [] hw (by intro c hc; simp at hc)
  simpa using this

theorem lexS_nil : lexS [] = (TOKEN_EOF, [], []) := rfl

theorem lexS_lparen (s : List Char) : lexS ('(' :: s) = (TOKEN_LPAREN, ['('], s) := rfl

theorem lexS_rparen (s : List Char) : lexS (')' :: s) = (TOKEN_RPAREN, [')'], s) := rfl

theorem lexS_comma (s : List Char) : lexS (',' :: s) = (TOKEN_COMMA, [','], s) := rfl

theorem stopsWord_nil : stopsWord [] := by
  intro c hc
  simp at hc

theorem stopsWord_cons (c : Char) (s : List Char) (h : is_identifier_char c = false) :
    stopsWord (c :: s) := by
  intro d hd
  simp only [List.head?_cons, Option.mem_def, Option.some.injEq] at hd
  subst hd
  exact h

theorem tolower_ne_nul {c : Char} (h : c ≠ NUL) : tolower c ≠ NUL := by
  unfold tolower
  split
  · rename_i hc
    intro hn
    have h0 : (Char.ofNat (c.toNat + 32)).toNat = 0 := by rw [hn]; rfl
    have hv : (c.toNat + 32).isValidChar := by
      left; omega
    rw [Char.ofNat, dif_pos hv] at h0
    have : (Char.ofNatAux (c.toNat + 32) hv).toNat = c.toNat + 32 := rfl
    omega
  · exact h

theorem char_toNat_ne {a b : Char} (h : a ≠ b) : (a.toNat : Int) - (b.toNat : Int) ≠ 0 := by
  intro h0
  apply h
  have h1 : a.toNat = b.toNat := by omega
  rw [← Char.ofNat_toNat a, ← Char.ofNat_toNat b, h1]

theorem strncasecmp_zero (n : Nat) (a b : List Char) (ha : a.length = n) (hb : b.length = n)
    (hnul : ∀ c ∈ a, c ≠ NUL) (h : strncasecmp a b n = 0) :
    a.map tolower = b.map tolower := by
  induction n generalizing a b with
  | zero =>
    have ha0 : a = [] := List.length_eq_zero.mp ha
    have hb0 : b = [] := List.length_eq_zero.mp hb
    subst ha0; subst hb0; rfl
  | succ k ih =>
    cases a with
    | nil => simp at ha
    | cons x a1 =>
      cases b with
      | nil => simp at hb
      | cons y b1 =>
        simp only [strncasecmp, List.headD_cons, List.tail_cons] at h
        by_cases hxy : tolower x = tolower y
        · have hx : tolower x ≠ NUL := tolower_ne_nul (hnul x (by simp))
          simp only [hxy, ne_eq, not_true_eq_false, if_false] at h
          rw [← hxy] at h
          simp only [hx, if_false] at h
          have := ih a1 b1 (by simpa using ha) (by simpa using hb)
            (fun c hc => hnul c (by simp [hc])) h
          simp [hxy, this]
        · simp only [ne_eq, hxy, not_false_eq_true, if_true] at h
          exact absurd h (char_toNat_ne hxy)

theorem matchKeyword_true {w : List Char} {str : String} {len : Nat}
    (hlen : str.toList.length = len) (hnul : ∀ c ∈ w, c ≠ NUL)
    (h : matchKeyword w str len = true) : str.toList.map tolower = w.map tolower := by
  unfold matchKeyword at h
  simp only [Bool.and_eq_true, beq_iff_eq] at h
  exact (strncasecmp_zero len w str.toList h.1 hlen hnul h.2).symm

theorem matchKeyword_false (w : List Char) (str : String) (len : Nat)
    (hlen : str.toList.length = len) (hnul : ∀ c ∈ w, c ≠ NUL)
    (hk : str.toList ∈ keywordTexts) (h : isKeywordText w = false) :
    matchKeyword w str len = false := by
  cases hm : matchKeyword w str len with
  | false => rfl
  | true =>
    have := matchKeyword_true hlen hnul hm
    have hkw : isKeywordText w = true := by
      unfold isKeywordText
      rw [List.any_eq_true]
      exact ⟨str.toList, hk, by rw [beq_iff_eq]; exact this⟩
    rw [hkw] at h
    exact Bool.noConfusion h

theorem keywordType_of_not_keyword {w : List Char} (hnul : ∀ c ∈ w, c ≠ NUL)
    (h : isKeywordText w = false) : keywordType w = TOKEN_IDENTIFIER := by
  unfold keywordType
  rw [matchKeyword_false w "ENTITIES" 8 rfl hnul (by decide) h,
    matchKeyword_false w "HAS_ANY" 7 rfl hnul (by decide) h,
    matchKeyword_false w "NOT_HAS" 7 rfl hnul (by decide) h,
    matchKeyword_false w "SELECT" 6 rfl hnul (by decide) h,
    matchKeyword_false w "ENTITY" 6 rfl hnul (by decide) h,
    matchKeyword_false w "COUNT" 5 rfl hnul (by decide) h,
    matchKeyword_false w "WHERE" 5 rfl hnul (by decide) h,
    matchKeyword_false w "SHOW" 4 rfl hnul (by decide) h,
    matchKeyword_false w "HAS" 3 rfl hnul (by decide) h,
    matchKeyword_false w "ALL" 3 rfl hnul (by decide) h,
    matchKeyword_false w "AND" 3 rfl hnul (by decide) h,
    matchKeyword_false w "OF" 2 rfl hnul (by decide) h,
    matchKeyword_false w "OR" 2 rfl hnul (by decide) h]
  rfl

theorem identifier_char_ne_nul {c : Char} (h : is_identifier_char c = true) : c ≠ NUL := by
  intro hc
  subst hc
  exact absurd h (by decide)

theorem identifierText_no_nul {w : List Char} (hw : isIdentifierText w = true) :
    ∀ c ∈ w, c ≠ NUL := by
  cases w with
  | nil => simp [isIdentifierText] at hw
  | cons a t =>
    simp only [isIdentifierText, Bool.and_eq_true, List.all_eq_true] at hw
    intro c hc
    exact identifier_char_ne_nul (hw.2 c hc)

theorem takeWhile_no_nul {w : List Char} (h : ∀ c ∈ w, c ≠ NUL) :
    w.takeWhile (fun c => c ≠ NUL) = w := by
  induction w with
  | nil => rfl
  | cons a t ih =>
    have ha : a ≠ NUL := h a (by simp)
    simp only [List.takeWhile_cons, ne_eq, ha, not_false_eq_true, decide_True, if_true]
    rw [ih (fun c hc => h c (by simp [hc]))]

/-- A name of the query language: an identifier that spells no keyword. -/
theorem lexS_name (w s : List Char) (hw : isIdentifierText w = true)
    (hk : isKeywordText w = false) (hs : stopsWord s) :
    lexS (w ++ s) = (TOKEN_IDENTIFIER, w, s) := by
  rw [lexS_word w s hw hs, keywordType_of_not_keyword (identifierText_no_nul hw) hk]

theorem commaTail_cons (n : List Char) (ns : List (List Char)) :
    commaTail (n :: ns) = ',' :: ' ' :: (n ++ commaTail ns) := by
  simp [commaTail]

theorem commaTail_stops (ns : List (List Char)) (tail : List Char) :
    stopsWord (commaTail ns ++ ')' :: tail) := by
  cases ns with
  | nil => exact stopsWord_cons _ _ (by decide)
  | cons n t =>
    rw [commaTail_cons]
    exact stopsWord_cons _ _ (by decide)

theorem intercalate_cons (n : List Char) (ns : List (List Char)) :
    ", ".toList.intercalate (n :: ns) = n ++ commaTail ns := by
  induction ns generalizing n with
  | nil => simp [List.intercalate, commaTail]
  | cons m t ih =>
    have h := ih m
    simp only [List.intercalate, List.intersperse_cons_cons, List.flatten_cons] at h ⊢
    rw [h, commaTail_cons]
    rfl

theorem commaTail_length (ns : List (List Char)) : ns.length ≤ (commaTail ns).length := by
  induction ns with
  | nil => simp
  | cons n t ih =>
    rw [commaTail_cons]
    simp only [List.length_cons, List.length_append]
    omega

theorem componentListLoopS_tail (names : List (List Char)) (acc : List (List Char))
    (tail : List Char) (fuel : Nat) (hf : names.length + 1 ≤ fuel)
    (hn : ∀ n ∈ names, isIdentifierText n = true ∧ isKeywordText n = false) :
    componentListLoopS fuel acc false (commaTail names ++ ')' :: tail) =
      some (some (acc ++ names), tail) := by
  induction names generalizing acc fuel with
  | nil =>
    cases fuel with
    | zero => omega
    | succ k =>
      simp only [commaTail, List.map_nil, List.flatten_nil, List.nil_append]
      unfold componentListLoopS
      rw [lexS_rparen]
      simp
  | cons n t ih =>
    cases fuel with
    | zero => omega
    | succ k =>
      obtain ⟨hid, hkw⟩ := hn n (by simp)
      rw [commaTail_cons]
      unfold componentListLoopS
      simp only [List.cons_append, List.append_assoc]
      rw [lexS_comma]
      have hname : lexS (' ' :: (n ++ (commaTail t ++ ')' :: tail))) =
          (TOKEN_IDENTIFIER, n, commaTail t ++ ')' :: tail) := by
        rw [lexS_space _ _ (by decide), lexS_name n _ hid hkw (commaTail_stops t tail)]
      simp only [reduceCtorEq, if_false, Bool.not_false, if_true, ne_eq, not_true_eq_false]
      simp only [hname, if_true, takeWhile_no_nul (identifierText_no_nul hid)]
      have := ih (acc ++ [n]) k (by simp at hf; omega) (fun m hm => hn m (by simp [hm]))
      simpa using this

theorem componentListLoopS_first (n : List Char) (names : List (List Char))
    (acc : List (List Char)) (tail : List Char) (fuel : Nat) (hf : names.length + 2 ≤ fuel)
    (hn : ∀ m ∈ n :: names, isIdentifierText m = true ∧ isKeywordText m = false) :
    componentListLoopS fuel acc true (n ++ (commaTail names ++ ')' :: tail)) =
      some (some (acc ++ n :: names), tail) := by
  cases fuel with
  | zero => omega
  | succ k =>
    obtain ⟨hid, hkw⟩ := hn n (by simp)
    unfold componentListLoopS
    have hname : lexS (n ++ (commaTail names ++ ')' :: tail)) =
        (TOKEN_IDENTIFIER, n, commaTail names ++ ')' :: tail) :=
      lexS_name n _ hid hkw (commaTail_stops names tail)
    simp only [hname, reduceCtorEq, if_false, Bool.not_true, Bool.false_eq_true]
    simp only [hname, if_true, takeWhile_no_nul (identifierText_no_nul hid)]
    have := componentListLoopS_tail names (acc ++ [n]) tail k (by omega)
      (fun m hm => hn m (by simp [hm]))
    simpa using this

theorem parseComponentListS_names (names : List (List Char)) (tail : List Char)
    (hne : names ≠ [])
    (hn : ∀ m ∈ names, isIdentifierText m = true ∧ isKeywordText m = false) :
    parseComponentListS ('(' :: (", ".toList.intercalate names ++ ')' :: tail)) =
      (some names, tail) := by
  cases names with
  | nil => exact absurd rfl hne
  | cons n t =>
    unfold parseComponentListS
    rw [lexS_lparen, intercalate_cons, List.append_assoc]
    have hlen : t.length + 2 ≤ (n ++ (commaTail t ++ ')' :: tail)).length + 1 := by
      have := commaTail_length t
      simp only [List.length_append, List.length_cons]
      omega
    have := componentListLoopS_first n t [] tail _ hlen hn
    simp only [List.nil_append] at this
    simp only [ne_eq, reduceCtorEq, not_false_eq_true, not_true_eq_false, if_false, this,
      List.length_cons, Nat.add_one_ne_zero]

theorem parsePredicateS_text (kind : ASTNodeType) (names : List (List Char)) (tail : List Char)
    (hk : kind = AST_HAS ∨ kind = AST_HAS_ANY ∨ kind = AST_NOT_HAS) (hne : names ≠ [])
    (hn : ∀ m ∈ names, isIdentifierText m = true ∧ isKeywordText m = false) :
    parsePredicateS (' ' :: (keywordText kind ++
        '(' :: (", ".toList.intercalate names ++ ')' :: tail))) =
      (some (predicateNode kind names), tail) := by
  have hl := parseComponentListS_names names tail hne hn
  have hs : stopsWord ('(' :: (", ".toList.intercalate names ++ ')' :: tail)) :=
    stopsWord_cons _ _ (by decide)
  unfold parsePredicateS
  rw [lexS_space _ _ (by decide)]
  rcases hk with hk | hk | hk <;> subst hk
  · rw [show keywordText AST_HAS = "HAS".toList from rfl, lexS_word _ _ (by decide) hs,
      show keywordType "HAS".toList = TOKEN_HAS from rfl]
    simp only [if_true, hl]
  · rw [show keywordText AST_HAS_ANY = "HAS_ANY".toList from rfl, lexS_word _ _ (by decide) hs,
      show keywordType "HAS_ANY".toList = TOKEN_HAS_ANY from rfl]
    simp only [reduceCtorEq, if_false, if_true, hl]
  · rw [show keywordText AST_NOT_HAS = "NOT_HAS".toList from rfl, lexS_word _ _ (by decide) hs,
      show keywordType "NOT_HAS".toList = TOKEN_NOT_HAS from rfl]
    simp only [reduceCtorEq, if_false, if_true, hl]

theorem parseEntitiesS_of_tokens (type : ASTNodeType) (s s1 s2 w1 w2 : List Char)
    (h1 : lexS s = (TOKEN_ENTITIES, w1, s1)) (h2 : lexS s1 = (TOKEN_WHERE, w2, s2)) :
    parseEntitiesS type s =
      match parsePredicateS s2 with
      | (none, _) => none
      | (some predicate, s3) =>
        if (lexS s3).1 ≠ TOKEN_EOF then none
        else some (statementNode type (some predicate)) := by
  unfold parseEntitiesS
  rw [h1]
  simp only [ne_eq, not_true_eq_false, if_false]
  rw [h2]
  simp only [if_true]
  rcases parsePredicateS s2 with ⟨l, s3⟩
  cases l <;> rfl

theorem parseEntitiesS_where (type : ASTNodeType) (s : List Char) :
    parseEntitiesS type (' ' :: ("ENTITIES".toList ++ ' ' :: ("WHERE".toList ++ ' ' :: s))) =
      match parsePredicateS (' ' :: s) with
      | (none, _) => none
      | (some predicate, s2) =>
        if (lexS s2).1 ≠ TOKEN_EOF then none
        else some (statementNode type (some predicate)) := by
  have h1 : lexS (' ' :: ("ENTITIES".toList ++ ' ' :: ("WHERE".toList ++ ' ' :: s))) =
      (TOKEN_ENTITIES, "ENTITIES".toList, ' ' :: ("WHERE".toList ++ ' ' :: s)) := by
    rw [lexS_space _ _ (by decide), lexS_word _ _ (by decide) (stopsWord_cons _ _ (by decide))]
    rfl
  have h2 : lexS (' ' :: ("WHERE".toList ++ ' ' :: s)) =
      (TOKEN_WHERE, "WHERE".toList, ' ' :: s) := by
    rw [lexS_space _ _ (by decide), lexS_word _ _ (by decide) (stopsWord_cons _ _ (by decide))]
    rfl
  exact parseEntitiesS_of_tokens type _ _ _ _ _ h1 h2

theorem parseS_select (s : List Char) :
    parseS ("SELECT".toList ++ ' ' :: s) = parseEntitiesS AST_SELECT (' ' :: s) := by
  unfold parseS
  rw [lexS_word _ _ (by decide) (stopsWord_cons _ _ (by decide))]
  rfl

theorem parseS_count (s : List Char) :
    parseS ("COUNT".toList ++ ' ' :: s) = parseEntitiesS AST_COUNT (' ' :: s) := by
  unfold parseS
  rw [lexS_word _ _ (by decide) (stopsWord_cons _ _ (by decide))]
  rfl

theorem whereQueryText_eq (type kind : ASTNodeType) (names : List (List Char)) :
    whereQueryText type kind names =
      keywordText type ++ ' ' :: ("ENTITIES".toList ++ ' ' :: ("WHERE".toList ++ ' ' ::
        (keywordText kind ++ '(' :: (", ".toList.intercalate names ++ ')' :: [])))) := by
  unfold whereQueryText predicateText
  simp only [List.append_assoc]
  rfl

theorem parseS_whereQueryText (type kind : ASTNodeType) (names : List (List Char))
    (ht : type = AST_SELECT ∨ type = AST_COUNT)
    (hk : kind = AST_HAS ∨ kind = AST_HAS_ANY ∨ kind = AST_NOT_HAS) (hne : names ≠ [])
    (hn : ∀ m ∈ names, isIdentifierText m = true ∧ isKeywordText m = false) :
    parseS (whereQueryText type kind names) =
      some (statementNode type (some (predicateNode kind names))) := by
  rw [whereQueryText_eq]
  have hp := parsePredicateS_text kind names [] hk hne hn
  rcases ht with ht | ht <;> subst ht
  · rw [show keywordText AST_SELECT = "SELECT".toList from rfl, parseS_select,
      parseEntitiesS_where, hp]
    rfl
  · rw [show keywordText AST_COUNT = "COUNT".toList from rfl, parseS_count,
      parseEntitiesS_where, hp]
    rfl

theorem execute_select_vs_count (ecs : ECS) (predicate : QueryAST) (out0 : QueryEngineResult) :
    (QueryExecutor_execute (some ecs) (some (statementNode AST_COUNT (some predicate)))
        (some out0)).status =
      (QueryExecutor_execute (some ecs) (some (statementNode AST_SELECT (some predicate)))
        (some out0)).status ∧
    ∃ c s,
      (QueryExecutor_execute (some ecs) (some (statementNode AST_COUNT (some predicate)))
        (some out0)).outResult = some c ∧
      (QueryExecutor_execute (some ecs) (some (statementNode AST_SELECT (some predicate)))
        (some out0)).outResult = some s ∧
      c.count = s.count ∧ c.count = (s.entities.getD []).length ∧
      c.entities = none ∧ c.data = none := by
  cases predicate with
  | node ptype pdata pleft pright pchildren pcount =>
    unfold QueryExecutor_execute statementNode
    simp only [QueryAST_get_type, QueryAST_get_left, QueryAST_get_data, reduceCtorEq,
      or_true, true_or, if_true, Option.isNone_some, Bool.false_eq_true, if_false]
    cases hcl : pdata.toComponentList with
    | none => exact ⟨rfl, _, _, rfl, rfl, rfl, rfl, rfl, rfl⟩
    | some cl =>
      simp only []
      by_cases hc : cl.count = 0
      · simp only [hc, if_true]
        exact ⟨trivial, _, _, rfl, rfl, rfl, rfl, rfl, rfl⟩
      · simp only [hc, if_false]
        rcases hres : resolve_component_names ecs cl with ⟨ids, calls⟩
        simp only []
        by_cases hv : ids.length = 0
        · simp only [hv, if_true]
          exact ⟨trivial, _, _, rfl, rfl, rfl, rfl, rfl, rfl⟩
        · simp only [hv, if_false]
          by_cases h1 : ptype = AST_HAS
          · simp only [h1, if_true]
            refine ⟨trivial, _, _, rfl, rfl, ?_, ?_, rfl, rfl⟩ <;>
              cases ecs.ECS_query_entities ids <;> simp
          · by_cases h2 : ptype = AST_HAS_ANY
            · simp only [h2, reduceCtorEq, if_true, if_false]
              refine ⟨trivial, _, _, rfl, rfl, ?_, ?_, rfl, rfl⟩ <;>
                cases ecs.ECS_query_entities_any ids <;> simp
            · by_cases h3 : ptype = AST_NOT_HAS
              · simp only [h3, reduceCtorEq, if_true, if_false]
                refine ⟨trivial, _, _, rfl, rfl, ?_, ?_, rfl, rfl⟩ <;>
                  cases ecs.ECS_query_entities_excluding ids <;> simp
              · simp only [h1, h2, h3, if_false]
                exact ⟨trivial, _, _, rfl, rfl, rfl, rfl, rfl, rfl⟩


/-! ## Claims about the executor -/

/-- C10: for every registry, `QueryExecutor_execute` on a SELECT or on a COUNT
statement that has no predicate (left child absent) returns `QUERY_SUCCESS`
with count 0, no entity sequence and no payload, and makes no registry call
at all, hence no set query. -/
theorem C10_no_predicate_gives_empty_result (ecs : ECS) (data : ASTData)
    (right : Option QueryAST) (children : Option (List QueryAST)) (childCount : Nat)
    (out0 : QueryEngineResult) :
    QueryExecutor_execute (some ecs)
        (some (.node AST_SELECT data none right children childCount)) (some out0) =
      { status := QUERY_SUCCESS,
        outResult := some { entities := none, count := 0, capacity := 0, data := none },
        calls := [] } ∧
    QueryExecutor_execute (some ecs)
        (some (.node AST_COUNT data none right children childCount)) (some out0) =
      { status := QUERY_SUCCESS,
        outResult := some { entities := none, count := 0, capacity := 0, data := none },
        calls := [] } := by
  constructor <;>
    simp [QueryExecutor_execute, QueryAST_get_type, QueryAST_get_left]

/-- C3: for every registry and every list of component names, executing a
SELECT or COUNT statement whose HAS, HAS_ANY or NOT_HAS predicate carries the
list gives the same status and the same result record as executing it with
the list replaced by the sub-list of the names that resolve, and the status
is `QUERY_SUCCESS`: a name that does not resolve is dropped and is no failure. -/
theorem C3_unresolved_names_are_dropped (ecs : ECS) (type kind : ASTNodeType)
    (names : List (List Char)) (out0 : QueryEngineResult)
    (ht : type = AST_SELECT ∨ type = AST_COUNT)
    (hk : kind = AST_HAS ∨ kind = AST_HAS_ANY ∨ kind = AST_NOT_HAS) :
    (QueryExecutor_execute (some ecs)
        (some (statementNode type (some (predicateNode kind names)))) (some out0)).status =
      (QueryExecutor_execute (some ecs)
        (some (statementNode type (some (predicateNode kind
          (names.filter (fun n =>
            ecs.ECS_get_component_type_by_name n != ecs.COMPONENT_TYPE_INVALID))))))
        (some out0)).status ∧
    (QueryExecutor_execute (some ecs)
        (some (statementNode type (some (predicateNode kind names)))) (some out0)).outResult =
      (QueryExecutor_execute (some ecs)
        (some (statementNode type (some (predicateNode kind
          (names.filter (fun n =>
            ecs.ECS_get_component_type_by_name n != ecs.COMPONENT_TYPE_INVALID))))))
        (some out0)).outResult ∧
    (QueryExecutor_execute (some ecs)
        (some (statementNode type (some (predicateNode kind names)))) (some out0)).status =
      QUERY_SUCCESS := by
  have hf : (names.filter (fun n =>
      ecs.ECS_get_component_type_by_name n != ecs.COMPONENT_TYPE_INVALID)) =
      names.filter ecs.resolves := rfl
  rw [hf, execute_predicate ecs type kind names out0 ht hk,
    execute_predicate ecs type kind _ out0 ht hk, handles_filter]
  by_cases hh : ecs.handles names = []
  · simp [hh]
  · simp [hh]

/-- A use of C3 on the sample registry: `SELECT … HAS(Position, Ghost, Health)`
against `SELECT … HAS(Position, Health)`. -/
theorem C3_unresolved_names_are_dropped_witness :
    (AST_SELECT = AST_SELECT ∨ AST_SELECT = AST_COUNT) ∧
    (AST_HAS = AST_HAS ∨ AST_HAS = AST_HAS_ANY ∨ AST_HAS = AST_NOT_HAS) ∧
    (QueryExecutor_execute (some sampleRegistry)
        (some (statementNode AST_SELECT (some (predicateNode AST_HAS
          ["Position".toList, "Ghost".toList, "Health".toList])))) (some emptyResult)).outResult =
      (QueryExecutor_execute (some sampleRegistry)
        (some (statementNode AST_SELECT (some (predicateNode AST_HAS
          (["Position".toList, "Ghost".toList, "Health".toList].filter (fun n =>
            sampleRegistry.ECS_get_component_type_by_name n !=
              sampleRegistry.COMPONENT_TYPE_INVALID))))))
        (some emptyResult)).outResult :=
  ⟨Or.inl rfl, Or.inl rfl,
    (C3_unresolved_names_are_dropped sampleRegistry AST_SELECT AST_HAS
      ["Position".toList, "Ghost".toList, "Health".toList] emptyResult
      (Or.inl rfl) (Or.inl rfl)).2.1⟩

/-- C8: when at least one predicate name resolves, `QueryExecutor_execute` on
a SELECT or COUNT statement makes exactly one registry set query, the one of
the predicate kind (HAS: all of, HAS_ANY: any of, NOT_HAS: none of), and the
handles it passes are the handles of the names that resolve, in the order the
names were written, duplicates kept. -/
theorem C8_one_set_query_by_kind (ecs : ECS) (type : ASTNodeType)
    (names : List (List Char)) (out0 : QueryEngineResult)
    (ht : type = AST_SELECT ∨ type = AST_COUNT)
    (hres : ∃ n ∈ names,
      ecs.ECS_get_component_type_by_name n ≠ ecs.COMPONENT_TYPE_INVALID) :
    (QueryExecutor_execute (some ecs)
        (some (statementNode type (some (predicateNode AST_HAS names))))
        (some out0)).calls.filter RegistryCall.isSetQuery =
      [RegistryCall.query_entities
        ((names.filter (fun n =>
            ecs.ECS_get_component_type_by_name n != ecs.COMPONENT_TYPE_INVALID)).map
          ecs.ECS_get_component_type_by_name)] ∧
    (QueryExecutor_execute (some ecs)
        (some (statementNode type (some (predicateNode AST_HAS_ANY names))))
        (some out0)).calls.filter RegistryCall.isSetQuery =
      [RegistryCall.query_entities_any
        ((names.filter (fun n =>
            ecs.ECS_get_component_type_by_name n != ecs.COMPONENT_TYPE_INVALID)).map
          ecs.ECS_get_component_type_by_name)] ∧
    (QueryExecutor_execute (some ecs)
        (some (statementNode type (some (predicateNode AST_NOT_HAS names))))
        (some out0)).calls.filter RegistryCall.isSetQuery =
      [RegistryCall.query_entities_excluding
        ((names.filter (fun n =>
            ecs.ECS_get_component_type_by_name n != ecs.COMPONENT_TYPE_INVALID)).map
          ecs.ECS_get_component_type_by_name)] := by
  have hh : ecs.handles names ≠ [] := by
    rw [Ne, handles_eq_nil_iff]
    obtain ⟨n, hn, hr⟩ := hres
    intro hall
    have := hall n hn
    simp [ECS.resolves, hr] at this
  have hd : (names.filter (fun n =>
      ecs.ECS_get_component_type_by_name n != ecs.COMPONENT_TYPE_INVALID)).map
        ecs.ECS_get_component_type_by_name = ecs.handles names := rfl
  rw [hd, execute_predicate ecs type AST_HAS names out0 ht (Or.inl rfl),
    execute_predicate ecs type AST_HAS_ANY names out0 ht (Or.inr (Or.inl rfl)),
    execute_predicate ecs type AST_NOT_HAS names out0 ht (Or.inr (Or.inr rfl))]
  simp [hh, lookups_hold_no_set_query, setQueryCall, RegistryCall.isSetQuery,
    List.filter_cons]

/-- A use of C8 on the sample registry with the names Health, Ghost, Position,
Health: the handles passed are 2, 1, 2. -/
theorem C8_one_set_query_by_kind_witness :
    (AST_COUNT = AST_SELECT ∨ AST_COUNT = AST_COUNT) ∧
    (∃ n ∈ ["Health".toList, "Ghost".toList, "Position".toList, "Health".toList],
      sampleRegistry.ECS_get_component_type_by_name n ≠
        sampleRegistry.COMPONENT_TYPE_INVALID) ∧
    (QueryExecutor_execute (some sampleRegistry)
        (some (statementNode AST_COUNT (some (predicateNode AST_HAS_ANY
          ["Health".toList, "Ghost".toList, "Position".toList, "Health".toList]))))
        (some emptyResult)).calls.filter RegistryCall.isSetQuery =
      [RegistryCall.query_entities_any
        ((["Health".toList, "Ghost".toList, "Position".toList, "Health".toList].filter
          (fun n => sampleRegistry.ECS_get_component_type_by_name n !=
            sampleRegistry.COMPONENT_TYPE_INVALID)).map
          sampleRegistry.ECS_get_component_type_by_name)] :=
  ⟨Or.inr rfl, ⟨"Health".toList, by decide, by decide⟩,
    (C8_one_set_query_by_kind sampleRegistry AST_COUNT
      ["Health".toList, "Ghost".toList, "Position".toList, "Health".toList] emptyResult
      (Or.inr rfl) ⟨"Health".toList, by decide, by decide⟩).2.1⟩

theorem Query_execute_eq (ecs : ECS) (q : List Char) (out0 : QueryEngineResult) :
    Query_execute (some ecs) (some q) (some out0) =
      match parseS q with
      | none => { status := QUERY_ERROR_PARSE, outResult := some emptyResult, calls := [] }
      | some ast => QueryExecutor_execute (some ecs) (some ast) (some emptyResult) := by
  obtain ⟨p, hp, hwf, hrest⟩ := QueryParser_new_spec q
  unfold Query_execute
  simp only [hp]
  rw [QueryParser_parse_spec p hwf, hrest]
  cases parseS q <;> rfl

/-- C9: for a SELECT whose predicate has at least one name that resolves, the
executor succeeds, the entity sequence of the result is the sequence the
registry set query of the predicate kind returned (same elements, same order),
the count is the length of that sequence, and there is no payload. -/
theorem C9_select_copies_registry_sequence (ecs : ECS) (kind : ASTNodeType)
    (names : List (List Char)) (out0 : QueryEngineResult)
    (hk : kind = AST_HAS ∨ kind = AST_HAS_ANY ∨ kind = AST_NOT_HAS)
    (hres : ∃ n ∈ names,
      ecs.ECS_get_component_type_by_name n ≠ ecs.COMPONENT_TYPE_INVALID) :
    (QueryExecutor_execute (some ecs)
        (some (statementNode AST_SELECT (some (predicateNode kind names))))
        (some out0)).status = QUERY_SUCCESS ∧
    ∃ r, (QueryExecutor_execute (some ecs)
        (some (statementNode AST_SELECT (some (predicateNode kind names))))
        (some out0)).outResult = some r ∧
      r.entities.getD [] = ecs.setQuery kind (ecs.handles names) ∧
      r.count = (ecs.setQuery kind (ecs.handles names)).length ∧
      r.data = none := by
  have hh : ecs.handles names ≠ [] := by
    rw [Ne, handles_eq_nil_iff]
    obtain ⟨n, hn, hr⟩ := hres
    intro hall
    have := hall n hn
    simp [ECS.resolves, hr] at this
  rw [execute_predicate ecs AST_SELECT kind names out0 (Or.inl rfl) hk, if_neg hh]
  refine ⟨rfl, _, rfl, ?_⟩
  by_cases hl : (ecs.setQuery kind (ecs.handles names)).length > 0
  · simp [hl]
  · have h0 : ecs.setQuery kind (ecs.handles names) = [] := by
      simpa using hl
    simp [h0, emptyResult]

/-- A use of C9 on the sample registry: `SELECT … NOT_HAS(Health)`. -/
theorem C9_select_copies_registry_sequence_witness :
    (AST_NOT_HAS = AST_HAS ∨ AST_NOT_HAS = AST_HAS_ANY ∨ AST_NOT_HAS = AST_NOT_HAS) ∧
    (∃ n ∈ ["Health".toList],
      sampleRegistry.ECS_get_component_type_by_name n ≠
        sampleRegistry.COMPONENT_TYPE_INVALID) ∧
    ∃ r, (QueryExecutor_execute (some sampleRegistry)
        (some (statementNode AST_SELECT (some (predicateNode AST_NOT_HAS ["Health".toList]))))
        (some emptyResult)).outResult = some r ∧
      r.entities.getD [] =
        sampleRegistry.setQuery AST_NOT_HAS (sampleRegistry.handles ["Health".toList]) ∧
      r.count =
        (sampleRegistry.setQuery AST_NOT_HAS (sampleRegistry.handles ["Health".toList])).length ∧
      r.data = none :=
  ⟨Or.inr (Or.inr rfl), ⟨"Health".toList, by decide, by decide⟩,
    (C9_select_copies_registry_sequence sampleRegistry AST_NOT_HAS ["Health".toList]
      emptyResult (Or.inr (Or.inr rfl)) ⟨"Health".toList, by decide, by decide⟩).2⟩

/-- C4: for every registry and every SELECT or COUNT statement whose predicate
(HAS, HAS_ANY or NOT_HAS alike) has no name that resolves, the executor
returns `QUERY_SUCCESS` with count 0, no entity sequence and no payload, and
makes no set query; and `Query_execute` on
"SELECT entities WHERE has(Nonexistent)" does the same whenever the registry
has no component type named Nonexistent. -/
theorem C4_no_resolved_name_gives_empty_result (ecs : ECS) (type kind : ASTNodeType)
    (names : List (List Char)) (out0 : QueryEngineResult)
    (ht : type = AST_SELECT ∨ type = AST_COUNT)
    (hk : kind = AST_HAS ∨ kind = AST_HAS_ANY ∨ kind = AST_NOT_HAS) :
    ((∀ n ∈ names, ecs.ECS_get_component_type_by_name n = ecs.COMPONENT_TYPE_INVALID) →
      (QueryExecutor_execute (some ecs)
          (some (statementNode type (some (predicateNode kind names)))) (some out0)).status =
        QUERY_SUCCESS ∧
      (QueryExecutor_execute (some ecs)
          (some (statementNode type (some (predicateNode kind names)))) (some out0)).outResult =
        some { entities := none, count := 0, capacity := 0, data := none } ∧
      (QueryExecutor_execute (some ecs)
          (some (statementNode type (some (predicateNode kind names))))
          (some out0)).calls.filter RegistryCall.isSetQuery = []) ∧
    (ecs.ECS_get_component_type_by_name "Nonexistent".toList = ecs.COMPONENT_TYPE_INVALID →
      (Query_execute (some ecs) (some "SELECT entities WHERE has(Nonexistent)".toList)
          (some out0)).status = QUERY_SUCCESS ∧
      (Query_execute (some ecs) (some "SELECT entities WHERE has(Nonexistent)".toList)
          (some out0)).outResult =
        some { entities := none, count := 0, capacity := 0, data := none }) := by
  constructor
  · intro hun
    have hh : ecs.handles names = [] := by
      rw [handles_eq_nil_iff]
      intro n hn
      simp [ECS.resolves, hun n hn]
    rw [execute_predicate ecs type kind names out0 ht hk, if_pos hh]
    refine ⟨rfl, rfl, ?_⟩
    show (if names = [] then [] else _).filter _ = _
    split
    · rfl
    · exact lookups_hold_no_set_query names
  · intro hun
    have hp : parseS "SELECT entities WHERE has(Nonexistent)".toList =
        some (statementNode AST_SELECT (some (predicateNode AST_HAS ["Nonexistent".toList]))) :=
      rfl
    have hh : ecs.handles ["Nonexistent".toList] = [] := by
      rw [handles_eq_nil_iff]
      intro n hn
      simp only [List.mem_singleton] at hn
      subst hn
      unfold ECS.resolves
      rw [hun]
      simp
    rw [Query_execute_eq, hp]
    simp only
    rw [execute_predicate ecs AST_SELECT AST_HAS _ emptyResult (Or.inl rfl) (Or.inl rfl),
      if_pos hh]
    exact ⟨rfl, rfl⟩

/-- A use of C4 on the sample registry: `SELECT … NOT_HAS(Ghost)` returns no
entity although three entities exist, and the query text of the test. -/
theorem C4_no_resolved_name_gives_empty_result_witness :
    (AST_SELECT = AST_SELECT ∨ AST_SELECT = AST_COUNT) ∧
    (AST_NOT_HAS = AST_HAS ∨ AST_NOT_HAS = AST_HAS_ANY ∨ AST_NOT_HAS = AST_NOT_HAS) ∧
    (∀ n ∈ ["Ghost".toList],
      sampleRegistry.ECS_get_component_type_by_name n =
        sampleRegistry.COMPONENT_TYPE_INVALID) ∧
    sampleRegistry.ECS_get_component_type_by_name "Nonexistent".toList =
      sampleRegistry.COMPONENT_TYPE_INVALID ∧
    (QueryExecutor_execute (some sampleRegistry)
        (some (statementNode AST_SELECT (some (predicateNode AST_NOT_HAS ["Ghost".toList]))))
        (some emptyResult)).outResult =
      some { entities := none, count := 0, capacity := 0, data := none } ∧
    (Query_execute (some sampleRegistry)
        (some "SELECT entities WHERE has(Nonexistent)".toList) (some emptyResult)).outResult =
      some { entities := none, count := 0, capacity := 0, data := none } :=
  ⟨Or.inl rfl, Or.inr (Or.inr rfl), by decide, by decide,
    ((C4_no_resolved_name_gives_empty_result sampleRegistry AST_SELECT AST_NOT_HAS
      ["Ghost".toList] emptyResult (Or.inl rfl) (Or.inr (Or.inr rfl))).1 (by decide)).2.1,
    ((C4_no_resolved_name_gives_empty_result sampleRegistry AST_SELECT AST_NOT_HAS
      ["Ghost".toList] emptyResult (Or.inl rfl) (Or.inr (Or.inr rfl))).2 (by decide)).2⟩

/-! ## Claims about parsing and whole queries -/

/-- C1: for K in SELECT, COUNT, P in HAS, HAS_ANY, NOT_HAS and every
non-empty list of identifiers that spell no keyword (of any length),
`QueryParser_parse` on the text `K ENTITIES WHERE P(n1, ..., nk)` succeeds
with a root of the kind of K, without data, whose left child is a predicate
node of the kind of P whose component list holds exactly the names written:
same number, same order, duplicates kept, each name byte for byte. -/
theorem C1_where_query_parses_to_its_names (type kind : ASTNodeType)
    (names : List (List Char))
    (ht : type = AST_SELECT ∨ type = AST_COUNT)
    (hk : kind = AST_HAS ∨ kind = AST_HAS_ANY ∨ kind = AST_NOT_HAS) (hne : names ≠ [])
    (hn : ∀ n ∈ names, isIdentifierText n = true ∧ isKeywordText n = false) :
    (QueryParser_new (some (whereQueryText type kind names))).map
        (fun parser => (QueryParser_parse parser).1) =
      some (some (.node type .null
        (some (.node kind (.componentList { componentNames := names, count := names.length })
          none none none 0))
        none none 0)) := by
  obtain ⟨p, hp, hwf, hrest⟩ := QueryParser_new_spec (whereQueryText type kind names)
  rw [hp, Option.map_some', QueryParser_parse_spec p hwf, hrest,
    parseS_whereQueryText type kind names ht hk hne hn]
  rfl

/-- A use of C1: `COUNT ENTITIES WHERE HAS_ANY(Position, Health, a, b, a, c)`,
six names with a duplicate. -/
theorem C1_where_query_parses_to_its_names_witness :
    (AST_COUNT = AST_SELECT ∨ AST_COUNT = AST_COUNT) ∧
    (AST_HAS_ANY = AST_HAS ∨ AST_HAS_ANY = AST_HAS_ANY ∨ AST_HAS_ANY = AST_NOT_HAS) ∧
    ["Position".toList, "Health".toList, "a".toList, "b".toList, "a".toList, "c".toList] ≠ [] ∧
    (∀ n ∈ ["Position".toList, "Health".toList, "a".toList, "b".toList, "a".toList,
        "c".toList], isIdentifierText n = true ∧ isKeywordText n = false) ∧
    whereQueryText AST_COUNT AST_HAS_ANY
        ["Position".toList, "Health".toList, "a".toList, "b".toList, "a".toList,
          "c".toList] =
      "COUNT ENTITIES WHERE HAS_ANY(Position, Health, a, b, a, c)".toList ∧
    (QueryParser_new (some (whereQueryText AST_COUNT AST_HAS_ANY
        ["Position".toList, "Health".toList, "a".toList, "b".toList, "a".toList,
          "c".toList]))).map (fun parser => (QueryParser_parse parser).1) =
      some (some (.node AST_COUNT .null
        (some (.node AST_HAS_ANY
          (.componentList
            { componentNames := ["Position".toList, "Health".toList, "a".toList, "b".toList,
                "a".toList, "c".toList],
              count := 6 })
          none none none 0))
        none none 0)) :=
  ⟨Or.inr rfl, Or.inr (Or.inl rfl), by decide, by decide, by decide,
    C1_where_query_parses_to_its_names AST_COUNT AST_HAS_ANY
      ["Position".toList, "Health".toList, "a".toList, "b".toList, "a".toList, "c".toList]
      (Or.inr rfl) (Or.inr (Or.inl rfl)) (by decide) (by decide)⟩

/-- C7: for every registry and every predicate text P, `Query_execute` on
`COUNT ENTITIES WHERE P` returns the status it returns on
`SELECT ENTITIES WHERE P`, a count equal to the count of the SELECT result
and to the length of its entity sequence, and no entity sequence and no
payload of its own. -/
theorem C7_count_is_length_of_select (ecs : ECS) (P : List Char)
    (out0 out1 : QueryEngineResult) :
    (Query_execute (some ecs) (some ("COUNT ENTITIES WHERE ".toList ++ P)) (some out0)).status =
      (Query_execute (some ecs) (some ("SELECT ENTITIES WHERE ".toList ++ P))
        (some out1)).status ∧
    ∃ c s,
      (Query_execute (some ecs) (some ("COUNT ENTITIES WHERE ".toList ++ P))
        (some out0)).outResult = some c ∧
      (Query_execute (some ecs) (some ("SELECT ENTITIES WHERE ".toList ++ P))
        (some out1)).outResult = some s ∧
      c.count = s.count ∧ c.count = (s.entities.getD []).length ∧
      c.entities = none ∧ c.data = none := by
  have hc : "COUNT ENTITIES WHERE ".toList ++ P =
      "COUNT".toList ++ ' ' :: ("ENTITIES".toList ++ ' ' :: ("WHERE".toList ++ ' ' :: P)) := rfl
  have hs : "SELECT ENTITIES WHERE ".toList ++ P =
      "SELECT".toList ++ ' ' :: ("ENTITIES".toList ++ ' ' :: ("WHERE".toList ++ ' ' :: P)) := rfl
  rw [Query_execute_eq, Query_execute_eq, hc, hs, parseS_count, parseS_select,
    parseEntitiesS_where, parseEntitiesS_where]
  rcases parsePredicateS (' ' :: P) with ⟨l, s2⟩
  cases l with
  | none => exact ⟨rfl, _, _, rfl, rfl, rfl, rfl, rfl, rfl⟩
  | some predicate =>
    simp only []
    by_cases he : (lexS s2).1 = TOKEN_EOF
    · rw [if_neg (by simpa using he), if_neg (by simpa using he)]
      exact execute_select_vs_count ecs predicate emptyResult
    · rw [if_pos he, if_pos he]
      exact ⟨rfl, _, _, rfl, rfl, rfl, rfl, rfl, rfl⟩

theorem Query_execute_select_where (ecs : ECS) (kind : ASTNodeType)
    (names : List (List Char)) (out0 : QueryEngineResult)
    (hk : kind = AST_HAS ∨ kind = AST_HAS_ANY ∨ kind = AST_NOT_HAS) (hne : names ≠ [])
    (hn : ∀ n ∈ names, isIdentifierText n = true ∧ isKeywordText n = false) :
    (Query_execute (some ecs) (some (whereQueryText AST_SELECT kind names))
        (some out0)).status = QUERY_SUCCESS ∧
    (Query_execute (some ecs) (some (whereQueryText AST_SELECT kind names))
        (some out0)).entities =
      if ecs.handles names = [] then [] else ecs.setQuery kind (ecs.handles names) := by
  rw [Query_execute_eq, parseS_whereQueryText AST_SELECT kind names (Or.inl rfl) hk hne hn]
  simp only []
  rw [execute_predicate ecs AST_SELECT kind names emptyResult (Or.inl rfl) hk]
  by_cases hh : ecs.handles names = []
  · rw [if_pos hh, if_pos hh]
    exact ⟨rfl, rfl⟩
  · rw [if_neg hh, if_neg hh]
    refine ⟨rfl, ?_⟩
    cases hq : ecs.setQuery kind (ecs.handles names) with
    | nil => simp [ExecutorRun.entities, emptyResult]
    | cons a t => simp [ExecutorRun.entities]

theorem mem_handles (ecs : ECS) (names : List (List Char)) (t : ComponentTypeId) :
    t ∈ ecs.handles names ↔
      ∃ n ∈ names, ecs.resolves n = true ∧ ecs.ECS_get_component_type_by_name n = t := by
  unfold ECS.handles
  simp only [List.mem_map, List.mem_filter]
  constructor
  · rintro ⟨n, ⟨h1, h2⟩, h3⟩
    exact ⟨n, h1, h2, h3⟩
  · rintro ⟨n, h1, h2, h3⟩
    exact ⟨n, ⟨h1, h2⟩, h3⟩

theorem handles_ne_nil (ecs : ECS) (names : List (List Char))
    (hres : ∃ n ∈ names, ecs.resolves n = true) : ecs.handles names ≠ [] := by
  rw [Ne, handles_eq_nil_iff]
  obtain ⟨n, hn, hr⟩ := hres
  intro hall
  rw [hall n hn] at hr
  exact Bool.noConfusion hr

theorem sampleRegistry_all_of (ts : List ComponentTypeId) (e : EntityId) :
    e ∈ sampleRegistry.ECS_query_entities ts ↔
      (sampleRegistry.Entity_exists e = true ∧ ∀ t ∈ ts, sampleRegistry.carries e t = true) := by
  simp [sampleRegistry, ECS.carries, List.mem_filter, List.all_eq_true]

theorem sampleRegistry_any_of (ts : List ComponentTypeId) (e : EntityId) :
    e ∈ sampleRegistry.ECS_query_entities_any ts ↔
      (sampleRegistry.Entity_exists e = true ∧ ∃ t ∈ ts, sampleRegistry.carries e t = true) := by
  simp [sampleRegistry, ECS.carries, List.mem_filter, List.any_eq_true]

theorem sampleRegistry_none_of (ts : List ComponentTypeId) (e : EntityId) :
    e ∈ sampleRegistry.ECS_query_entities_excluding ts ↔
      (sampleRegistry.Entity_exists e = true ∧
        ∀ t ∈ ts, sampleRegistry.carries e t = false) := by
  simp [sampleRegistry, ECS.carries, List.mem_filter, List.all_eq_true]

/-- C5, as stated, fails: the sample registry answers the "all of" query
with exactly the existing entities that carry every given type, and on
`SELECT ENTITIES WHERE HAS(Ghost)`, where Ghost does not resolve, the
intersection over the resolvable names is over no name at all and so holds
every existing entity, while the returned entity set is empty. -/
theorem C5_counterexample :
    (∀ ts e, e ∈ sampleRegistry.ECS_query_entities ts ↔
      (sampleRegistry.Entity_exists e = true ∧ ∀ t ∈ ts, sampleRegistry.carries e t = true)) ∧
    ¬ (∀ e, e ∈ (Query_execute (some sampleRegistry)
          (some "SELECT ENTITIES WHERE HAS(Ghost)".toList) (some emptyResult)).entities ↔
        (sampleRegistry.Entity_exists e = true ∧
          ∀ n ∈ ["Ghost".toList], sampleRegistry.resolves n = true →
            sampleRegistry.carries e (sampleRegistry.ECS_get_component_type_by_name n) =
              true)) := by
  refine ⟨sampleRegistry_all_of, ?_⟩
  intro h
  have h1 := (h { high := 0, low := 1 }).2 (by decide)
  revert h1
  decide

/-- C5, amended: assuming the registry's "all of" query returns exactly the
existing entities that carry every given component type, `Query_execute` on
`SELECT ENTITIES WHERE HAS(c1, ..., cn)` succeeds and, when at least one name
resolves, returns exactly the existing entities that carry the component of
every resolvable name (names that do not resolve put no condition); when no
name resolves it returns no entity. -/
theorem C5_select_has_is_intersection (ecs : ECS) (names : List (List Char))
    (out0 : QueryEngineResult)
    (hall : ∀ ts e, e ∈ ecs.ECS_query_entities ts ↔
      (ecs.Entity_exists e = true ∧ ∀ t ∈ ts, ecs.carries e t = true))
    (hne : names ≠ [])
    (hn : ∀ n ∈ names, isIdentifierText n = true ∧ isKeywordText n = false) :
    (Query_execute (some ecs) (some (whereQueryText AST_SELECT AST_HAS names))
        (some out0)).status = QUERY_SUCCESS ∧
    ((∃ n ∈ names, ecs.resolves n = true) →
      ∀ e, e ∈ (Query_execute (some ecs) (some (whereQueryText AST_SELECT AST_HAS names))
          (some out0)).entities ↔
        (ecs.Entity_exists e = true ∧
          ∀ n ∈ names, ecs.resolves n = true →
            ecs.carries e (ecs.ECS_get_component_type_by_name n) = true)) ∧
    ((∀ n ∈ names, ecs.resolves n = false) →
      (Query_execute (some ecs) (some (whereQueryText AST_SELECT AST_HAS names))
          (some out0)).entities = []) := by
  obtain ⟨h1, h2⟩ := Query_execute_select_where ecs AST_HAS names out0 (Or.inl rfl) hne hn
  refine ⟨h1, ?_, ?_⟩
  · intro hres e
    rw [h2, if_neg (handles_ne_nil ecs names hres)]
    simp only [ECS.setQuery, if_true]
    rw [hall]
    constructor
    · rintro ⟨he, hc⟩
      exact ⟨he, fun n hn hr => hc _ ((mem_handles ecs names _).2 ⟨n, hn, hr, rfl⟩)⟩
    · rintro ⟨he, hc⟩
      refine ⟨he, fun t ht => ?_⟩
      obtain ⟨n, hn, hr, rfl⟩ := (mem_handles ecs names t).1 ht
      exact hc n hn hr
  · intro hun
    rw [h2, if_pos ((handles_eq_nil_iff ecs names).2 hun)]


/-- A use of the amended C5 on the sample registry:
`SELECT ENTITIES WHERE HAS(Position, Ghost, Health)` returns the one entity
that carries Position and Health. -/
theorem C5_select_has_is_intersection_witness :
    ["Position".toList, "Ghost".toList, "Health".toList] ≠ [] ∧
    (∀ n ∈ ["Position".toList, "Ghost".toList, "Health".toList],
      isIdentifierText n = true ∧ isKeywordText n = false) ∧
    (∃ n ∈ ["Position".toList, "Ghost".toList, "Health".toList],
      sampleRegistry.resolves n = true) ∧
    whereQueryText AST_SELECT AST_HAS ["Position".toList, "Ghost".toList, "Health".toList] =
      "SELECT ENTITIES WHERE HAS(Position, Ghost, Health)".toList ∧
    (∀ e, e ∈ (Query_execute (some sampleRegistry)
          (some (whereQueryText AST_SELECT AST_HAS
            ["Position".toList, "Ghost".toList, "Health".toList]))
          (some emptyResult)).entities ↔
        (sampleRegistry.Entity_exists e = true ∧
          ∀ n ∈ ["Position".toList, "Ghost".toList, "Health".toList],
            sampleRegistry.resolves n = true →
              sampleRegistry.carries e (sampleRegistry.ECS_get_component_type_by_name n) =
                true)) ∧
    (Query_execute (some sampleRegistry)
        (some (whereQueryText AST_SELECT AST_HAS
          ["Position".toList, "Ghost".toList, "Health".toList]))
        (some emptyResult)).entities = [{ high := 0, low := 2 }] :=
  ⟨by decide, by decide, by decide, by decide,
    (C5_select_has_is_intersection sampleRegistry
      ["Position".toList, "Ghost".toList, "Health".toList] emptyResult
      sampleRegistry_all_of (by decide) (by decide)).2.1 (by decide),
    by decide⟩

/-- C6, as stated, fails for NOT_HAS: the sample registry answers the "any
of" and "none of" queries as assumed, and on
`SELECT ENTITIES WHERE NOT_HAS(Ghost)`, where Ghost does not resolve, the
union of the entity sets of the listed components is empty and its complement
is every existing entity, while the returned entity set is empty. -/
theorem C6_counterexample :
    (∀ ts e, e ∈ sampleRegistry.ECS_query_entities_any ts ↔
      (sampleRegistry.Entity_exists e = true ∧ ∃ t ∈ ts, sampleRegistry.carries e t = true)) ∧
    (∀ ts e, e ∈ sampleRegistry.ECS_query_entities_excluding ts ↔
      (sampleRegistry.Entity_exists e = true ∧
        ∀ t ∈ ts, sampleRegistry.carries e t = false)) ∧
    ¬ (∀ e, e ∈ (Query_execute (some sampleRegistry)
          (some "SELECT ENTITIES WHERE NOT_HAS(Ghost)".toList) (some emptyResult)).entities ↔
        (sampleRegistry.Entity_exists e = true ∧
          ¬ ∃ n ∈ ["Ghost".toList], sampleRegistry.resolves n = true ∧
            sampleRegistry.carries e (sampleRegistry.ECS_get_component_type_by_name n) =
              true)) := by
  refine ⟨sampleRegistry_any_of, sampleRegistry_none_of, ?_⟩
  intro h
  have h1 := (h { high := 0, low := 3 }).2 (by decide)
  revert h1
  decide

/-- C6, amended: assuming the registry's "any of" and "none of" queries
return the existing entities that carry at least one, respectively none, of
the given types, `SELECT ENTITIES WHERE HAS_ANY(...)` returns the union of the
entity sets of the resolvable names, and `SELECT ENTITIES WHERE NOT_HAS(...)`
returns, when at least one name resolves, the complement of that union over
all existing entities (entities without any component included); when no name
resolves NOT_HAS returns no entity. -/
theorem C6_has_any_union_not_has_complement (ecs : ECS) (names : List (List Char))
    (out0 : QueryEngineResult)
    (hany : ∀ ts e, e ∈ ecs.ECS_query_entities_any ts ↔
      (ecs.Entity_exists e = true ∧ ∃ t ∈ ts, ecs.carries e t = true))
    (hnone : ∀ ts e, e ∈ ecs.ECS_query_entities_excluding ts ↔
      (ecs.Entity_exists e = true ∧ ∀ t ∈ ts, ecs.carries e t = false))
    (hne : names ≠ [])
    (hn : ∀ n ∈ names, isIdentifierText n = true ∧ isKeywordText n = false) :
    (∀ e, e ∈ (Query_execute (some ecs) (some (whereQueryText AST_SELECT AST_HAS_ANY names))
          (some out0)).entities ↔
        (ecs.Entity_exists e = true ∧
          ∃ n ∈ names, ecs.resolves n = true ∧
            ecs.carries e (ecs.ECS_get_component_type_by_name n) = true)) ∧
    ((∃ n ∈ names, ecs.resolves n = true) →
      ∀ e, e ∈ (Query_execute (some ecs) (some (whereQueryText AST_SELECT AST_NOT_HAS names))
          (some out0)).entities ↔
        (ecs.Entity_exists e = true ∧
          ¬ ∃ n ∈ names, ecs.resolves n = true ∧
            ecs.carries e (ecs.ECS_get_component_type_by_name n) = true)) ∧
    ((∀ n ∈ names, ecs.resolves n = false) →
      (Query_execute (some ecs) (some (whereQueryText AST_SELECT AST_NOT_HAS names))
          (some out0)).entities = []) := by
  obtain ⟨-, h2⟩ := Query_execute_select_where ecs AST_HAS_ANY names out0
    (Or.inr (Or.inl rfl)) hne hn
  obtain ⟨-, h3⟩ := Query_execute_select_where ecs AST_NOT_HAS names out0
    (Or.inr (Or.inr rfl)) hne hn
  refine ⟨?_, ?_, ?_⟩
  · intro e
    rw [h2]
    by_cases hh : ecs.handles names = []
    · rw [if_pos hh]
      have hun := (handles_eq_nil_iff ecs names).1 hh
      constructor
      · intro hm
        simp at hm
      · rintro ⟨-, n, hn1, hr, -⟩
        rw [hun n hn1] at hr
        exact Bool.noConfusion hr
    · rw [if_neg hh]
      simp only [ECS.setQuery, reduceCtorEq, if_false, if_true]
      rw [hany]
      constructor
      · rintro ⟨he, t, ht, hc⟩
        obtain ⟨n, hn1, hr, rfl⟩ := (mem_handles ecs names t).1 ht
        exact ⟨he, n, hn1, hr, hc⟩
      · rintro ⟨he, n, hn1, hr, hc⟩
        exact ⟨he, _, (mem_handles ecs names _).2 ⟨n, hn1, hr, rfl⟩, hc⟩
  · intro hres e
    rw [h3, if_neg (handles_ne_nil ecs names hres)]
    simp only [ECS.setQuery, reduceCtorEq, if_false]
    rw [hnone]
    constructor
    · rintro ⟨he, hc⟩
      refine ⟨he, ?_⟩
      rintro ⟨n, hn1, hr, hcar⟩
      rw [hc _ ((mem_handles ecs names _).2 ⟨n, hn1, hr, rfl⟩)] at hcar
      exact Bool.noConfusion hcar
    · rintro ⟨he, hc⟩
      refine ⟨he, fun t ht => ?_⟩
      obtain ⟨n, hn1, hr, rfl⟩ := (mem_handles ecs names t).1 ht
      cases hcar : ecs.carries e (ecs.ECS_get_component_type_by_name n) with
      | false => rfl
      | true => exact absurd ⟨n, hn1, hr, hcar⟩ hc
  · intro hun
    rw [h3, if_pos ((handles_eq_nil_iff ecs names).2 hun)]

/-- A use of the amended C6 on the sample registry:
`SELECT ENTITIES WHERE NOT_HAS(Health)` returns the entity with Position only
and the entity without any component. -/
theorem C6_has_any_union_not_has_complement_witness :
    ["Health".toList] ≠ [] ∧
    (∀ n ∈ ["Health".toList], isIdentifierText n = true ∧ isKeywordText n = false) ∧
    (∃ n ∈ ["Health".toList], sampleRegistry.resolves n = true) ∧
    (∀ e, e ∈ (Query_execute (some sampleRegistry)
          (some (whereQueryText AST_SELECT AST_NOT_HAS ["Health".toList]))
          (some emptyResult)).entities ↔
        (sampleRegistry.Entity_exists e = true ∧
          ¬ ∃ n ∈ ["Health".toList], sampleRegistry.resolves n = true ∧
            sampleRegistry.carries e (sampleRegistry.ECS_get_component_type_by_name n) =
              true)) ∧
    (Query_execute (some sampleRegistry)
        (some (whereQueryText AST_SELECT AST_NOT_HAS ["Health".toList]))
        (some emptyResult)).entities = [{ high := 0, low := 1 }, { high := 0, low := 3 }] :=
  ⟨by decide, by decide, by decide,
    (C6_has_any_union_not_has_complement sampleRegistry ["Health".toList] emptyResult
      sampleRegistry_any_of sampleRegistry_none_of (by decide) (by decide)).2.1 (by decide),
    by decide⟩
/-! ## Decimal numerals and entity references -/

theorem digitChar_spec (d : Nat) (h : d < 10) :
    isdigit (Nat.digitChar d) = true ∧ (Nat.digitChar d).toNat - 48 = d := by
  interval_cases d <;> exact ⟨by decide, by decide⟩

theorem toDigitsCore_spec (fuel n : Nat) (ds : List Char) (hf : n < fuel)
    (hds : ∀ c ∈ ds, isdigit c = true) :
    (∀ c ∈ Nat.toDigitsCore 10 fuel n ds, isdigit c = true) ∧
    (Nat.toDigitsCore 10 fuel n ds).foldl (fun acc c => acc * 10 + (c.toNat - 48)) 0 =
      ds.foldl (fun acc c => acc * 10 + (c.toNat - 48)) n ∧
    Nat.toDigitsCore 10 fuel n ds ≠ [] := by
  induction fuel generalizing n ds with
  | zero => omega
  | succ k ih =>
    obtain ⟨hd1, hd2⟩ := digitChar_spec (n % 10) (Nat.mod_lt _ (by omega))
    unfold Nat.toDigitsCore
    simp only []
    by_cases h0 : n / 10 = 0
    · rw [if_pos h0]
      refine ⟨?_, ?_, by simp⟩
      · intro c hc
        rcases List.mem_cons.1 hc with hc | hc
        · rw [hc]; exact hd1
        · exact hds c hc
      · simp only [List.foldl_cons, hd2]
        have : n % 10 = n := by omega
        simp [this]
    · rw [if_neg h0]
      have hlt : n / 10 < k := by omega
      obtain ⟨i1, i2, i3⟩ := ih (n / 10) (Nat.digitChar (n % 10) :: ds) hlt (by
        intro c hc
        rcases List.mem_cons.1 hc with hc | hc
        · rw [hc]; exact hd1
        · exact hds c hc)
      refine ⟨i1, ?_, i3⟩
      rw [i2]
      simp only [List.foldl_cons, hd2]
      have : n / 10 * 10 + n % 10 = n := by omega
      rw [this]

theorem toDigits_spec (n : Nat) :
    (∀ c ∈ Nat.toDigits 10 n, isdigit c = true) ∧ decimalValue (Nat.toDigits 10 n) = n ∧
    Nat.toDigits 10 n ≠ [] := by
  obtain ⟨h1, h2, h3⟩ := toDigitsCore_spec (n + 1) n [] (by omega) (by simp)
  exact ⟨h1, by simpa [decimalValue, Nat.toDigits] using h2, h3⟩

theorem isspace_of_digit {c : Char} (h : isdigit c = true) : isspace c = false := by
  simp only [isdigit, Bool.and_eq_true, decide_eq_true_eq] at h
  simp only [isspace, Bool.or_eq_false_iff, beq_eq_false_iff_ne, Bool.and_eq_false_iff,
    decide_eq_false_iff_not]
  exact ⟨by omega, by omega⟩

theorem strtoull_digits (d s : List Char) (hne : d ≠ []) (hd : ∀ c ∈ d, isdigit c = true)
    (hs : ∀ c ∈ s.head?, isdigit c = false) :
    strtoull (d ++ s) =
      (if decimalValue d > ULLONG_MAX then ULLONG_MAX else decimalValue d, d.length) := by
  cases d with
  | nil => exact absurd rfl hne
  | cons a t =>
    have ha : isdigit a = true := hd a (by simp)
    have hsp : isspace a = false := isspace_of_digit ha
    have h1 : a ≠ '-' := by
      intro h; subst h; exact absurd ha (by decide)
    have h2 : a ≠ '+' := by
      intro h; subst h; exact absurd ha (by decide)
    have htw : ((a :: t) ++ s).takeWhile isdigit = a :: t := takeWhile_append_stop _ _ _ hd hs
    unfold strtoull
    simp only [List.cons_append, List.takeWhile_cons, hsp, List.length_nil, List.drop_zero,
      List.head?_cons, h1, h2, if_false, Bool.false_eq_true]
    have htw2 : (a :: (t ++ s)).takeWhile isdigit = a :: t := htw
    simp only [List.takeWhile_cons, ha, if_true] at htw2
    simp only [ha, if_true, htw2, List.length_cons, Nat.add_one_ne_zero, if_false,
      decimalValue, zero_add, Bool.false_eq_true]

theorem dropWhile_append_stop (f : Char → Bool) (w s : List Char)
    (hw : ∀ c ∈ w, f c = true) (hs : ∀ c ∈ s.head?, f c = false) :
    (w ++ s).dropWhile f = s := by
  induction w with
  | nil =>
    cases s with
    | nil => rfl
    | cons a t =>
      have := hs a (by simp)
      simp [List.dropWhile_cons, this]
  | cons a t ih =>
    have ha := hw a (by simp)
    simp only [List.cons_append, List.dropWhile_cons, ha, if_true]
    exact ih (fun c hc => hw c (by simp [hc]))

theorem parseEntityIdS_of (s s1 r : List Char) (hs1 : s.dropWhile isspace = s1)
    (hne : s1 ≠ []) (hd : s1.dropWhile isdigit = ':' :: r)
    (hc1 : (strtoull s1).2 = (s1.takeWhile isdigit).length) (hr : r ≠ [])
    (hz : (r.takeWhile isdigit).length ≠ 0)
    (hc2 : (strtoull r).2 = (r.takeWhile isdigit).length) :
    parseEntityIdS s =
      (some { high := (strtoull s1).1, low := (strtoull r).1 }, r.dropWhile isdigit) := by
  unfold parseEntityIdS
  simp only []
  rw [hs1]
  cases s1 with
  | nil => exact absurd rfl hne
  | cons a t =>
    simp only []
    rw [hd]
    simp only [ne_eq, not_true_eq_false, if_false, hc1]
    cases r with
    | nil => exact absurd rfl hr
    | cons b u =>
      simp only [hz, hc2, not_true_eq_false, if_false]

theorem parseEntityIdS_digits (dh dl tail : List Char) (hh : dh ≠ [])
    (hhd : ∀ c ∈ dh, isdigit c = true) (hl : dl ≠ []) (hld : ∀ c ∈ dl, isdigit c = true)
    (ht : ∀ c ∈ tail.head?, isdigit c = false) :
    parseEntityIdS (' ' :: (dh ++ ':' :: (dl ++ tail))) =
      (some { high := if decimalValue dh > ULLONG_MAX then ULLONG_MAX else decimalValue dh,
              low := if decimalValue dl > ULLONG_MAX then ULLONG_MAX else decimalValue dl },
        tail) := by
  have hcolon : ∀ c ∈ (':' :: (dl ++ tail)).head?, isdigit c = false := by
    intro c hc
    simp only [List.head?_cons, Option.mem_def, Option.some.injEq] at hc
    subst hc
    decide
  have e1 : (dh ++ ':' :: (dl ++ tail)).dropWhile isdigit = ':' :: (dl ++ tail) :=
    dropWhile_append_stop _ _ _ hhd hcolon
  have e2 : (dh ++ ':' :: (dl ++ tail)).takeWhile isdigit = dh :=
    takeWhile_append_stop _ _ _ hhd hcolon
  have e3 : (dl ++ tail).dropWhile isdigit = tail := dropWhile_append_stop _ _ _ hld ht
  have e4 : (dl ++ tail).takeWhile isdigit = dl := takeWhile_append_stop _ _ _ hld ht
  have s1 := strtoull_digits dh (':' :: (dl ++ tail)) hh hhd hcolon
  have s2 := strtoull_digits dl tail hl hld ht
  have hsp : (' ' :: (dh ++ ':' :: (dl ++ tail))).dropWhile isspace =
      dh ++ ':' :: (dl ++ tail) := by
    cases dh with
    | nil => exact absurd rfl hh
    | cons a t =>
      have hsp : isspace a = false := isspace_of_digit (hhd a (by simp))
      simp [List.dropWhile_cons, show isspace ' ' = true from by decide, hsp]
  have hdl : dl.length ≠ 0 := by
    intro h0
    exact hl (List.length_eq_zero.mp h0)
  have := parseEntityIdS_of _ _ _ hsp (by simp [hh]) e1 (by rw [s1, e2]) (by simp [hl])
    (by rw [e4]; exact hdl) (by rw [s2, e4])
  rw [this, s1, s2, e3]

theorem parseShowS_of_tokens (cn : Option (List Char)) (s s1 s2 s3 w1 w2 w3 : List Char)
    (id : EntityIdData)
    (h1 : lexS s = (TOKEN_ALL, w1, s1) ∧ cn = none ∨
      lexS s = (TOKEN_IDENTIFIER, w1, s1) ∧ cn = some (w1.takeWhile (fun c => c ≠ NUL)))
    (h2 : lexS s1 = (TOKEN_OF, w2, s2)) (h3 : lexS s2 = (TOKEN_ENTITY, w3, s3))
    (h4 : parseEntityIdS s3 = (some id, [])) :
    parseShowS s =
      some (.node AST_SHOW (.showData { componentName := cn, entityId := some id })
        none none none 0) := by
  unfold parseShowS
  rcases h1 with ⟨h1, hcn⟩ | ⟨h1, hcn⟩
  · rw [h1]
    simp only [if_true]
    rw [h2]
    simp only [ne_eq, not_true_eq_false, if_false]
    rw [h3]
    simp only [ne_eq, not_true_eq_false, if_false, h4, lexS_nil, hcn]
  · rw [h1]
    simp only [reduceCtorEq, if_false, if_true]
    rw [h2]
    simp only [ne_eq, not_true_eq_false, if_false]
    rw [h3]
    simp only [ne_eq, not_true_eq_false, if_false, h4, lexS_nil, hcn]

theorem parseS_show (s : List Char) :
    parseS ("SHOW".toList ++ ' ' :: s) = parseShowS (' ' :: s) := by
  unfold parseS
  rw [lexS_word _ _ (by decide) (stopsWord_cons _ _ (by decide))]
  rfl

theorem showQueryText_eq (target : List Char) (high low : Nat) :
    showQueryText target high low =
      "SHOW".toList ++ ' ' :: (target ++ ' ' :: ("OF".toList ++ ' ' :: ("ENTITY".toList ++
        ' ' :: (Nat.toDigits 10 high ++ ':' :: (Nat.toDigits 10 low ++ []))))) := by
  unfold showQueryText
  simp only [List.append_assoc, List.append_nil]
  rfl

theorem parseS_showQueryText (target : List Char) (cn : Option (List Char)) (high low : Nat)
    (hhigh : high ≤ ULLONG_MAX) (hlow : low ≤ ULLONG_MAX)
    (ht : target = "ALL".toList ∧ cn = none ∨
      (isIdentifierText target = true ∧ isKeywordText target = false) ∧ cn = some target) :
    parseS (showQueryText target high low) = some (showNode cn high low) := by
  obtain ⟨a1, a2, a3⟩ := toDigits_spec high
  obtain ⟨b1, b2, b3⟩ := toDigits_spec low
  have h4 := parseEntityIdS_digits (Nat.toDigits 10 high) (Nat.toDigits 10 low) [] a3 a1 b3 b1
    (by intro c hc; simp at hc)
  rw [a2, b2, if_neg (by omega), if_neg (by omega)] at h4
  have h3 : lexS (' ' :: ("ENTITY".toList ++ ' ' ::
      (Nat.toDigits 10 high ++ ':' :: (Nat.toDigits 10 low ++ [])))) =
      (TOKEN_ENTITY, "ENTITY".toList,
        ' ' :: (Nat.toDigits 10 high ++ ':' :: (Nat.toDigits 10 low ++ []))) := by
    rw [lexS_space _ _ (by decide), lexS_word _ _ (by decide) (stopsWord_cons _ _ (by decide))]
    rfl
  have h2 : lexS (' ' :: ("OF".toList ++ ' ' :: ("ENTITY".toList ++ ' ' ::
      (Nat.toDigits 10 high ++ ':' :: (Nat.toDigits 10 low ++ []))))) =
      (TOKEN_OF, "OF".toList, ' ' :: ("ENTITY".toList ++ ' ' ::
        (Nat.toDigits 10 high ++ ':' :: (Nat.toDigits 10 low ++ [])))) := by
    rw [lexS_space _ _ (by decide), lexS_word _ _ (by decide) (stopsWord_cons _ _ (by decide))]
    rfl
  rw [showQueryText_eq, parseS_show]
  refine parseShowS_of_tokens cn _ _ _ _ target _ _ _ ?_ h2 h3 h4
  rcases ht with ⟨ht, hcn⟩ | ⟨⟨hid, hkw⟩, hcn⟩
  · left
    subst ht
    refine ⟨?_, hcn⟩
    rw [lexS_space _ _ (by decide), lexS_word _ _ (by decide) (stopsWord_cons _ _ (by decide))]
    rfl
  · right
    refine ⟨?_, ?_⟩
    · rw [lexS_space _ _ (by decide), lexS_name _ _ hid hkw (stopsWord_cons _ _ (by decide))]
    · rw [hcn, takeWhile_no_nul (identifierText_no_nul hid)]

/-- C2: for all unsigned 64-bit values high and low, `QueryParser_parse` on
`SHOW T OF ENTITY <high>:<low>`, the two values written in decimal, succeeds
with an `AST_SHOW` node whose entity id has exactly these two values; with
T the keyword ALL the component name is absent, and with T an identifier that
spells no keyword the component name is T, byte for byte. -/
theorem C2_show_query_parses_to_its_entity (high low : Nat)
    (hhigh : high < 2 ^ 64) (hlow : low < 2 ^ 64) :
    (QueryParser_new (some (showQueryText "ALL".toList high low))).map
        (fun parser => (QueryParser_parse parser).1) =
      some (some (.node AST_SHOW
        (.showData { componentName := none, entityId := some { high := high, low := low } })
        none none none 0)) ∧
    ∀ target, isIdentifierText target = true → isKeywordText target = false →
      (QueryParser_new (some (showQueryText target high low))).map
          (fun parser => (QueryParser_parse parser).1) =
        some (some (.node AST_SHOW
          (.showData
            { componentName := some target, entityId := some { high := high, low := low } })
          none none none 0)) := by
  have h1 : high ≤ ULLONG_MAX := by unfold ULLONG_MAX; omega
  have h2 : low ≤ ULLONG_MAX := by unfold ULLONG_MAX; omega
  constructor
  · obtain ⟨p, hp, hwf, hrest⟩ := QueryParser_new_spec (showQueryText "ALL".toList high low)
    rw [hp, Option.map_some', QueryParser_parse_spec p hwf, hrest,
      parseS_showQueryText _ none high low h1 h2 (Or.inl ⟨rfl, rfl⟩)]
    rfl
  · intro target hid hkw
    obtain ⟨p, hp, hwf, hrest⟩ := QueryParser_new_spec (showQueryText target high low)
    rw [hp, Option.map_some', QueryParser_parse_spec p hwf, hrest,
      parseS_showQueryText _ (some target) high low h1 h2 (Or.inr ⟨⟨hid, hkw⟩, rfl⟩)]
    rfl

/-- A use of C2 at the largest 64-bit value:
`SHOW Position OF ENTITY 18446744073709551615:0`. -/
theorem C2_show_query_parses_to_its_entity_witness :
    18446744073709551615 < 2 ^ 64 ∧ 0 < 2 ^ 64 ∧
    isIdentifierText "Position".toList = true ∧ isKeywordText "Position".toList = false ∧
    showQueryText "Position".toList 18446744073709551615 0 =
      "SHOW Position OF ENTITY 18446744073709551615:0".toList ∧
    (QueryParser_new (some (showQueryText "Position".toList 18446744073709551615 0))).map
        (fun parser => (QueryParser_parse parser).1) =
      some (some (.node AST_SHOW
        (.showData
          { componentName := some "Position".toList,
            entityId := some { high := 18446744073709551615, low := 0 } })
        none none none 0)) :=
  ⟨by decide, by decide, by decide, by decide, by decide,
    (C2_show_query_parses_to_its_entity 18446744073709551615 0 (by decide) (by decide)).2
      "Position".toList (by decide) (by decide)⟩

/-! ## Claims about SHOW -/

/-- What the executor does on a SHOW statement with a present entity id. -/
theorem execute_show (ecs : ECS) (componentName : Option (List Char)) (high low : Nat)
    (out0 : QueryEngineResult) :
    QueryExecutor_execute (some ecs) (some (showNode componentName high low)) (some out0) =
      if ecs.Entity_exists { high := high, low := low } = false then
        { status := QUERY_ERROR_EXECUTION, outResult := some emptyResult,
          calls := [.Entity_exists { high := high, low := low }] }
      else
        match componentName with
        | none =>
          { status := QUERY_SUCCESS,
            outResult := some
              { entities := none,
                count := (ecs.ECS_get_entity_components { high := high, low := low } 64).length,
                capacity := 0, data := none },
            calls := [.Entity_exists { high := high, low := low },
              .get_entity_components { high := high, low := low } 64] }
        | some name =>
          if ecs.ECS_get_component_type_by_name name = ecs.COMPONENT_TYPE_INVALID then
            { status := QUERY_ERROR_EXECUTION, outResult := some emptyResult,
              calls := [.Entity_exists { high := high, low := low },
                .get_component_type_by_name name] }
          else
            match ecs.ECS_get_component { high := high, low := low }
                (ecs.ECS_get_component_type_by_name name) with
            | none =>
              { status := QUERY_ERROR_EXECUTION, outResult := some emptyResult,
                calls := [.Entity_exists { high := high, low := low },
                  .get_component_type_by_name name,
                  .get_component { high := high, low := low }
                    (ecs.ECS_get_component_type_by_name name)] }
            | some componentData =>
              match ecs.ECS_get_component_type (ecs.ECS_get_component_type_by_name name) with
              | none =>
                { status := QUERY_ERROR_EXECUTION, outResult := some emptyResult,
                  calls := [.Entity_exists { high := high, low := low },
                    .get_component_type_by_name name,
                    .get_component { high := high, low := low }
                      (ecs.ECS_get_component_type_by_name name),
                    .get_component_type (ecs.ECS_get_component_type_by_name name)] }
              | some type =>
                { status := QUERY_SUCCESS,
                  outResult := some
                    { entities := none, count := 1, capacity := 0,
                      data := some (componentData.take type.size) },
                  calls := [.Entity_exists { high := high, low := low },
                    .get_component_type_by_name name,
                    .get_component { high := high, low := low }
                      (ecs.ECS_get_component_type_by_name name),
                    .get_component_type (ecs.ECS_get_component_type_by_name name)] } := by
  unfold QueryExecutor_execute showNode
  simp only [QueryAST_get_type, QueryAST_get_data, ASTData.toShowQueryData, reduceCtorEq,
    or_self, if_false, if_true]
  cases hex : ecs.Entity_exists { high := high, low := low } with
  | false => simp [emptyResult]
  | true =>
    simp only [Bool.not_true, Bool.false_eq_true, if_false, reduceCtorEq]
    cases componentName with
    | none => rfl
    | some name =>
      simp only []
      by_cases hr : ecs.ECS_get_component_type_by_name name = ecs.COMPONENT_TYPE_INVALID
      · rw [if_pos hr, if_pos hr]; rfl
      · rw [if_neg hr, if_neg hr]
        cases ecs.ECS_get_component { high := high, low := low }
            (ecs.ECS_get_component_type_by_name name) with
        | none => rfl
        | some componentData =>
          simp only []
          cases ecs.ECS_get_component_type (ecs.ECS_get_component_type_by_name name) with
          | none => rfl
          | some type => rfl

theorem Query_execute_show (ecs : ECS) (target : List Char) (cn : Option (List Char))
    (high low : Nat) (out0 : QueryEngineResult)
    (hhigh : high < 2 ^ 64) (hlow : low < 2 ^ 64)
    (ht : target = "ALL".toList ∧ cn = none ∨
      (isIdentifierText target = true ∧ isKeywordText target = false) ∧ cn = some target) :
    Query_execute (some ecs) (some (showQueryText target high low)) (some out0) =
      QueryExecutor_execute (some ecs) (some (showNode cn high low)) (some emptyResult) := by
  have h1 : high ≤ ULLONG_MAX := by unfold ULLONG_MAX; omega
  have h2 : low ≤ ULLONG_MAX := by unfold ULLONG_MAX; omega
  rw [Query_execute_eq, parseS_showQueryText target cn high low h1 h2 ht]

/-- C11: SHOW of a named component on an existing entity that has it, with
the type record available and at least `size` bytes stored at the component
pointer, succeeds with count 1, no entity sequence, and a payload that is the
first `size` stored bytes, so of length `size`, and that is the whole stored
component when the component has exactly `size` bytes; `Query_execute` on the
text `SHOW name OF ENTITY high:low` gives the same. -/
theorem C11_show_returns_stored_bytes (ecs : ECS) (name : List Char) (high low : Nat)
    (out0 : QueryEngineResult) (componentData : List Nat) (type : ComponentType)
    (hex : ecs.Entity_exists { high := high, low := low } = true)
    (hres : ecs.ECS_get_component_type_by_name name ≠ ecs.COMPONENT_TYPE_INVALID)
    (hdata : ecs.ECS_get_component { high := high, low := low }
      (ecs.ECS_get_component_type_by_name name) = some componentData)
    (htype : ecs.ECS_get_component_type (ecs.ECS_get_component_type_by_name name) = some type)
    (hsize : type.size ≤ componentData.length) :
    (QueryExecutor_execute (some ecs) (some (showNode (some name) high low))
        (some out0)).status = QUERY_SUCCESS ∧
    (QueryExecutor_execute (some ecs) (some (showNode (some name) high low))
        (some out0)).outResult =
      some { entities := none, count := 1, capacity := 0,
             data := some (componentData.take type.size) } ∧
    (componentData.take type.size).length = type.size ∧
    (componentData.length = type.size → componentData.take type.size = componentData) ∧
    (isIdentifierText name = true → isKeywordText name = false →
      high < 2 ^ 64 → low < 2 ^ 64 →
      (Query_execute (some ecs) (some (showQueryText name high low)) (some out0)).status =
        QUERY_SUCCESS ∧
      (Query_execute (some ecs) (some (showQueryText name high low)) (some out0)).outResult =
        some { entities := none, count := 1, capacity := 0,
               data := some (componentData.take type.size) }) := by
  have hrun : QueryExecutor_execute (some ecs) (some (showNode (some name) high low))
      (some out0) =
      { status := QUERY_SUCCESS,
        outResult := some
          { entities := none, count := 1, capacity := 0,
            data := some (componentData.take type.size) },
        calls := [.Entity_exists { high := high, low := low },
          .get_component_type_by_name name,
          .get_component { high := high, low := low }
            (ecs.ECS_get_component_type_by_name name),
          .get_component_type (ecs.ECS_get_component_type_by_name name)] } := by
    rw [execute_show, if_neg (by rw [hex]; exact Bool.noConfusion)]
    simp only []
    rw [if_neg hres, hdata]
    simp only []
    rw [htype]
  have hrun2 : QueryExecutor_execute (some ecs) (some (showNode (some name) high low))
      (some emptyResult) = QueryExecutor_execute (some ecs)
        (some (showNode (some name) high low)) (some out0) := by
    rw [execute_show, execute_show]
  refine ⟨by rw [hrun], by rw [hrun], ?_, ?_, ?_⟩
  · rw [List.length_take]; omega
  · intro h
    rw [← h, List.take_length]
  · intro hid hkw hh hl
    rw [Query_execute_show ecs name (some name) high low out0 hh hl (Or.inr ⟨⟨hid, hkw⟩, rfl⟩),
      hrun2, hrun]
    exact ⟨rfl, rfl⟩

/-- A use of C11 on the sample registry: `SHOW Health OF ENTITY 0:2` returns
the eight stored bytes of the Health component of entity 0:2. -/
theorem C11_show_returns_stored_bytes_witness :
    sampleRegistry.Entity_exists { high := 0, low := 2 } = true ∧
    sampleRegistry.ECS_get_component_type_by_name "Health".toList ≠
      sampleRegistry.COMPONENT_TYPE_INVALID ∧
    sampleRegistry.ECS_get_component { high := 0, low := 2 }
      (sampleRegistry.ECS_get_component_type_by_name "Health".toList) =
        some [2, 0, 0, 0, 2, 0, 0, 0] ∧
    sampleRegistry.ECS_get_component_type
      (sampleRegistry.ECS_get_component_type_by_name "Health".toList) = some { size := 8 } ∧
    showQueryText "Health".toList 0 2 = "SHOW Health OF ENTITY 0:2".toList ∧
    (Query_execute (some sampleRegistry) (some (showQueryText "Health".toList 0 2))
        (some emptyResult)).outResult =
      some { entities := none, count := 1, capacity := 0,
             data := some (List.take 8 [2, 0, 0, 0, 2, 0, 0, 0]) } :=
  ⟨by decide, by decide, by decide, by decide, by decide,
    ((C11_show_returns_stored_bytes sampleRegistry "Health".toList 0 2 emptyResult
      [2, 0, 0, 0, 2, 0, 0, 0] { size := 8 } (by decide) (by decide) (by decide) (by decide)
      (by decide)).2.2.2.2 (by decide) (by decide) (by decide) (by decide)).2⟩

/-- C12: for a SHOW statement naming one component, `QueryExecutor_execute`
returns `QUERY_ERROR_EXECUTION` exactly when the entity does not exist, or the
name does not resolve, or the registry has no component of that type for the
entity, or the type record cannot be fetched, and `QUERY_SUCCESS` in every
other case; for SHOW ALL it returns `QUERY_ERROR_EXECUTION` exactly when the
entity does not exist and `QUERY_SUCCESS` otherwise. -/
theorem C12_show_fails_exactly_when (ecs : ECS) (name : List Char) (high low : Nat)
    (out0 : QueryEngineResult) :
    ((QueryExecutor_execute (some ecs) (some (showNode (some name) high low))
        (some out0)).status = QUERY_ERROR_EXECUTION ↔
      (ecs.Entity_exists { high := high, low := low } = false ∨
        ecs.ECS_get_component_type_by_name name = ecs.COMPONENT_TYPE_INVALID ∨
        ecs.ECS_get_component { high := high, low := low }
          (ecs.ECS_get_component_type_by_name name) = none ∨
        ecs.ECS_get_component_type (ecs.ECS_get_component_type_by_name name) = none)) ∧
    ((QueryExecutor_execute (some ecs) (some (showNode (some name) high low))
        (some out0)).status = QUERY_SUCCESS ↔
      ¬ (ecs.Entity_exists { high := high, low := low } = false ∨
        ecs.ECS_get_component_type_by_name name = ecs.COMPONENT_TYPE_INVALID ∨
        ecs.ECS_get_component { high := high, low := low }
          (ecs.ECS_get_component_type_by_name name) = none ∨
        ecs.ECS_get_component_type (ecs.ECS_get_component_type_by_name name) = none)) ∧
    ((QueryExecutor_execute (some ecs) (some (showNode none high low))
        (some out0)).status = QUERY_ERROR_EXECUTION ↔
      ecs.Entity_exists { high := high, low := low } = false) ∧
    ((QueryExecutor_execute (some ecs) (some (showNode none high low))
        (some out0)).status = QUERY_SUCCESS ↔
      ecs.Entity_exists { high := high, low := low } = true) := by
  rw [execute_show, execute_show]
  cases hex : ecs.Entity_exists { high := high, low := low } with
  | false => simp
  | true =>
    simp only [Bool.true_eq_false, if_false, false_or]
    by_cases hr : ecs.ECS_get_component_type_by_name name = ecs.COMPONENT_TYPE_INVALID
    · simp [hr]
    · rw [if_neg hr]
      cases hd : ecs.ECS_get_component { high := high, low := low }
          (ecs.ECS_get_component_type_by_name name) with
      | none => simp [hr]
      | some componentData =>
        cases hty : ecs.ECS_get_component_type (ecs.ECS_get_component_type_by_name name) with
        | none => simp [hr]
        | some type => simp [hr]

/-- C13: SHOW ALL on an existing entity succeeds with a count equal to the
number of component types the registry enumerates for the entity when asked
for at most 64, without payload and without entity sequence; the count is at
most 64 when the registry keeps to the maximum it is given, and it is 2 when
the registry enumerates two types; `Query_execute` on the text
`SHOW ALL OF ENTITY high:low` gives the same. -/
theorem C13_show_all_counts_components (ecs : ECS) (high low : Nat)
    (out0 : QueryEngineResult)
    (hex : ecs.Entity_exists { high := high, low := low } = true) :
    QueryExecutor_execute (some ecs) (some (showNode none high low)) (some out0) =
      { status := QUERY_SUCCESS,
        outResult := some
          { entities := none,
            count := (ecs.ECS_get_entity_components { high := high, low := low } 64).length,
            capacity := 0, data := none },
        calls := [.Entity_exists { high := high, low := low },
          .get_entity_components { high := high, low := low } 64] } ∧
    ((∀ e maxCount, (ecs.ECS_get_entity_components e maxCount).length ≤ maxCount) →
      (ecs.ECS_get_entity_components { high := high, low := low } 64).length ≤ 64) ∧
    (high < 2 ^ 64 → low < 2 ^ 64 →
      Query_execute (some ecs) (some (showQueryText "ALL".toList high low)) (some out0) =
        { status := QUERY_SUCCESS,
          outResult := some
            { entities := none,
              count := (ecs.ECS_get_entity_components { high := high, low := low } 64).length,
              capacity := 0, data := none },
          calls := [.Entity_exists { high := high, low := low },
            .get_entity_components { high := high, low := low } 64] }) := by
  have hrun : ∀ out1, QueryExecutor_execute (some ecs) (some (showNode none high low))
      (some out1) =
      { status := QUERY_SUCCESS,
        outResult := some
          { entities := none,
            count := (ecs.ECS_get_entity_components { high := high, low := low } 64).length,
            capacity := 0, data := none },
        calls := [.Entity_exists { high := high, low := low },
          .get_entity_components { high := high, low := low } 64] } := by
    intro out1
    rw [execute_show, if_neg (by rw [hex]; exact Bool.noConfusion)]
  refine ⟨hrun out0, fun h => h _ _, ?_⟩
  intro hh hl
  rw [Query_execute_show ecs "ALL".toList none high low out0 hh hl (Or.inl ⟨rfl, rfl⟩), hrun]

/-- A use of C13 on the sample registry: entity 0:2 carries Position and
Health, and `SHOW ALL OF ENTITY 0:2` returns count 2. -/
theorem C13_show_all_counts_components_witness :
    sampleRegistry.Entity_exists { high := 0, low := 2 } = true ∧
    (∀ e maxCount, (sampleRegistry.ECS_get_entity_components e maxCount).length ≤ maxCount) ∧
    (0 : Nat) < 2 ^ 64 ∧ (2 : Nat) < 2 ^ 64 ∧
    showQueryText "ALL".toList 0 2 = "SHOW ALL OF ENTITY 0:2".toList ∧
    (sampleRegistry.ECS_get_entity_components { high := 0, low := 2 } 64).length = 2 ∧
    (Query_execute (some sampleRegistry) (some (showQueryText "ALL".toList 0 2))
        (some emptyResult)).outResult =
      some { entities := none, count := 2, capacity := 0, data := none } :=
  ⟨by decide, fun e maxCount => by simp [sampleRegistry, List.length_take], by decide,
    by decide, by decide, by decide,
    by
      rw [(C13_show_all_counts_components sampleRegistry 0 2 emptyResult (by decide)).2.2
        (by decide) (by decide)]
      decide⟩

/-! ## The tokens of a text followed by more text -/

theorem lexS_spaces (ws s : List Char) (hws : ∀ c ∈ ws, isspace c = true) :
    lexS (ws ++ s) = lexS s := by
  induction ws with
  | nil => rfl
  | cons a t ih =>
    rw [List.cons_append, lexS_space _ _ (hws a (by simp))]
    exact ih (fun c hc => hws c (by simp [hc]))

theorem takeWhile_append_cons_stop (f : Char → Bool) (l t : List Char) (c : Char)
    (hc : f c = false) : (l ++ c :: t).takeWhile f = l.takeWhile f := by
  induction l with
  | nil => simp [List.takeWhile_cons, hc]
  | cons a r ih =>
    by_cases ha : f a = true
    · simp only [List.cons_append, List.takeWhile_cons, ha, if_true, ih]
    · simp only [List.cons_append, List.takeWhile_cons, ha, if_false, Bool.false_eq_true]

theorem dropWhile_append_cons_stop (f : Char → Bool) (l t : List Char) (c : Char)
    (hc : f c = false) : (l ++ c :: t).dropWhile f = l.dropWhile f ++ c :: t := by
  induction l with
  | nil => simp [List.dropWhile_cons, hc]
  | cons a r ih =>
    by_cases ha : f a = true
    · simp only [List.cons_append, List.dropWhile_cons, ha, if_true, ih]
    · simp only [List.cons_append, List.dropWhile_cons, ha, if_false, Bool.false_eq_true]

theorem dropWhile_append_of_ne_nil (f : Char → Bool) (l y : List Char)
    (h : l.dropWhile f ≠ []) : (l ++ y).dropWhile f = l.dropWhile f ++ y := by
  induction l with
  | nil => exact absurd rfl h
  | cons a r ih =>
    by_cases ha : f a = true
    · simp only [List.cons_append, List.dropWhile_cons, ha, if_true] at h ⊢
      exact ih h
    · simp only [List.cons_append, List.dropWhile_cons, ha, if_false, Bool.false_eq_true]

theorem dropWhile_append_of_nil (f : Char → Bool) (l y : List Char)
    (h : l.dropWhile f = []) : (l ++ y).dropWhile f = y.dropWhile f := by
  induction l with
  | nil => rfl
  | cons a r ih =>
    by_cases ha : f a = true
    · simp only [List.cons_append, List.dropWhile_cons, ha, if_true] at h ⊢
      exact ih h
    · simp [List.dropWhile_cons, ha] at h

theorem takeWhile_append_of_ne_nil (f : Char → Bool) (l y : List Char)
    (h : l.dropWhile f ≠ []) : (l ++ y).takeWhile f = l.takeWhile f := by
  induction l with
  | nil => exact absurd rfl h
  | cons a r ih =>
    by_cases ha : f a = true
    · simp only [List.cons_append, List.dropWhile_cons, List.takeWhile_cons, ha, if_true] at h ⊢
      rw [ih h]
    · simp only [List.cons_append, List.takeWhile_cons, ha, if_false, Bool.false_eq_true]

theorem isspace_not_identifier {c : Char} (h : isspace c = true) :
    is_identifier_char c = false := by
  have h95 : ('_' : Char).toNat = 95 := rfl
  simp only [isspace, Bool.or_eq_true, beq_iff_eq, Bool.and_eq_true, decide_eq_true_eq] at h
  simp only [is_identifier_char, isalnum, isalpha, isdigit, Bool.or_eq_false_iff,
    Bool.and_eq_false_iff, decide_eq_false_iff_not]
  refine ⟨⟨⟨by omega, by omega⟩, by omega⟩, ?_⟩
  intro hc
  rw [hc] at h
  omega

theorem isspace_not_digit {c : Char} (h : isspace c = true) : isdigit c = false := by
  cases hd : isdigit c with
  | false => rfl
  | true =>
    rw [isspace_of_digit hd] at h
    exact Bool.noConfusion h

theorem lexHead_length_le (s : List Char) : (lexHead s).2 ≤ s.length := by
  cases s with
  | nil => simp [lexHead]
  | cons a r =>
    unfold lexHead
    simp only []
    split_ifs
    any_goals simp
    · cases r with
      | nil => simp at *
      | cons b u => simp
    · exact (List.takeWhile_sublist _).length_le
    · exact (List.takeWhile_sublist _).length_le

theorem lexHead_append (s t : List Char) (c : Char) (hs : s ≠ []) (hc : isspace c = true) :
    lexHead (s ++ c :: t) = lexHead s := by
  cases s with
  | nil => exact absurd rfl hs
  | cons a r =>
    have hd := isspace_not_digit hc
    have hi := isspace_not_identifier hc
    have hne : c ≠ '=' := by
      intro h; subst h; exact absurd hc (by decide)
    have e1 : (a :: (r ++ c :: t)).takeWhile isdigit = (a :: r).takeWhile isdigit :=
      takeWhile_append_cons_stop isdigit (a :: r) t c hd
    have e2 : (a :: (r ++ c :: t)).takeWhile is_identifier_char =
        (a :: r).takeWhile is_identifier_char :=
      takeWhile_append_cons_stop is_identifier_char (a :: r) t c hi
    have e3 : ((r ++ c :: t).head? = some '=') ↔ (r.head? = some '=') := by
      cases r with
      | nil => simp [hne]
      | cons b u => simp
    unfold lexHead
    simp only [List.cons_append, e1, e2, e3]

theorem lexS_append (s t : List Char) (c : Char) (hs : (lexS s).1 ≠ TOKEN_EOF)
    (hc : isspace c = true) :
    lexS (s ++ c :: t) = ((lexS s).1, (lexS s).2.1, (lexS s).2.2 ++ c :: t) := by
  unfold lexS at hs ⊢
  simp only [] at hs ⊢
  have hne : s.dropWhile isspace ≠ [] := by
    intro h
    rw [h] at hs
    exact hs rfl
  rw [dropWhile_append_of_ne_nil _ _ _ hne, lexHead_append _ _ _ hne hc]
  have hle := lexHead_length_le (s.dropWhile isspace)
  rw [List.take_append_of_le_length hle, List.drop_append_of_le_length hle]

theorem lexS_eof_append (s y : List Char) (hs : (lexS s).1 = TOKEN_EOF) :
    lexS (s ++ y) = lexS y := by
  have h0 : s.dropWhile isspace = [] := by
    unfold lexS at hs
    exact lexHead_eof hs
  unfold lexS
  simp only []
  rw [dropWhile_append_of_nil _ _ _ h0]

theorem componentListLoopS_append (fuel : Nat) (names : List (List Char)) (first : Bool)
    (s r : List Char) (res : List (List Char)) (c : Char) (t : List Char)
    (hc : isspace c = true)
    (h : componentListLoopS fuel names first s = some (some res, r)) (fuel2 : Nat)
    (hf : fuel ≤ fuel2) :
    componentListLoopS fuel2 names first (s ++ c :: t) = some (some res, r ++ c :: t) := by
  induction fuel generalizing names first s fuel2 with
  | zero => simp [componentListLoopS] at h
  | succ k ih =>
    cases fuel2 with
    | zero => omega
    | succ k2 =>
      have hk : k ≤ k2 := by omega
      unfold componentListLoopS at h ⊢
      by_cases hR : (lexS s).1 = TOKEN_RPAREN
      · have hne : (lexS s).1 ≠ TOKEN_EOF := by rw [hR]; decide
        rw [lexS_append s t c hne hc]
        simp only [hR, if_true] at h ⊢
        simp only [Option.some.injEq, Prod.mk.injEq] at h
        rw [h.1, h.2]
      · simp only [hR, if_false] at h
        cases first with
        | true =>
          simp only [Bool.not_true, Bool.false_eq_true, if_false] at h
          by_cases hI : (lexS s).1 = TOKEN_IDENTIFIER
          · have hne : (lexS s).1 ≠ TOKEN_EOF := by rw [hI]; decide
            simp only [hI, if_true] at h
            have := ih _ _ _ h k2 hk
            rw [lexS_append s t c hne hc]
            simp only [hI, reduceCtorEq, if_false, Bool.not_true, Bool.false_eq_true, if_true]
            rw [lexS_append s t c hne hc]
            simp only [hI, if_true]
            exact this
          · simp only [hI, if_false] at h
            simp at h
        | false =>
          simp only [Bool.not_false, if_true] at h
          by_cases hC : (lexS s).1 = TOKEN_COMMA
          · have hne : (lexS s).1 ≠ TOKEN_EOF := by rw [hC]; decide
            simp only [hC, ne_eq, not_true_eq_false, if_false] at h
            by_cases hI : (lexS (lexS s).2.2).1 = TOKEN_IDENTIFIER
            · have hne2 : (lexS (lexS s).2.2).1 ≠ TOKEN_EOF := by rw [hI]; decide
              simp only [hI, if_true] at h
              have := ih _ _ _ h k2 hk
              rw [lexS_append s t c hne hc]
              simp only [hC, reduceCtorEq, if_false, Bool.not_false, if_true, ne_eq,
                not_true_eq_false]
              rw [lexS_append _ t c hne2 hc]
              simp only [hI, if_true]
              exact this
            · simp only [hI, if_false] at h
              simp at h
          · simp only [hC, ne_eq, not_false_eq_true, if_true] at h
            simp at h

theorem parseComponentListS_append (s r : List Char) (names : List (List Char)) (c : Char)
    (t : List Char) (hc : isspace c = true)
    (h : parseComponentListS s = (some names, r)) :
    parseComponentListS (s ++ c :: t) = (some names, r ++ c :: t) := by
  unfold parseComponentListS at h ⊢
  by_cases hL : (lexS s).1 = TOKEN_LPAREN
  · have hne : (lexS s).1 ≠ TOKEN_EOF := by rw [hL]; decide
    rw [lexS_append s t c hne hc]
    simp only [hL, ne_eq, not_true_eq_false, if_false] at h ⊢
    cases hl : componentListLoopS ((lexS s).2.2.length + 1) [] true (lexS s).2.2 with
    | none => rw [hl] at h; simp at h
    | some res =>
      obtain ⟨l, r2⟩ := res
      rw [hl] at h
      cases l with
      | none => simp at h
      | some ns =>
        simp only [] at h
        by_cases hz : ns.length = 0
        · simp [hz] at h
        · simp only [hz, if_false, Prod.mk.injEq, Option.some.injEq] at h
          have := componentListLoopS_append _ _ _ _ _ _ c t hc hl
            (((lexS s).2.2 ++ c :: t).length + 1) (by simp)
          rw [this]
          simp only [hz, if_false]
          rw [h.1, h.2]
  · simp only [hL, ne_eq, not_false_eq_true, if_true] at h
    simp at h

theorem parsePredicateS_append (s r : List Char) (predicate : QueryAST) (c : Char)
    (t : List Char) (hc : isspace c = true)
    (h : parsePredicateS s = (some predicate, r)) :
    parsePredicateS (s ++ c :: t) = (some predicate, r ++ c :: t) := by
  unfold parsePredicateS at h ⊢
  have key : ∀ kind, (match parseComponentListS (lexS s).2.2 with
      | (none, s1) => ((none : Option QueryAST), s1)
      | (some names, s1) => (some (predicateNode kind names), s1)) = (some predicate, r) →
      (match parseComponentListS ((lexS s).2.2 ++ c :: t) with
      | (none, s1) => ((none : Option QueryAST), s1)
      | (some names, s1) => (some (predicateNode kind names), s1)) =
        (some predicate, r ++ c :: t) := by
    intro kind hm
    rcases hp : parseComponentListS (lexS s).2.2 with ⟨l, r2⟩
    rw [hp] at hm
    cases l with
    | none => simp at hm
    | some names =>
      simp only [Prod.mk.injEq, Option.some.injEq] at hm
      rw [parseComponentListS_append _ _ _ c t hc hp]
      simp only []
      rw [hm.1, hm.2]
  by_cases h1 : (lexS s).1 = TOKEN_HAS
  · have hne : (lexS s).1 ≠ TOKEN_EOF := by rw [h1]; decide
    rw [lexS_append s t c hne hc]
    simp only [h1, if_true] at h ⊢
    exact key _ h
  · by_cases h2 : (lexS s).1 = TOKEN_HAS_ANY
    · have hne : (lexS s).1 ≠ TOKEN_EOF := by rw [h2]; decide
      rw [lexS_append s t c hne hc]
      simp only [h2, reduceCtorEq, if_false, if_true] at h ⊢
      exact key _ h
    · by_cases h3 : (lexS s).1 = TOKEN_NOT_HAS
      · have hne : (lexS s).1 ≠ TOKEN_EOF := by rw [h3]; decide
        rw [lexS_append s t c hne hc]
        simp only [h3, reduceCtorEq, if_false, if_true] at h ⊢
        exact key _ h
      · simp only [h1, h2, h3, if_false] at h
        simp at h

theorem strtoull_append (a : Char) (l t : List Char) (c : Char) (ha : isspace a = false)
    (hc : isspace c = true) : strtoull (a :: l ++ c :: t) = strtoull (a :: l) := by
  have hd := isspace_not_digit hc
  have hw1 : (a :: (l ++ c :: t)).takeWhile isspace = [] := by
    simp [List.takeWhile_cons, ha]
  have hw2 : (a :: l).takeWhile isspace = [] := by
    simp [List.takeWhile_cons, ha]
  have e0 : (a :: (l ++ c :: t)).takeWhile isdigit = (a :: l).takeWhile isdigit :=
    takeWhile_append_cons_stop isdigit (a :: l) t c hd
  have e1 : (l ++ c :: t).takeWhile isdigit = l.takeWhile isdigit :=
    takeWhile_append_cons_stop isdigit l t c hd
  unfold strtoull
  simp only [List.cons_append]
  rw [hw1, hw2]
  simp only [List.length_nil, List.drop_zero, List.head?_cons]
  by_cases h1 : a = '-'
  · simp only [h1, if_true, List.drop_succ_cons, List.drop_zero, e1]
  · by_cases h2 : a = '+'
    · have hpm : ¬ ('+' : Char) = '-' := by decide
      simp only [h2, hpm, if_false, if_true, List.drop_succ_cons, List.drop_zero, e1]
    · simp only [h1, h2, if_false, List.drop_zero, e0]

theorem head_dropWhile_false (f : Char → Bool) (s r : List Char) (a : Char)
    (h : s.dropWhile f = a :: r) : f a = false := by
  induction s with
  | nil => simp at h
  | cons b s ih =>
    by_cases hb : f b = true
    · simp only [List.dropWhile_cons, hb, if_true] at h
      exact ih h
    · simp only [List.dropWhile_cons, hb] at h
      simp only [Bool.false_eq_true, if_false, List.cons.injEq] at h
      rw [← h.1]
      simpa using hb

theorem parseEntityIdS_append (s r : List Char) (entityId : EntityIdData) (c : Char)
    (t : List Char) (hc : isspace c = true)
    (h : parseEntityIdS s = (some entityId, r)) :
    parseEntityIdS (s ++ c :: t) = (some entityId, r ++ c :: t) := by
  have hd := isspace_not_digit hc
  unfold parseEntityIdS at h ⊢
  simp only [] at h ⊢
  cases hs1 : s.dropWhile isspace with
  | nil => rw [hs1] at h; simp at h
  | cons a s2 =>
    have ha : isspace a = false := head_dropWhile_false _ _ _ _ hs1
    have e1 : (s ++ c :: t).dropWhile isspace = a :: (s2 ++ c :: t) := by
      rw [dropWhile_append_of_ne_nil isspace s (c :: t) (by rw [hs1]; simp), hs1]
      rfl
    rw [hs1] at h
    rw [e1]
    simp only [] at h ⊢
    cases hs2 : (a :: s2).dropWhile isdigit with
    | nil => rw [hs2] at h; simp at h
    | cons b r0 =>
      have e2 : (a :: (s2 ++ c :: t)).dropWhile isdigit = b :: (r0 ++ c :: t) := by
        have := dropWhile_append_cons_stop isdigit (a :: s2) t c hd
        rw [hs2] at this
        exact this
      have e3 : (a :: (s2 ++ c :: t)).takeWhile isdigit = (a :: s2).takeWhile isdigit :=
        takeWhile_append_cons_stop isdigit (a :: s2) t c hd
      have e4 : strtoull (a :: (s2 ++ c :: t)) = strtoull (a :: s2) :=
        strtoull_append a s2 t c ha hc
      rw [hs2] at h
      rw [e2, e3, e4]
      simp only [] at h ⊢
      by_cases hb : b = ':'
      · simp only [hb, ne_eq, not_true_eq_false, if_false] at h ⊢
        by_cases hst : (strtoull (a :: s2)).2 = ((a :: s2).takeWhile isdigit).length
        · simp only [hst, not_true_eq_false, if_false] at h ⊢
          cases r0 with
          | nil => simp at h
          | cons b2 r1 =>
            simp only [] at h
            by_cases hz : ((b2 :: r1).takeWhile isdigit).length = 0
            · simp [hz] at h
            · have hb2 : isdigit b2 = true := by
                by_contra hn
                apply hz
                simp [List.takeWhile_cons, hn]
              have hb2s : isspace b2 = false := isspace_of_digit hb2
              have e5 : (b2 :: (r1 ++ c :: t)).takeWhile isdigit =
                  (b2 :: r1).takeWhile isdigit :=
                takeWhile_append_cons_stop isdigit (b2 :: r1) t c hd
              have e6 : (b2 :: (r1 ++ c :: t)).dropWhile isdigit =
                  (b2 :: r1).dropWhile isdigit ++ c :: t :=
                dropWhile_append_cons_stop isdigit (b2 :: r1) t c hd
              have e7 : strtoull (b2 :: (r1 ++ c :: t)) = strtoull (b2 :: r1) :=
                strtoull_append b2 r1 t c hb2s hc
              simp only [List.cons_append]
              rw [e5, e6, e7]
              by_cases hst2 : (strtoull (b2 :: r1)).2 = ((b2 :: r1).takeWhile isdigit).length
              · simp only [hz, hst2, not_true_eq_false, if_false, Prod.mk.injEq,
                  Option.some.injEq] at h ⊢
                exact ⟨h.1, by rw [h.2]⟩
              · simp [hz, hst2] at h
        · simp [hst] at h
      · simp [hb] at h

theorem lexS_after_eof (s t : List Char) (c : Char) (hs : (lexS s).1 = TOKEN_EOF)
    (hc : isspace c = true) : lexS (s ++ c :: t) = lexS t := by
  rw [lexS_eof_append s (c :: t) hs, lexS_space c t hc]

theorem parsePredicateS_eof (s : List Char) (hs : (lexS s).1 = TOKEN_EOF) :
    (parsePredicateS s).1 = none := by
  unfold parsePredicateS
  simp only [hs, reduceCtorEq, if_false]

theorem parseEntitiesS_trailing (type : ASTNodeType) (s t : List Char) (c : Char)
    (ast : QueryAST) (hc : isspace c = true) (ht : (lexS t).1 ≠ TOKEN_EOF)
    (ht2 : (lexS (lexS t).2.2).1 = TOKEN_EOF) (h : parseEntitiesS type s = some ast) :
    parseEntitiesS type (s ++ c :: t) = none := by
  unfold parseEntitiesS at h ⊢
  by_cases hE : (lexS s).1 = TOKEN_ENTITIES
  · have hne : (lexS s).1 ≠ TOKEN_EOF := by rw [hE]; decide
    rw [lexS_append s t c hne hc]
    simp only [hE, ne_eq, not_true_eq_false, if_false] at h ⊢
    by_cases hW : (lexS (lexS s).2.2).1 = TOKEN_WHERE
    · have hne2 : (lexS (lexS s).2.2).1 ≠ TOKEN_EOF := by rw [hW]; decide
      rw [lexS_append _ t c hne2 hc]
      simp only [hW, if_true] at h ⊢
      rcases hp : parsePredicateS (lexS (lexS s).2.2).2.2 with ⟨l, s2⟩
      rw [hp] at h
      cases l with
      | none => simp at h
      | some predicate =>
        rw [parsePredicateS_append _ _ _ c t hc hp]
        simp only [] at h ⊢
        by_cases hF : (lexS s2).1 = TOKEN_EOF
        · rw [lexS_after_eof s2 t c hF hc]
          simp only [ht, not_false_eq_true, if_true]
        · simp [hF] at h
    · simp only [hW, if_false] at h
      by_cases hF : (lexS (lexS s).2.2).1 = TOKEN_EOF
      · rw [lexS_after_eof _ t c hF hc]
        by_cases hW2 : (lexS t).1 = TOKEN_WHERE
        · simp only [hW2, if_true]
          have hn := parsePredicateS_eof (lexS t).2.2 ht2
          rcases hp : parsePredicateS (lexS t).2.2 with ⟨l, s2⟩
          rw [hp] at hn
          simp only [] at hn
          rw [hn]
        · simp only [hW2, if_false]
          rw [lexS_after_eof _ t c hF hc]
          simp only [ht, not_false_eq_true, if_true]
      · simp [hF] at h
  · simp [hE] at h

theorem parseShowS_trailing (s t : List Char) (c : Char) (ast : QueryAST)
    (hc : isspace c = true) (ht : (lexS t).1 ≠ TOKEN_EOF) (h : parseShowS s = some ast) :
    parseShowS (s ++ c :: t) = none := by
  unfold parseShowS at h ⊢
  have tail : ∀ componentName : Option (List Char),
      (if (lexS (lexS s).2.2).1 ≠ TOKEN_OF then none
        else if (lexS (lexS (lexS s).2.2).2.2).1 ≠ TOKEN_ENTITY then none
        else
          match parseEntityIdS (lexS (lexS (lexS s).2.2).2.2).2.2 with
          | (none, _) => none
          | (some entityId, s3) =>
            if (lexS s3).1 ≠ TOKEN_EOF then none
            else
              some (QueryAST.node AST_SHOW
                (.showData { componentName := componentName, entityId := some entityId })
                none none none 0)) = some ast →
      (if (lexS ((lexS s).2.2 ++ c :: t)).1 ≠ TOKEN_OF then none
        else if (lexS (lexS ((lexS s).2.2 ++ c :: t)).2.2).1 ≠ TOKEN_ENTITY then none
        else
          match parseEntityIdS (lexS (lexS ((lexS s).2.2 ++ c :: t)).2.2).2.2 with
          | (none, _) => none
          | (some entityId, s3) =>
            if (lexS s3).1 ≠ TOKEN_EOF then none
            else
              some (QueryAST.node AST_SHOW
                (.showData { componentName := componentName, entityId := some entityId })
                none none none 0)) = none := by
    intro componentName h
    by_cases hO : (lexS (lexS s).2.2).1 = TOKEN_OF
    · have hne : (lexS (lexS s).2.2).1 ≠ TOKEN_EOF := by rw [hO]; decide
      rw [lexS_append _ t c hne hc]
      simp only [hO, ne_eq, not_true_eq_false, if_false] at h ⊢
      by_cases hY : (lexS (lexS (lexS s).2.2).2.2).1 = TOKEN_ENTITY
      · have hne2 : (lexS (lexS (lexS s).2.2).2.2).1 ≠ TOKEN_EOF := by rw [hY]; decide
        rw [lexS_append _ t c hne2 hc]
        simp only [hY, not_true_eq_false, if_false] at h ⊢
        rcases hp : parseEntityIdS (lexS (lexS (lexS s).2.2).2.2).2.2 with ⟨l, s3⟩
        rw [hp] at h
        cases l with
        | none => simp at h
        | some entityId =>
          rw [parseEntityIdS_append _ _ _ c t hc hp]
          simp only [] at h ⊢
          by_cases hF : (lexS s3).1 = TOKEN_EOF
          · rw [lexS_after_eof s3 t c hF hc]
            simp only [ht, not_false_eq_true, if_true]
          · simp [hF] at h
      · simp [hY] at h
    · simp [hO] at h
  by_cases hA : (lexS s).1 = TOKEN_ALL
  · have hne : (lexS s).1 ≠ TOKEN_EOF := by rw [hA]; decide
    rw [lexS_append s t c hne hc]
    simp only [hA, if_true] at h ⊢
    exact tail none h
  · by_cases hI : (lexS s).1 = TOKEN_IDENTIFIER
    · have hne : (lexS s).1 ≠ TOKEN_EOF := by rw [hI]; decide
      rw [lexS_append s t c hne hc]
      simp only [hI, reduceCtorEq, if_false, if_true] at h ⊢
      exact tail _ h
    · simp [hA, hI] at h

theorem parseS_trailing (s t : List Char) (c : Char) (ast : QueryAST)
    (hc : isspace c = true) (ht : (lexS t).1 ≠ TOKEN_EOF)
    (ht2 : (lexS (lexS t).2.2).1 = TOKEN_EOF) (h : parseS s = some ast) :
    parseS (s ++ c :: t) = none := by
  unfold parseS at h ⊢
  by_cases h1 : (lexS s).1 = TOKEN_SELECT
  · have hne : (lexS s).1 ≠ TOKEN_EOF := by rw [h1]; decide
    rw [lexS_append s t c hne hc]
    simp only [h1, if_true] at h ⊢
    exact parseEntitiesS_trailing _ _ t c ast hc ht ht2 h
  · by_cases h2 : (lexS s).1 = TOKEN_COUNT
    · have hne : (lexS s).1 ≠ TOKEN_EOF := by rw [h2]; decide
      rw [lexS_append s t c hne hc]
      simp only [h2, reduceCtorEq, if_false, if_true] at h ⊢
      exact parseEntitiesS_trailing _ _ t c ast hc ht ht2 h
    · by_cases h3 : (lexS s).1 = TOKEN_SHOW
      · have hne : (lexS s).1 ≠ TOKEN_EOF := by rw [h3]; decide
        rw [lexS_append s t c hne hc]
        simp only [h3, reduceCtorEq, if_false, if_true] at h ⊢
        exact parseShowS_trailing _ t c ast hc ht h
      · simp [h1, h2, h3] at h

theorem parse_new_eq (q : List Char) :
    (QueryParser_new (some q)).map (fun parser => (QueryParser_parse parser).1) =
      some (parseS q) := by
  obtain ⟨p, hp, hwf, hrest⟩ := QueryParser_new_spec q
  rw [hp, Option.map_some', QueryParser_parse_spec p hwf, hrest]

theorem first_tokens_eq (t : List Char) (p : QueryParser)
    (hp : QueryParser_new (some t) = some p) :
    (QueryParser_next_token p).1.type = (lexS t).1 ∧
    (QueryParser_next_token (QueryParser_next_token p).2).1.type =
      (lexS (lexS t).2.2).1 := by
  obtain ⟨p0, hp0, hwf, hrest⟩ := QueryParser_new_spec t
  rw [hp0] at hp
  have hpe : p0 = p := Option.some.inj hp
  subst hpe
  obtain ⟨w1, -, r1, t1, -⟩ := next_token_spec p0 hwf
  obtain ⟨-, -, -, t2, -⟩ := next_token_spec _ w1
  rw [t1, t2, r1, hrest]
  exact ⟨rfl, rfl⟩

/-! ## Letter case and white space in keywords -/

theorem tolower_upper_toNat {c : Char} (h : 65 ≤ c.toNat ∧ c.toNat ≤ 90) :
    (tolower c).toNat = c.toNat + 32 := by
  unfold tolower
  rw [if_pos h]
  have hv : (c.toNat + 32).isValidChar := by
    left; omega
  rw [Char.ofNat, dif_pos hv]
  rfl

theorem tolower_not_upper {c : Char} (h : ¬ (65 ≤ c.toNat ∧ c.toNat ≤ 90)) : tolower c = c := by
  unfold tolower
  rw [if_neg h]

theorem isalpha_tolower (c : Char) :
    (isalpha (tolower c) || decide (tolower c = '_')) = (isalpha c || decide (c = '_')) := by
  have h95 : ('_' : Char).toNat = 95 := rfl
  by_cases h : 65 ≤ c.toNat ∧ c.toNat ≤ 90
  · have ht := tolower_upper_toNat h
    have e1 : isalpha (tolower c) = true := by
      simp only [isalpha, Bool.or_eq_true, Bool.and_eq_true, decide_eq_true_eq]
      right; omega
    have e2 : isalpha c = true := by
      simp only [isalpha, Bool.or_eq_true, Bool.and_eq_true, decide_eq_true_eq]
      left; omega
    rw [e1, e2]
    rfl
  · rw [tolower_not_upper h]

theorem is_identifier_char_tolower (c : Char) :
    is_identifier_char (tolower c) = is_identifier_char c := by
  by_cases h : 65 ≤ c.toNat ∧ c.toNat ≤ 90
  · have ht := tolower_upper_toNat h
    have e1 : isalpha (tolower c) = true := by
      simp only [isalpha, Bool.or_eq_true, Bool.and_eq_true, decide_eq_true_eq]
      right; omega
    have e2 : isalpha c = true := by
      simp only [isalpha, Bool.or_eq_true, Bool.and_eq_true, decide_eq_true_eq]
      left; omega
    simp only [is_identifier_char, isalnum, e1, e2, Bool.true_or]
  · rw [tolower_not_upper h]

theorem isIdentifierText_tolower (w : List Char) :
    isIdentifierText (w.map tolower) = isIdentifierText w := by
  cases w with
  | nil => rfl
  | cons c t =>
    have hall : ((c :: t).map tolower).all is_identifier_char =
        (c :: t).all is_identifier_char := by
      rw [List.all_map]
      congr 1
      funext x
      exact is_identifier_char_tolower x
    simp only [isIdentifierText, List.map_cons]
    rw [isalpha_tolower c]
    rw [← List.map_cons, hall]

theorem isIdentifierText_congr {w k : List Char} (h : w.map tolower = k.map tolower) :
    isIdentifierText w = isIdentifierText k := by
  rw [← isIdentifierText_tolower w, h, isIdentifierText_tolower]

theorem strncasecmp_congr (n : Nat) (a b s : List Char) (h : a.map tolower = b.map tolower) :
    strncasecmp a s n = strncasecmp b s n := by
  induction n generalizing a b s with
  | zero => simp [strncasecmp]
  | succ m ih =>
    cases a with
    | nil =>
      cases b with
      | nil => rfl
      | cons y b2 => simp at h
    | cons x a2 =>
      cases b with
      | nil => simp at h
      | cons y b2 =>
        simp only [List.map_cons, List.cons.injEq] at h
        simp only [strncasecmp, List.headD_cons, List.tail_cons, h.1]
        rw [ih a2 b2 s.tail h.2]

theorem keywordType_congr {w k : List Char} (h : w.map tolower = k.map tolower) :
    keywordType w = keywordType k := by
  have hlen : w.length = k.length := by
    have := congrArg List.length h
    simpa using this
  have hm : ∀ (str : String) (len : Nat), matchKeyword w str len = matchKeyword k str len := by
    intro str len
    unfold matchKeyword
    rw [hlen, strncasecmp_congr len w k str.toList h]
  unfold keywordType
  simp only [hm]

theorem stopsWord_spaces (ws : List Char) (hws : ∀ c ∈ ws, isspace c = true) : stopsWord ws := by
  cases ws with
  | nil => exact stopsWord_nil
  | cons a t => exact stopsWord_cons _ _ (isspace_not_identifier (hws a (by simp)))

theorem stopsWord_append (ws s : List Char) (hne : ws ≠ []) (hws : ∀ c ∈ ws, isspace c = true) :
    stopsWord (ws ++ s) := by
  cases ws with
  | nil => exact absurd rfl hne
  | cons a t => exact stopsWord_cons _ _ (isspace_not_identifier (hws a (by simp)))

theorem lexS_only_spaces (ws : List Char) (hws : ∀ c ∈ ws, isspace c = true) :
    lexS ws = (TOKEN_EOF, [], []) := by
  have := lexS_spaces ws [] hws
  rw [List.append_nil] at this
  rw [this]
  rfl

theorem parseS_without_where (type : ASTNodeType) (ws0 w1 ws1 w2 ws2 : List Char)
    (ht : type = AST_SELECT ∨ type = AST_COUNT)
    (h0 : ∀ c ∈ ws0, isspace c = true) (h1 : ∀ c ∈ ws1, isspace c = true) (hne : ws1 ≠ [])
    (h2 : ∀ c ∈ ws2, isspace c = true)
    (hw1 : w1.map tolower = (keywordText type).map tolower)
    (hw2 : w2.map tolower = "ENTITIES".toList.map tolower) :
    parseS (ws0 ++ (w1 ++ (ws1 ++ (w2 ++ ws2)))) = some (statementNode type none) := by
  have i2 : isIdentifierText w2 = true := by
    rw [isIdentifierText_congr hw2]; decide
  have k2 : keywordType w2 = TOKEN_ENTITIES := by
    rw [keywordType_congr hw2]; rfl
  have l2 : lexS (ws1 ++ (w2 ++ ws2)) = (TOKEN_ENTITIES, w2, ws2) := by
    rw [lexS_spaces ws1 _ h1, lexS_word w2 ws2 i2 (stopsWord_spaces ws2 h2), k2]
  have l3 : lexS ws2 = (TOKEN_EOF, [], []) := lexS_only_spaces ws2 h2
  have tail : parseEntitiesS type (ws1 ++ (w2 ++ ws2)) = some (statementNode type none) := by
    unfold parseEntitiesS
    rw [l2]
    simp only [ne_eq, not_true_eq_false, if_false]
    rw [l3]
    simp only [reduceCtorEq, if_false, not_true_eq_false]
    rw [l3]
    simp only [not_true_eq_false, if_false]
    rfl
  have i1 : isIdentifierText w1 = true := by
    rw [isIdentifierText_congr hw1]
    rcases ht with ht | ht <;> subst ht <;> decide
  have l1 : lexS (ws0 ++ (w1 ++ (ws1 ++ (w2 ++ ws2)))) =
      (keywordType (keywordText type), w1, ws1 ++ (w2 ++ ws2)) := by
    rw [lexS_spaces ws0 _ h0, lexS_word w1 _ i1 (stopsWord_append ws1 _ hne h1),
      keywordType_congr hw1]
  unfold parseS
  rw [l1]
  rcases ht with ht | ht <;> subst ht
  · rw [show keywordType (keywordText AST_SELECT) = TOKEN_SELECT from rfl]
    simp only [if_true]
    exact tail
  · rw [show keywordType (keywordText AST_COUNT) = TOKEN_COUNT from rfl]
    simp only [reduceCtorEq, if_false, if_true]
    exact tail

/-! ## Claims about what the parser accepts -/

theorem parseComponentListS_nonempty (s r : List Char) (names : List (List Char))
    (h : parseComponentListS s = (some names, r)) : names.length ≠ 0 := by
  unfold parseComponentListS at h
  by_cases hL : (lexS s).1 = TOKEN_LPAREN
  · simp only [hL, ne_eq, not_true_eq_false, if_false] at h
    cases hl : componentListLoopS ((lexS s).2.2.length + 1) [] true (lexS s).2.2 with
    | none => rw [hl] at h; simp at h
    | some res =>
      obtain ⟨l, r2⟩ := res
      rw [hl] at h
      cases l with
      | none => simp at h
      | some ns =>
        simp only [] at h
        by_cases hz : ns.length = 0
        · simp [hz] at h
        · simp only [hz, if_false, Prod.mk.injEq, Option.some.injEq] at h
          rw [← h.1]
          exact hz
  · simp only [hL, ne_eq, not_false_eq_true, if_true] at h
    simp at h

theorem parsePredicateS_nonempty (s r : List Char) (predicate : QueryAST)
    (h : parsePredicateS s = (some predicate, r)) :
    ∃ kind names, predicate = predicateNode kind names ∧ names.length ≠ 0 := by
  unfold parsePredicateS at h
  have key : ∀ kind, (match parseComponentListS (lexS s).2.2 with
      | (none, s1) => ((none : Option QueryAST), s1)
      | (some names, s1) => (some (predicateNode kind names), s1)) = (some predicate, r) →
      ∃ kind names, predicate = predicateNode kind names ∧ names.length ≠ 0 := by
    intro kind hm
    rcases hp : parseComponentListS (lexS s).2.2 with ⟨l, r2⟩
    rw [hp] at hm
    cases l with
    | none => simp at hm
    | some names =>
      simp only [Prod.mk.injEq, Option.some.injEq] at hm
      exact ⟨kind, names, hm.1.symm, parseComponentListS_nonempty _ _ _ hp⟩
  by_cases h1 : (lexS s).1 = TOKEN_HAS
  · simp only [h1, if_true] at h
    exact key _ h
  · by_cases h2 : (lexS s).1 = TOKEN_HAS_ANY
    · simp only [h2, reduceCtorEq, if_false, if_true] at h
      exact key _ h
    · by_cases h3 : (lexS s).1 = TOKEN_NOT_HAS
      · simp only [h3, reduceCtorEq, if_false, if_true] at h
        exact key _ h
      · simp only [h1, h2, h3, if_false] at h
        simp at h

theorem parseEntitiesS_left (type : ASTNodeType) (s : List Char) (ast : QueryAST)
    (h : parseEntitiesS type s = some ast) :
    ast = statementNode type none ∨
    ∃ kind names, ast = statementNode type (some (predicateNode kind names)) ∧
      names.length ≠ 0 := by
  unfold parseEntitiesS at h
  by_cases hE : (lexS s).1 = TOKEN_ENTITIES
  · simp only [hE, ne_eq, not_true_eq_false, if_false] at h
    by_cases hW : (lexS (lexS s).2.2).1 = TOKEN_WHERE
    · simp only [hW, if_true] at h
      rcases hp : parsePredicateS (lexS (lexS s).2.2).2.2 with ⟨l, s2⟩
      rw [hp] at h
      cases l with
      | none => simp at h
      | some predicate =>
        simp only [] at h
        obtain ⟨kind, names, e, hn⟩ := parsePredicateS_nonempty _ _ _ hp
        by_cases hF : (lexS s2).1 = TOKEN_EOF
        · simp only [hF, not_true_eq_false, if_false, Option.some.injEq] at h
          right
          exact ⟨kind, names, by rw [← h, e]; rfl, hn⟩
        · simp [hF] at h
    · simp only [hW, if_false] at h
      by_cases hF : (lexS (lexS s).2.2).1 = TOKEN_EOF
      · simp only [hF, not_true_eq_false, if_false, Option.some.injEq] at h
        left
        rw [← h]
        rfl
      · simp [hF] at h
  · simp [hE] at h

theorem parseShowS_left (s : List Char) (ast : QueryAST) (h : parseShowS s = some ast) :
    QueryAST_get_left (some ast) = none := by
  unfold parseShowS at h
  simp only [] at h
  split at h
  · exact Option.noConfusion h
  · split at h
    · exact Option.noConfusion h
    · split at h
      · exact Option.noConfusion h
      · split at h
        · exact Option.noConfusion h
        · split at h
          · exact Option.noConfusion h
          · simp only [Option.some.injEq] at h
            rw [← h]
            rfl

theorem parseS_left (s : List Char) (ast predicate : QueryAST) (h : parseS s = some ast)
    (hl : QueryAST_get_left (some ast) = some predicate) :
    ∃ kind names, predicate = predicateNode kind names ∧ names.length ≠ 0 := by
  unfold parseS at h
  have key : ∀ type, parseEntitiesS type (lexS s).2.2 = some ast →
      ∃ kind names, predicate = predicateNode kind names ∧ names.length ≠ 0 := by
    intro type he
    rcases parseEntitiesS_left type _ ast he with e | ⟨kind, names, e, hn⟩
    · rw [e] at hl
      exact Option.noConfusion hl
    · rw [e] at hl
      simp only [QueryAST_get_left, statementNode, Option.some.injEq] at hl
      exact ⟨kind, names, hl.symm, hn⟩
  by_cases h1 : (lexS s).1 = TOKEN_SELECT
  · simp only [h1, if_true] at h
    exact key _ h
  · by_cases h2 : (lexS s).1 = TOKEN_COUNT
    · simp only [h2, reduceCtorEq, if_false, if_true] at h
      exact key _ h
    · by_cases h3 : (lexS s).1 = TOKEN_SHOW
      · simp only [h3, reduceCtorEq, if_false, if_true] at h
        rw [parseShowS_left _ ast h] at hl
        exact Option.noConfusion hl
      · simp [h1, h2, h3] at h

theorem parseComponentListS_empty (ws tail : List Char) (hws : ∀ c ∈ ws, isspace c = true) :
    (parseComponentListS ('(' :: (ws ++ ')' :: tail))).1 = none := by
  unfold parseComponentListS
  rw [lexS_lparen]
  simp only [ne_eq, not_true_eq_false, if_false]
  unfold componentListLoopS
  rw [lexS_spaces ws _ hws, lexS_rparen]
  simp only [if_true, List.length_nil]

theorem parsePredicateS_empty (kind : ASTNodeType) (ws tail : List Char)
    (hk : kind = AST_HAS ∨ kind = AST_HAS_ANY ∨ kind = AST_NOT_HAS)
    (hws : ∀ c ∈ ws, isspace c = true) :
    (parsePredicateS (' ' :: (keywordText kind ++ '(' :: (ws ++ ')' :: tail)))).1 = none := by
  have hl := parseComponentListS_empty ws tail hws
  have hs : stopsWord ('(' :: (ws ++ ')' :: tail)) := stopsWord_cons _ _ (by decide)
  rcases hp : parseComponentListS ('(' :: (ws ++ ')' :: tail)) with ⟨l, r⟩
  rw [hp] at hl
  simp only [] at hl
  subst hl
  unfold parsePredicateS
  rw [lexS_space _ _ (by decide)]
  rcases hk with hk | hk | hk <;> subst hk
  · rw [show keywordText AST_HAS = "HAS".toList from rfl, lexS_word _ _ (by decide) hs,
      show keywordType "HAS".toList = TOKEN_HAS from rfl]
    simp only [if_true, hp]
  · rw [show keywordText AST_HAS_ANY = "HAS_ANY".toList from rfl, lexS_word _ _ (by decide) hs,
      show keywordType "HAS_ANY".toList = TOKEN_HAS_ANY from rfl]
    simp only [reduceCtorEq, if_false, if_true, hp]
  · rw [show keywordText AST_NOT_HAS = "NOT_HAS".toList from rfl, lexS_word _ _ (by decide) hs,
      show keywordType "NOT_HAS".toList = TOKEN_NOT_HAS from rfl]
    simp only [reduceCtorEq, if_false, if_true, hp]

theorem parseS_empty_list (type kind : ASTNodeType) (ws tail : List Char)
    (ht : type = AST_SELECT ∨ type = AST_COUNT)
    (hk : kind = AST_HAS ∨ kind = AST_HAS_ANY ∨ kind = AST_NOT_HAS)
    (hws : ∀ c ∈ ws, isspace c = true) :
    parseS (keywordText type ++ ' ' :: ("ENTITIES".toList ++ ' ' :: ("WHERE".toList ++ ' ' ::
      (keywordText kind ++ '(' :: (ws ++ ')' :: tail))))) = none := by
  have hp := parsePredicateS_empty kind ws tail hk hws
  rcases hq : parsePredicateS (' ' :: (keywordText kind ++ '(' :: (ws ++ ')' :: tail)))
    with ⟨l, r⟩
  rw [hq] at hp
  simp only [] at hp
  subst hp
  rcases ht with ht | ht <;> subst ht
  · rw [show keywordText AST_SELECT = "SELECT".toList from rfl, parseS_select,
      parseEntitiesS_where, hq]
  · rw [show keywordText AST_COUNT = "COUNT".toList from rfl, parseS_count,
      parseEntitiesS_where, hq]

/-- C14: `SELECT ENTITIES` and `COUNT ENTITIES` without a WHERE clause are
valid.  For K in SELECT, COUNT, every spelling of K and of ENTITIES in any
letter case, any white space before, between (at least one byte) and after the
two words, `QueryParser_parse` succeeds with a node of the kind of K that has
no data and no left child; the texts "SELECT ENTITIES" and "COUNT ENTITIES"
are the plain instances. -/
theorem C14_statement_without_where_is_valid (type : ASTNodeType)
    (ws0 w1 ws1 w2 ws2 : List Char)
    (ht : type = AST_SELECT ∨ type = AST_COUNT)
    (h0 : ∀ c ∈ ws0, isspace c = true) (h1 : ∀ c ∈ ws1, isspace c = true) (hne : ws1 ≠ [])
    (h2 : ∀ c ∈ ws2, isspace c = true)
    (hw1 : w1.map tolower = (keywordText type).map tolower)
    (hw2 : w2.map tolower = "ENTITIES".toList.map tolower) :
    (QueryParser_new (some (ws0 ++ w1 ++ ws1 ++ w2 ++ ws2))).map
        (fun parser => (QueryParser_parse parser).1) =
      some (some (.node type .null none none none 0)) ∧
    QueryAST_get_type (some (.node type .null none none none 0)) = type ∧
    QueryAST_get_left (some (.node type .null none none none 0)) = none ∧
    (QueryParser_new (some "SELECT ENTITIES".toList)).map
        (fun parser => (QueryParser_parse parser).1) =
      some (some (.node AST_SELECT .null none none none 0)) ∧
    (QueryParser_new (some "COUNT ENTITIES".toList)).map
        (fun parser => (QueryParser_parse parser).1) =
      some (some (.node AST_COUNT .null none none none 0)) := by
  refine ⟨?_, rfl, rfl, rfl, rfl⟩
  rw [parse_new_eq]
  simp only [List.append_assoc]
  rw [parseS_without_where type ws0 w1 ws1 w2 ws2 ht h0 h1 hne h2 hw1 hw2]
  rfl

/-- A use of C14: the text `  cOuNt<TAB> Entities <LF>`. -/
theorem C14_statement_without_where_is_valid_witness :
    (AST_COUNT = AST_SELECT ∨ AST_COUNT = AST_COUNT) ∧
    (∀ c ∈ "  ".toList, isspace c = true) ∧
    (∀ c ∈ "\t ".toList, isspace c = true) ∧
    "\t ".toList ≠ [] ∧
    (∀ c ∈ " \n".toList, isspace c = true) ∧
    "cOuNt".toList.map tolower = (keywordText AST_COUNT).map tolower ∧
    "Entities".toList.map tolower = "ENTITIES".toList.map tolower ∧
    "  ".toList ++ "cOuNt".toList ++ "\t ".toList ++ "Entities".toList ++ " \n".toList =
      "  cOuNt\t Entities \n".toList ∧
    (QueryParser_new (some ("  ".toList ++ "cOuNt".toList ++ "\t ".toList ++
        "Entities".toList ++ " \n".toList))).map
        (fun parser => (QueryParser_parse parser).1) =
      some (some (.node AST_COUNT .null none none none 0)) :=
  ⟨Or.inr rfl, by decide, by decide, by decide, by decide, by decide, by decide, by decide,
    (C14_statement_without_where_is_valid AST_COUNT "  ".toList "cOuNt".toList "\t ".toList
      "Entities".toList " \n".toList (Or.inr rfl) (by decide) (by decide) (by decide)
      (by decide) (by decide) (by decide)).1⟩

/-- C16: a predicate's component list must be non-empty.  For K in SELECT,
COUNT and P in HAS, HAS_ANY, NOT_HAS, `QueryParser_parse` fails on
`K ENTITIES WHERE P()`, also with white space between the parentheses and
whatever follows the closing parenthesis; and no text parses to a statement
whose predicate carries an empty list: the predicate of every parsed statement
holds at least one name. -/
theorem C16_empty_component_list_fails (type kind : ASTNodeType) (ws tail : List Char)
    (ht : type = AST_SELECT ∨ type = AST_COUNT)
    (hk : kind = AST_HAS ∨ kind = AST_HAS_ANY ∨ kind = AST_NOT_HAS)
    (hws : ∀ c ∈ ws, isspace c = true) :
    (QueryParser_new (some (whereQueryText type kind []))).map
        (fun parser => (QueryParser_parse parser).1) = some none ∧
    (QueryParser_new (some (keywordText type ++ " ENTITIES WHERE ".toList ++ keywordText kind ++
        "(".toList ++ ws ++ ")".toList ++ tail))).map
        (fun parser => (QueryParser_parse parser).1) = some none ∧
    (QueryParser_new (some "SELECT entities WHERE has()".toList)).map
        (fun parser => (QueryParser_parse parser).1) = some none ∧
    (∀ (q : List Char) (ast predicate : QueryAST),
      (QueryParser_new (some q)).map (fun parser => (QueryParser_parse parser).1) =
        some (some ast) →
      QueryAST_get_left (some ast) = some predicate →
      ∃ list, QueryAST_get_data (some predicate) = .componentList list ∧ list.count ≠ 0 ∧
        list.componentNames.length = list.count) := by
  have e1 : whereQueryText type kind [] =
      keywordText type ++ ' ' :: ("ENTITIES".toList ++ ' ' :: ("WHERE".toList ++ ' ' ::
        (keywordText kind ++ '(' :: ([] ++ ')' :: [])))) := by
    rw [whereQueryText_eq]
    rfl
  have e2 : keywordText type ++ " ENTITIES WHERE ".toList ++ keywordText kind ++
        "(".toList ++ ws ++ ")".toList ++ tail =
      keywordText type ++ ' ' :: ("ENTITIES".toList ++ ' ' :: ("WHERE".toList ++ ' ' ::
        (keywordText kind ++ '(' :: (ws ++ ')' :: tail)))) := by
    simp only [List.append_assoc]
    rfl
  refine ⟨?_, ?_, rfl, ?_⟩
  · rw [parse_new_eq, e1,
      parseS_empty_list type kind [] [] ht hk (by intro c hc; simp at hc)]
  · rw [parse_new_eq, e2, parseS_empty_list type kind ws tail ht hk hws]
  · intro q ast predicate hq hl
    rw [parse_new_eq] at hq
    simp only [Option.some.injEq] at hq
    obtain ⟨kind2, names, e, hn⟩ := parseS_left q ast predicate hq hl
    subst e
    exact ⟨ComponentList.ofNames names, rfl, hn, rfl⟩

/-- A use of C16: `COUNT ENTITIES WHERE NOT_HAS( <TAB>)` fails. -/
theorem C16_empty_component_list_fails_witness :
    (AST_COUNT = AST_SELECT ∨ AST_COUNT = AST_COUNT) ∧
    (AST_NOT_HAS = AST_HAS ∨ AST_NOT_HAS = AST_HAS_ANY ∨ AST_NOT_HAS = AST_NOT_HAS) ∧
    (∀ c ∈ " \t".toList, isspace c = true) ∧
    keywordText AST_COUNT ++ " ENTITIES WHERE ".toList ++ keywordText AST_NOT_HAS ++
        "(".toList ++ " \t".toList ++ ")".toList ++ [] =
      "COUNT ENTITIES WHERE NOT_HAS( \t)".toList ∧
    (QueryParser_new (some (keywordText AST_COUNT ++ " ENTITIES WHERE ".toList ++
        keywordText AST_NOT_HAS ++ "(".toList ++ " \t".toList ++ ")".toList ++ []))).map
        (fun parser => (QueryParser_parse parser).1) = some none :=
  ⟨Or.inr rfl, Or.inr (Or.inr rfl), by decide, by decide,
    (C16_empty_component_list_fails AST_COUNT AST_NOT_HAS " \t".toList []
      (Or.inr rfl) (Or.inr (Or.inr rfl)) (by decide)).2.1⟩

/-- C17: what `QueryParser_parse` does on `SHOW x OF ENTITY <ref>` for the
references of the claim.  The references "abc", "invalid", "12", "12:" and
"1:x" fail; the reference ":5", with no digit before the colon, does not fail:
`strtoull` converts nothing, its end pointer is the colon, and the statement
parses with the entity `0:5`. -/
theorem C17_entity_reference_without_high_digits_parses :
    (QueryParser_new (some "SHOW x OF ENTITY :5".toList)).map
        (fun parser => (QueryParser_parse parser).1) =
      some (some (.node AST_SHOW
        (.showData { componentName := some "x".toList, entityId := some { high := 0, low := 5 } })
        none none none 0)) ∧
    (QueryParser_new (some "SHOW x OF ENTITY abc".toList)).map
        (fun parser => (QueryParser_parse parser).1) = some none ∧
    (QueryParser_new (some "SHOW x OF ENTITY invalid".toList)).map
        (fun parser => (QueryParser_parse parser).1) = some none ∧
    (QueryParser_new (some "SHOW x OF ENTITY 12".toList)).map
        (fun parser => (QueryParser_parse parser).1) = some none ∧
    (QueryParser_new (some "SHOW x OF ENTITY 12:".toList)).map
        (fun parser => (QueryParser_parse parser).1) = some none ∧
    (QueryParser_new (some "SHOW x OF ENTITY 1:x".toList)).map
        (fun parser => (QueryParser_parse parser).1) = some none :=
  ⟨rfl, rfl, rfl, rfl, rfl, rfl⟩

/-! ## Claims about the entry point `Query_execute` -/

theorem execute_status (ecs : Option ECS) (ast : Option QueryAST)
    (out0 : Option QueryEngineResult) :
    (QueryExecutor_execute ecs ast out0).status = QUERY_SUCCESS ∨
      (QueryExecutor_execute ecs ast out0).status = QUERY_ERROR_EXECUTION := by
  unfold QueryExecutor_execute
  split
  · simp only []
    repeat' split
    all_goals first | exact Or.inl rfl | exact Or.inr rfl
  · exact Or.inr rfl

/-- C19: `Query_execute` called with a null registry, or with a null query
string, returns `QUERY_ERROR_INVALID_SYNTAX`, leaves the result record as it
was and makes no registry call: nothing is parsed or executed; and this
status differs from success, parse error and execution error. -/
theorem C19_null_input_is_invalid (ecs : Option ECS) (queryString : Option (List Char))
    (outResult : Option QueryEngineResult) :
    Query_execute none queryString outResult =
      { status := QUERY_ERROR_INVALID_SYNTAX, outResult := outResult, calls := [] } ∧
    Query_execute ecs none outResult =
      { status := QUERY_ERROR_INVALID_SYNTAX, outResult := outResult, calls := [] } ∧
    QUERY_ERROR_INVALID_SYNTAX ≠ QUERY_SUCCESS ∧
    QUERY_ERROR_INVALID_SYNTAX ≠ QUERY_ERROR_PARSE ∧
    QUERY_ERROR_INVALID_SYNTAX ≠ QUERY_ERROR_EXECUTION := by
  refine ⟨?_, ?_, by decide, by decide, by decide⟩
  · cases queryString <;> cases outResult <;> rfl
  · cases ecs <;> cases outResult <;> rfl

/-- C20, as stated, fails: on the sample registry `Query_execute` with the
empty query string returns `QUERY_ERROR_PARSE`, not the invalid-input status
it returns for a null query string. -/
theorem C20_counterexample :
    (Query_execute (some sampleRegistry) (some "".toList) (some emptyResult)).status =
      QUERY_ERROR_PARSE ∧
    (Query_execute (some sampleRegistry) (some "".toList) (some emptyResult)).status ≠
      QUERY_ERROR_INVALID_SYNTAX ∧
    (Query_execute (some sampleRegistry) none (some emptyResult)).status =
      QUERY_ERROR_INVALID_SYNTAX := by
  decide

/-- C20, amended: `Query_execute` called with the empty query string and a
valid registry returns `QUERY_ERROR_PARSE`, an error status other than success
and other than the invalid-input status of a null query string, with an
empty result record and no registry call. -/
theorem C20_empty_query_is_parse_error (ecs : ECS) (out0 : QueryEngineResult) :
    Query_execute (some ecs) (some []) (some out0) =
      { status := QUERY_ERROR_PARSE,
        outResult := some { entities := none, count := 0, capacity := 0, data := none },
        calls := [] } ∧
    QUERY_ERROR_PARSE ≠ QUERY_SUCCESS ∧ QUERY_ERROR_PARSE ≠ QUERY_ERROR_INVALID_SYNTAX := by
  refine ⟨?_, by decide, by decide⟩
  rw [Query_execute_eq]
  rfl

/-- C18: for a non-null registry, query string and result record,
`Query_execute` returns `QUERY_ERROR_PARSE` exactly when `QueryParser_parse`
fails on the query string, and otherwise returns the status of
`QueryExecutor_execute` on the parsed statement; the texts
"SELECT entities has(Position)", "SELECT entities WHERE has()" and
"INVALID QUERY SYNTAX" give `QUERY_ERROR_PARSE` for every registry. -/
theorem C18_parse_error_exactly_when_parse_fails (ecs : ECS) (queryString : List Char)
    (out0 : QueryEngineResult) :
    ((Query_execute (some ecs) (some queryString) (some out0)).status = QUERY_ERROR_PARSE ↔
      (QueryParser_new (some queryString)).bind (fun parser => (QueryParser_parse parser).1) =
        none) ∧
    (∀ ast,
      (QueryParser_new (some queryString)).bind (fun parser => (QueryParser_parse parser).1) =
        some ast →
      (Query_execute (some ecs) (some queryString) (some out0)).status =
        (QueryExecutor_execute (some ecs) (some ast)
          (some { entities := none, count := 0, capacity := 0, data := none })).status) ∧
    (Query_execute (some ecs) (some "SELECT entities has(Position)".toList)
      (some out0)).status = QUERY_ERROR_PARSE ∧
    (Query_execute (some ecs) (some "SELECT entities WHERE has()".toList)
      (some out0)).status = QUERY_ERROR_PARSE ∧
    (Query_execute (some ecs) (some "INVALID QUERY SYNTAX".toList)
      (some out0)).status = QUERY_ERROR_PARSE := by
  obtain ⟨p, hp, hwf, hrest⟩ := QueryParser_new_spec queryString
  have hparse : (QueryParser_new (some queryString)).bind
      (fun parser => (QueryParser_parse parser).1) = parseS queryString := by
    rw [hp, Option.some_bind, QueryParser_parse_spec p hwf, hrest]
  rw [hparse]
  refine ⟨?_, ?_, ?_, ?_, ?_⟩
  · rw [Query_execute_eq]
    cases h : parseS queryString with
    | none => simp
    | some ast =>
      simp only [reduceCtorEq, iff_false]
      rcases execute_status (some ecs) (some ast) (some emptyResult) with hs | hs <;>
        rw [hs] <;> exact QueryStatus.noConfusion
  · intro ast h
    rw [Query_execute_eq, h]
    rfl
  · rw [Query_execute_eq]; rfl
  · rw [Query_execute_eq]; rfl
  · rw [Query_execute_eq]; rfl

/-- A use of C18 on the sample registry: `COUNT ENTITIES WHERE HAS(Position)`
parses, and `Query_execute` returns the status of the executor on the parsed
statement. -/
theorem C18_parse_error_exactly_when_parse_fails_witness :
    (QueryParser_new (some "COUNT ENTITIES WHERE HAS(Position)".toList)).bind
        (fun parser => (QueryParser_parse parser).1) =
      some (statementNode AST_COUNT (some (predicateNode AST_HAS ["Position".toList]))) ∧
    (Query_execute (some sampleRegistry) (some "COUNT ENTITIES WHERE HAS(Position)".toList)
        (some emptyResult)).status =
      (QueryExecutor_execute (some sampleRegistry)
        (some (statementNode AST_COUNT (some (predicateNode AST_HAS ["Position".toList]))))
        (some { entities := none, count := 0, capacity := 0, data := none })).status :=
  ⟨rfl,
    (C18_parse_error_exactly_when_parse_fails sampleRegistry
      "COUNT ENTITIES WHERE HAS(Position)".toList emptyResult).2.1 _ rfl⟩

/-! ## The cursor after a token -/

theorem skip_whitespace_loop_frame (fuel : Nat) (p : QueryParser) :
    (skip_whitespace_loop fuel p).input = p.input ∧
    (skip_whitespace_loop fuel p).length = p.length := by
  induction fuel generalizing p with
  | zero => exact ⟨rfl, rfl⟩
  | succ n ih =>
    unfold skip_whitespace_loop
    split
    · split
      · exact ih _
      · exact ih _
    · exact ⟨rfl, rfl⟩

theorem read_identifier_loop_frame (fuel : Nat) (p : QueryParser) :
    (read_identifier_loop fuel p).input = p.input ∧
    (read_identifier_loop fuel p).length = p.length ∧
    (read_identifier_loop fuel p).line = p.line := by
  induction fuel generalizing p with
  | zero => exact ⟨rfl, rfl, rfl⟩
  | succ n ih =>
    unfold read_identifier_loop
    split
    · exact ih _
    · exact ⟨rfl, rfl, rfl⟩

theorem read_number_loop_frame (fuel : Nat) (p : QueryParser) :
    (read_number_loop fuel p).input = p.input ∧
    (read_number_loop fuel p).length = p.length ∧
    (read_number_loop fuel p).line = p.line := by
  induction fuel generalizing p with
  | zero => exact ⟨rfl, rfl, rfl⟩
  | succ n ih =>
    unfold read_number_loop
    split
    · exact ih _
    · exact ⟨rfl, rfl, rfl⟩

theorem next_token_frame (p : QueryParser) :
    (QueryParser_next_token p).2.input = p.input ∧
    (QueryParser_next_token p).2.length = p.length := by
  have hs := skip_whitespace_loop_frame (p.length - p.position) p
  have hi := read_identifier_loop_frame ((skip_whitespace p).length - (skip_whitespace p).position)
    (skip_whitespace p)
  have hn := read_number_loop_frame ((skip_whitespace p).length - (skip_whitespace p).position)
    (skip_whitespace p)
  have hs2 : (skip_whitespace p).input = p.input ∧ (skip_whitespace p).length = p.length := hs
  unfold QueryParser_next_token
  simp only []
  split_ifs
  all_goals first
    | exact hs2
    | exact ⟨hn.1.trans hs2.1, hn.2.1.trans hs2.2⟩
    | exact ⟨hi.1.trans hs2.1, hi.2.1.trans hs2.2⟩

theorem peek_token_restores (p : QueryParser) : (QueryParser_peek_token p).2 = p := by
  obtain ⟨h1, h2⟩ := next_token_frame p
  unfold QueryParser_peek_token
  simp only []
  generalize (QueryParser_next_token p).2 = q at h1 h2
  cases q
  cases p
  simp only [QueryParser.mk.injEq] at *
  exact ⟨h1, trivial, h2, trivial, trivial⟩

theorem skip_whitespace_loop_at_end (fuel : Nat) (p : QueryParser)
    (h : p.position ≥ p.length) : skip_whitespace_loop fuel p = p := by
  cases fuel with
  | zero => rfl
  | succ n =>
    unfold skip_whitespace_loop
    have : ¬ p.position < p.length := by omega
    simp [this]

theorem read_identifier_type_ne_eof (p : QueryParser) :
    (read_identifier p).1.type ≠ TOKEN_EOF := by
  unfold read_identifier
  simp only []
  repeat refine ite_ne_of (by decide) ?_
  decide

theorem next_token_eof (p : QueryParser) (h : (QueryParser_next_token p).1.type = TOKEN_EOF) :
    (skip_whitespace p).position ≥ (skip_whitespace p).length ∧
    QueryParser_next_token p =
      ({ type := TOKEN_EOF, value := none, length := 0, line := (skip_whitespace p).line,
         column := (skip_whitespace p).column }, skip_whitespace p) := by
  by_cases hge : (skip_whitespace p).position ≥ (skip_whitespace p).length
  · refine ⟨hge, ?_⟩
    unfold QueryParser_next_token
    simp only []
    rw [if_pos hge]
  · exfalso
    revert h
    unfold QueryParser_next_token
    simp only []
    rw [if_neg hge]
    have hid := read_identifier_type_ne_eof (skip_whitespace p)
    split_ifs
    all_goals first
      | exact hid
      | exact id
      | (intro h; exact TokenType.noConfusion h)

theorem next_token_after_eof (p : QueryParser)
    (h : (QueryParser_next_token p).1.type = TOKEN_EOF) :
    QueryParser_next_token (QueryParser_next_token p).2 = QueryParser_next_token p := by
  obtain ⟨hge, he⟩ := next_token_eof p h
  have hs : skip_whitespace (skip_whitespace p) = skip_whitespace p :=
    skip_whitespace_loop_at_end _ _ hge
  rw [he]
  simp only []
  unfold QueryParser_next_token
  simp only []
  rw [hs, if_pos hge]

theorem iterate_after_eof (p : QueryParser) (h : (QueryParser_next_token p).1.type = TOKEN_EOF)
    (n : Nat) :
    (fun q => (QueryParser_next_token q).2)^[n] (QueryParser_next_token p).2 =
      (QueryParser_next_token p).2 := by
  induction n with
  | zero => rfl
  | succ k ih =>
    rw [Function.iterate_succ_apply', ih]
    show (QueryParser_next_token (QueryParser_next_token p).2).2 = (QueryParser_next_token p).2
    rw [next_token_after_eof p h]

/-! ## Claims about the tokenizer -/

/-- C27: for every tokenizer state, `QueryParser_peek_token` returns the token
that `QueryParser_next_token` returns from that state (all five fields: kind,
text pointer, length, line, column, hence the same text) and leaves the whole
cursor as it was; so a call of next after a peek returns what the peek
returned, and a second peek returns the same again. -/
theorem C27_peek_is_next_without_advancing (p : QueryParser) :
    (QueryParser_peek_token p).1 = (QueryParser_next_token p).1 ∧
    Token.text p.input (QueryParser_peek_token p).1 =
      Token.text p.input (QueryParser_next_token p).1 ∧
    (QueryParser_peek_token p).2 = p ∧
    (QueryParser_peek_token p).2.position = p.position ∧
    (QueryParser_peek_token p).2.line = p.line ∧
    (QueryParser_peek_token p).2.column = p.column ∧
    (QueryParser_next_token (QueryParser_peek_token p).2).1 = (QueryParser_peek_token p).1 ∧
    QueryParser_peek_token (QueryParser_peek_token p).2 = QueryParser_peek_token p := by
  have h1 : (QueryParser_peek_token p).1 = (QueryParser_next_token p).1 := rfl
  have h2 : (QueryParser_peek_token p).2 = p := peek_token_restores p
  refine ⟨h1, by rw [h1], h2, rfl, rfl, rfl, ?_, ?_⟩
  · rw [h2, h1]
  · rw [h2]

/-- C30: end of input is repeatable.  Once `QueryParser_next_token` has
returned the end-of-input token, the next call, and every call after any
number of further calls, returns the same end-of-input token and leaves the
cursor (position, line and column, input and length) unchanged. -/
theorem C30_end_of_input_is_repeatable (p : QueryParser) (n : Nat)
    (h : (QueryParser_next_token p).1.type = TOKEN_EOF) :
    QueryParser_next_token (QueryParser_next_token p).2 = QueryParser_next_token p ∧
    (QueryParser_next_token
      ((fun q => (QueryParser_next_token q).2)^[n] (QueryParser_next_token p).2)).1.type =
        TOKEN_EOF ∧
    QueryParser_next_token
      ((fun q => (QueryParser_next_token q).2)^[n] (QueryParser_next_token p).2) =
        QueryParser_next_token p ∧
    (QueryParser_next_token
      ((fun q => (QueryParser_next_token q).2)^[n] (QueryParser_next_token p).2)).2 =
        (QueryParser_next_token p).2 := by
  have e := iterate_after_eof p h n
  have e2 := next_token_after_eof p h
  refine ⟨e2, ?_, ?_, ?_⟩
  · rw [e, e2]; exact h
  · rw [e, e2]
  · rw [e, e2]

/-- A use of C30: in `SHOW  ` with the cursor after the keyword the first call
returns end-of-input at position 6, and so does the call after three more. -/
theorem C30_end_of_input_is_repeatable_witness :
    (QueryParser_next_token
      { input := "SHOW  ".toList, position := 4, length := 6, line := 1, column := 5 }).1.type =
        TOKEN_EOF ∧
    QueryParser_next_token
      ((fun q => (QueryParser_next_token q).2)^[3] (QueryParser_next_token
        { input := "SHOW  ".toList, position := 4, length := 6, line := 1,
          column := 5 }).2) =
      ({ type := TOKEN_EOF, value := none, length := 0, line := 1, column := 7 },
        { input := "SHOW  ".toList, position := 6, length := 6, line := 1, column := 7 }) :=
  ⟨by decide,
    ((C30_end_of_input_is_repeatable
      { input := "SHOW  ".toList, position := 4, length := 6, line := 1, column := 5 } 3
      (by decide)).2.2.1).trans (by decide)⟩

theorem lexHead_length_pos (s : List Char) (h : (lexHead s).1 ≠ TOKEN_EOF) :
    0 < (lexHead s).2 := by
  cases s with
  | nil => exact absurd rfl h
  | cons c r =>
    unfold lexHead
    simp only []
    split_ifs with h1 h2 h3 h4 h5 h6 h7 h8
    all_goals first
      | exact Nat.one_pos
      | exact Nat.zero_lt_two
      | skip
    · rw [List.takeWhile_cons, if_pos h7]
      exact Nat.succ_pos _
    · have hc : is_identifier_char c = true := by
        simp only [Bool.or_eq_true, decide_eq_true_eq] at h8
        simp only [is_identifier_char, isalnum, Bool.or_eq_true, decide_eq_true_eq]
        rcases h8 with h8 | h8
        · exact Or.inl (Or.inl h8)
        · exact Or.inr h8
      rw [List.takeWhile_cons, if_pos hc]
      exact Nat.succ_pos _

theorem next_token_advances (p : QueryParser) (hwf : p.WF)
    (h : (QueryParser_next_token p).1.type ≠ TOKEN_EOF) :
    p.position < (QueryParser_next_token p).2.position ∧
    (QueryParser_next_token p).2.position ≤ p.length ∧
    (QueryParser_next_token p).2.WF := by
  obtain ⟨qwf, qin, qlen, qpos, qrest⟩ := skip_whitespace_spec p hwf
  obtain ⟨t1, -, -, -, -, -, t7⟩ := next_token_raw p hwf
  obtain ⟨w1, -, -, -, -⟩ := next_token_spec p hwf
  rw [t1] at h
  have hpos := lexHead_length_pos _ h
  have hle := lexHead_length_le (skip_whitespace p).rest
  have hrl := rest_length qwf
  have hne : (skip_whitespace p).rest ≠ [] := by
    intro h0
    rw [h0] at h
    exact h rfl
  have hlen : 0 < (skip_whitespace p).rest.length := List.length_pos.mpr hne
  refine ⟨by omega, by omega, w1⟩

theorem skip_whitespace_not_space (p : QueryParser)
    (h : isspace (p.byteAt p.position) = false) : skip_whitespace p = p := by
  unfold skip_whitespace
  cases p.length - p.position with
  | zero => rfl
  | succ n =>
    unfold skip_whitespace_loop
    simp [h]

theorem tokens_until_eof (k : Nat) (p : QueryParser) (hwf : p.WF)
    (hk : p.length - p.position ≤ k) :
    ∃ n, n ≤ p.length - p.position ∧
      (QueryParser_next_token ((fun q => (QueryParser_next_token q).2)^[n] p)).1.type =
        TOKEN_EOF ∧
      ∀ m, m < n →
        (QueryParser_next_token ((fun q => (QueryParser_next_token q).2)^[m] p)).1.type ≠
          TOKEN_EOF := by
  induction k generalizing p with
  | zero =>
    by_cases h : (QueryParser_next_token p).1.type = TOKEN_EOF
    · exact ⟨0, Nat.zero_le _, h, fun m hm => absurd hm (Nat.not_lt_zero m)⟩
    · obtain ⟨h1, h2, -⟩ := next_token_advances p hwf h
      omega
  | succ j ih =>
    by_cases h : (QueryParser_next_token p).1.type = TOKEN_EOF
    · exact ⟨0, Nat.zero_le _, h, fun m hm => absurd hm (Nat.not_lt_zero m)⟩
    · obtain ⟨h1, h2, h3⟩ := next_token_advances p hwf h
      obtain ⟨hi, hl⟩ := next_token_frame p
      obtain ⟨n, hn, he, hb⟩ := ih (QueryParser_next_token p).2 h3 (by rw [hl]; omega)
      rw [hl] at hn
      refine ⟨n + 1, by omega, ?_, ?_⟩
      · rw [Function.iterate_succ_apply]
        exact he
      · intro m hm
        cases m with
        | zero => exact h
        | succ m2 =>
          rw [Function.iterate_succ_apply]
          exact hb m2 (by omega)

/-- C29: the tokenizer never loops forever.  At a byte inside the input that
is not white space, not one of `( ) . ,`, not one of `> < = !`, not a digit,
not a letter and not an underscore, `QueryParser_next_token` returns an ERROR
token of length 1 that starts at the cursor and advances the position by
exactly one.  For a cursor on a real input (`length` is the length of the
input), every call that does not return end-of-input ends at a strictly
larger position, not beyond the length; so after some number `n` of such
calls, at most `length - position`, the next call returns end-of-input. -/
theorem C29_tokenizer_makes_progress (p : QueryParser) (hwf : p.WF) :
    (p.position < p.length →
      isspace (p.byteAt p.position) = false →
      p.byteAt p.position ≠ '(' → p.byteAt p.position ≠ ')' →
      p.byteAt p.position ≠ '.' → p.byteAt p.position ≠ ',' →
      p.byteAt p.position ≠ '>' → p.byteAt p.position ≠ '<' →
      p.byteAt p.position ≠ '=' → p.byteAt p.position ≠ '!' →
      isdigit (p.byteAt p.position) = false → isalpha (p.byteAt p.position) = false →
      p.byteAt p.position ≠ '_' →
      QueryParser_next_token p =
        ({ type := TOKEN_ERROR, value := some p.position, length := 1, line := p.line,
           column := p.column },
         { p with position := p.position + 1, column := p.column + 1 })) ∧
    ((QueryParser_next_token p).1.type ≠ TOKEN_EOF →
      p.position < (QueryParser_next_token p).2.position ∧
      (QueryParser_next_token p).2.position ≤ p.length) ∧
    (∃ n, n ≤ p.length - p.position ∧ n ≤ p.input.length ∧
      (QueryParser_next_token ((fun q => (QueryParser_next_token q).2)^[n] p)).1.type =
        TOKEN_EOF ∧
      ∀ m, m < n →
        (QueryParser_next_token ((fun q => (QueryParser_next_token q).2)^[m] p)).1.type ≠
          TOKEN_EOF) := by
  refine ⟨?_, ?_, ?_⟩
  · intro hlt hsp h1 h2 h3 h4 h5 h6 h7 h8 hd ha hu
    have hs := skip_whitespace_not_space p hsp
    unfold QueryParser_next_token
    simp only []
    rw [hs, if_neg (by omega), if_neg h1, if_neg h2, if_neg h3, if_neg h4,
      if_neg (by simp [h5, h6, h7, h8]), if_neg (by simp [hd]), if_neg (by simp [ha, hu])]
  · intro h
    obtain ⟨a, b, -⟩ := next_token_advances p hwf h
    exact ⟨a, b⟩
  · obtain ⟨n, hn, he, hb⟩ := tokens_until_eof _ p hwf (le_refl _)
    refine ⟨n, hn, ?_, he, hb⟩
    unfold QueryParser.WF at hwf
    omega

/-- A use of C29: the text `a # b`.  The byte `#` at position 2 gives an ERROR
token of length 1, and from the start the fourth call returns end-of-input. -/
theorem C29_tokenizer_makes_progress_witness :
    QueryParser.WF
      { input := "a # b".toList, position := 2, length := 5, line := 1, column := 3 } ∧
    QueryParser_next_token
        { input := "a # b".toList, position := 2, length := 5, line := 1, column := 3 } =
      ({ type := TOKEN_ERROR, value := some 2, length := 1, line := 1, column := 3 },
        { input := "a # b".toList, position := 3, length := 5, line := 1, column := 4 }) ∧
    (QueryParser_next_token ((fun q => (QueryParser_next_token q).2)^[3]
      { input := "a # b".toList, position := 0, length := 5, line := 1,
        column := 1 })).1.type = TOKEN_EOF :=
  ⟨rfl,
    (C29_tokenizer_makes_progress
      { input := "a # b".toList, position := 2, length := 5, line := 1, column := 3 } rfl).1
      (by decide) (by decide) (by decide) (by decide) (by decide) (by decide) (by decide)
      (by decide) (by decide) (by decide) (by decide) (by decide) (by decide),
    by decide⟩

/-! ## Keywords -/

theorem keywordTable_type : ∀ kt ∈ keywordTable, keywordType kt.1 = kt.2 := by decide

theorem keywordTable_texts : keywordTable.map Prod.fst = keywordTexts := rfl

theorem keywordTable_not_identifier : ∀ kt ∈ keywordTable, kt.2 ≠ TOKEN_IDENTIFIER := by decide

theorem keywordTable_injective :
    ∀ kt ∈ keywordTable, ∀ kt2 ∈ keywordTable, kt.2 = kt2.2 → kt.1 = kt2.1 := by decide

theorem isKeywordText_iff (w : List Char) :
    isKeywordText w = true ↔ ∃ kt ∈ keywordTable, w.map tolower = kt.1.map tolower := by
  unfold isKeywordText
  rw [← keywordTable_texts]
  simp only [List.any_eq_true, List.mem_map, beq_iff_eq]
  constructor
  · rintro ⟨k, ⟨kt, hkt, rfl⟩, h⟩
    exact ⟨kt, hkt, h.symm⟩
  · rintro ⟨kt, hkt, h⟩
    exact ⟨kt.1, ⟨kt, hkt, rfl⟩, h.symm⟩

theorem keywordType_table (w : List Char) (hnul : ∀ c ∈ w, c ≠ NUL) :
    (∀ kt ∈ keywordTable, (keywordType w = kt.2 ↔ w.map tolower = kt.1.map tolower)) ∧
    (keywordType w = TOKEN_IDENTIFIER ↔
      ∀ kt ∈ keywordTable, w.map tolower ≠ kt.1.map tolower) := by
  have back : ∀ kt ∈ keywordTable, w.map tolower = kt.1.map tolower → keywordType w = kt.2 := by
    intro kt hkt h
    rw [keywordType_congr h]
    exact keywordTable_type kt hkt
  refine ⟨?_, ?_⟩
  · intro kt hkt
    refine ⟨?_, back kt hkt⟩
    intro h
    cases hk : isKeywordText w with
    | false =>
      rw [keywordType_of_not_keyword hnul hk] at h
      exact absurd h.symm (keywordTable_not_identifier kt hkt)
    | true =>
      obtain ⟨kt2, hkt2, h2⟩ := (isKeywordText_iff w).mp hk
      have h3 := back kt2 hkt2 h2
      have h4 : kt2.1 = kt.1 := keywordTable_injective kt2 hkt2 kt hkt (by rw [← h3, h])
      rw [← h4]
      exact h2
  · constructor
    · intro h kt hkt hm
      have := back kt hkt hm
      rw [h] at this
      exact keywordTable_not_identifier kt hkt this.symm
    · intro h
      apply keywordType_of_not_keyword hnul
      cases hk : isKeywordText w with
      | false => rfl
      | true =>
        obtain ⟨kt, hkt, hm⟩ := (isKeywordText_iff w).mp hk
        exact absurd hm (h kt hkt)

theorem new_next_token (q : List Char) :
    ∃ p, QueryParser_new (some q) = some p ∧ p.input = q ∧
      (QueryParser_next_token p).1.type = (lexS q).1 ∧
      Token.text p.input (QueryParser_next_token p).1 = (lexS q).2.1 ∧
      (QueryParser_next_token p).2.rest = (lexS q).2.2 ∧
      (QueryParser_next_token p).1.length = (lexS q).2.1.length ∧
      (QueryParser_next_token p).2.position + (lexS q).2.2.length = q.length := by
  obtain ⟨p, hp, hwf, hrest⟩ := QueryParser_new_spec q
  have hpos : p.position = 0 := by
    have := hp
    unfold QueryParser_new at this
    simp only [Option.some.injEq] at this
    rw [← this]
  have hin : p.input = q := by
    have := hrest
    unfold QueryParser.rest at this
    rw [hpos, List.drop_zero] at this
    exact this
  obtain ⟨-, -, r1, t1, x1⟩ := next_token_spec p hwf
  obtain ⟨-, t2, -, v1, -, -, t7⟩ := next_token_raw p hwf
  obtain ⟨-, -, -, spos, srest⟩ := skip_whitespace_spec p hwf
  have hle := lexHead_length_le (q.dropWhile isspace)
  have hdw : (q.dropWhile isspace).length + (q.takeWhile isspace).length = q.length := by
    have := congrArg List.length (List.takeWhile_append_dropWhile isspace q)
    rw [List.length_append] at this
    omega
  rw [hrest] at srest spos
  rw [srest] at t2 t7
  have hlen1 : (lexS q).2.1.length = (lexHead (q.dropWhile isspace)).2 := by
    unfold lexS
    simp only [List.length_take]
    omega
  have hlen2 : (lexS q).2.2.length =
      (q.dropWhile isspace).length - (lexHead (q.dropWhile isspace)).2 := by
    unfold lexS
    simp only [List.length_drop]
  refine ⟨p, hp, hin, by rw [t1, hrest], ?_, by rw [r1, hrest], by rw [t2, hlen1], ?_⟩
  · by_cases he : (QueryParser_next_token p).1.type = TOKEN_EOF
    · obtain ⟨-, e⟩ := next_token_eof p he
      have hl : (lexS q).1 = TOKEN_EOF := by rw [← hrest, ← t1]; exact he
      have h0 : q.dropWhile isspace = [] := by
        unfold lexS at hl
        exact lexHead_eof hl
      rw [e]
      unfold Token.text lexS
      simp only [h0]
      rfl
    · have hv := v1 he
      unfold Token.text
      rw [hv]
      simp only []
      rw [← hrest]
      rw [← x1, hv]
      rfl
  · rw [t7, spos, hpos, hlen2]
    omega

theorem parseS_needs_entities (q : List Char)
    (h1 : (lexS q).1 = TOKEN_SELECT ∨ (lexS q).1 = TOKEN_COUNT)
    (h2 : (lexS (lexS q).2.2).1 ≠ TOKEN_ENTITIES) : parseS q = none := by
  unfold parseS
  rcases h1 with h1 | h1
  · rw [h1]
    simp only [if_true]
    unfold parseEntitiesS
    rw [if_pos h2]
  · rw [h1]
    simp only [reduceCtorEq, if_false, if_true]
    unfold parseEntitiesS
    rw [if_pos h2]

/-- C26: after SELECT or COUNT the next token must be ENTITIES.  For every
text whose first token is SELECT or COUNT and whose second token is of any
other kind (end-of-input included), `QueryParser_parse` fails; so it does on
"SELECT WHERE has(Position)", "SELECT ENTITY" and "COUNT". -/
theorem C26_statement_keyword_needs_entities (q : List Char) (tokenizer : QueryParser)
    (hp : QueryParser_new (some q) = some tokenizer)
    (h1 : (QueryParser_next_token tokenizer).1.type = TOKEN_SELECT ∨
      (QueryParser_next_token tokenizer).1.type = TOKEN_COUNT)
    (h2 : (QueryParser_next_token (QueryParser_next_token tokenizer).2).1.type ≠
      TOKEN_ENTITIES) :
    (QueryParser_new (some q)).map (fun parser => (QueryParser_parse parser).1) = some none ∧
    (QueryParser_new (some "SELECT WHERE has(Position)".toList)).map
      (fun parser => (QueryParser_parse parser).1) = some none ∧
    (QueryParser_new (some "SELECT ENTITY".toList)).map
      (fun parser => (QueryParser_parse parser).1) = some none ∧
    (QueryParser_new (some "COUNT".toList)).map
      (fun parser => (QueryParser_parse parser).1) = some none := by
  obtain ⟨e1, e2⟩ := first_tokens_eq q tokenizer hp
  rw [e1] at h1
  rw [e2] at h2
  refine ⟨?_, rfl, rfl, rfl⟩
  rw [parse_new_eq, parseS_needs_entities q h1 h2]

/-- A use of C26: `count entity WHERE HAS(Position)`, with ENTITY for
ENTITIES. -/
theorem C26_statement_keyword_needs_entities_witness :
    QueryParser_new (some "count entity WHERE HAS(Position)".toList) =
      some { input := "count entity WHERE HAS(Position)".toList, position := 0, length := 32,
             line := 1, column := 1 } ∧
    (QueryParser_next_token
      { input := "count entity WHERE HAS(Position)".toList, position := 0, length := 32,
        line := 1, column := 1 }).1.type = TOKEN_COUNT ∧
    (QueryParser_next_token (QueryParser_next_token
      { input := "count entity WHERE HAS(Position)".toList, position := 0, length := 32,
        line := 1, column := 1 }).2).1.type = TOKEN_ENTITY ∧
    (QueryParser_new (some "count entity WHERE HAS(Position)".toList)).map
      (fun parser => (QueryParser_parse parser).1) = some none :=
  ⟨rfl, by decide, by decide,
    (C26_statement_keyword_needs_entities "count entity WHERE HAS(Position)".toList _ rfl
      (Or.inr (by decide)) (by decide)).1⟩

/-- C28: how an identifier token is classified.  For a text that starts, after
any white space, with a word `w` of letters, digits and underscores (first a
letter or an underscore) that no identifier character follows,
`QueryParser_next_token` returns one token whose text is the whole word `w`;
its kind is the kind of keyword K exactly when `w` equals K with letter case
ignored, for each of the thirteen keywords of the table of `read_identifier`,
and IDENTIFIER exactly when `w` equals none of them.  `HAS_ANY` is the one
token HAS_ANY, `ENTITIES` is ENTITIES, and `HASX`, `HAS_ANYTHING`, `ENTITIESX`
and `SELECTED` are IDENTIFIER tokens. -/
theorem C28_keyword_needs_whole_word (ws w s : List Char) (tokenizer : QueryParser)
    (hws : ∀ c ∈ ws, isspace c = true) (hw : isIdentifierText w = true)
    (hs : ∀ c ∈ s.head?, is_identifier_char c = false)
    (hp : QueryParser_new (some (ws ++ w ++ s)) = some tokenizer) :
    Token.text tokenizer.input (QueryParser_next_token tokenizer).1 = w ∧
    (QueryParser_next_token tokenizer).1.length = w.length ∧
    (QueryParser_next_token tokenizer).2.position = ws.length + w.length ∧
    (∀ kt ∈ keywordTable,
      ((QueryParser_next_token tokenizer).1.type = kt.2 ↔
        w.map tolower = kt.1.map tolower)) ∧
    ((QueryParser_next_token tokenizer).1.type = TOKEN_IDENTIFIER ↔
      ∀ kt ∈ keywordTable, w.map tolower ≠ kt.1.map tolower) ∧
    ((QueryParser_new (some "HAS_ANY".toList)).map
        (fun p => ((QueryParser_next_token p).1.type, (QueryParser_next_token p).1.length,
          (QueryParser_next_token (QueryParser_next_token p).2).1.type)) =
      some (TOKEN_HAS_ANY, 7, TOKEN_EOF)) ∧
    ((QueryParser_new (some "ENTITIES".toList)).map
        (fun p => ((QueryParser_next_token p).1.type, (QueryParser_next_token p).1.length)) =
      some (TOKEN_ENTITIES, 8)) ∧
    ((QueryParser_new (some "HASX".toList)).map
        (fun p => ((QueryParser_next_token p).1.type, (QueryParser_next_token p).1.length)) =
      some (TOKEN_IDENTIFIER, 4)) ∧
    ((QueryParser_new (some "HAS_ANYTHING".toList)).map
        (fun p => ((QueryParser_next_token p).1.type, (QueryParser_next_token p).1.length)) =
      some (TOKEN_IDENTIFIER, 12)) ∧
    ((QueryParser_new (some "ENTITIESX".toList)).map
        (fun p => ((QueryParser_next_token p).1.type, (QueryParser_next_token p).1.length)) =
      some (TOKEN_IDENTIFIER, 9)) ∧
    ((QueryParser_new (some "SELECTED".toList)).map
        (fun p => ((QueryParser_next_token p).1.type, (QueryParser_next_token p).1.length)) =
      some (TOKEN_IDENTIFIER, 8)) := by
  have hl : lexS (ws ++ w ++ s) = (keywordType w, w, s) := by
    rw [List.append_assoc, lexS_spaces ws _ hws, lexS_word w s hw hs]
  obtain ⟨p, hp2, -, ht, htx, -, hlen, hpos⟩ := new_next_token (ws ++ w ++ s)
  rw [hp2] at hp
  have hpe : p = tokenizer := Option.some.inj hp
  subst hpe
  obtain ⟨k1, k2⟩ := keywordType_table w (identifierText_no_nul hw)
  rw [hl] at ht htx hlen hpos
  simp only [List.length_append] at hpos
  refine ⟨htx, hlen, by omega, ?_, ?_, rfl, rfl, rfl, rfl, rfl, rfl⟩
  · intro kt hkt
    rw [ht]
    exact k1 kt hkt
  · rw [ht]
    exact k2

/-- A use of C28: in `  Has_Any(` the first token is the word `Has_Any`, of
kind HAS_ANY, and it is not of kind HAS. -/
theorem C28_keyword_needs_whole_word_witness :
    (∀ c ∈ "  ".toList, isspace c = true) ∧
    isIdentifierText "Has_Any".toList = true ∧
    (∀ c ∈ "(".toList.head?, is_identifier_char c = false) ∧
    QueryParser_new (some ("  ".toList ++ "Has_Any".toList ++ "(".toList)) =
      some { input := "  Has_Any(".toList, position := 0, length := 10, line := 1,
             column := 1 } ∧
    ("Has_Any".toList.map tolower = "HAS_ANY".toList.map tolower) ∧
    ("Has_Any".toList.map tolower ≠ "HAS".toList.map tolower) ∧
    (QueryParser_next_token
      { input := "  Has_Any(".toList, position := 0, length := 10, line := 1,
        column := 1 }).1.type = TOKEN_HAS_ANY ∧
    (QueryParser_next_token
      { input := "  Has_Any(".toList, position := 0, length := 10, line := 1,
        column := 1 }).1.type ≠ TOKEN_HAS :=
  ⟨by decide, by decide, by decide, rfl, by decide, by decide,
    ((C28_keyword_needs_whole_word "  ".toList "Has_Any".toList "(".toList _ (by decide)
      (by decide) (by decide) rfl).2.2.2.1 ("HAS_ANY".toList, TOKEN_HAS_ANY)
        (by decide)).mpr (by decide),
    by decide⟩

theorem parseS_show_all_any_case (target : List Char) (high low : Nat)
    (hhigh : high ≤ ULLONG_MAX) (hlow : low ≤ ULLONG_MAX)
    (ht : target.map tolower = "ALL".toList.map tolower) :
    parseS (showQueryText target high low) = some (showNode none high low) := by
  obtain ⟨a1, a2, a3⟩ := toDigits_spec high
  obtain ⟨b1, b2, b3⟩ := toDigits_spec low
  have h4 := parseEntityIdS_digits (Nat.toDigits 10 high) (Nat.toDigits 10 low) [] a3 a1 b3 b1
    (by intro c hc; simp at hc)
  rw [a2, b2, if_neg (by omega), if_neg (by omega)] at h4
  have h3 : lexS (' ' :: ("ENTITY".toList ++ ' ' ::
      (Nat.toDigits 10 high ++ ':' :: (Nat.toDigits 10 low ++ [])))) =
      (TOKEN_ENTITY, "ENTITY".toList,
        ' ' :: (Nat.toDigits 10 high ++ ':' :: (Nat.toDigits 10 low ++ []))) := by
    rw [lexS_space _ _ (by decide), lexS_word _ _ (by decide) (stopsWord_cons _ _ (by decide))]
    rfl
  have h2 : lexS (' ' :: ("OF".toList ++ ' ' :: ("ENTITY".toList ++ ' ' ::
      (Nat.toDigits 10 high ++ ':' :: (Nat.toDigits 10 low ++ []))))) =
      (TOKEN_OF, "OF".toList, ' ' :: ("ENTITY".toList ++ ' ' ::
        (Nat.toDigits 10 high ++ ':' :: (Nat.toDigits 10 low ++ [])))) := by
    rw [lexS_space _ _ (by decide), lexS_word _ _ (by decide) (stopsWord_cons _ _ (by decide))]
    rfl
  have hid : isIdentifierText target = true := by
    rw [isIdentifierText_congr ht]; decide
  have hk : keywordType target = TOKEN_ALL := by
    rw [keywordType_congr ht]; rfl
  rw [showQueryText_eq, parseS_show]
  refine parseShowS_of_tokens none _ _ _ _ target _ _ _ ?_ h2 h3 h4
  left
  refine ⟨?_, rfl⟩
  rw [lexS_space _ _ (by decide), lexS_word _ _ hid (stopsWord_cons _ _ (by decide)), hk]

/-- C25, a counterexample: `SHOW all OF ENTITY 1:2` and `SHOW All OF ENTITY 1:2`
parse to the same node as `SHOW ALL OF ENTITY 1:2`, the all-components target
with no component name, and not to a component named `all` or `All`. -/
theorem C25_counterexample :
    (QueryParser_new (some "SHOW ALL OF ENTITY 1:2".toList)).map
        (fun parser => (QueryParser_parse parser).1) =
      some (some (.node AST_SHOW
        (.showData { componentName := none, entityId := some { high := 1, low := 2 } })
        none none none 0)) ∧
    (QueryParser_new (some "SHOW all OF ENTITY 1:2".toList)).map
        (fun parser => (QueryParser_parse parser).1) =
      some (some (.node AST_SHOW
        (.showData { componentName := none, entityId := some { high := 1, low := 2 } })
        none none none 0)) ∧
    (QueryParser_new (some "SHOW All OF ENTITY 1:2".toList)).map
        (fun parser => (QueryParser_parse parser).1) =
      some (some (.node AST_SHOW
        (.showData { componentName := none, entityId := some { high := 1, low := 2 } })
        none none none 0)) ∧
    (QueryParser_new (some "SHOW all OF ENTITY 1:2".toList)).map
        (fun parser => (QueryAST_get_data (QueryParser_parse parser).1).toShowQueryData.map
          (fun data => data.componentName)) ≠
      some (some (some "all".toList)) :=
  ⟨rfl, rfl, rfl, by decide⟩

/-- C25, amended: the ALL keyword of a SHOW statement is matched without
regard to letter case, like every other keyword.  For every spelling of ALL
in any letter case and all values high, low below 2^64, `QueryParser_parse`
on `SHOW <spelling> OF ENTITY <high>:<low>` gives the all-components target:
the node of `SHOW ALL OF ENTITY <high>:<low>`, whose component name is
absent. -/
theorem C25_all_is_matched_in_any_case (target : List Char) (high low : Nat)
    (hhigh : high < 2 ^ 64) (hlow : low < 2 ^ 64)
    (ht : target.map tolower = "ALL".toList.map tolower) :
    (QueryParser_new (some (showQueryText target high low))).map
        (fun parser => (QueryParser_parse parser).1) =
      some (some (.node AST_SHOW
        (.showData { componentName := none, entityId := some { high := high, low := low } })
        none none none 0)) ∧
    (QueryParser_new (some (showQueryText target high low))).map
        (fun parser => (QueryParser_parse parser).1) =
      (QueryParser_new (some (showQueryText "ALL".toList high low))).map
        (fun parser => (QueryParser_parse parser).1) := by
  have h1 : high ≤ ULLONG_MAX := by unfold ULLONG_MAX; omega
  have h2 : low ≤ ULLONG_MAX := by unfold ULLONG_MAX; omega
  rw [parse_new_eq, parse_new_eq, parseS_show_all_any_case target high low h1 h2 ht,
    parseS_show_all_any_case "ALL".toList high low h1 h2 rfl]
  exact ⟨rfl, rfl⟩

/-- A use of the amended C25: `SHOW aLl OF ENTITY 7:18446744073709551615`. -/
theorem C25_all_is_matched_in_any_case_witness :
    (7 : Nat) < 2 ^ 64 ∧ (18446744073709551615 : Nat) < 2 ^ 64 ∧
    "aLl".toList.map tolower = "ALL".toList.map tolower ∧
    showQueryText "aLl".toList 7 18446744073709551615 =
      "SHOW aLl OF ENTITY 7:18446744073709551615".toList ∧
    (QueryParser_new (some (showQueryText "aLl".toList 7 18446744073709551615))).map
        (fun parser => (QueryParser_parse parser).1) =
      some (some (.node AST_SHOW
        (.showData { componentName := none,
                     entityId := some { high := 7, low := 18446744073709551615 } })
        none none none 0)) :=
  ⟨by decide, by decide, by decide, by decide,
    (C25_all_is_matched_in_any_case "aLl".toList 7 18446744073709551615 (by decide)
      (by decide) (by decide)).1⟩

/-! ## The shape of a parsed statement and the record of a run -/

theorem parsePredicateS_kind (s r : List Char) (predicate : QueryAST)
    (h : parsePredicateS s = (some predicate, r)) :
    ∃ kind names, isPredicateKind kind ∧ predicate = predicateNode kind names ∧
      names.length ≠ 0 := by
  unfold parsePredicateS at h
  have key : ∀ kind, isPredicateKind kind → (match parseComponentListS (lexS s).2.2 with
      | (none, s1) => ((none : Option QueryAST), s1)
      | (some names, s1) => (some (predicateNode kind names), s1)) = (some predicate, r) →
      ∃ kind names, isPredicateKind kind ∧ predicate = predicateNode kind names ∧
        names.length ≠ 0 := by
    intro kind hk hm
    rcases hp : parseComponentListS (lexS s).2.2 with ⟨l, r2⟩
    rw [hp] at hm
    cases l with
    | none => simp at hm
    | some names =>
      simp only [Prod.mk.injEq, Option.some.injEq] at hm
      exact ⟨kind, names, hk, hm.1.symm, parseComponentListS_nonempty _ _ _ hp⟩
  by_cases h1 : (lexS s).1 = TOKEN_HAS
  · simp only [h1, if_true] at h
    exact key _ (Or.inl rfl) h
  · by_cases h2 : (lexS s).1 = TOKEN_HAS_ANY
    · simp only [h2, reduceCtorEq, if_false, if_true] at h
      exact key _ (Or.inr (Or.inl rfl)) h
    · by_cases h3 : (lexS s).1 = TOKEN_NOT_HAS
      · simp only [h3, reduceCtorEq, if_false, if_true] at h
        exact key _ (Or.inr (Or.inr rfl)) h
      · simp only [h1, h2, h3, if_false] at h
        simp at h

theorem parseEntitiesS_shape (type : ASTNodeType) (s : List Char) (ast : QueryAST)
    (h : parseEntitiesS type s = some ast) :
    ast = statementNode type none ∨
    ∃ kind names, isPredicateKind kind ∧ names.length ≠ 0 ∧
      ast = statementNode type (some (predicateNode kind names)) := by
  unfold parseEntitiesS at h
  by_cases hE : (lexS s).1 = TOKEN_ENTITIES
  · simp only [hE, ne_eq, not_true_eq_false, if_false] at h
    by_cases hW : (lexS (lexS s).2.2).1 = TOKEN_WHERE
    · simp only [hW, if_true] at h
      rcases hp : parsePredicateS (lexS (lexS s).2.2).2.2 with ⟨l, s2⟩
      rw [hp] at h
      cases l with
      | none => simp at h
      | some predicate =>
        simp only [] at h
        obtain ⟨kind, names, hk, e, hn⟩ := parsePredicateS_kind _ _ _ hp
        by_cases hF : (lexS s2).1 = TOKEN_EOF
        · simp only [hF, not_true_eq_false, if_false, Option.some.injEq] at h
          right
          exact ⟨kind, names, hk, hn, by rw [← h, e]; rfl⟩
        · simp [hF] at h
    · simp only [hW, if_false] at h
      by_cases hF : (lexS (lexS s).2.2).1 = TOKEN_EOF
      · simp only [hF, not_true_eq_false, if_false, Option.some.injEq] at h
        left
        rw [← h]
        rfl
      · simp [hF] at h
  · simp [hE] at h

theorem parseShowS_shape (s : List Char) (ast : QueryAST) (h : parseShowS s = some ast) :
    ∃ componentName high low, ast = showNode componentName high low := by
  unfold parseShowS at h
  simp only [] at h
  split at h
  · exact Option.noConfusion h
  · split at h
    · exact Option.noConfusion h
    · split at h
      · exact Option.noConfusion h
      · split at h
        · exact Option.noConfusion h
        · split at h
          · exact Option.noConfusion h
          · simp only [Option.some.injEq] at h
            rw [← h]
            exact ⟨_, _, _, rfl⟩

theorem parseS_shape (s : List Char) (ast : QueryAST) (h : parseS s = some ast) :
    (∃ type, isSelectOrCount type ∧ ast = statementNode type none) ∨
    (∃ type kind names, isSelectOrCount type ∧ isPredicateKind kind ∧ names.length ≠ 0 ∧
      ast = statementNode type (some (predicateNode kind names))) ∨
    (∃ componentName high low, ast = showNode componentName high low) := by
  unfold parseS at h
  have key : ∀ type, isSelectOrCount type → parseEntitiesS type (lexS s).2.2 = some ast →
      (∃ type, isSelectOrCount type ∧ ast = statementNode type none) ∨
      (∃ type kind names, isSelectOrCount type ∧ isPredicateKind kind ∧ names.length ≠ 0 ∧
        ast = statementNode type (some (predicateNode kind names))) ∨
      (∃ componentName high low, ast = showNode componentName high low) := by
    intro type ht he
    rcases parseEntitiesS_shape type _ ast he with e | ⟨kind, names, hk, hn, e⟩
    · exact Or.inl ⟨type, ht, e⟩
    · exact Or.inr (Or.inl ⟨type, kind, names, ht, hk, hn, e⟩)
  by_cases h1 : (lexS s).1 = TOKEN_SELECT
  · simp only [h1, if_true] at h
    exact key _ (Or.inl rfl) h
  · by_cases h2 : (lexS s).1 = TOKEN_COUNT
    · simp only [h2, reduceCtorEq, if_false, if_true] at h
      exact key _ (Or.inr rfl) h
    · by_cases h3 : (lexS s).1 = TOKEN_SHOW
      · simp only [h3, reduceCtorEq, if_false, if_true] at h
        exact Or.inr (Or.inr (parseShowS_shape _ ast h))
      · simp [h1, h2, h3] at h

theorem execute_without_predicate (ecs : ECS) (type : ASTNodeType) (out0 : QueryEngineResult)
    (ht : isSelectOrCount type) :
    QueryExecutor_execute (some ecs) (some (statementNode type none)) (some out0) =
      { status := QUERY_SUCCESS, outResult := some emptyResult, calls := [] } := by
  have ht2 : type = AST_SELECT ∨ type = AST_COUNT := ht
  unfold QueryExecutor_execute statementNode
  simp only [QueryAST_get_type, QueryAST_get_left]
  rw [if_pos ht2]
  rfl

theorem predicateNode_inj {kind kind2 : ASTNodeType} {names names2 : List (List Char)}
    (h : predicateNode kind names = predicateNode kind2 names2) :
    kind = kind2 ∧ names = names2 := by
  unfold predicateNode ComponentList.ofNames at h
  simp only [QueryAST.node.injEq, ASTData.componentList.injEq, ComponentList.mk.injEq] at h
  exact ⟨h.1, h.2.1.1⟩

theorem execute_predicate_status (ecs : ECS) (type kind : ASTNodeType)
    (names : List (List Char)) (out0 : QueryEngineResult) (ht : isSelectOrCount type)
    (hk : isPredicateKind kind) :
    (QueryExecutor_execute (some ecs) (some (statementNode type (some (predicateNode kind names))))
      (some out0)).status = QUERY_SUCCESS := by
  rw [execute_predicate ecs type kind names out0 ht hk]
  split <;> rfl

theorem execute_predicate_empty (ecs : ECS) (type kind : ASTNodeType)
    (names : List (List Char)) (out0 : QueryEngineResult) (ht : isSelectOrCount type)
    (hk : isPredicateKind kind) (he : ecs.setQuery kind (ecs.handles names) = []) :
    (QueryExecutor_execute (some ecs) (some (statementNode type (some (predicateNode kind names))))
      (some out0)).outResult = some emptyResult := by
  rw [execute_predicate ecs type kind names out0 ht hk, he]
  split
  · rfl
  · simp only [List.length_nil, gt_iff_lt, Nat.lt_irrefl, if_false]
    split <;> rfl

/-- C21: an empty match set is success.  For every registry and every SELECT
or COUNT statement that `QueryParser_parse` produces, `QueryExecutor_execute`
returns `QUERY_SUCCESS` (the allocation of the handle array is taken to
succeed), and so does `Query_execute` on the text; when the registry's set
query answers with no entity, the record has count 0, no entity sequence and
no payload.  On a registry where Health is registered and carried by no
entity, `SELECT entities WHERE has(Health)` succeeds with that empty record. -/
theorem C21_empty_match_is_success (ecs : ECS) (q : List Char) (ast : QueryAST)
    (out0 : QueryEngineResult)
    (hq : (QueryParser_new (some q)).map (fun parser => (QueryParser_parse parser).1) =
      some (some ast))
    (ht : QueryAST_get_type (some ast) = AST_SELECT ∨
      QueryAST_get_type (some ast) = AST_COUNT) :
    (QueryExecutor_execute (some ecs) (some ast) (some out0)).status = QUERY_SUCCESS ∧
    (Query_execute (some ecs) (some q) (some out0)).status = QUERY_SUCCESS ∧
    (∀ kind names, QueryAST_get_left (some ast) = some (predicateNode kind names) →
      ecs.setQuery kind (ecs.handles names) = [] →
      (QueryExecutor_execute (some ecs) (some ast) (some out0)).outResult =
        some { entities := none, count := 0, capacity := 0, data := none }) ∧
    Query_execute (some unusedTypeRegistry) (some "SELECT entities WHERE has(Health)".toList)
        (some out0) =
      { status := QUERY_SUCCESS,
        outResult := some { entities := none, count := 0, capacity := 0, data := none },
        calls := [.get_component_type_by_name "Health".toList, .query_entities [2],
          .QueryResult_free] } := by
  rw [parse_new_eq] at hq
  simp only [Option.some.injEq] at hq
  have hstat : ∀ out1, (QueryExecutor_execute (some ecs) (some ast) (some out1)).status =
      QUERY_SUCCESS := by
    intro out1
    rcases parseS_shape q ast hq with ⟨type, hty, e⟩ | ⟨type, kind, names, hty, hk, -, e⟩ |
      ⟨cn, high, low, e⟩
    · rw [e, execute_without_predicate ecs type out1 hty]
    · rw [e]
      exact execute_predicate_status ecs type kind names out1 hty hk
    · rw [e] at ht
      rcases ht with ht | ht <;> exact ASTNodeType.noConfusion ht
  refine ⟨hstat out0, ?_, ?_, ?_⟩
  · rw [Query_execute_eq, hq]
    exact hstat _
  · intro kind names hl he
    rcases parseS_shape q ast hq with ⟨type, hty, e⟩ | ⟨type, kind2, names2, hty, hk, -, e⟩ |
      ⟨cn, high, low, e⟩
    · rw [e] at hl
      exact Option.noConfusion hl
    · rw [e] at hl
      simp only [QueryAST_get_left, statementNode, Option.some.injEq] at hl
      obtain ⟨h1, h2⟩ := predicateNode_inj hl
      subst h1
      subst h2
      rw [e]
      exact execute_predicate_empty ecs type kind2 names2 out0 hty hk he
    · rw [e] at ht
      rcases ht with ht | ht <;> exact ASTNodeType.noConfusion ht
  · rw [Query_execute_eq]
    rfl

/-- A use of C21: `COUNT ENTITIES WHERE NOT_HAS(Position)` on the registry
whose only entity carries Position matches nothing and succeeds with count 0. -/
theorem C21_empty_match_is_success_witness :
    (QueryParser_new (some "COUNT ENTITIES WHERE NOT_HAS(Position)".toList)).map
        (fun parser => (QueryParser_parse parser).1) =
      some (some (statementNode AST_COUNT
        (some (predicateNode AST_NOT_HAS ["Position".toList])))) ∧
    unusedTypeRegistry.ECS_query_entities_excluding [1] = [] ∧
    (QueryExecutor_execute (some unusedTypeRegistry)
        (some (statementNode AST_COUNT (some (predicateNode AST_NOT_HAS ["Position".toList]))))
        (some emptyResult)).outResult =
      some { entities := none, count := 0, capacity := 0, data := none } :=
  ⟨rfl, by decide,
    (C21_empty_match_is_success unusedTypeRegistry
      "COUNT ENTITIES WHERE NOT_HAS(Position)".toList
      (statementNode AST_COUNT (some (predicateNode AST_NOT_HAS ["Position".toList])))
      emptyResult rfl (Or.inr rfl)).2.2.1 AST_NOT_HAS ["Position".toList] rfl (by decide)⟩

theorem execute_failure_record (ecs : ECS) (ast : QueryAST) (out0 : QueryEngineResult)
    (h : (QueryExecutor_execute (some ecs) (some ast) (some out0)).status ≠ QUERY_SUCCESS) :
    (QueryExecutor_execute (some ecs) (some ast) (some out0)).outResult =
      some { entities := none, count := 0, capacity := 0, data := none } := by
  revert h
  unfold QueryExecutor_execute
  simp only []
  repeat' split
  all_goals first
    | (intro _; rfl)
    | (intro h; exact absurd rfl h)

/-- C22, a counterexample: a call with a null registry on a record that still
holds one entity and a payload returns `QUERY_ERROR_INVALID_SYNTAX` and leaves
that record as it was: the returned status is not `QUERY_SUCCESS`, and the
record has an entity sequence, a payload and count 1. -/
theorem C22_counterexample :
    Query_execute none (some "SELECT ENTITIES".toList)
        (some { entities := some [{ high := 0, low := 1 }], count := 1, capacity := 1,
                data := some [7] }) =
      { status := QUERY_ERROR_INVALID_SYNTAX,
        outResult := some { entities := some [{ high := 0, low := 1 }], count := 1,
                            capacity := 1, data := some [7] },
        calls := [] } ∧
    QUERY_ERROR_INVALID_SYNTAX ≠ QUERY_SUCCESS :=
  ⟨rfl, by decide⟩

/-- C22, amended: past the null check, a failure of `Query_execute` returns
the empty record.  With a registry, a query string and a result record given,
whenever the status is not `QUERY_SUCCESS` (a parse error or an execution
error) the record has no entity sequence, no payload and count 0, whatever it
held before; with a null registry or a null query string the status is
`QUERY_ERROR_INVALID_SYNTAX` and the record is not written: it is what the
caller passed. -/
theorem C22_failure_past_null_check_leaves_empty_record (ecs : ECS) (q : List Char)
    (out0 : QueryEngineResult) (ecs2 : Option ECS) (q2 : Option (List Char))
    (out2 : Option QueryEngineResult) :
    ((Query_execute (some ecs) (some q) (some out0)).status ≠ QUERY_SUCCESS →
      (Query_execute (some ecs) (some q) (some out0)).outResult =
        some { entities := none, count := 0, capacity := 0, data := none }) ∧
    ((Query_execute (some ecs) (some q) (some out0)).status = QUERY_ERROR_PARSE ∨
      (Query_execute (some ecs) (some q) (some out0)).status = QUERY_ERROR_EXECUTION ∨
      (Query_execute (some ecs) (some q) (some out0)).status = QUERY_SUCCESS) ∧
    (ecs2 = none ∨ q2 = none →
      Query_execute ecs2 q2 out2 =
        { status := QUERY_ERROR_INVALID_SYNTAX, outResult := out2, calls := [] }) := by
  refine ⟨?_, ?_, ?_⟩
  · rw [Query_execute_eq]
    cases hp : parseS q with
    | none => intro _; rfl
    | some ast =>
      simp only []
      exact execute_failure_record ecs ast emptyResult
  · rw [Query_execute_eq]
    cases hp : parseS q with
    | none => exact Or.inl rfl
    | some ast =>
      simp only []
      rcases execute_status (some ecs) (some ast) (some emptyResult) with h | h
      · exact Or.inr (Or.inr h)
      · exact Or.inr (Or.inl h)
  · intro h
    rcases h with h | h
    · subst h
      rfl
    · subst h
      cases ecs2 <;> rfl

/-- A use of the amended C22 on the sample registry: `SHOW Health OF ENTITY 0:1`
fails in the executor (entity 0:1 has no Health) and returns the empty record
although the record passed in held an entity and a payload. -/
theorem C22_failure_past_null_check_leaves_empty_record_witness :
    (Query_execute (some sampleRegistry) (some "SHOW Health OF ENTITY 0:1".toList)
      (some { entities := some [{ high := 0, low := 1 }], count := 1, capacity := 1,
              data := some [7] })).status = QUERY_ERROR_EXECUTION ∧
    (Query_execute (some sampleRegistry) (some "SHOW Health OF ENTITY 0:1".toList)
      (some { entities := some [{ high := 0, low := 1 }], count := 1, capacity := 1,
              data := some [7] })).outResult =
      some { entities := none, count := 0, capacity := 0, data := none } :=
  ⟨by decide,
    (C22_failure_past_null_check_leaves_empty_record sampleRegistry
      "SHOW Health OF ENTITY 0:1".toList
      { entities := some [{ high := 0, low := 1 }], count := 1, capacity := 1,
        data := some [7] } none none none).1 (by decide)⟩

/-- C23: a successful run never fills both the entity sequence and the
payload.  For every registry, statement and record on which
`QueryExecutor_execute` returns `QUERY_SUCCESS`, the record written has either
a non-empty entity sequence and no payload (then the statement is a SELECT,
and count and capacity are the length of the sequence), or a payload and no
entity sequence (then the statement is a SHOW that names a component, and
count is 1), or neither of them. -/
theorem C23_entities_and_payload_exclude_each_other (ecs : Option ECS)
    (ast : Option QueryAST) (out0 : Option QueryEngineResult)
    (h : (QueryExecutor_execute ecs ast out0).status = QUERY_SUCCESS) :
    ∃ r, (QueryExecutor_execute ecs ast out0).outResult = some r ∧
      ((∃ entities, r.entities = some entities ∧ entities ≠ [] ∧ r.data = none ∧
          r.count = entities.length ∧ r.capacity = entities.length ∧
          QueryAST_get_type ast = AST_SELECT) ∨
        (∃ payload, r.data = some payload ∧ r.entities = none ∧ r.count = 1 ∧
          QueryAST_get_type ast = AST_SHOW ∧
          ∃ showData name, (QueryAST_get_data ast).toShowQueryData = some showData ∧
            showData.componentName = some name) ∨
        (r.entities = none ∧ r.data = none)) ∧
      ¬ ((∃ entities, r.entities = some entities ∧ entities ≠ []) ∧ r.data ≠ none) := by
  revert h
  unfold QueryExecutor_execute
  split
  · simp only []
    repeat' split
    all_goals first
      | (intro h; exact QueryStatus.noConfusion h)
      | (intro _; exact ⟨_, rfl, Or.inr (Or.inr ⟨rfl, rfl⟩), by simp⟩)
      | (intro _
         refine ⟨_, rfl, Or.inr (Or.inl ⟨_, rfl, rfl, rfl, by assumption, _, _, by assumption,
           by assumption⟩), by simp⟩)
      | (intro _
         refine ⟨_, rfl, Or.inl ⟨_, rfl, ?_, rfl, ?_, ?_, ?_⟩, by simp⟩ <;>
           simp_all [List.take_length, List.length_pos])
  · intro h
    exact QueryStatus.noConfusion h

/-- A use of C23 on the sample registry: `SELECT ... HAS(Position)` fills the
entity sequence and no payload. -/
theorem C23_entities_and_payload_exclude_each_other_witness :
    (QueryExecutor_execute (some sampleRegistry)
      (some (statementNode AST_SELECT (some (predicateNode AST_HAS ["Position".toList]))))
      (some emptyResult)).status = QUERY_SUCCESS ∧
    (QueryExecutor_execute (some sampleRegistry)
      (some (statementNode AST_SELECT (some (predicateNode AST_HAS ["Position".toList]))))
      (some emptyResult)).outResult =
      some { entities := some [{ high := 0, low := 1 }, { high := 0, low := 2 }], count := 2,
             capacity := 2, data := none } ∧
    ∃ r, (QueryExecutor_execute (some sampleRegistry)
      (some (statementNode AST_SELECT (some (predicateNode AST_HAS ["Position".toList]))))
      (some emptyResult)).outResult = some r ∧
      ¬ ((∃ entities, r.entities = some entities ∧ entities ≠ []) ∧ r.data ≠ none) :=
  ⟨by decide, by decide,
    (C23_entities_and_payload_exclude_each_other (some sampleRegistry)
      (some (statementNode AST_SELECT (some (predicateNode AST_HAS ["Position".toList]))))
      (some emptyResult) (by decide)).imp (fun _ h => ⟨h.1, h.2.2⟩)⟩

/-! ## Texts that differ in the letter case of keywords -/

theorem isspace_tolower (c : Char) : isspace (tolower c) = isspace c := by
  by_cases h : 65 ≤ c.toNat ∧ c.toNat ≤ 90
  · have ht := tolower_upper_toNat h
    have e1 : isspace (tolower c) = false := by
      simp only [isspace, Bool.or_eq_false_iff, beq_eq_false_iff_ne, Bool.and_eq_false_iff,
        decide_eq_false_iff_not]
      exact ⟨by omega, by omega⟩
    have e2 : isspace c = false := by
      simp only [isspace, Bool.or_eq_false_iff, beq_eq_false_iff_ne, Bool.and_eq_false_iff,
        decide_eq_false_iff_not]
      exact ⟨by omega, by omega⟩
    rw [e1, e2]
  · rw [tolower_not_upper h]

theorem isdigit_tolower (c : Char) : isdigit (tolower c) = isdigit c := by
  by_cases h : 65 ≤ c.toNat ∧ c.toNat ≤ 90
  · have ht := tolower_upper_toNat h
    have e1 : isdigit (tolower c) = false := by
      simp only [isdigit, Bool.and_eq_false_iff, decide_eq_false_iff_not]
      omega
    have e2 : isdigit c = false := by
      simp only [isdigit, Bool.and_eq_false_iff, decide_eq_false_iff_not]
      omega
    rw [e1, e2]
  · rw [tolower_not_upper h]

theorem tolower_eq_of_not_alpha {c d : Char} (hd : isalpha d = false) :
    tolower c = d ↔ c = d := by
  have hd2 : ¬ (65 ≤ d.toNat ∧ d.toNat ≤ 90) := by
    intro h
    have : isalpha d = true := by
      simp only [isalpha, Bool.or_eq_true, Bool.and_eq_true, decide_eq_true_eq]
      left; exact h
    rw [this] at hd
    exact Bool.noConfusion hd
  constructor
  · intro h
    by_cases hc : 65 ≤ c.toNat ∧ c.toNat ≤ 90
    · exfalso
      have ht := tolower_upper_toNat hc
      rw [h] at ht
      have : isalpha d = true := by
        simp only [isalpha, Bool.or_eq_true, Bool.and_eq_true, decide_eq_true_eq]
        right; omega
      rw [this] at hd
      exact Bool.noConfusion hd
    · rw [tolower_not_upper hc] at h
      exact h
  · intro h
    rw [h, tolower_not_upper hd2]

theorem tolower_of_digit {c : Char} (h : isdigit c = true) : tolower c = c := by
  apply tolower_not_upper
  simp only [isdigit, Bool.and_eq_true, decide_eq_true_eq] at h
  omega

theorem dropWhile_map_tolower (f : Char → Bool) (hf : ∀ c, f (tolower c) = f c)
    (s : List Char) : (s.map tolower).dropWhile f = (s.dropWhile f).map tolower := by
  induction s with
  | nil => rfl
  | cons a t ih =>
    by_cases ha : f a = true
    · simp only [List.map_cons, List.dropWhile_cons, hf, ha, if_true, ih]
    · simp only [List.map_cons, List.dropWhile_cons, hf, ha, Bool.false_eq_true, if_false]

theorem takeWhile_map_tolower (f : Char → Bool) (hf : ∀ c, f (tolower c) = f c)
    (s : List Char) : (s.map tolower).takeWhile f = (s.takeWhile f).map tolower := by
  induction s with
  | nil => rfl
  | cons a t ih =>
    by_cases ha : f a = true
    · simp only [List.map_cons, List.takeWhile_cons, hf, ha, if_true, ih]
    · simp only [List.map_cons, List.takeWhile_cons, hf, ha, Bool.false_eq_true, if_false,
        List.map_nil]

theorem takeWhile_isdigit_tolower (s : List Char) :
    (s.map tolower).takeWhile isdigit = s.takeWhile isdigit := by
  rw [takeWhile_map_tolower isdigit isdigit_tolower]
  induction s with
  | nil => rfl
  | cons a t ih =>
    by_cases ha : isdigit a = true
    · simp only [List.takeWhile_cons, ha, if_true, List.map_cons, ih, tolower_of_digit ha]
    · simp only [List.takeWhile_cons, ha, Bool.false_eq_true, if_false, List.map_nil]

theorem strtoull_tolower (s : List Char) : strtoull (s.map tolower) = strtoull s := by
  unfold strtoull
  simp only []
  rw [takeWhile_map_tolower isspace isspace_tolower, List.length_map, ← List.map_drop]
  generalize s.drop (s.takeWhile isspace).length = s1
  cases s1 with
  | nil => rfl
  | cons a t =>
    have hm : (tolower a = '-') = (a = '-') := propext (tolower_eq_of_not_alpha (by decide))
    have hp : (tolower a = '+') = (a = '+') := propext (tolower_eq_of_not_alpha (by decide))
    simp only [List.map_cons, List.head?_cons, hm, hp]
    by_cases h1 : a = '-'
    · simp only [h1, if_true, List.drop_succ_cons, List.drop_zero, takeWhile_isdigit_tolower]
    · by_cases h2 : a = '+'
      · have hpm : ¬ ('+' : Char) = '-' := by decide
        simp only [h2, hpm, if_true, if_false, List.drop_succ_cons, List.drop_zero,
          takeWhile_isdigit_tolower]
      · simp only [h1, h2, if_false, List.drop_zero]
        rw [← List.map_cons, takeWhile_isdigit_tolower]

theorem parseEntityIdS_tolower (s : List Char) :
    parseEntityIdS (s.map tolower) =
      ((parseEntityIdS s).1, (parseEntityIdS s).2.map tolower) := by
  unfold parseEntityIdS
  simp only []
  rw [dropWhile_map_tolower isspace isspace_tolower]
  generalize s.dropWhile isspace = s1
  cases s1 with
  | nil => rfl
  | cons a t =>
    simp only [List.map_cons]
    rw [← List.map_cons, dropWhile_map_tolower isdigit isdigit_tolower,
      takeWhile_isdigit_tolower, strtoull_tolower]
    cases hd : (a :: t).dropWhile isdigit with
    | nil => rfl
    | cons b r =>
      have hb : (tolower b = ':') = (b = ':') := propext (tolower_eq_of_not_alpha (by decide))
      simp only [List.map_cons, ne_eq, hb]
      by_cases h1 : b = ':'
      · simp only [h1, not_true_eq_false, if_false]
        by_cases h2 : (strtoull (a :: t)).2 = ((a :: t).takeWhile isdigit).length
        · simp only [h2, not_true_eq_false, if_false]
          cases r with
          | nil => rfl
          | cons b2 r2 =>
            simp only [List.map_cons]
            rw [← List.map_cons, takeWhile_isdigit_tolower, strtoull_tolower,
              dropWhile_map_tolower isdigit isdigit_tolower]
            by_cases h3 : ((b2 :: r2).takeWhile isdigit).length = 0
            · simp only [h3, if_true]
              rfl
            · simp only [h3, if_false]
              by_cases h4 : (strtoull (b2 :: r2)).2 = ((b2 :: r2).takeWhile isdigit).length
              · simp only [h4, not_true_eq_false, if_false]
              · simp only [h4, not_false_eq_true, if_true]
                rfl
        · simp only [h2, not_false_eq_true, if_true]
          rfl
      · simp only [h1, not_false_eq_true, if_true]
        rfl

theorem parseEntityIdS_fold {s t : List Char} (h : s.map tolower = t.map tolower) :
    (parseEntityIdS s).1 = (parseEntityIdS t).1 ∧
    (parseEntityIdS s).2.map tolower = (parseEntityIdS t).2.map tolower := by
  have h1 := parseEntityIdS_tolower s
  have h2 := parseEntityIdS_tolower t
  rw [h] at h1
  rw [h1] at h2
  simp only [Prod.mk.injEq] at h2
  exact h2

theorem lexS_eof_iff (s : List Char) : (lexS s).1 = TOKEN_EOF ↔ s.dropWhile isspace = [] := by
  constructor
  · intro h
    unfold lexS at h
    exact lexHead_eof h
  · intro h
    unfold lexS
    simp only [h]
    rfl

theorem lexS_eof_fold {s t : List Char} (h : s.map tolower = t.map tolower) :
    (lexS s).1 = TOKEN_EOF ↔ (lexS t).1 = TOKEN_EOF := by
  rw [lexS_eof_iff, lexS_eof_iff]
  have h1 := dropWhile_map_tolower isspace isspace_tolower s
  have h2 := dropWhile_map_tolower isspace isspace_tolower t
  rw [h, h2] at h1
  constructor
  · intro h0
    rw [h0] at h1
    simpa using h1.symm
  · intro h0
    rw [h0] at h1
    simpa using h1

theorem recased_fold {s t : List Char} (h : KeywordsRecased s t) :
    s.map tolower = t.map tolower := by
  induction h with
  | same s => rfl
  | keyword ws w w2 r r2 _ _ _ _ hw _ ih =>
    simp only [List.map_append, hw, ih]
  | other ws w r r2 type _ _ _ _ ih =>
    simp only [List.map_append, ih]

theorem fold_head {s t : List Char} (h : s.map tolower = t.map tolower) :
    s.head?.map tolower = t.head?.map tolower := by
  rw [← List.head?_map, ← List.head?_map, h]

theorem fold_length {s t : List Char} (h : s.map tolower = t.map tolower) :
    s.length = t.length := by
  have := congrArg List.length h
  simpa using this

theorem head_blind (f : Char → Bool) (hf : ∀ c, f (tolower c) = f c) {r r2 : List Char}
    (hH : r.head?.map tolower = r2.head?.map tolower)
    (h : ∀ c ∈ r.head?, f c = false) : ∀ c ∈ r2.head?, f c = false := by
  cases r2 with
  | nil => intro c hc; simp at hc
  | cons b u =>
    cases r with
    | nil => simp at hH
    | cons a v =>
      simp only [List.head?_cons, Option.map_some', Option.some.injEq] at hH
      intro c hc
      simp only [List.head?_cons, Option.mem_def, Option.some.injEq] at hc
      subst hc
      have := h a (by simp)
      rw [← hf, ← hH, hf]
      exact this

theorem takeWhile_swap_rest (f : Char → Bool) (hf : ∀ c, f (tolower c) = f c)
    (w r r2 : List Char) (hlen : ((w ++ r).takeWhile f).length = w.length)
    (hH : r.head?.map tolower = r2.head?.map tolower) :
    (w ++ r2).takeWhile f = (w ++ r).takeWhile f := by
  induction w with
  | nil =>
    simp only [List.nil_append, List.length_nil] at hlen ⊢
    have h0 : r.takeWhile f = [] := List.length_eq_zero.mp hlen
    rw [h0]
    have hr : ∀ c ∈ r.head?, f c = false := by
      intro c hc
      cases r with
      | nil => simp at hc
      | cons a v =>
        simp only [List.head?_cons, Option.mem_def, Option.some.injEq] at hc
        subst hc
        by_contra hn
        simp only [Bool.not_eq_false] at hn
        simp [List.takeWhile_cons, hn] at h0
    have hr2 := head_blind f hf hH hr
    cases r2 with
    | nil => rfl
    | cons b u =>
      have := hr2 b (by simp)
      simp [List.takeWhile_cons, this]
  | cons a w ih =>
    by_cases ha : f a = true
    · simp only [List.cons_append, List.takeWhile_cons, ha, if_true, List.length_cons,
        Nat.add_right_cancel_iff] at hlen ⊢
      rw [ih hlen]
    · simp [List.takeWhile_cons, ha] at hlen

theorem head_eq_blind {r r2 : List Char} (hH : r.head?.map tolower = r2.head?.map tolower) :
    (r2.head? = some '=') ↔ (r.head? = some '=') := by
  have key : ∀ c : Char, tolower c = '=' ↔ c = '=' := fun c =>
    tolower_eq_of_not_alpha (by decide)
  cases r with
  | nil =>
    cases r2 with
    | nil => exact Iff.rfl
    | cons b u => simp at hH
  | cons a v =>
    cases r2 with
    | nil => simp at hH
    | cons b u =>
      simp only [List.head?_cons, Option.map_some', Option.some.injEq] at hH ⊢
      rw [← key a, ← key b, hH]

theorem lexHead_swap_rest (a : Char) (w r r2 : List Char)
    (hlen : (lexHead (a :: w ++ r)).2 = (a :: w).length)
    (hH : r.head?.map tolower = r2.head?.map tolower) :
    lexHead (a :: w ++ r2) = lexHead (a :: w ++ r) := by
  unfold lexHead at hlen ⊢
  simp only [List.cons_append] at hlen ⊢
  by_cases h1 : a = '('
  · simp only [h1, if_true]
  rw [if_neg h1] at hlen ⊢
  rw [if_neg h1]
  by_cases h2 : a = ')'
  · simp only [h2, if_true]
  rw [if_neg h2] at hlen ⊢
  rw [if_neg h2]
  by_cases h3 : a = '.'
  · simp only [h3, if_true]
  rw [if_neg h3] at hlen ⊢
  rw [if_neg h3]
  by_cases h4 : a = ','
  · simp only [h4, if_true]
  rw [if_neg h4] at hlen ⊢
  rw [if_neg h4]
  by_cases h5 : a = '>' ∨ a = '<' ∨ a = '=' ∨ a = '!'
  · rw [if_pos h5] at hlen ⊢
    rw [if_pos h5]
    cases w with
    | nil =>
      simp only [List.nil_append, List.length_cons, List.length_nil] at hlen ⊢
      have hr : ¬ r.head? = some '=' := by
        intro h
        rw [if_pos h] at hlen
        omega
      have hr2 : ¬ r2.head? = some '=' := fun h => hr ((head_eq_blind hH).mp h)
      rw [if_neg hr, if_neg hr2]
    | cons b u => rfl
  rw [if_neg h5] at hlen ⊢
  rw [if_neg h5]
  by_cases h6 : isdigit a = true
  · rw [if_pos h6] at hlen ⊢
    rw [if_pos h6]
    have := takeWhile_swap_rest isdigit isdigit_tolower (a :: w) r r2 hlen hH
    simp only [List.cons_append] at this
    rw [this]
  rw [if_neg h6] at hlen ⊢
  rw [if_neg h6]
  by_cases h7 : (isalpha a || decide (a = '_')) = true
  · rw [if_pos h7] at hlen ⊢
    rw [if_pos h7]
    have := takeWhile_swap_rest is_identifier_char is_identifier_char_tolower (a :: w) r r2
      hlen hH
    simp only [List.cons_append] at this
    rw [this]
  rw [if_neg h7, if_neg h7]

theorem dropWhile_eq_self {f : Char → Bool} {a : Char} {l : List Char}
    (h : (a :: l).dropWhile f = a :: l) : f a = false := by
  cases hf : f a with
  | false => rfl
  | true =>
    exfalso
    rw [List.dropWhile_cons, if_pos hf] at h
    have h1 := congrArg List.length h
    have h2 : (l.dropWhile f).length ≤ l.length := (List.dropWhile_suffix f).length_le
    simp only [List.length_cons] at h1
    omega

theorem lexS_token_facts (w r : List Char) (type : TokenType)
    (h : lexS (w ++ r) = (type, w, r)) (hne : type ≠ TOKEN_EOF) :
    ∃ a w2, w = a :: w2 ∧ isspace a = false ∧ lexHead (w ++ r) = (type, w.length) := by
  unfold lexS at h
  simp only [Prod.mk.injEq] at h
  obtain ⟨h1, h2, h3⟩ := h
  have hs : (w ++ r).dropWhile isspace = w ++ r := by
    have := List.take_append_drop (lexHead ((w ++ r).dropWhile isspace)).2
      ((w ++ r).dropWhile isspace)
    rw [h2, h3] at this
    exact this.symm
  rw [hs] at h1 h2 h3
  have hle := lexHead_length_le (w ++ r)
  have hpos := lexHead_length_pos (w ++ r) (by rw [h1]; exact hne)
  have hlen : (lexHead (w ++ r)).2 = w.length := by
    have := congrArg List.length h2
    rw [List.length_take] at this
    omega
  cases w with
  | nil =>
    simp only [List.length_nil] at hlen
    omega
  | cons a w2 =>
    refine ⟨a, w2, rfl, dropWhile_eq_self hs, ?_⟩
    rw [← h1, ← hlen]

theorem lexS_of_lexHead (a : Char) (w r : List Char) (type : TokenType)
    (ha : isspace a = false) (h : lexHead (a :: w ++ r) = (type, (a :: w).length)) :
    lexS (a :: w ++ r) = (type, a :: w, r) := by
  unfold lexS
  simp only [List.cons_append, List.dropWhile_cons, ha, Bool.false_eq_true, if_false]
  rw [← List.cons_append, h]
  simp only [List.take_left', List.drop_left']

theorem lexS_swap_rest (w r r2 : List Char) (type : TokenType)
    (h : lexS (w ++ r) = (type, w, r)) (hne : type ≠ TOKEN_EOF)
    (hH : r.head?.map tolower = r2.head?.map tolower) :
    lexS (w ++ r2) = (type, w, r2) := by
  obtain ⟨a, w2, e, ha, hl⟩ := lexS_token_facts w r type h hne
  subst e
  have hlen : (lexHead (a :: w2 ++ r)).2 = (a :: w2).length := by rw [hl]
  have := lexHead_swap_rest a w2 r r2 hlen hH
  rw [hl] at this
  exact lexS_of_lexHead a w2 r2 type ha this

theorem keywordType_keyword {w : List Char} (hw : isIdentifierText w = true)
    (hk : isKeywordText w = true) : keywordType w ≠ TOKEN_IDENTIFIER ∧
      keywordType w ≠ TOKEN_EOF := by
  obtain ⟨-, k2⟩ := keywordType_table w (identifierText_no_nul hw)
  obtain ⟨kt, hkt, hm⟩ := (isKeywordText_iff w).mp hk
  refine ⟨?_, keywordType_ne_eof w⟩
  intro h
  exact k2.mp h kt hkt hm

theorem lexS_recased {s t : List Char} (h : KeywordsRecased s t) :
    (lexS s).1 = (lexS t).1 ∧
    ((lexS s).1 = TOKEN_IDENTIFIER → (lexS s).2.1 = (lexS t).2.1) ∧
    KeywordsRecased (lexS s).2.2 (lexS t).2.2 := by
  cases h with
  | same s => exact ⟨rfl, fun _ => rfl, KeywordsRecased.same _⟩
  | keyword ws w w2 r r2 hws hw hk hr hm hrel =>
    have hH := fold_head (recased_fold hrel)
    have hr2 := head_blind is_identifier_char is_identifier_char_tolower hH hr
    have hw2 : isIdentifierText w2 = true := by rw [isIdentifierText_congr hm]; exact hw
    rw [lexS_spaces ws _ hws, lexS_spaces ws _ hws, lexS_word w r hw hr,
      lexS_word w2 r2 hw2 hr2, keywordType_congr hm]
    refine ⟨rfl, ?_, hrel⟩
    intro h
    exact absurd h (keywordType_keyword hw hk).1
  | other ws w r r2 type hws hl hne hrel =>
    have hH := fold_head (recased_fold hrel)
    rw [lexS_spaces ws _ hws, lexS_spaces ws _ hws, hl, lexS_swap_rest w r r2 type hl hne hH]
    exact ⟨rfl, fun _ => rfl, hrel⟩

theorem componentListLoopS_recased (fuel : Nat) (names : List (List Char)) (first : Bool)
    {s t : List Char} (h : KeywordsRecased s t) :
    (componentListLoopS fuel names first s = none ∧
      componentListLoopS fuel names first t = none) ∨
    ∃ res r r2, componentListLoopS fuel names first s = some (res, r) ∧
      componentListLoopS fuel names first t = some (res, r2) ∧ KeywordsRecased r r2 := by
  induction fuel generalizing names first s t with
  | zero => exact Or.inl ⟨rfl, rfl⟩
  | succ k ih =>
    obtain ⟨e1, e2, e3⟩ := lexS_recased h
    unfold componentListLoopS
    rw [← e1]
    by_cases hR : (lexS s).1 = TOKEN_RPAREN
    · rw [if_pos hR, if_pos hR]
      exact Or.inr ⟨_, _, _, rfl, rfl, e3⟩
    · rw [if_neg hR, if_neg hR]
      cases first with
      | true =>
        simp only [Bool.not_true, Bool.false_eq_true, if_false]
        rw [← e1]
        by_cases hI : (lexS s).1 = TOKEN_IDENTIFIER
        · rw [if_pos hI, if_pos hI, ← e2 hI]
          exact ih _ _ e3
        · rw [if_neg hI, if_neg hI]
          exact Or.inr ⟨_, _, _, rfl, rfl, e3⟩
      | false =>
        simp only [Bool.not_false, if_true]
        by_cases hC : (lexS s).1 = TOKEN_COMMA
        · simp only [hC, ne_eq, not_true_eq_false, if_false]
          obtain ⟨f1, f2, f3⟩ := lexS_recased e3
          rw [← f1]
          by_cases hI : (lexS (lexS s).2.2).1 = TOKEN_IDENTIFIER
          · rw [if_pos hI, if_pos hI, ← f2 hI]
            exact ih _ _ f3
          · rw [if_neg hI, if_neg hI]
            exact Or.inr ⟨_, _, _, rfl, rfl, f3⟩
        · simp only [hC, ne_eq, not_false_eq_true, if_true]
          exact Or.inr ⟨_, _, _, rfl, rfl, e3⟩

theorem parseComponentListS_recased {s t : List Char} (h : KeywordsRecased s t) :
    ∃ res r r2, parseComponentListS s = (res, r) ∧ parseComponentListS t = (res, r2) ∧
      KeywordsRecased r r2 := by
  obtain ⟨e1, -, e3⟩ := lexS_recased h
  have hlen := fold_length (recased_fold e3)
  unfold parseComponentListS
  rw [← e1, ← hlen]
  by_cases hL : (lexS s).1 = TOKEN_LPAREN
  · simp only [hL, ne_eq, not_true_eq_false, if_false]
    rcases componentListLoopS_recased ((lexS s).2.2.length + 1) [] true e3 with
      ⟨h1, h2⟩ | ⟨res, r, r2, h1, h2, h3⟩
    · rw [h1, h2]
      exact ⟨_, _, _, rfl, rfl, e3⟩
    · rw [h1, h2]
      cases res with
      | none => exact ⟨_, _, _, rfl, rfl, h3⟩
      | some names =>
        simp only []
        by_cases hz : names.length = 0
        · rw [if_pos hz, if_pos hz]
          exact ⟨_, _, _, rfl, rfl, h3⟩
        · rw [if_neg hz, if_neg hz]
          exact ⟨_, _, _, rfl, rfl, h3⟩
  · simp only [hL, ne_eq, not_false_eq_true, if_true]
    exact ⟨_, _, _, rfl, rfl, e3⟩

theorem parsePredicateS_recased {s t : List Char} (h : KeywordsRecased s t) :
    ∃ res r r2, parsePredicateS s = (res, r) ∧ parsePredicateS t = (res, r2) ∧
      KeywordsRecased r r2 := by
  obtain ⟨e1, -, e3⟩ := lexS_recased h
  obtain ⟨res, r, r2, h1, h2, h3⟩ := parseComponentListS_recased e3
  unfold parsePredicateS
  rw [← e1, h1, h2]
  by_cases k1 : (lexS s).1 = TOKEN_HAS
  · simp only [k1, if_true]
    cases res with
    | none => exact ⟨_, _, _, rfl, rfl, h3⟩
    | some names => exact ⟨_, _, _, rfl, rfl, h3⟩
  · by_cases k2 : (lexS s).1 = TOKEN_HAS_ANY
    · simp only [k2, reduceCtorEq, if_false, if_true]
      cases res with
      | none => exact ⟨_, _, _, rfl, rfl, h3⟩
      | some names => exact ⟨_, _, _, rfl, rfl, h3⟩
    · by_cases k3 : (lexS s).1 = TOKEN_NOT_HAS
      · simp only [k3, reduceCtorEq, if_false, if_true]
        cases res with
        | none => exact ⟨_, _, _, rfl, rfl, h3⟩
        | some names => exact ⟨_, _, _, rfl, rfl, h3⟩
      · simp only [k1, k2, k3, if_false]
        exact ⟨_, _, _, rfl, rfl, e3⟩

theorem parseEntitiesS_recased (type : ASTNodeType) {s t : List Char}
    (h : KeywordsRecased s t) : parseEntitiesS type s = parseEntitiesS type t := by
  obtain ⟨e1, -, e3⟩ := lexS_recased h
  obtain ⟨f1, -, f3⟩ := lexS_recased e3
  unfold parseEntitiesS
  rw [← e1]
  by_cases hE : (lexS s).1 = TOKEN_ENTITIES
  · simp only [hE, ne_eq, not_true_eq_false, if_false]
    rw [← f1]
    by_cases hW : (lexS (lexS s).2.2).1 = TOKEN_WHERE
    · simp only [hW, if_true]
      obtain ⟨res, r, r2, h1, h2, h3⟩ := parsePredicateS_recased f3
      rw [h1, h2]
      cases res with
      | none => rfl
      | some predicate =>
        simp only []
        rw [(lexS_recased h3).1]
    · simp only [hW, if_false]
      rw [f1]
  · simp only [hE, ne_eq, not_false_eq_true, if_true]

theorem parseShowS_recased {s t : List Char} (h : KeywordsRecased s t) :
    parseShowS s = parseShowS t := by
  obtain ⟨e1, e2, e3⟩ := lexS_recased h
  obtain ⟨f1, -, f3⟩ := lexS_recased e3
  obtain ⟨g1, -, g3⟩ := lexS_recased f3
  obtain ⟨i1, i2⟩ := parseEntityIdS_fold (recased_fold g3)
  have tail : ∀ componentName : Option (List Char),
      (if (lexS (lexS s).2.2).1 ≠ TOKEN_OF then none
        else if (lexS (lexS (lexS s).2.2).2.2).1 ≠ TOKEN_ENTITY then none
        else
          match parseEntityIdS (lexS (lexS (lexS s).2.2).2.2).2.2 with
          | (none, _) => none
          | (some entityId, s3) =>
            if (lexS s3).1 ≠ TOKEN_EOF then none
            else
              some (QueryAST.node AST_SHOW
                (.showData { componentName := componentName, entityId := some entityId })
                none none none 0)) =
      (if (lexS (lexS t).2.2).1 ≠ TOKEN_OF then none
        else if (lexS (lexS (lexS t).2.2).2.2).1 ≠ TOKEN_ENTITY then none
        else
          match parseEntityIdS (lexS (lexS (lexS t).2.2).2.2).2.2 with
          | (none, _) => none
          | (some entityId, s3) =>
            if (lexS s3).1 ≠ TOKEN_EOF then none
            else
              some (QueryAST.node AST_SHOW
                (.showData { componentName := componentName, entityId := some entityId })
                none none none 0)) := by
    intro componentName
    rw [← f1, ← g1]
    by_cases hO : (lexS (lexS s).2.2).1 = TOKEN_OF
    · simp only [hO, ne_eq, not_true_eq_false, if_false]
      by_cases hY : (lexS (lexS (lexS s).2.2).2.2).1 = TOKEN_ENTITY
      · simp only [hY, not_true_eq_false, if_false]
        rcases hp : parseEntityIdS (lexS (lexS (lexS s).2.2).2.2).2.2 with ⟨l, s3⟩
        rcases hp2 : parseEntityIdS (lexS (lexS (lexS t).2.2).2.2).2.2 with ⟨l2, t3⟩
        rw [hp, hp2] at i1 i2
        simp only [] at i1 i2
        subst i1
        cases l with
        | none => rfl
        | some entityId =>
          simp only []
          have hiff := lexS_eof_fold i2
          by_cases hF : (lexS s3).1 = TOKEN_EOF
          · rw [if_neg (by simp [hF]), if_neg (by simp [hiff.mp hF])]
          · rw [if_pos hF, if_pos (fun h => hF (hiff.mpr h))]
      · simp only [hY, not_false_eq_true, if_true]
    · simp only [hO, ne_eq, not_false_eq_true, if_true]
  unfold parseShowS
  rw [← e1]
  by_cases hA : (lexS s).1 = TOKEN_ALL
  · simp only [hA, if_true]
    exact tail none
  · by_cases hI : (lexS s).1 = TOKEN_IDENTIFIER
    · simp only [hI, reduceCtorEq, if_false, if_true]
      rw [← e2 hI]
      exact tail _
    · simp only [hA, hI, if_false]

theorem parseS_recased {s t : List Char} (h : KeywordsRecased s t) : parseS s = parseS t := by
  obtain ⟨e1, -, e3⟩ := lexS_recased h
  unfold parseS
  rw [← e1, parseEntitiesS_recased AST_SELECT e3, parseEntitiesS_recased AST_COUNT e3,
    parseShowS_recased e3]

theorem statementNode_names_inj {type kind : ASTNodeType} {names names2 : List (List Char)}
    (h : statementNode type (some (predicateNode kind names)) =
      statementNode type (some (predicateNode kind names2))) : names = names2 := by
  unfold statementNode at h
  simp only [QueryAST.node.injEq, Option.some.injEq] at h
  exact (predicateNode_inj h.2.2.1).2

/-- C24: keywords are matched without regard to letter case, and component
names are kept as written.  If a text differs from another only in the letter
case of keyword tokens (any of SELECT, COUNT, SHOW, WHERE, ENTITY, ENTITIES,
OF, HAS, HAS_ANY, NOT_HAS, and also ALL, AND, OR), `QueryParser_parse` gives
the same result on both: both fail, or both succeed with the same tree.  The
names in the tree are the bytes written: two lists of names that differ, be
it only in letter case, give different trees in `K ENTITIES WHERE P(...)`, and
so do two component names in `SHOW name OF ENTITY high:low`. -/
theorem C24_keywords_ignore_case_names_keep_it (q q2 : List Char)
    (h : KeywordsRecased q q2) :
    (QueryParser_new (some q)).map (fun parser => (QueryParser_parse parser).1) =
      (QueryParser_new (some q2)).map (fun parser => (QueryParser_parse parser).1) ∧
    (∀ (type kind : ASTNodeType) (names names2 : List (List Char)),
      type = AST_SELECT ∨ type = AST_COUNT →
      kind = AST_HAS ∨ kind = AST_HAS_ANY ∨ kind = AST_NOT_HAS →
      names ≠ [] → names2 ≠ [] →
      (∀ n ∈ names, isIdentifierText n = true ∧ isKeywordText n = false) →
      (∀ n ∈ names2, isIdentifierText n = true ∧ isKeywordText n = false) →
      names ≠ names2 →
      (QueryParser_new (some (whereQueryText type kind names))).map
          (fun parser => (QueryParser_parse parser).1) ≠
        (QueryParser_new (some (whereQueryText type kind names2))).map
          (fun parser => (QueryParser_parse parser).1)) ∧
    (∀ (name name2 : List Char) (high low : Nat), high < 2 ^ 64 → low < 2 ^ 64 →
      isIdentifierText name = true → isKeywordText name = false →
      isIdentifierText name2 = true → isKeywordText name2 = false →
      name ≠ name2 →
      (QueryParser_new (some (showQueryText name high low))).map
          (fun parser => (QueryParser_parse parser).1) ≠
        (QueryParser_new (some (showQueryText name2 high low))).map
          (fun parser => (QueryParser_parse parser).1)) ∧
    (QueryParser_new (some "select entities where has(position)".toList)).map
        (fun parser => (QueryParser_parse parser).1) =
      some (some (.node AST_SELECT .null
        (some (.node AST_HAS
          (.componentList { componentNames := ["position".toList], count := 1 })
          none none none 0))
        none none 0)) ∧
    (QueryParser_new (some "SELECT ENTITIES WHERE HAS(Position)".toList)).map
        (fun parser => (QueryParser_parse parser).1) =
      some (some (.node AST_SELECT .null
        (some (.node AST_HAS
          (.componentList { componentNames := ["Position".toList], count := 1 })
          none none none 0))
        none none 0)) := by
  refine ⟨?_, ?_, ?_, rfl, rfl⟩
  · rw [parse_new_eq, parse_new_eq, parseS_recased h]
  · intro type kind names names2 ht hk hne hne2 hn hn2 hd hp
    rw [parse_new_eq, parse_new_eq, parseS_whereQueryText type kind names ht hk hne hn,
      parseS_whereQueryText type kind names2 ht hk hne2 hn2] at hp
    simp only [Option.some.injEq] at hp
    exact hd (statementNode_names_inj hp)
  · intro name name2 high low hh hl hi hk hi2 hk2 hd hp
    have h1 : high ≤ ULLONG_MAX := by unfold ULLONG_MAX; omega
    have h2 : low ≤ ULLONG_MAX := by unfold ULLONG_MAX; omega
    rw [parse_new_eq, parse_new_eq,
      parseS_showQueryText name (some name) high low h1 h2 (Or.inr ⟨⟨hi, hk⟩, rfl⟩),
      parseS_showQueryText name2 (some name2) high low h1 h2 (Or.inr ⟨⟨hi2, hk2⟩, rfl⟩)] at hp
    unfold showNode at hp
    simp only [Option.some.injEq, QueryAST.node.injEq, ASTData.showData.injEq,
      ShowQueryData.mk.injEq] at hp
    exact hd hp.2.1.1

/-- A use of C24: `select Entities wHeRe has(Position, health)` is
`SELECT ENTITIES WHERE HAS(Position, health)` with the four keywords in other
letter cases, and both parse to the same tree. -/
theorem C24_keywords_ignore_case_names_keep_it_witness :
    [] ++ ("SELECT".toList ++ (" ".toList ++ ("ENTITIES".toList ++ (" ".toList ++
        ("WHERE".toList ++ (" ".toList ++ ("HAS".toList ++
          "(Position, health)".toList))))))) =
      "SELECT ENTITIES WHERE HAS(Position, health)".toList ∧
    [] ++ ("select".toList ++ (" ".toList ++ ("Entities".toList ++ (" ".toList ++
        ("wHeRe".toList ++ (" ".toList ++ ("has".toList ++
          "(Position, health)".toList))))))) =
      "select Entities wHeRe has(Position, health)".toList ∧
    KeywordsRecased
      ([] ++ ("SELECT".toList ++ (" ".toList ++ ("ENTITIES".toList ++ (" ".toList ++
        ("WHERE".toList ++ (" ".toList ++ ("HAS".toList ++
          "(Position, health)".toList))))))))
      ([] ++ ("select".toList ++ (" ".toList ++ ("Entities".toList ++ (" ".toList ++
        ("wHeRe".toList ++ (" ".toList ++ ("has".toList ++
          "(Position, health)".toList)))))))) ∧
    (QueryParser_new (some ([] ++ ("SELECT".toList ++ (" ".toList ++ ("ENTITIES".toList ++
        (" ".toList ++ ("WHERE".toList ++ (" ".toList ++ ("HAS".toList ++
          "(Position, health)".toList)))))))))).map
        (fun parser => (QueryParser_parse parser).1) =
      (QueryParser_new (some ([] ++ ("select".toList ++ (" ".toList ++ ("Entities".toList ++
        (" ".toList ++ ("wHeRe".toList ++ (" ".toList ++ ("has".toList ++
          "(Position, health)".toList)))))))))).map
        (fun parser => (QueryParser_parse parser).1) :=
  ⟨by decide, by decide,
    .keyword _ _ _ _ _ (by decide) (by decide) (by decide) (by decide) (by decide)
      (.keyword _ _ _ _ _ (by decide) (by decide) (by decide) (by decide) (by decide)
        (.keyword _ _ _ _ _ (by decide) (by decide) (by decide) (by decide) (by decide)
          (.keyword _ _ _ _ _ (by decide) (by decide) (by decide) (by decide) (by decide)
            (.same _)))),
    (C24_keywords_ignore_case_names_keep_it _ _
      (.keyword _ _ _ _ _ (by decide) (by decide) (by decide) (by decide) (by decide)
        (.keyword _ _ _ _ _ (by decide) (by decide) (by decide) (by decide) (by decide)
          (.keyword _ _ _ _ _ (by decide) (by decide) (by decide) (by decide) (by decide)
            (.keyword _ _ _ _ _ (by decide) (by decide) (by decide) (by decide) (by decide)
              (.same _)))))).1⟩

/-! ## SELECT and COUNT read the same syntax -/

theorem parseEntitiesS_retype (type type2 : ASTNodeType) (s : List Char) :
    (parseEntitiesS type s = none ↔ parseEntitiesS type2 s = none) ∧
    ∀ a, parseEntitiesS type s = some a →
      ∃ left, a = .node type .null left none none 0 ∧
        parseEntitiesS type2 s = some (.node type2 .null left none none 0) := by
  have tail : ∀ (left : Option QueryAST) (s2 : List Char),
      ((if (lexS s2).1 ≠ TOKEN_EOF then none
          else some (QueryAST.node type .null left none none 0)) = none ↔
        (if (lexS s2).1 ≠ TOKEN_EOF then none
          else some (QueryAST.node type2 .null left none none 0)) = none) ∧
      ∀ a, (if (lexS s2).1 ≠ TOKEN_EOF then none
          else some (QueryAST.node type .null left none none 0)) = some a →
        ∃ left2, a = .node type .null left2 none none 0 ∧
          (if (lexS s2).1 ≠ TOKEN_EOF then none
            else some (QueryAST.node type2 .null left none none 0)) =
            some (.node type2 .null left2 none none 0) := by
    intro left s2
    by_cases hF : (lexS s2).1 = TOKEN_EOF
    · rw [if_neg (by simp [hF]), if_neg (by simp [hF])]
      refine ⟨by simp, ?_⟩
      intro a h
      simp only [Option.some.injEq] at h
      exact ⟨left, h.symm, rfl⟩
    · rw [if_pos hF, if_pos hF]
      exact ⟨Iff.rfl, fun a h => Option.noConfusion h⟩
  unfold parseEntitiesS
  by_cases hE : (lexS s).1 = TOKEN_ENTITIES
  · simp only [hE, ne_eq, not_true_eq_false, if_false]
    by_cases hW : (lexS (lexS s).2.2).1 = TOKEN_WHERE
    · simp only [hW, if_true]
      rcases parsePredicateS (lexS (lexS s).2.2).2.2 with ⟨l, s2⟩
      cases l with
      | none => exact ⟨Iff.rfl, fun a h => Option.noConfusion h⟩
      | some predicate => exact tail _ _
    · simp only [hW, if_false]
      exact tail _ _
  · simp only [hE, ne_eq, not_false_eq_true, if_true, true_and]
    exact fun a h => Option.noConfusion h

theorem keywordType_long_word (w k : List Char) (type : TokenType)
    (hk : (k, type) ∈ keywordTable) (hnul : ∀ c ∈ w, c ≠ NUL)
    (hlen : k.length ≠ w.length) : keywordType w ≠ type := by
  intro h
  have := ((keywordType_table w hnul).1 (k, type) hk).mp h
  have hl := congrArg List.length this
  simp only [List.length_map] at hl
  exact hlen hl.symm

theorem lexS_glued_word (k t : List Char) (c : Char) (hk : isIdentifierText k = true)
    (hc : is_identifier_char c = true) :
    ∃ w r, lexS (k ++ c :: t) = (keywordType (k ++ c :: w), k ++ c :: w, r) ∧
      isIdentifierText (k ++ c :: w) = true := by
  have hs : ∀ x ∈ ((c :: t).dropWhile is_identifier_char).head?,
      is_identifier_char x = false := by
    intro x hx
    cases hd : (c :: t).dropWhile is_identifier_char with
    | nil => rw [hd] at hx; simp at hx
    | cons a u =>
      rw [hd] at hx
      simp only [List.head?_cons, Option.mem_def, Option.some.injEq] at hx
      subst hx
      exact head_dropWhile_false _ _ _ _ hd
  have hsplit : c :: t = (c :: t).takeWhile is_identifier_char ++
      (c :: t).dropWhile is_identifier_char := (List.takeWhile_append_dropWhile _ _).symm
  have htw : (c :: t).takeWhile is_identifier_char = c :: t.takeWhile is_identifier_char := by
    rw [List.takeWhile_cons, if_pos hc]
  have hid : isIdentifierText (k ++ c :: t.takeWhile is_identifier_char) = true := by
    cases k with
    | nil => simp [isIdentifierText] at hk
    | cons a u =>
      simp only [isIdentifierText, Bool.and_eq_true, List.all_eq_true, List.cons_append] at hk ⊢
      refine ⟨hk.1, ?_⟩
      intro x hx
      simp only [List.mem_cons, List.mem_append] at hx
      rcases hx with hx | hx | hx | hx
      · exact hk.2 x (by simp [hx])
      · exact hk.2 x (by simp [hx])
      · rw [hx]; exact hc
      · exact (List.mem_takeWhile_imp hx)
  refine ⟨t.takeWhile is_identifier_char, (c :: t).dropWhile is_identifier_char, ?_, hid⟩
  have := lexS_word (k ++ c :: t.takeWhile is_identifier_char)
    ((c :: t).dropWhile is_identifier_char) hid hs
  rw [← this]
  congr 1
  rw [List.append_assoc, ← htw, ← hsplit]

theorem keywordType_by_head (w k : List Char) (type : TokenType)
    (hk : (k, type) ∈ keywordTable) (hnul : ∀ c ∈ w, c ≠ NUL)
    (hh : (w.map tolower).head? ≠ (k.map tolower).head?) : keywordType w ≠ type := by
  intro h
  have := ((keywordType_table w hnul).1 (k, type) hk).mp h
  rw [this] at hh
  exact hh rfl

theorem parseS_glued_select (c : Char) (t : List Char) (hc : is_identifier_char c = true) :
    parseS ("SELECT".toList ++ c :: t) = none := by
  obtain ⟨w, r, hl, hid⟩ := lexS_glued_word "SELECT".toList t c (by decide) hc
  have hnul := identifierText_no_nul hid
  have hlen : ("SELECT".toList ++ c :: w).length = 7 + w.length := by
    simp only [List.length_append, List.length_cons]
    have : "SELECT".toList.length = 6 := rfl
    omega
  have n1 := keywordType_long_word _ "SELECT".toList TOKEN_SELECT (by decide) hnul
    (by rw [hlen]; have : "SELECT".toList.length = 6 := rfl; omega)
  have n2 := keywordType_long_word _ "COUNT".toList TOKEN_COUNT (by decide) hnul
    (by rw [hlen]; have : "COUNT".toList.length = 5 := rfl; omega)
  have n3 := keywordType_long_word _ "SHOW".toList TOKEN_SHOW (by decide) hnul
    (by rw [hlen]; have : "SHOW".toList.length = 4 := rfl; omega)
  unfold parseS
  rw [hl]
  simp only [n1, n2, n3, if_false]

theorem parseS_glued_count (c : Char) (t : List Char) (hc : is_identifier_char c = true) :
    parseS ("COUNT".toList ++ c :: t) = none := by
  obtain ⟨w, r, hl, hid⟩ := lexS_glued_word "COUNT".toList t c (by decide) hc
  have hnul := identifierText_no_nul hid
  have hlen : ("COUNT".toList ++ c :: w).length = 6 + w.length := by
    simp only [List.length_append, List.length_cons]
    have : "COUNT".toList.length = 5 := rfl
    omega
  have hh : (("COUNT".toList ++ c :: w).map tolower).head? ≠
      ("SELECT".toList.map tolower).head? := by
    have e : (("COUNT".toList ++ c :: w).map tolower).head? = some (tolower 'C') := rfl
    rw [e]
    decide
  have n1 := keywordType_by_head _ "SELECT".toList TOKEN_SELECT (by decide) hnul hh
  have n2 := keywordType_long_word _ "COUNT".toList TOKEN_COUNT (by decide) hnul
    (by rw [hlen]; have : "COUNT".toList.length = 5 := rfl; omega)
  have n3 := keywordType_long_word _ "SHOW".toList TOKEN_SHOW (by decide) hnul
    (by rw [hlen]; have : "SHOW".toList.length = 4 := rfl; omega)
  unfold parseS
  rw [hl]
  simp only [n1, n2, n3, if_false]

theorem parseS_select_count (t : List Char) :
    (parseS ("SELECT".toList ++ t) = none ↔ parseS ("COUNT".toList ++ t) = none) ∧
    ∀ a, parseS ("SELECT".toList ++ t) = some a →
      ∃ left, a = .node AST_SELECT .null left none none 0 ∧
        parseS ("COUNT".toList ++ t) = some (.node AST_COUNT .null left none none 0) := by
  by_cases hs : ∀ c ∈ t.head?, is_identifier_char c = false
  · have e1 : parseS ("SELECT".toList ++ t) = parseEntitiesS AST_SELECT t := by
      unfold parseS
      rw [lexS_word _ _ (by decide) hs]
      rfl
    have e2 : parseS ("COUNT".toList ++ t) = parseEntitiesS AST_COUNT t := by
      unfold parseS
      rw [lexS_word _ _ (by decide) hs]
      rfl
    rw [e1, e2]
    exact parseEntitiesS_retype AST_SELECT AST_COUNT t
  · cases t with
    | nil => exact absurd (fun c hc => by simp at hc) hs
    | cons c u =>
      have hc : is_identifier_char c = true := by
        by_contra hn
        apply hs
        intro x hx
        simp only [List.head?_cons, Option.mem_def, Option.some.injEq] at hx
        subst hx
        simpa using hn
      rw [parseS_glued_select c u hc, parseS_glued_count c u hc]
      exact ⟨Iff.rfl, fun a h => Option.noConfusion h⟩

/-- C40: SELECT and COUNT accept the same syntax.  For every text `t`,
`QueryParser_parse` fails on `SELECT` followed by `t` exactly when it fails on
`COUNT` followed by `t`; and when it succeeds on the first, it succeeds on the
second, the two trees being nodes of kind `AST_SELECT` and `AST_COUNT` with
the same left child (the predicate, or none), no data, no right child and no
children. -/
theorem C40_select_and_count_share_syntax (t : List Char) :
    ((QueryParser_new (some ("SELECT".toList ++ t))).map
        (fun parser => (QueryParser_parse parser).1) = some none ↔
      (QueryParser_new (some ("COUNT".toList ++ t))).map
        (fun parser => (QueryParser_parse parser).1) = some none) ∧
    (∀ a, (QueryParser_new (some ("SELECT".toList ++ t))).map
        (fun parser => (QueryParser_parse parser).1) = some (some a) →
      ∃ left, a = .node AST_SELECT .null left none none 0 ∧
        (QueryParser_new (some ("COUNT".toList ++ t))).map
          (fun parser => (QueryParser_parse parser).1) =
          some (some (.node AST_COUNT .null left none none 0))) ∧
    (∀ b, (QueryParser_new (some ("COUNT".toList ++ t))).map
        (fun parser => (QueryParser_parse parser).1) = some (some b) →
      ∃ left, b = .node AST_COUNT .null left none none 0 ∧
        (QueryParser_new (some ("SELECT".toList ++ t))).map
          (fun parser => (QueryParser_parse parser).1) =
          some (some (.node AST_SELECT .null left none none 0))) := by
  obtain ⟨h1, h2⟩ := parseS_select_count t
  rw [parse_new_eq, parse_new_eq]
  refine ⟨?_, ?_, ?_⟩
  · simp only [Option.some.injEq]
    exact h1
  · intro a ha
    simp only [Option.some.injEq] at ha
    obtain ⟨left, e1, e2⟩ := h2 a ha
    exact ⟨left, e1, by rw [e2]⟩
  · intro b hb
    simp only [Option.some.injEq] at hb
    cases hs : parseS ("SELECT".toList ++ t) with
    | none =>
      rw [h1.mp hs] at hb
      exact Option.noConfusion hb
    | some a =>
      obtain ⟨left, e1, e2⟩ := h2 a hs
      rw [e2] at hb
      simp only [Option.some.injEq] at hb
      exact ⟨left, hb.symm, by rw [e1]⟩

/-! ## Entity references of any length -/

theorem parseS_show_digits (target : List Char) (cn : Option (List Char)) (dh dl : List Char)
    (hh : dh ≠ []) (hhd : ∀ c ∈ dh, isdigit c = true) (hl : dl ≠ [])
    (hld : ∀ c ∈ dl, isdigit c = true)
    (ht : target = "ALL".toList ∧ cn = none ∨
      (isIdentifierText target = true ∧ isKeywordText target = false) ∧ cn = some target) :
    parseS ("SHOW ".toList ++ target ++ " OF ENTITY ".toList ++ dh ++ ":".toList ++ dl) =
      some (showNode cn (if decimalValue dh > ULLONG_MAX then ULLONG_MAX else decimalValue dh)
        (if decimalValue dl > ULLONG_MAX then ULLONG_MAX else decimalValue dl)) := by
  have h4 := parseEntityIdS_digits dh dl [] hh hhd hl hld (by intro c hc; simp at hc)
  have h3 : lexS (' ' :: ("ENTITY".toList ++ ' ' :: (dh ++ ':' :: (dl ++ [])))) =
      (TOKEN_ENTITY, "ENTITY".toList, ' ' :: (dh ++ ':' :: (dl ++ []))) := by
    rw [lexS_space _ _ (by decide), lexS_word _ _ (by decide) (stopsWord_cons _ _ (by decide))]
    rfl
  have h2 : lexS (' ' :: ("OF".toList ++ ' ' :: ("ENTITY".toList ++ ' ' ::
      (dh ++ ':' :: (dl ++ []))))) =
      (TOKEN_OF, "OF".toList, ' ' :: ("ENTITY".toList ++ ' ' :: (dh ++ ':' :: (dl ++ [])))) := by
    rw [lexS_space _ _ (by decide), lexS_word _ _ (by decide) (stopsWord_cons _ _ (by decide))]
    rfl
  have e : "SHOW ".toList ++ target ++ " OF ENTITY ".toList ++ dh ++ ":".toList ++ dl =
      "SHOW".toList ++ ' ' :: (target ++ ' ' :: ("OF".toList ++ ' ' :: ("ENTITY".toList ++
        ' ' :: (dh ++ ':' :: (dl ++ []))))) := by
    simp only [List.append_assoc, List.append_nil]
    rfl
  rw [e, parseS_show]
  refine parseShowS_of_tokens cn _ _ _ _ target _ _ _ ?_ h2 h3 h4
  rcases ht with ⟨ht, hcn⟩ | ⟨⟨hid, hkw⟩, hcn⟩
  · left
    subst ht
    refine ⟨?_, hcn⟩
    rw [lexS_space _ _ (by decide), lexS_word _ _ (by decide) (stopsWord_cons _ _ (by decide))]
    rfl
  · right
    refine ⟨?_, ?_⟩
    · rw [lexS_space _ _ (by decide), lexS_name _ _ hid hkw (stopsWord_cons _ _ (by decide))]
    · rw [hcn, takeWhile_no_nul (identifierText_no_nul hid)]

theorem decimalValue_zero_cons (d : List Char) : decimalValue ('0' :: d) = decimalValue d := by
  unfold decimalValue
  rfl

/-- C38: how the digit runs of an entity reference are stored.  For all
non-empty runs of decimal digits `dh` and `dl`, `QueryParser_parse` accepts
`SHOW ALL OF ENTITY dh:dl` and stores for each run its decimal value when that
is below 2^64 and 2^64 - 1 otherwise (the saturated result of `strtoull`, not
an error and not the value modulo 2^64); a leading zero does not change the
value; so "18446744073709551615:0" and "99999999999999999999:0" give the same
entity id, and "007:0" gives 7:0. -/
theorem C38_entity_halves_saturate (dh dl : List Char)
    (hh : dh ≠ []) (hhd : ∀ c ∈ dh, isdigit c = true) (hl : dl ≠ [])
    (hld : ∀ c ∈ dl, isdigit c = true) :
    (QueryParser_new (some ("SHOW ".toList ++ "ALL".toList ++ " OF ENTITY ".toList ++ dh ++
        ":".toList ++ dl))).map (fun parser => (QueryParser_parse parser).1) =
      some (some (.node AST_SHOW
        (.showData
          { componentName := none,
            entityId := some
              { high := if decimalValue dh < 2 ^ 64 then decimalValue dh else 2 ^ 64 - 1,
                low := if decimalValue dl < 2 ^ 64 then decimalValue dl else 2 ^ 64 - 1 } })
        none none none 0)) ∧
    decimalValue ('0' :: dh) = decimalValue dh ∧
    (QueryParser_new (some "SHOW ALL OF ENTITY 18446744073709551615:0".toList)).map
        (fun parser => (QueryParser_parse parser).1) =
      (QueryParser_new (some "SHOW ALL OF ENTITY 99999999999999999999:0".toList)).map
        (fun parser => (QueryParser_parse parser).1) ∧
    (QueryParser_new (some "SHOW ALL OF ENTITY 99999999999999999999:0".toList)).map
        (fun parser => (QueryParser_parse parser).1) =
      some (some (.node AST_SHOW
        (.showData { componentName := none,
                     entityId := some { high := 18446744073709551615, low := 0 } })
        none none none 0)) ∧
    (QueryParser_new (some "SHOW ALL OF ENTITY 007:0".toList)).map
        (fun parser => (QueryParser_parse parser).1) =
      some (some (.node AST_SHOW
        (.showData { componentName := none, entityId := some { high := 7, low := 0 } })
        none none none 0)) := by
  have e : ∀ v : Nat, (if v > ULLONG_MAX then ULLONG_MAX else v) =
      (if v < 2 ^ 64 then v else 2 ^ 64 - 1) := by
    intro v
    unfold ULLONG_MAX
    split <;> split <;> omega
  have gen : ∀ a b : List Char, a ≠ [] → (∀ c ∈ a, isdigit c = true) → b ≠ [] →
      (∀ c ∈ b, isdigit c = true) →
      parseS ("SHOW ".toList ++ "ALL".toList ++ " OF ENTITY ".toList ++ a ++ ":".toList ++ b) =
        some (showNode none (if decimalValue a < 2 ^ 64 then decimalValue a else 2 ^ 64 - 1)
          (if decimalValue b < 2 ^ 64 then decimalValue b else 2 ^ 64 - 1)) := by
    intro a b h1 h2 h3 h4
    rw [parseS_show_digits "ALL".toList none a b h1 h2 h3 h4 (Or.inl ⟨rfl, rfl⟩), e, e]
  have v1 : decimalValue "18446744073709551615".toList = 18446744073709551615 := by decide
  have v2 : decimalValue "99999999999999999999".toList = 99999999999999999999 := by decide
  have v3 : decimalValue "0".toList = 0 := by decide
  have v4 : decimalValue "007".toList = 7 := by decide
  have g1 := gen "18446744073709551615".toList "0".toList (by decide) (by decide) (by decide)
    (by decide)
  have g2 := gen "99999999999999999999".toList "0".toList (by decide) (by decide) (by decide)
    (by decide)
  have g3 := gen "007".toList "0".toList (by decide) (by decide) (by decide) (by decide)
  rw [v1, v3] at g1
  rw [v2, v3] at g2
  rw [v4, v3] at g3
  have t1 : "SHOW ALL OF ENTITY 18446744073709551615:0".toList =
      "SHOW ".toList ++ "ALL".toList ++ " OF ENTITY ".toList ++
        "18446744073709551615".toList ++ ":".toList ++ "0".toList := by decide
  have t2 : "SHOW ALL OF ENTITY 99999999999999999999:0".toList =
      "SHOW ".toList ++ "ALL".toList ++ " OF ENTITY ".toList ++
        "99999999999999999999".toList ++ ":".toList ++ "0".toList := by decide
  have t3 : "SHOW ALL OF ENTITY 007:0".toList =
      "SHOW ".toList ++ "ALL".toList ++ " OF ENTITY ".toList ++
        "007".toList ++ ":".toList ++ "0".toList := by decide
  refine ⟨?_, decimalValue_zero_cons dh, ?_, ?_, ?_⟩
  · rw [parse_new_eq, gen dh dl hh hhd hl hld]
    rfl
  · rw [parse_new_eq, parse_new_eq, t1, t2, g1, g2]
    rfl
  · rw [parse_new_eq, t2, g2]
    rfl
  · rw [parse_new_eq, t3, g3]
    rfl

/-- A use of C38: `SHOW ALL OF ENTITY 18446744073709551616:0042`, whose high
half is 2^64 and whose low half has leading zeros. -/
theorem C38_entity_halves_saturate_witness :
    "18446744073709551616".toList ≠ [] ∧
    (∀ c ∈ "18446744073709551616".toList, isdigit c = true) ∧
    "0042".toList ≠ [] ∧ (∀ c ∈ "0042".toList, isdigit c = true) ∧
    decimalValue "18446744073709551616".toList = 2 ^ 64 ∧
    decimalValue "0042".toList = 42 ∧
    (QueryParser_new (some ("SHOW ".toList ++ "ALL".toList ++ " OF ENTITY ".toList ++
        "18446744073709551616".toList ++ ":".toList ++ "0042".toList))).map
        (fun parser => (QueryParser_parse parser).1) =
      some (some (.node AST_SHOW
        (.showData { componentName := none,
                     entityId := some { high := 18446744073709551615, low := 42 } })
        none none none 0)) :=
  ⟨by decide, by decide, by decide, by decide, by decide, by decide,
    by
      have h := (C38_entity_halves_saturate "18446744073709551616".toList "0042".toList
        (by decide) (by decide) (by decide) (by decide)).1
      rw [show decimalValue "18446744073709551616".toList = 2 ^ 64 from by decide,
        show decimalValue "0042".toList = 42 from by decide] at h
      exact h⟩

/-! ## Operator tokens -/

theorem keywordType_ne_operator (w : List Char) : keywordType w ≠ TOKEN_OPERATOR := by
  unfold keywordType
  repeat refine ite_ne_of (by decide) ?_
  decide

theorem lexHead_operator (c : Char) (r : List Char)
    (h : (lexHead (c :: r)).1 = TOKEN_OPERATOR) :
    (c = '>' ∨ c = '<' ∨ c = '=' ∨ c = '!') ∧
    (lexHead (c :: r)).2 = if r.head? = some '=' then 2 else 1 := by
  unfold lexHead at h ⊢
  simp only [] at h ⊢
  by_cases h1 : c = '('
  · rw [if_pos h1] at h; exact TokenType.noConfusion h
  rw [if_neg h1] at h ⊢
  by_cases h2 : c = ')'
  · rw [if_pos h2] at h; exact TokenType.noConfusion h
  rw [if_neg h2] at h ⊢
  by_cases h3 : c = '.'
  · rw [if_pos h3] at h; exact TokenType.noConfusion h
  rw [if_neg h3] at h ⊢
  by_cases h4 : c = ','
  · rw [if_pos h4] at h; exact TokenType.noConfusion h
  rw [if_neg h4] at h ⊢
  by_cases h5 : c = '>' ∨ c = '<' ∨ c = '=' ∨ c = '!'
  · rw [if_pos h5]
    exact ⟨h5, rfl⟩
  rw [if_neg h5] at h
  by_cases h6 : isdigit c = true
  · rw [if_pos h6] at h; exact TokenType.noConfusion h
  rw [if_neg h6] at h
  by_cases h7 : (isalpha c || decide (c = '_')) = true
  · rw [if_pos h7] at h
    exact absurd h (keywordType_ne_operator _)
  rw [if_neg h7] at h
  exact TokenType.noConfusion h

theorem lexS_operator (s : List Char) (h : (lexS s).1 = TOKEN_OPERATOR) :
    (lexS s).2.1 ∈ [">".toList, "<".toList, "=".toList, "!".toList, ">=".toList, "<=".toList,
      "==".toList, "!=".toList] := by
  unfold lexS at h ⊢
  simp only [] at h ⊢
  cases hs : s.dropWhile isspace with
  | nil => rw [hs] at h; exact TokenType.noConfusion h
  | cons c r =>
    rw [hs] at h
    obtain ⟨hc, hl⟩ := lexHead_operator c r h
    rw [hl]
    cases r with
    | nil =>
      simp only [List.head?_nil, reduceCtorEq, if_false, List.take_succ_cons, List.take_zero,
        List.take_nil]
      rcases hc with hc | hc | hc | hc <;> subst hc <;> decide
    | cons d u =>
      by_cases hd : d = '='
      · subst hd
        simp only [List.head?_cons, if_true, List.take_succ_cons, List.take_zero]
        rcases hc with hc | hc | hc | hc <;> subst hc <;> decide
      · have : ¬ (some d = some '=') := by simpa using hd
        simp only [List.head?_cons, this, if_false, List.take_succ_cons, List.take_zero]
        rcases hc with hc | hc | hc | hc <;> subst hc <;> decide

theorem next_token_text (p : QueryParser) (hwf : p.WF) :
    Token.text p.input (QueryParser_next_token p).1 = (lexS p.rest).2.1 := by
  obtain ⟨-, -, -, t1, x1⟩ := next_token_spec p hwf
  obtain ⟨-, -, -, v1, -, -, -⟩ := next_token_raw p hwf
  by_cases he : (QueryParser_next_token p).1.type = TOKEN_EOF
  · obtain ⟨-, e⟩ := next_token_eof p he
    have hl : (lexS p.rest).1 = TOKEN_EOF := by rw [← t1]; exact he
    have h0 : p.rest.dropWhile isspace = [] := by
      unfold lexS at hl
      exact lexHead_eof hl
    rw [e]
    unfold Token.text lexS
    simp only [h0]
    rfl
  · have hv := v1 he
    unfold Token.text
    rw [hv]
    simp only []
    rw [← x1, hv]
    rfl

/-- C35: what `QueryParser_next_token` returns on the texts `!` and `==`.  Each
is read as one OPERATOR token followed by end-of-input, although neither is one
of the six operators `>`, `<`, `=`, `>=`, `<=`, `!=` that the comment on
`TOKEN_OPERATOR` in parser.h and the comment in the tokenizer ("Check for >=,
<=, !=") give; the six themselves are each read as one OPERATOR token. -/
theorem C35_bang_and_double_equals_are_operator_tokens :
    (QueryParser_new (some "!".toList)).map
        (fun p => ((QueryParser_next_token p).1.type,
          Token.text p.input (QueryParser_next_token p).1,
          (QueryParser_next_token (QueryParser_next_token p).2).1.type)) =
      some (TOKEN_OPERATOR, "!".toList, TOKEN_EOF) ∧
    (QueryParser_new (some "==".toList)).map
        (fun p => ((QueryParser_next_token p).1.type,
          Token.text p.input (QueryParser_next_token p).1,
          (QueryParser_next_token (QueryParser_next_token p).2).1.type)) =
      some (TOKEN_OPERATOR, "==".toList, TOKEN_EOF) ∧
    "!".toList ∉ [">".toList, "<".toList, "=".toList, ">=".toList, "<=".toList, "!=".toList] ∧
    "==".toList ∉ [">".toList, "<".toList, "=".toList, ">=".toList, "<=".toList,
      "!=".toList] ∧
    ∀ w ∈ [">".toList, "<".toList, "=".toList, ">=".toList, "<=".toList, "!=".toList],
      (QueryParser_new (some w)).map
          (fun q => ((QueryParser_next_token q).1.type,
            Token.text q.input (QueryParser_next_token q).1,
            (QueryParser_next_token (QueryParser_next_token q).2).1.type)) =
        some (TOKEN_OPERATOR, w, TOKEN_EOF) := by
  decide

/-- The texts of OPERATOR tokens as the tokenizer produces them: one of the four
bytes `> < = !`, with a following `=` taken into the token, so one of the eight
texts `>`, `<`, `=`, `!`, `>=`, `<=`, `==`, `!=`. -/
theorem operator_token_texts (p : QueryParser) (hwf : p.WF)
    (h : (QueryParser_next_token p).1.type = TOKEN_OPERATOR) :
    Token.text p.input (QueryParser_next_token p).1 ∈
      [">".toList, "<".toList, "=".toList, "!".toList, ">=".toList, "<=".toList, "==".toList,
        "!=".toList] := by
  obtain ⟨-, -, -, t1, -⟩ := next_token_spec p hwf
  rw [next_token_text p hwf]
  exact lexS_operator _ (by rw [← t1]; exact h)

/-! ## The name-list entry point of the executor -/

theorem query_entities_eq (ecs : ECS) (names : List (List Char)) (out0 : QueryEngineResult) :
    QueryExecutor_query_entities (some ecs) (some names) names.length (some out0) =
      if ecs.handles names = [] then
        { status := QUERY_SUCCESS, outResult := some emptyResult,
          calls := names.map RegistryCall.get_component_type_by_name }
      else
        { status := QUERY_SUCCESS,
          outResult := some
            { entities := some (ecs.ECS_query_entities (ecs.handles names)),
              count := (ecs.ECS_query_entities (ecs.handles names)).length,
              capacity := (ecs.ECS_query_entities (ecs.handles names)).length, data := none },
          calls := names.map RegistryCall.get_component_type_by_name ++
            [.query_entities (ecs.handles names), .QueryResult_free] } := by
  have h := resolve_component_names_ofNames ecs names
  unfold ComponentList.ofNames at h
  unfold QueryExecutor_query_entities
  simp only [h]
  by_cases hh : ecs.handles names = []
  · simp [hh, emptyResult]
  · have hl : ¬ (ecs.handles names).length = 0 := by simpa using hh
    simp only [hl, hh, if_false, List.take_length]

/-- C39: `QueryExecutor_query_entities` agrees with the AST executor.  For
every registry and every list of component names L, the call on the array L
with its length and the run of `QueryExecutor_execute` on the SELECT statement
with predicate HAS(L) return the same status (`QUERY_SUCCESS`), the same
sequence of entities, the same count, and make the same registry calls; the
two result records are equal unless names resolve and the registry answers
with no entity, where the one holds an empty buffer and the other `NULL`. -/
theorem C39_query_entities_agrees_with_select_has (ecs : ECS) (names : List (List Char))
    (out0 out1 : QueryEngineResult) :
    (QueryExecutor_query_entities (some ecs) (some names) names.length (some out0)).status =
      (QueryExecutor_execute (some ecs)
        (some (.node AST_SELECT .null
          (some (.node AST_HAS
            (.componentList { componentNames := names, count := names.length })
            none none none 0))
          none none 0)) (some out1)).status ∧
    (QueryExecutor_query_entities (some ecs) (some names) names.length (some out0)).status =
      QUERY_SUCCESS ∧
    (QueryExecutor_query_entities (some ecs) (some names) names.length (some out0)).entities =
      (QueryExecutor_execute (some ecs)
        (some (.node AST_SELECT .null
          (some (.node AST_HAS
            (.componentList { componentNames := names, count := names.length })
            none none none 0))
          none none 0)) (some out1)).entities ∧
    ((QueryExecutor_query_entities (some ecs) (some names) names.length
        (some out0)).outResult.map (fun r => r.count)) =
      ((QueryExecutor_execute (some ecs)
        (some (.node AST_SELECT .null
          (some (.node AST_HAS
            (.componentList { componentNames := names, count := names.length })
            none none none 0))
          none none 0)) (some out1)).outResult.map (fun r => r.count)) ∧
    (names ≠ [] →
      (QueryExecutor_query_entities (some ecs) (some names) names.length (some out0)).calls =
        (QueryExecutor_execute (some ecs)
          (some (.node AST_SELECT .null
            (some (.node AST_HAS
              (.componentList { componentNames := names, count := names.length })
              none none none 0))
            none none 0)) (some out1)).calls) ∧
    ((ecs.handles names = [] ∨ ecs.ECS_query_entities (ecs.handles names) ≠ []) →
      (QueryExecutor_query_entities (some ecs) (some names) names.length (some out0)).outResult =
        (QueryExecutor_execute (some ecs)
          (some (.node AST_SELECT .null
            (some (.node AST_HAS
              (.componentList { componentNames := names, count := names.length })
              none none none 0))
            none none 0)) (some out1)).outResult) ∧
    (ecs.handles names ≠ [] → ecs.ECS_query_entities (ecs.handles names) = [] →
      (QueryExecutor_query_entities (some ecs) (some names) names.length (some out0)).outResult =
        some { entities := some [], count := 0, capacity := 0, data := none } ∧
      (QueryExecutor_execute (some ecs)
        (some (.node AST_SELECT .null
          (some (.node AST_HAS
            (.componentList { componentNames := names, count := names.length })
            none none none 0))
          none none 0)) (some out1)).outResult =
        some { entities := none, count := 0, capacity := 0, data := none }) := by
  have hb := execute_predicate ecs AST_SELECT AST_HAS names out1 (Or.inl rfl) (Or.inl rfl)
  unfold statementNode predicateNode ComponentList.ofNames at hb
  have ha := query_entities_eq ecs names out0
  have hq : ecs.setQuery AST_HAS (ecs.handles names) =
      ecs.ECS_query_entities (ecs.handles names) := rfl
  rw [hq] at hb
  by_cases hh : ecs.handles names = []
  · rw [if_pos hh] at ha hb
    rw [ha, hb]
    refine ⟨rfl, rfl, rfl, rfl, ?_, fun _ => rfl, fun h => absurd hh h⟩
    intro hne
    simp only []
    rw [if_neg hne]
  · rw [if_neg hh] at ha hb
    rw [if_neg (by decide)] at hb
    by_cases he : ecs.ECS_query_entities (ecs.handles names) = []
    · rw [he] at ha hb
      rw [if_neg (by simp)] at hb
      rw [ha, hb]
      refine ⟨rfl, rfl, rfl, rfl, fun _ => rfl, ?_, fun _ _ => ⟨rfl, rfl⟩⟩
      intro h
      rcases h with h | h
      · exact absurd h hh
      · exact absurd he h
    · have hpos : (ecs.ECS_query_entities (ecs.handles names)).length > 0 :=
        List.length_pos.mpr he
      rw [if_pos hpos] at hb
      rw [ha, hb]
      exact ⟨rfl, rfl, rfl, rfl, fun _ => rfl, fun _ => rfl, fun _ h => absurd h he⟩

/-! ## Names in a parsed statement -/

theorem lexHead_identifier (c : Char) (r : List Char)
    (h : (lexHead (c :: r)).1 = TOKEN_IDENTIFIER) :
    (isalpha c || decide (c = '_')) = true ∧
    lexHead (c :: r) = (keywordType ((c :: r).takeWhile is_identifier_char),
      ((c :: r).takeWhile is_identifier_char).length) := by
  unfold lexHead at h ⊢
  simp only [] at h ⊢
  by_cases h1 : c = '('
  · rw [if_pos h1] at h; exact TokenType.noConfusion h
  rw [if_neg h1] at h ⊢
  by_cases h2 : c = ')'
  · rw [if_pos h2] at h; exact TokenType.noConfusion h
  rw [if_neg h2] at h ⊢
  by_cases h3 : c = '.'
  · rw [if_pos h3] at h; exact TokenType.noConfusion h
  rw [if_neg h3] at h ⊢
  by_cases h4 : c = ','
  · rw [if_pos h4] at h; exact TokenType.noConfusion h
  rw [if_neg h4] at h ⊢
  by_cases h5 : c = '>' ∨ c = '<' ∨ c = '=' ∨ c = '!'
  · rw [if_pos h5] at h; exact TokenType.noConfusion h
  rw [if_neg h5] at h ⊢
  by_cases h6 : isdigit c = true
  · rw [if_pos h6] at h; exact TokenType.noConfusion h
  rw [if_neg h6] at h ⊢
  by_cases h7 : (isalpha c || decide (c = '_')) = true
  · rw [if_pos h7]
    exact ⟨h7, rfl⟩
  rw [if_neg h7] at h
  exact TokenType.noConfusion h

theorem lexS_identifier (s : List Char) (h : (lexS s).1 = TOKEN_IDENTIFIER) :
    isIdentifierText (lexS s).2.1 = true ∧ isKeywordText (lexS s).2.1 = false ∧
    (lexS s).2.1.takeWhile (fun c => c ≠ NUL) = (lexS s).2.1 := by
  unfold lexS at h ⊢
  simp only [] at h ⊢
  cases hs : s.dropWhile isspace with
  | nil => rw [hs] at h; exact TokenType.noConfusion h
  | cons c r =>
    rw [hs] at h
    obtain ⟨hc, hl⟩ := lexHead_identifier c r h
    rw [hl] at h ⊢
    simp only [] at h ⊢
    rw [take_length_takeWhile]
    have hic : is_identifier_char c = true := by
      simp only [Bool.or_eq_true, decide_eq_true_eq] at hc
      simp only [is_identifier_char, isalnum, Bool.or_eq_true, decide_eq_true_eq]
      rcases hc with hc | hc
      · exact Or.inl (Or.inl hc)
      · exact Or.inr hc
    have htw : (c :: r).takeWhile is_identifier_char = c :: r.takeWhile is_identifier_char := by
      rw [List.takeWhile_cons, if_pos hic]
    have hid : isIdentifierText ((c :: r).takeWhile is_identifier_char) = true := by
      rw [htw]
      simp only [isIdentifierText, Bool.and_eq_true, List.all_eq_true]
      refine ⟨hc, ?_⟩
      intro x hx
      simp only [List.mem_cons] at hx
      rcases hx with hx | hx
      · rw [hx]; exact hic
      · exact List.mem_takeWhile_imp hx
    have hnul := identifierText_no_nul hid
    refine ⟨hid, ?_, takeWhile_no_nul hnul⟩
    cases hk : isKeywordText ((c :: r).takeWhile is_identifier_char) with
    | false => rfl
    | true => exact absurd h (keywordType_keyword hid hk).1

theorem componentListLoopS_names (P : List Char → Prop) (fuel : Nat)
    (names : List (List Char)) (first : Bool) (s r : List Char) (res : List (List Char))
    (hP : ∀ t, (lexS t).1 = TOKEN_IDENTIFIER → P ((lexS t).2.1.takeWhile (fun c => c ≠ NUL)))
    (hn : ∀ n ∈ names, P n)
    (h : componentListLoopS fuel names first s = some (some res, r)) : ∀ n ∈ res, P n := by
  induction fuel generalizing names first s with
  | zero => simp [componentListLoopS] at h
  | succ k ih =>
    unfold componentListLoopS at h
    by_cases hR : (lexS s).1 = TOKEN_RPAREN
    · simp only [hR, if_true, Option.some.injEq, Prod.mk.injEq] at h
      rw [← h.1]
      exact hn
    · simp only [hR, if_false] at h
      have step : ∀ t, (if (lexS t).1 = TOKEN_IDENTIFIER then
            componentListLoopS k (names ++ [(lexS t).2.1.takeWhile (fun c => c ≠ NUL)]) false
              (lexS t).2.2
          else some (none, (lexS t).2.2)) = some (some res, r) → ∀ n ∈ res, P n := by
        intro t ht
        by_cases hI : (lexS t).1 = TOKEN_IDENTIFIER
        · rw [if_pos hI] at ht
          refine ih _ _ _ ?_ ht
          intro n hm
          simp only [List.mem_append, List.mem_singleton] at hm
          rcases hm with hm | hm
          · exact hn n hm
          · rw [hm]; exact hP t hI
        · rw [if_neg hI] at ht
          simp at ht
      cases first with
      | true =>
        simp only [Bool.not_true, Bool.false_eq_true, if_false] at h
        exact step _ h
      | false =>
        simp only [Bool.not_false, if_true] at h
        by_cases hC : (lexS s).1 = TOKEN_COMMA
        · simp only [hC, ne_eq, not_true_eq_false, if_false] at h
          exact step _ h
        · simp only [hC, ne_eq, not_false_eq_true, if_true] at h
          simp at h

theorem parseComponentListS_identifiers (s r : List Char) (names : List (List Char))
    (h : parseComponentListS s = (some names, r)) :
    ∀ n ∈ names, isIdentifierText n = true ∧ isKeywordText n = false := by
  unfold parseComponentListS at h
  by_cases hL : (lexS s).1 = TOKEN_LPAREN
  · simp only [hL, ne_eq, not_true_eq_false, if_false] at h
    cases hl : componentListLoopS ((lexS s).2.2.length + 1) [] true (lexS s).2.2 with
    | none => rw [hl] at h; simp at h
    | some res =>
      obtain ⟨l, r2⟩ := res
      rw [hl] at h
      cases l with
      | none => simp at h
      | some ns =>
        simp only [] at h
        by_cases hz : ns.length = 0
        · simp [hz] at h
        · simp only [hz, if_false, Prod.mk.injEq, Option.some.injEq] at h
          rw [← h.1]
          refine componentListLoopS_names
            (fun n => isIdentifierText n = true ∧ isKeywordText n = false) _ _ _ _ _ _ ?_
            (by intro n hn; simp at hn) hl
          intro t ht
          obtain ⟨a, b, c⟩ := lexS_identifier t ht
          rw [c]
          exact ⟨a, b⟩
  · simp only [hL, ne_eq, not_false_eq_true, if_true] at h
    simp at h

theorem parsePredicateS_wellformed (s r : List Char) (predicate : QueryAST)
    (h : parsePredicateS s = (some predicate, r)) :
    ∃ kind names, isPredicateKind kind ∧ predicate = predicateNode kind names ∧
      names.length ≠ 0 ∧
      ∀ n ∈ names, isIdentifierText n = true ∧ isKeywordText n = false := by
  unfold parsePredicateS at h
  have key : ∀ kind, isPredicateKind kind → (match parseComponentListS (lexS s).2.2 with
      | (none, s1) => ((none : Option QueryAST), s1)
      | (some names, s1) => (some (predicateNode kind names), s1)) = (some predicate, r) →
      ∃ kind names, isPredicateKind kind ∧ predicate = predicateNode kind names ∧
        names.length ≠ 0 ∧
        ∀ n ∈ names, isIdentifierText n = true ∧ isKeywordText n = false := by
    intro kind hk hm
    rcases hp : parseComponentListS (lexS s).2.2 with ⟨l, r2⟩
    rw [hp] at hm
    cases l with
    | none => simp at hm
    | some names =>
      simp only [Prod.mk.injEq, Option.some.injEq] at hm
      exact ⟨kind, names, hk, hm.1.symm, parseComponentListS_nonempty _ _ _ hp,
        parseComponentListS_identifiers _ _ _ hp⟩
  by_cases h1 : (lexS s).1 = TOKEN_HAS
  · simp only [h1, if_true] at h
    exact key _ (Or.inl rfl) h
  · by_cases h2 : (lexS s).1 = TOKEN_HAS_ANY
    · simp only [h2, reduceCtorEq, if_false, if_true] at h
      exact key _ (Or.inr (Or.inl rfl)) h
    · by_cases h3 : (lexS s).1 = TOKEN_NOT_HAS
      · simp only [h3, reduceCtorEq, if_false, if_true] at h
        exact key _ (Or.inr (Or.inr rfl)) h
      · simp only [h1, h2, h3, if_false] at h
        simp at h

theorem parseEntitiesS_wellformed (type : ASTNodeType) (s : List Char) (ast : QueryAST)
    (h : parseEntitiesS type s = some ast) :
    ast = statementNode type none ∨
    ∃ kind names, isPredicateKind kind ∧ names.length ≠ 0 ∧
      (∀ n ∈ names, isIdentifierText n = true ∧ isKeywordText n = false) ∧
      ast = statementNode type (some (predicateNode kind names)) := by
  unfold parseEntitiesS at h
  by_cases hE : (lexS s).1 = TOKEN_ENTITIES
  · simp only [hE, ne_eq, not_true_eq_false, if_false] at h
    by_cases hW : (lexS (lexS s).2.2).1 = TOKEN_WHERE
    · simp only [hW, if_true] at h
      rcases hp : parsePredicateS (lexS (lexS s).2.2).2.2 with ⟨l, s2⟩
      rw [hp] at h
      cases l with
      | none => simp at h
      | some predicate =>
        simp only [] at h
        obtain ⟨kind, names, hk, e, hn, hi⟩ := parsePredicateS_wellformed _ _ _ hp
        by_cases hF : (lexS s2).1 = TOKEN_EOF
        · simp only [hF, not_true_eq_false, if_false, Option.some.injEq] at h
          right
          exact ⟨kind, names, hk, hn, hi, by rw [← h, e]; rfl⟩
        · simp [hF] at h
    · simp only [hW, if_false] at h
      by_cases hF : (lexS (lexS s).2.2).1 = TOKEN_EOF
      · simp only [hF, not_true_eq_false, if_false, Option.some.injEq] at h
        left
        rw [← h]
        rfl
      · simp [hF] at h
  · simp [hE] at h

theorem parseShowS_wellformed (s : List Char) (ast : QueryAST) (h : parseShowS s = some ast) :
    ∃ componentName high low, ast = showNode componentName high low ∧
      ∀ n, componentName = some n → isIdentifierText n = true ∧ isKeywordText n = false := by
  obtain ⟨cn, high, low, e⟩ := parseShowS_shape s ast h
  refine ⟨cn, high, low, e, ?_⟩
  intro n hn
  subst hn
  subst e
  unfold parseShowS at h
  by_cases hA : (lexS s).1 = TOKEN_ALL
  · simp only [hA, if_true] at h
    exfalso
    revert h
    repeat' split
    all_goals first
      | (intro h; exact Option.noConfusion h)
      | (intro h
         simp only [showNode, Option.some.injEq, QueryAST.node.injEq, ASTData.showData.injEq,
           ShowQueryData.mk.injEq, reduceCtorEq, false_and, and_false] at h)
  · by_cases hI : (lexS s).1 = TOKEN_IDENTIFIER
    · simp only [hI, reduceCtorEq, if_false, if_true] at h
      obtain ⟨a, b, c⟩ := lexS_identifier s hI
      rw [c] at h
      revert h
      repeat' split
      all_goals first
        | (intro h; exact Option.noConfusion h)
        | (intro h
           simp only [showNode, Option.some.injEq, QueryAST.node.injEq,
             ASTData.showData.injEq, ShowQueryData.mk.injEq, true_and, and_true] at h
           rw [← h.1]
           exact ⟨a, b⟩)
    · simp [hA, hI] at h

theorem parseS_wellformed (s : List Char) (ast : QueryAST) (h : parseS s = some ast) :
    (∃ type, isSelectOrCount type ∧ ast = statementNode type none) ∨
    (∃ type kind names, isSelectOrCount type ∧ isPredicateKind kind ∧ names.length ≠ 0 ∧
      (∀ n ∈ names, isIdentifierText n = true ∧ isKeywordText n = false) ∧
      ast = statementNode type (some (predicateNode kind names))) ∨
    (∃ componentName high low, ast = showNode componentName high low ∧
      ∀ n, componentName = some n →
        isIdentifierText n = true ∧ isKeywordText n = false) := by
  unfold parseS at h
  have key : ∀ type, isSelectOrCount type → parseEntitiesS type (lexS s).2.2 = some ast →
      (∃ type, isSelectOrCount type ∧ ast = statementNode type none) ∨
      (∃ type kind names, isSelectOrCount type ∧ isPredicateKind kind ∧ names.length ≠ 0 ∧
        (∀ n ∈ names, isIdentifierText n = true ∧ isKeywordText n = false) ∧
        ast = statementNode type (some (predicateNode kind names))) ∨
      (∃ componentName high low, ast = showNode componentName high low ∧
        ∀ n, componentName = some n →
          isIdentifierText n = true ∧ isKeywordText n = false) := by
    intro type ht he
    rcases parseEntitiesS_wellformed type _ ast he with e | ⟨kind, names, hk, hn, hi, e⟩
    · exact Or.inl ⟨type, ht, e⟩
    · exact Or.inr (Or.inl ⟨type, kind, names, ht, hk, hn, hi, e⟩)
  by_cases h1 : (lexS s).1 = TOKEN_SELECT
  · simp only [h1, if_true] at h
    exact key _ (Or.inl rfl) h
  · by_cases h2 : (lexS s).1 = TOKEN_COUNT
    · simp only [h2, reduceCtorEq, if_false, if_true] at h
      exact key _ (Or.inr rfl) h
    · by_cases h3 : (lexS s).1 = TOKEN_SHOW
      · simp only [h3, reduceCtorEq, if_false, if_true] at h
        exact Or.inr (Or.inr (parseShowS_wellformed _ ast h))
      · simp [h1, h2, h3] at h

theorem identifierText_ne_nil {n : List Char} (h : isIdentifierText n = true) : n ≠ [] := by
  intro h0
  subst h0
  exact absurd h (by decide)

/-- C32: every accepted statement is well formed.  Whenever `QueryParser_parse`
succeeds, the tree is either a node of kind `AST_SELECT` or `AST_COUNT`
without data whose left child is absent or is a node of kind `AST_HAS`,
`AST_HAS_ANY` or `AST_NOT_HAS` carrying a component list with at least one
name, `count` equal to the number of names, and every name a non-empty
identifier that spells no keyword; or a node of kind `AST_SHOW` without left
child whose data holds an entity id and a component name that is absent or
such an identifier.  In every node the right child is absent, the children
array is `NULL` and `childCount` is 0. -/
theorem C32_parsed_statement_is_well_formed (q : List Char) (ast : QueryAST)
    (hq : (QueryParser_new (some q)).map (fun parser => (QueryParser_parse parser).1) =
      some (some ast)) :
    (∃ type, (type = AST_SELECT ∨ type = AST_COUNT) ∧
      (ast = .node type .null none none none 0 ∨
        ∃ kind names, (kind = AST_HAS ∨ kind = AST_HAS_ANY ∨ kind = AST_NOT_HAS) ∧
          names ≠ [] ∧
          (∀ n ∈ names, n ≠ [] ∧ isIdentifierText n = true ∧ isKeywordText n = false) ∧
          ast = .node type .null
            (some (.node kind (.componentList { componentNames := names, count := names.length })
              none none none 0))
            none none 0)) ∨
    (∃ componentName high low,
      (∀ n, componentName = some n →
        n ≠ [] ∧ isIdentifierText n = true ∧ isKeywordText n = false) ∧
      ast = .node AST_SHOW
        (.showData { componentName := componentName,
                     entityId := some { high := high, low := low } })
        none none none 0) := by
  rw [parse_new_eq] at hq
  simp only [Option.some.injEq] at hq
  rcases parseS_wellformed q ast hq with ⟨type, ht, e⟩ | ⟨type, kind, names, ht, hk, hn, hi, e⟩ |
    ⟨cn, high, low, e, hi⟩
  · exact Or.inl ⟨type, ht, Or.inl e⟩
  · refine Or.inl ⟨type, ht, Or.inr ⟨kind, names, hk, ?_, ?_, e⟩⟩
    · intro h0
      rw [h0] at hn
      exact hn rfl
    · intro n hm
      exact ⟨identifierText_ne_nil (hi n hm).1, (hi n hm).1, (hi n hm).2⟩
  · refine Or.inr ⟨cn, high, low, ?_, e⟩
    intro n hn
    exact ⟨identifierText_ne_nil (hi n hn).1, (hi n hn).1, (hi n hn).2⟩

/-- A use of C32: the tree of `COUNT ENTITIES WHERE HAS_ANY(a, b)` has the
stated form. -/
theorem C32_parsed_statement_is_well_formed_witness :
    (QueryParser_new (some "COUNT ENTITIES WHERE HAS_ANY(a, b)".toList)).map
        (fun parser => (QueryParser_parse parser).1) =
      some (some (statementNode AST_COUNT
        (some (predicateNode AST_HAS_ANY ["a".toList, "b".toList])))) ∧
    ((∃ type, (type = AST_SELECT ∨ type = AST_COUNT) ∧
      (statementNode AST_COUNT (some (predicateNode AST_HAS_ANY ["a".toList, "b".toList])) =
          .node type .null none none none 0 ∨
        ∃ kind names, (kind = AST_HAS ∨ kind = AST_HAS_ANY ∨ kind = AST_NOT_HAS) ∧
          names ≠ [] ∧
          (∀ n ∈ names, n ≠ [] ∧ isIdentifierText n = true ∧ isKeywordText n = false) ∧
          statementNode AST_COUNT (some (predicateNode AST_HAS_ANY ["a".toList, "b".toList])) =
            .node type .null
              (some (.node kind
                (.componentList { componentNames := names, count := names.length })
                none none none 0))
              none none 0)) ∨
    (∃ componentName high low,
      (∀ n, componentName = some n →
        n ≠ [] ∧ isIdentifierText n = true ∧ isKeywordText n = false) ∧
      statementNode AST_COUNT (some (predicateNode AST_HAS_ANY ["a".toList, "b".toList])) =
        .node AST_SHOW
          (.showData { componentName := componentName,
                       entityId := some { high := high, low := low } })
          none none none 0)) :=
  ⟨rfl,
    C32_parsed_statement_is_well_formed "COUNT ENTITIES WHERE HAS_ANY(a, b)".toList
      (statementNode AST_COUNT (some (predicateNode AST_HAS_ANY ["a".toList, "b".toList])))
      rfl⟩

/-! ## Component names that spell a keyword -/

theorem keywordText_identifier {n : List Char} (h : isKeywordText n = true) :
    isIdentifierText n = true := by
  obtain ⟨kt, hkt, hm⟩ := (isKeywordText_iff n).mp h
  rw [isIdentifierText_congr hm]
  have : ∀ kt ∈ keywordTable, isIdentifierText kt.1 = true := by decide
  exact this kt hkt

theorem keywordType_ne_rparen (w : List Char) : keywordType w ≠ TOKEN_RPAREN := by
  unfold keywordType
  repeat refine ite_ne_of (by decide) ?_
  decide

theorem parseComponentListS_keyword (n tail : List Char) (h : isKeywordText n = true) :
    (parseComponentListS ('(' :: (n ++ ')' :: tail))).1 = none := by
  have hid := keywordText_identifier h
  have hk := keywordType_keyword hid h
  unfold parseComponentListS
  rw [lexS_lparen]
  simp only [ne_eq, not_true_eq_false, if_false]
  unfold componentListLoopS
  rw [lexS_word n _ hid (stopsWord_cons _ _ (by decide))]
  simp only [keywordType_ne_rparen, hk.1, if_false, Bool.not_true, Bool.false_eq_true]
  rw [lexS_word n _ hid (stopsWord_cons _ _ (by decide))]
  simp only [hk.1, if_false]

theorem parseS_keyword_name (type kind : ASTNodeType) (n : List Char)
    (ht : type = AST_SELECT ∨ type = AST_COUNT)
    (hk : kind = AST_HAS ∨ kind = AST_HAS_ANY ∨ kind = AST_NOT_HAS)
    (h : isKeywordText n = true) : parseS (whereQueryText type kind [n]) = none := by
  have hl := parseComponentListS_keyword n [] h
  have hs : stopsWord ('(' :: (n ++ ')' :: [])) := stopsWord_cons _ _ (by decide)
  have e : whereQueryText type kind [n] =
      keywordText type ++ ' ' :: ("ENTITIES".toList ++ ' ' :: ("WHERE".toList ++ ' ' ::
        (keywordText kind ++ '(' :: (n ++ ')' :: [])))) := by
    rw [whereQueryText_eq]
    simp [List.intercalate]
  have hp : (parsePredicateS (' ' :: (keywordText kind ++ '(' :: (n ++ ')' :: [])))).1 =
      none := by
    rcases hq : parseComponentListS ('(' :: (n ++ ')' :: [])) with ⟨l, r⟩
    rw [hq] at hl
    simp only [] at hl
    subst hl
    unfold parsePredicateS
    rw [lexS_space _ _ (by decide)]
    rcases hk with hk | hk | hk <;> subst hk
    · rw [show keywordText AST_HAS = "HAS".toList from rfl, lexS_word _ _ (by decide) hs,
        show keywordType "HAS".toList = TOKEN_HAS from rfl]
      simp only [if_true, hq]
    · rw [show keywordText AST_HAS_ANY = "HAS_ANY".toList from rfl,
        lexS_word _ _ (by decide) hs,
        show keywordType "HAS_ANY".toList = TOKEN_HAS_ANY from rfl]
      simp only [reduceCtorEq, if_false, if_true, hq]
    · rw [show keywordText AST_NOT_HAS = "NOT_HAS".toList from rfl,
        lexS_word _ _ (by decide) hs,
        show keywordType "NOT_HAS".toList = TOKEN_NOT_HAS from rfl]
      simp only [reduceCtorEq, if_false, if_true, hq]
  rcases hq : parsePredicateS (' ' :: (keywordText kind ++ '(' :: (n ++ ')' :: [])))
    with ⟨l, r⟩
  rw [hq] at hp
  simp only [] at hp
  subst hp
  rw [e]
  rcases ht with ht | ht <;> subst ht
  · rw [show keywordText AST_SELECT = "SELECT".toList from rfl, parseS_select,
      parseEntitiesS_where, hq]
  · rw [show keywordText AST_COUNT = "COUNT".toList from rfl, parseS_count,
      parseEntitiesS_where, hq]

theorem parseS_show_keyword (n : List Char) (high low : Nat) (h : isKeywordText n = true)
    (hall : n.map tolower ≠ "ALL".toList.map tolower) :
    parseS (showQueryText n high low) = none := by
  have hid := keywordText_identifier h
  have hk := keywordType_keyword hid h
  have ha : keywordType n ≠ TOKEN_ALL := by
    intro e
    exact hall (((keywordType_table n (identifierText_no_nul hid)).1
      ("ALL".toList, TOKEN_ALL) (by decide)).mp e)
  rw [showQueryText_eq, parseS_show]
  unfold parseShowS
  rw [lexS_space _ _ (by decide), lexS_word n _ hid (stopsWord_cons _ _ (by decide))]
  simp only [ha, hk.1, if_false]

/-- C37: a component name that spells a keyword cannot be written in a query.
For every name `n` equal to one of the thirteen keywords when letter case is
ignored, `QueryParser_parse` fails on `K ENTITIES WHERE P(n)` for K in SELECT,
COUNT and P in HAS, HAS_ANY, NOT_HAS, in particular on
`SELECT ENTITIES WHERE HAS(n)`; it fails on `SHOW n OF ENTITY 1:2` unless `n`
spells ALL, and then the statement is the all-components target, not a
component named `n`; and no text at all parses to a tree that holds `n` as a
component name, in a predicate list or in a SHOW statement. -/
theorem C37_keyword_names_are_unreachable (n : List Char) (h : isKeywordText n = true) :
    (∀ type kind, type = AST_SELECT ∨ type = AST_COUNT →
      kind = AST_HAS ∨ kind = AST_HAS_ANY ∨ kind = AST_NOT_HAS →
      (QueryParser_new (some (whereQueryText type kind [n]))).map
        (fun parser => (QueryParser_parse parser).1) = some none) ∧
    (QueryParser_new (some ("SELECT ENTITIES WHERE HAS(".toList ++ n ++ ")".toList))).map
        (fun parser => (QueryParser_parse parser).1) = some none ∧
    (n.map tolower ≠ "ALL".toList.map tolower →
      (QueryParser_new (some ("SHOW ".toList ++ n ++ " OF ENTITY 1:2".toList))).map
        (fun parser => (QueryParser_parse parser).1) = some none) ∧
    (n.map tolower = "ALL".toList.map tolower →
      (QueryParser_new (some ("SHOW ".toList ++ n ++ " OF ENTITY 1:2".toList))).map
          (fun parser => (QueryParser_parse parser).1) =
        some (some (.node AST_SHOW
          (.showData { componentName := none, entityId := some { high := 1, low := 2 } })
          none none none 0))) ∧
    (∀ (q : List Char) (ast : QueryAST),
      (QueryParser_new (some q)).map (fun parser => (QueryParser_parse parser).1) =
        some (some ast) →
      (∀ predicate list, QueryAST_get_left (some ast) = some predicate →
        QueryAST_get_data (some predicate) = .componentList list →
        n ∉ list.componentNames) ∧
      (∀ data, QueryAST_get_data (some ast) = .showData data →
        data.componentName ≠ some n)) := by
  have e1 : "SELECT ENTITIES WHERE HAS(".toList ++ n ++ ")".toList =
      whereQueryText AST_SELECT AST_HAS [n] := by
    rw [whereQueryText_eq]
    simp [List.intercalate, keywordText]
  have e2 : "SHOW ".toList ++ n ++ " OF ENTITY 1:2".toList = showQueryText n 1 2 := by
    rw [showQueryText_eq]
    simp only [List.append_assoc]
    rfl
  refine ⟨?_, ?_, ?_, ?_, ?_⟩
  · intro type kind ht hk
    rw [parse_new_eq, parseS_keyword_name type kind n ht hk h]
  · rw [e1, parse_new_eq, parseS_keyword_name AST_SELECT AST_HAS n (Or.inl rfl) (Or.inl rfl) h]
  · intro hall
    rw [e2, parse_new_eq, parseS_show_keyword n 1 2 h hall]
  · intro hall
    rw [e2, parse_new_eq, parseS_show_all_any_case n 1 2 (by decide) (by decide) hall]
    rfl
  · intro q ast hq
    rw [parse_new_eq] at hq
    simp only [Option.some.injEq] at hq
    rcases parseS_wellformed q ast hq with ⟨type, ht, e⟩ |
      ⟨type, kind, names, ht, hk, hn, hi, e⟩ | ⟨cn, high, low, e, hi⟩
    · subst e
      refine ⟨?_, ?_⟩
      · intro predicate list hl
        exact Option.noConfusion hl
      · intro data hd
        exact ASTData.noConfusion hd
    · subst e
      refine ⟨?_, ?_⟩
      · intro predicate list hl hd hm
        simp only [QueryAST_get_left, statementNode, Option.some.injEq] at hl
        subst hl
        simp only [QueryAST_get_data, predicateNode, ASTData.componentList.injEq] at hd
        subst hd
        have := (hi n hm).2
        rw [h] at this
        exact Bool.noConfusion this
      · intro data hd
        exact ASTData.noConfusion hd
    · subst e
      refine ⟨?_, ?_⟩
      · intro predicate list hl
        exact Option.noConfusion hl
      · intro data hd hc
        simp only [QueryAST_get_data, showNode, ASTData.showData.injEq] at hd
        subst hd
        have := (hi n hc).2
        rw [h] at this
        exact Bool.noConfusion this

/-- A use of C37: the name `Where`. -/
theorem C37_keyword_names_are_unreachable_witness :
    isKeywordText "Where".toList = true ∧
    "Where".toList.map tolower ≠ "ALL".toList.map tolower ∧
    "SELECT ENTITIES WHERE HAS(".toList ++ "Where".toList ++ ")".toList =
      "SELECT ENTITIES WHERE HAS(Where)".toList ∧
    (QueryParser_new (some ("SELECT ENTITIES WHERE HAS(".toList ++ "Where".toList ++
        ")".toList))).map (fun parser => (QueryParser_parse parser).1) = some none ∧
    (QueryParser_new (some ("SHOW ".toList ++ "Where".toList ++
        " OF ENTITY 1:2".toList))).map (fun parser => (QueryParser_parse parser).1) =
      some none :=
  ⟨by decide, by decide, by decide,
    (C37_keyword_names_are_unreachable "Where".toList (by decide)).2.1,
    (C37_keyword_names_are_unreachable "Where".toList (by decide)).2.2.1 (by decide)⟩

/-! ## The component list loop: termination and grammar -/

theorem lexS_rest_length (s : List Char) :
    (lexS s).2.2.length ≤ s.length ∧
    ((lexS s).1 ≠ TOKEN_EOF → (lexS s).2.2.length < s.length) := by
  have hd : (s.dropWhile isspace).length ≤ s.length := (List.dropWhile_suffix isspace).length_le
  have hle := lexHead_length_le (s.dropWhile isspace)
  unfold lexS
  simp only [List.length_drop]
  refine ⟨by omega, ?_⟩
  intro h
  have hpos := lexHead_length_pos _ h
  omega

theorem componentListLoopS_fuel (fuel fuel2 : Nat) (names : List (List Char)) (first : Bool)
    (s : List Char) (h1 : s.length < fuel) (h2 : s.length < fuel2) :
    componentListLoopS fuel names first s = componentListLoopS fuel2 names first s ∧
    ∃ res r, componentListLoopS fuel names first s = some (res, r) ∧ r.length ≤ s.length := by
  induction fuel generalizing fuel2 names first s with
  | zero => omega
  | succ k ih =>
    cases fuel2 with
    | zero => omega
    | succ k2 =>
      obtain ⟨a1, a2⟩ := lexS_rest_length s
      have step : ∀ (nm : List (List Char)) (t : List Char), t.length ≤ s.length →
          ((if (lexS t).1 = TOKEN_IDENTIFIER then
              componentListLoopS k (nm ++ [(lexS t).2.1.takeWhile (fun c => c ≠ NUL)]) false
                (lexS t).2.2
            else some (none, (lexS t).2.2)) =
           (if (lexS t).1 = TOKEN_IDENTIFIER then
              componentListLoopS k2 (nm ++ [(lexS t).2.1.takeWhile (fun c => c ≠ NUL)]) false
                (lexS t).2.2
            else some (none, (lexS t).2.2))) ∧
          ∃ res r, (if (lexS t).1 = TOKEN_IDENTIFIER then
              componentListLoopS k (nm ++ [(lexS t).2.1.takeWhile (fun c => c ≠ NUL)]) false
                (lexS t).2.2
            else some (none, (lexS t).2.2)) = some (res, r) ∧ r.length ≤ s.length := by
        intro nm t ht
        obtain ⟨b1, b2⟩ := lexS_rest_length t
        by_cases hI : (lexS t).1 = TOKEN_IDENTIFIER
        · rw [if_pos hI, if_pos hI]
          have hne : (lexS t).1 ≠ TOKEN_EOF := by rw [hI]; decide
          have hlt := b2 hne
          obtain ⟨c1, res, r, c2, c3⟩ := ih k2 _ false (lexS t).2.2 (by omega) (by omega)
          exact ⟨c1, res, r, c2, by omega⟩
        · rw [if_neg hI, if_neg hI]
          exact ⟨rfl, _, _, rfl, by omega⟩
      unfold componentListLoopS
      by_cases hR : (lexS s).1 = TOKEN_RPAREN
      · rw [if_pos hR, if_pos hR]
        exact ⟨rfl, _, _, rfl, a1⟩
      · rw [if_neg hR, if_neg hR]
        cases first with
        | true =>
          simp only [Bool.not_true, Bool.false_eq_true, if_false]
          exact step names s (le_refl _)
        | false =>
          simp only [Bool.not_false, if_true]
          by_cases hC : (lexS s).1 = TOKEN_COMMA
          · simp only [hC, ne_eq, not_true_eq_false, if_false]
            exact step names _ a1
          · simp only [hC, ne_eq, not_false_eq_true, if_true]
            exact ⟨trivial, _, _, rfl, a1⟩

theorem componentListLoopS_tail_spec (fuel : Nat) (names : List (List Char)) (s : List Char)
    (hf : s.length < fuel) :
    (∀ ns r, specIdentifierTail fuel s = some (ns, r) →
      componentListLoopS fuel names false s = some (some (names ++ ns), r)) ∧
    (specIdentifierTail fuel s = none →
      ∃ r0, componentListLoopS fuel names false s = some (none, r0)) := by
  induction fuel generalizing names s with
  | zero => omega
  | succ k ih =>
    obtain ⟨a1, a2⟩ := lexS_rest_length s
    obtain ⟨b1, b2⟩ := lexS_rest_length (lexS s).2.2
    unfold specIdentifierTail componentListLoopS
    by_cases hR : (lexS s).1 = TOKEN_RPAREN
    · rw [if_pos hR, if_pos hR]
      refine ⟨?_, fun h => Option.noConfusion h⟩
      intro ns r h
      simp only [Option.some.injEq, Prod.mk.injEq] at h
      rw [← h.1, ← h.2, List.append_nil]
    · rw [if_neg hR, if_neg hR]
      simp only [Bool.not_false, if_true]
      by_cases hC : (lexS s).1 = TOKEN_COMMA
      · have hne : (lexS s).1 ≠ TOKEN_EOF := by rw [hC]; decide
        have hlt := a2 hne
        simp only [hC, ne_eq, not_true_eq_false, if_false, if_true]
        by_cases hI : (lexS (lexS s).2.2).1 = TOKEN_IDENTIFIER
        · have hne2 : (lexS (lexS s).2.2).1 ≠ TOKEN_EOF := by rw [hI]; decide
          have hlt2 := b2 hne2
          obtain ⟨-, -, hname⟩ := lexS_identifier _ hI
          obtain ⟨i1, i2⟩ := ih (names ++ [(lexS (lexS s).2.2).2.1]) (lexS (lexS s).2.2).2.2
            (by omega)
          rw [if_pos hI, if_pos hI, hname]
          refine ⟨?_, ?_⟩
          · intro ns r h
            cases ht : specIdentifierTail k (lexS (lexS s).2.2).2.2 with
            | none => rw [ht] at h; exact Option.noConfusion h
            | some x =>
              obtain ⟨ns2, r2⟩ := x
              rw [ht] at h
              simp only [Option.map_some', Option.some.injEq, Prod.mk.injEq] at h
              rw [i1 ns2 r2 ht, ← h.1, ← h.2, List.append_assoc]
              rfl
          · intro h
            cases ht : specIdentifierTail k (lexS (lexS s).2.2).2.2 with
            | none => exact i2 ht
            | some x => rw [ht] at h; exact Option.noConfusion h
        · rw [if_neg hI, if_neg hI]
          exact ⟨fun ns r h => Option.noConfusion h, fun _ => ⟨_, rfl⟩⟩
      · simp only [hC, ne_eq, not_false_eq_true, if_true, if_false]
        exact ⟨fun ns r h => Option.noConfusion h, fun _ => ⟨_, rfl⟩⟩

theorem parseComponentListS_spec (s : List Char) :
    (parseComponentListS s).1 = (specComponentList s).map Prod.fst ∧
    ∀ ns r, specComponentList s = some (ns, r) → parseComponentListS s = (some ns, r) := by
  obtain ⟨a1, a2⟩ := lexS_rest_length (lexS s).2.2
  unfold parseComponentListS specComponentList
  by_cases hL : (lexS s).1 = TOKEN_LPAREN
  · rw [if_neg (by simp [hL]), if_pos hL]
    by_cases hI : (lexS (lexS s).2.2).1 = TOKEN_IDENTIFIER
    · have hne : (lexS (lexS s).2.2).1 ≠ TOKEN_EOF := by rw [hI]; decide
      have hR : (lexS (lexS s).2.2).1 ≠ TOKEN_RPAREN := by rw [hI]; decide
      obtain ⟨-, -, hname⟩ := lexS_identifier _ hI
      obtain ⟨i1, i2⟩ := componentListLoopS_tail_spec (lexS s).2.2.length
        ([] ++ [(lexS (lexS s).2.2).2.1]) (lexS (lexS s).2.2).2.2 (a2 hne)
      have hloop : componentListLoopS ((lexS s).2.2.length + 1) [] true (lexS s).2.2 =
          componentListLoopS (lexS s).2.2.length ([] ++ [(lexS (lexS s).2.2).2.1]) false
            (lexS (lexS s).2.2).2.2 := by
        conv_lhs => unfold componentListLoopS
        rw [if_neg hR]
        simp only [Bool.not_true, Bool.false_eq_true, if_false]
        rw [if_pos hI, hname]
      rw [hloop, if_pos hI]
      cases ht : specIdentifierTail (lexS s).2.2.length (lexS (lexS s).2.2).2.2 with
      | none =>
        obtain ⟨r0, e⟩ := i2 ht
        rw [e]
        exact ⟨rfl, fun ns r h => Option.noConfusion h⟩
      | some x =>
        obtain ⟨ns2, r2⟩ := x
        rw [i1 ns2 r2 ht]
        have hz : ¬ ([] ++ [(lexS (lexS s).2.2).2.1] ++ ns2).length = 0 := by simp
        simp only []
        rw [if_neg hz]
        refine ⟨rfl, ?_⟩
        intro ns r h
        simp only [Option.map_some', Option.some.injEq, Prod.mk.injEq] at h
        rw [← h.1, ← h.2]
        rfl
    · rw [if_neg hI]
      refine ⟨?_, fun ns r h => Option.noConfusion h⟩
      conv_lhs => unfold componentListLoopS
      by_cases hR : (lexS (lexS s).2.2).1 = TOKEN_RPAREN
      · rw [if_pos hR]
        rfl
      · rw [if_neg hR]
        simp only [Bool.not_true, Bool.false_eq_true, if_false]
        rw [if_neg hI]
        rfl
  · rw [if_pos (by simp [hL]), if_neg hL]
    exact ⟨rfl, fun ns r h => Option.noConfusion h⟩

theorem parse_component_list_loop_terminates (names : List (List Char)) (capacity : Nat)
    (first : Bool) (p : QueryParser) (hwf : p.WF) (fuel : Nat)
    (hf : p.length - p.position < fuel) :
    parse_component_list_loop fuel
      { list := ComponentList.ofNames names, capacity := capacity, first := first,
        parser := p } ≠ none := by
  have h := parse_component_list_loop_spec fuel names capacity first p hwf
  have hl := rest_length hwf
  obtain ⟨-, res, r, e, -⟩ := componentListLoopS_fuel fuel fuel names first p.rest
    (by omega) (by omega)
  rw [e] at h
  intro h0
  rw [h0] at h
  exact h

theorem specIdentifierTail_sound (fuel : Nat) (s : List Char) (ns : List (List Char))
    (r : List Char) (h : specIdentifierTail fuel s = some (ns, r)) : IdentifierTail s ns r := by
  induction fuel generalizing s ns r with
  | zero => exact Option.noConfusion h
  | succ k ih =>
    unfold specIdentifierTail at h
    by_cases hR : (lexS s).1 = TOKEN_RPAREN
    · rw [if_pos hR] at h
      simp only [Option.some.injEq, Prod.mk.injEq] at h
      rw [← h.1, ← h.2]
      exact IdentifierTail.close s hR
    · rw [if_neg hR] at h
      by_cases hC : (lexS s).1 = TOKEN_COMMA
      · rw [if_pos hC] at h
        by_cases hI : (lexS (lexS s).2.2).1 = TOKEN_IDENTIFIER
        · rw [if_pos hI] at h
          cases ht : specIdentifierTail k (lexS (lexS s).2.2).2.2 with
          | none => rw [ht] at h; exact Option.noConfusion h
          | some x =>
            obtain ⟨ns2, r2⟩ := x
            rw [ht] at h
            simp only [Option.map_some', Option.some.injEq, Prod.mk.injEq] at h
            rw [← h.1, ← h.2]
            exact IdentifierTail.more s ns2 r2 hC hI (ih _ _ _ ht)
        · rw [if_neg hI] at h
          exact Option.noConfusion h
      · rw [if_neg hC] at h
        exact Option.noConfusion h

theorem specIdentifierTail_complete (s : List Char) (ns : List (List Char)) (r : List Char)
    (h : IdentifierTail s ns r) (fuel : Nat) (hf : s.length < fuel) :
    specIdentifierTail fuel s = some (ns, r) := by
  induction h generalizing fuel with
  | close s hR =>
    cases fuel with
    | zero => omega
    | succ k =>
      unfold specIdentifierTail
      rw [if_pos hR]
  | more s ns r hC hI _ ih =>
    cases fuel with
    | zero => omega
    | succ k =>
      obtain ⟨-, a2⟩ := lexS_rest_length s
      obtain ⟨-, b2⟩ := lexS_rest_length (lexS s).2.2
      have h1 := a2 (by rw [hC]; decide)
      have h2 := b2 (by rw [hI]; decide)
      have hR : (lexS s).1 ≠ TOKEN_RPAREN := by rw [hC]; decide
      unfold specIdentifierTail
      rw [if_neg hR, if_pos hC, if_pos hI, ih k (by omega)]
      rfl

theorem specComponentList_iff (s : List Char) (ns : List (List Char)) (r : List Char) :
    specComponentList s = some (ns, r) ↔ ComponentListText s ns r := by
  unfold specComponentList ComponentListText
  constructor
  · intro h
    by_cases hL : (lexS s).1 = TOKEN_LPAREN
    · rw [if_pos hL] at h
      by_cases hI : (lexS (lexS s).2.2).1 = TOKEN_IDENTIFIER
      · rw [if_pos hI] at h
        cases ht : specIdentifierTail (lexS s).2.2.length (lexS (lexS s).2.2).2.2 with
        | none => rw [ht] at h; exact Option.noConfusion h
        | some x =>
          obtain ⟨ns2, r2⟩ := x
          rw [ht] at h
          simp only [Option.map_some', Option.some.injEq, Prod.mk.injEq] at h
          rw [← h.2]
          exact ⟨hL, hI, ns2, h.1.symm, specIdentifierTail_sound _ _ _ _ ht⟩
      · rw [if_neg hI] at h
        exact Option.noConfusion h
    · rw [if_neg hL] at h
      exact Option.noConfusion h
  · rintro ⟨hL, hI, tail, e, ht⟩
    obtain ⟨-, b2⟩ := lexS_rest_length (lexS s).2.2
    have h2 := b2 (by rw [hI]; decide)
    rw [if_pos hL, if_pos hI, specIdentifierTail_complete _ _ _ ht _ h2, e]
    rfl

/-- Claim C33: from a cursor over the whole input, `parse_component_list`
accepts exactly the texts whose tokens start with
`'(' identifier (',' identifier)* ')'`: such a text gives the list of its
identifiers and leaves the cursor after the closing parenthesis, and any
accepted text is of this form; the loop of the function returns for every
state and every bound above the number of unread bytes, in particular for the
bound the function passes; and a leading, trailing or doubled comma, a missing
comma, a number or a keyword as element, a missing opening and a missing
closing parenthesis make `QueryParser_parse` fail. -/
theorem C33_component_list_follows_grammar (p : QueryParser) (hwf : p.WF) :
    (∀ ns r, ComponentListText p.rest ns r →
      (parse_component_list p).1 = some (ComponentList.ofNames ns) ∧
      (parse_component_list p).2.rest = r) ∧
    ((parse_component_list p).1 ≠ none → ∃ ns r, ComponentListText p.rest ns r) ∧
    (∀ (names : List (List Char)) (capacity : Nat) (first : Bool) (fuel : Nat),
      p.length - p.position < fuel →
      parse_component_list_loop fuel
        { list := ComponentList.ofNames names, capacity := capacity, first := first,
          parser := p } ≠ none) ∧
    (QueryParser_new (some "SELECT ENTITIES WHERE HAS(,a)".toList)).map
      (fun parser => (QueryParser_parse parser).1) = some none ∧
    (QueryParser_new (some "SELECT ENTITIES WHERE HAS(a,)".toList)).map
      (fun parser => (QueryParser_parse parser).1) = some none ∧
    (QueryParser_new (some "SELECT ENTITIES WHERE HAS(a,,b)".toList)).map
      (fun parser => (QueryParser_parse parser).1) = some none ∧
    (QueryParser_new (some "SELECT ENTITIES WHERE HAS(a b)".toList)).map
      (fun parser => (QueryParser_parse parser).1) = some none ∧
    (QueryParser_new (some "SELECT ENTITIES WHERE HAS(1)".toList)).map
      (fun parser => (QueryParser_parse parser).1) = some none ∧
    (QueryParser_new (some "SELECT ENTITIES WHERE HAS(where)".toList)).map
      (fun parser => (QueryParser_parse parser).1) = some none ∧
    (QueryParser_new (some "SELECT ENTITIES WHERE HAS a)".toList)).map
      (fun parser => (QueryParser_parse parser).1) = some none ∧
    (QueryParser_new (some "SELECT ENTITIES WHERE HAS(a".toList)).map
      (fun parser => (QueryParser_parse parser).1) = some none := by
  obtain ⟨-, -, hrest, hlist⟩ := parse_component_list_spec p hwf
  obtain ⟨s1, s2⟩ := parseComponentListS_spec p.rest
  refine ⟨?_, ?_, ?_, rfl, rfl, rfl, rfl, rfl, rfl, rfl, rfl⟩
  · intro ns r h
    have e := s2 ns r ((specComponentList_iff _ _ _).2 h)
    rw [hlist, hrest, e]
    exact ⟨rfl, rfl⟩
  · intro h
    rw [hlist, s1] at h
    cases hs : specComponentList p.rest with
    | none => rw [hs] at h; exact absurd rfl h
    | some x => exact ⟨x.1, x.2, (specComponentList_iff _ _ _).1 hs⟩
  · intro names capacity first fuel hf
    exact parse_component_list_loop_terminates names capacity first p hwf fuel hf

theorem C33_component_list_follows_grammar_witness :
    (parse_component_list
      { input := "(Position, Velocity) rest".toList, position := 0, length := 25, line := 1,
        column := 1 }).1 =
      some (ComponentList.ofNames ["Position".toList, "Velocity".toList]) ∧
    (parse_component_list
      { input := "(Position, Velocity) rest".toList, position := 0, length := 25, line := 1,
        column := 1 }).2.rest = " rest".toList :=
  (C33_component_list_follows_grammar
    { input := "(Position, Velocity) rest".toList, position := 0, length := 25, line := 1,
      column := 1 } rfl).1 ["Position".toList, "Velocity".toList] " rest".toList
    ((specComponentList_iff _ _ _).1 rfl)

/-! ## A single predicate clause -/

theorem tokenKindAt_succ (n : Nat) (s : List Char) :
    tokenKindAt (n + 1) s = tokenKindAt n (lexS s).2.2 := by
  unfold tokenKindAt
  rw [Function.iterate_succ_apply]

theorem noCombining_step (s : List Char) (h : ¬ isCombiningKind (lexS s).1)
    (hr : NoCombiningToken (lexS s).2.2) : NoCombiningToken s := by
  intro n
  cases n with
  | zero => exact h
  | succ m =>
    rw [tokenKindAt_succ]
    exact hr m

theorem noCombining_nil : NoCombiningToken [] := by
  intro n
  have e : tokenKindAt n [] = TOKEN_EOF := by
    induction n with
    | zero => rfl
    | succ m ih =>
      rw [tokenKindAt_succ]
      exact ih
  rw [e]
  rintro (h | h | h) <;> exact TokenType.noConfusion h

theorem lexS_eof_rest (s : List Char) (h : (lexS s).1 = TOKEN_EOF) : (lexS s).2.2 = [] := by
  have e := (lexS_eof_iff s).1 h
  unfold lexS
  simp only [e, List.drop_nil]

theorem noCombining_eof (s : List Char) (h : (lexS s).1 = TOKEN_EOF) : NoCombiningToken s := by
  refine noCombining_step s ?_ ?_
  · rw [h]
    rintro (h | h | h) <;> exact TokenType.noConfusion h
  · rw [lexS_eof_rest s h]
    exact noCombining_nil

theorem noCombining_of (s : List Char) (type : TokenType) (ht : (lexS s).1 = type)
    (hk : ¬ isCombiningKind type) (hr : NoCombiningToken (lexS s).2.2) :
    NoCombiningToken s :=
  noCombining_step s (by rw [ht]; exact hk) hr

theorem noCombining_loop (fuel : Nat) (names : List (List Char)) (first : Bool)
    (s r : List Char) (res : List (List Char))
    (h : componentListLoopS fuel names first s = some (some res, r))
    (hr : NoCombiningToken r) : NoCombiningToken s := by
  have kR : ¬ isCombiningKind TOKEN_RPAREN := by
    rintro (h | h | h) <;> exact TokenType.noConfusion h
  have kC : ¬ isCombiningKind TOKEN_COMMA := by
    rintro (h | h | h) <;> exact TokenType.noConfusion h
  have kI : ¬ isCombiningKind TOKEN_IDENTIFIER := by
    rintro (h | h | h) <;> exact TokenType.noConfusion h
  induction fuel generalizing names first s with
  | zero => exact Option.noConfusion h
  | succ k ih =>
    unfold componentListLoopS at h
    by_cases hR : (lexS s).1 = TOKEN_RPAREN
    · rw [if_pos hR] at h
      simp only [Option.some.injEq, Prod.mk.injEq] at h
      refine noCombining_of s _ hR kR ?_
      rw [h.2]
      exact hr
    · rw [if_neg hR] at h
      cases first with
      | true =>
        simp only [Bool.not_true, Bool.false_eq_true, if_false] at h
        by_cases hI : (lexS s).1 = TOKEN_IDENTIFIER
        · rw [if_pos hI] at h
          exact noCombining_of s _ hI kI (ih _ _ _ h)
        · rw [if_neg hI] at h
          simp only [Option.some.injEq, Prod.mk.injEq, reduceCtorEq, false_and] at h
      | false =>
        simp only [Bool.not_false, if_true] at h
        by_cases hC : (lexS s).1 = TOKEN_COMMA
        · simp only [hC, ne_eq, not_true_eq_false, if_false] at h
          by_cases hI : (lexS (lexS s).2.2).1 = TOKEN_IDENTIFIER
          · rw [if_pos hI] at h
            exact noCombining_of s _ hC kC (noCombining_of _ _ hI kI (ih _ _ _ h))
          · rw [if_neg hI] at h
            simp only [Option.some.injEq, Prod.mk.injEq, reduceCtorEq, false_and] at h
        · simp only [hC, ne_eq, not_false_eq_true, if_true] at h
          simp only [Option.some.injEq, Prod.mk.injEq, reduceCtorEq, false_and] at h

theorem noCombining_list (s r : List Char) (names : List (List Char))
    (h : parseComponentListS s = (some names, r)) (hr : NoCombiningToken r) :
    NoCombiningToken s := by
  have kL : ¬ isCombiningKind TOKEN_LPAREN := by
    rintro (h | h | h) <;> exact TokenType.noConfusion h
  unfold parseComponentListS at h
  by_cases hL : (lexS s).1 = TOKEN_LPAREN
  · rw [if_neg (by simp [hL])] at h
    refine noCombining_of s _ hL kL ?_
    cases hl : componentListLoopS ((lexS s).2.2.length + 1) [] true (lexS s).2.2 with
    | none => rw [hl] at h; simp at h
    | some x =>
      obtain ⟨res, r2⟩ := x
      rw [hl] at h
      cases res with
      | none => simp at h
      | some ns =>
        simp only [] at h
        by_cases hz : ns.length = 0
        · rw [if_pos hz] at h; simp at h
        · rw [if_neg hz] at h
          simp only [Prod.mk.injEq] at h
          rw [h.2] at hl
          exact noCombining_loop _ _ _ _ _ _ hl hr
  · rw [if_pos (by simp [hL])] at h
    simp at h

theorem noCombining_predicate (s r : List Char) (predicate : QueryAST)
    (h : parsePredicateS s = (some predicate, r)) (hr : NoCombiningToken r) :
    NoCombiningToken s := by
  have k1 : ¬ isCombiningKind TOKEN_HAS := by
    rintro (h | h | h) <;> exact TokenType.noConfusion h
  have k2 : ¬ isCombiningKind TOKEN_HAS_ANY := by
    rintro (h | h | h) <;> exact TokenType.noConfusion h
  have k3 : ¬ isCombiningKind TOKEN_NOT_HAS := by
    rintro (h | h | h) <;> exact TokenType.noConfusion h
  have tail : ∀ (kind : ASTNodeType),
      (match parseComponentListS (lexS s).2.2 with
        | (none, s1) => ((none : Option QueryAST), s1)
        | (some names, s1) => (some (predicateNode kind names), s1)) = (some predicate, r) →
      NoCombiningToken (lexS s).2.2 := by
    intro kind h
    rcases hl : parseComponentListS (lexS s).2.2 with ⟨l, s1⟩
    rw [hl] at h
    cases l with
    | none => simp at h
    | some names =>
      simp only [Prod.mk.injEq] at h
      rw [h.2] at hl
      exact noCombining_list _ _ _ hl hr
  unfold parsePredicateS at h
  by_cases h1 : (lexS s).1 = TOKEN_HAS
  · rw [if_pos h1] at h
    exact noCombining_of s _ h1 k1 (tail _ h)
  · rw [if_neg h1] at h
    by_cases h2 : (lexS s).1 = TOKEN_HAS_ANY
    · rw [if_pos h2] at h
      exact noCombining_of s _ h2 k2 (tail _ h)
    · rw [if_neg h2] at h
      by_cases h3 : (lexS s).1 = TOKEN_NOT_HAS
      · rw [if_pos h3] at h
        exact noCombining_of s _ h3 k3 (tail _ h)
      · rw [if_neg h3] at h
        simp at h

theorem noCombining_entities (type : ASTNodeType) (s : List Char) (ast : QueryAST)
    (h : parseEntitiesS type s = some ast) : NoCombiningToken s := by
  have kE : ¬ isCombiningKind TOKEN_ENTITIES := by
    rintro (h | h | h) <;> exact TokenType.noConfusion h
  have kW : ¬ isCombiningKind TOKEN_WHERE := by
    rintro (h | h | h) <;> exact TokenType.noConfusion h
  unfold parseEntitiesS at h
  by_cases hE : (lexS s).1 = TOKEN_ENTITIES
  · rw [if_neg (by simp [hE])] at h
    refine noCombining_of s _ hE kE ?_
    by_cases hW : (lexS (lexS s).2.2).1 = TOKEN_WHERE
    · simp only [hW, if_true] at h
      refine noCombining_of _ _ hW kW ?_
      rcases hp : parsePredicateS (lexS (lexS s).2.2).2.2 with ⟨l, s2⟩
      rw [hp] at h
      cases l with
      | none => simp at h
      | some predicate =>
        simp only [] at h
        by_cases hF : (lexS s2).1 = TOKEN_EOF
        · exact noCombining_predicate _ _ _ hp (noCombining_eof s2 hF)
        · rw [if_pos hF] at h
          exact Option.noConfusion h
    · simp only [hW, if_false] at h
      by_cases hF : (lexS (lexS s).2.2).1 = TOKEN_EOF
      · exact noCombining_eof _ hF
      · rw [if_pos hF] at h
        exact Option.noConfusion h
  · rw [if_pos (by simp [hE])] at h
    exact Option.noConfusion h

theorem ne_of_digit {c d : Char} (h : isdigit c = true) (hd : isdigit d = false) : c ≠ d := by
  intro hcd
  subst hcd
  rw [h] at hd
  exact Bool.noConfusion hd

theorem lexHead_digit (c : Char) (r : List Char) (h : isdigit c = true) :
    lexHead (c :: r) = (TOKEN_NUMBER, ((c :: r).takeWhile isdigit).length) := by
  have n1 : c ≠ '(' := ne_of_digit h (by decide)
  have n2 : c ≠ ')' := ne_of_digit h (by decide)
  have n3 : c ≠ '.' := ne_of_digit h (by decide)
  have n4 : c ≠ ',' := ne_of_digit h (by decide)
  have n5 : c ≠ '>' := ne_of_digit h (by decide)
  have n6 : c ≠ '<' := ne_of_digit h (by decide)
  have n7 : c ≠ '=' := ne_of_digit h (by decide)
  have n8 : c ≠ '!' := ne_of_digit h (by decide)
  have n9 : ¬ (c = '>' ∨ c = '<' ∨ c = '=' ∨ c = '!') := by
    rintro (h | h | h | h) <;> contradiction
  unfold lexHead
  simp only []
  rw [if_neg n1, if_neg n2, if_neg n3, if_neg n4, if_neg n9, if_pos h]

theorem lexS_digit (c : Char) (r : List Char) (h : isdigit c = true) :
    lexS (c :: r) =
      (TOKEN_NUMBER, (c :: r).takeWhile isdigit, (c :: r).dropWhile isdigit) := by
  have hs : (c :: r).dropWhile isspace = c :: r := by
    rw [List.dropWhile_cons, if_neg (by rw [isspace_of_digit h]; exact Bool.false_ne_true)]
  unfold lexS
  simp only [hs]
  rw [lexHead_digit c r h]
  simp only [takeWhile_length_drop]
  congr 2
  exact take_length_takeWhile isdigit (c :: r)

theorem lexS_colon (s : List Char) : lexS (':' :: s) = (TOKEN_ERROR, [':'], s) := rfl

theorem lexS_dropWhile (s : List Char) : lexS (s.dropWhile isspace) = lexS s := by
  have e : (s.dropWhile isspace).dropWhile isspace = s.dropWhile isspace := by
    induction s with
    | nil => rfl
    | cons a t ih =>
      by_cases ha : isspace a = true
      · rw [List.dropWhile_cons, if_pos ha]
        exact ih
      · rw [List.dropWhile_cons, if_neg ha, List.dropWhile_cons, if_neg ha]
  unfold lexS
  simp only [e]

theorem parseEntityIdS_some (s r : List Char) (entityId : EntityIdData)
    (h : parseEntityIdS s = (some entityId, r)) :
    ∃ a s2 b2 r1, s.dropWhile isspace = a :: s2 ∧
      (a :: s2).dropWhile isdigit = ':' :: b2 :: r1 ∧ isdigit b2 = true ∧
      r = (b2 :: r1).dropWhile isdigit ∧
      entityId = { high := (strtoull (a :: s2)).1, low := (strtoull (b2 :: r1)).1 } := by
  unfold parseEntityIdS at h
  simp only [] at h
  cases hs1 : s.dropWhile isspace with
  | nil => rw [hs1] at h; simp at h
  | cons a s2 =>
    rw [hs1] at h
    simp only [] at h
    cases hs2 : (a :: s2).dropWhile isdigit with
    | nil => rw [hs2] at h; simp at h
    | cons b r0 =>
      rw [hs2] at h
      simp only [] at h
      by_cases hb : b = ':'
      · simp only [hb, ne_eq, not_true_eq_false, if_false] at h
        by_cases hst : (strtoull (a :: s2)).2 = ((a :: s2).takeWhile isdigit).length
        · simp only [hst, not_true_eq_false, if_false] at h
          cases r0 with
          | nil => simp at h
          | cons b2 r1 =>
            simp only [] at h
            by_cases hz : ((b2 :: r1).takeWhile isdigit).length = 0
            · simp [hz] at h
            · have hb2 : isdigit b2 = true := by
                by_contra hn
                apply hz
                simp [List.takeWhile_cons, hn]
              by_cases hst2 : (strtoull (b2 :: r1)).2 = ((b2 :: r1).takeWhile isdigit).length
              · simp only [hz, hst2, not_true_eq_false, if_false, Prod.mk.injEq,
                  Option.some.injEq] at h
                exact ⟨a, s2, b2, r1, rfl, by rw [hs2, hb], hb2, h.2.symm, h.1.symm⟩
              · simp [hz, hst2] at h
        · simp [hst] at h
      · simp [hb] at h

theorem noCombining_entity_id (s r : List Char) (entityId : EntityIdData)
    (h : parseEntityIdS s = (some entityId, r)) (hr : NoCombiningToken r) :
    NoCombiningToken s := by
  have kN : ¬ isCombiningKind TOKEN_NUMBER := by
    rintro (h | h | h) <;> exact TokenType.noConfusion h
  have kX : ¬ isCombiningKind TOKEN_ERROR := by
    rintro (h | h | h) <;> exact TokenType.noConfusion h
  obtain ⟨a, s2, b2, r1, e1, e2, hb2, er, -⟩ := parseEntityIdS_some s r entityId h
  have low : NoCombiningToken (b2 :: r1) := by
    have e := lexS_digit b2 r1 hb2
    refine noCombining_of _ _ (by rw [e]) kN ?_
    rw [e, ← er]
    exact hr
  have colon : NoCombiningToken (':' :: b2 :: r1) :=
    noCombining_of _ _ (by rw [lexS_colon]) kX (by rw [lexS_colon]; exact low)
  have hl : lexS s = lexS (a :: s2) := by rw [← e1, lexS_dropWhile]
  by_cases ha : isdigit a = true
  · have e := lexS_digit a s2 ha
    refine noCombining_of _ _ (by rw [hl, e]) kN ?_
    rw [hl, e, e2]
    exact colon
  · rw [List.dropWhile_cons, if_neg ha] at e2
    intro n
    have hk : tokenKindAt n s = tokenKindAt n (a :: s2) := by
      cases n with
      | zero => exact congrArg Prod.fst hl
      | succ m => rw [tokenKindAt_succ, tokenKindAt_succ, hl]
    rw [hk, e2]
    exact colon n

theorem noCombining_show (s : List Char) (ast : QueryAST) (h : parseShowS s = some ast) :
    NoCombiningToken s := by
  have kA : ¬ isCombiningKind TOKEN_ALL := by
    rintro (h | h | h) <;> exact TokenType.noConfusion h
  have kI : ¬ isCombiningKind TOKEN_IDENTIFIER := by
    rintro (h | h | h) <;> exact TokenType.noConfusion h
  have kO : ¬ isCombiningKind TOKEN_OF := by
    rintro (h | h | h) <;> exact TokenType.noConfusion h
  have kE : ¬ isCombiningKind TOKEN_ENTITY := by
    rintro (h | h | h) <;> exact TokenType.noConfusion h
  have first : ¬ isCombiningKind (lexS s).1 ∧
      ∃ componentName,
        (if (lexS (lexS s).2.2).1 ≠ TOKEN_OF then none
          else if (lexS (lexS (lexS s).2.2).2.2).1 ≠ TOKEN_ENTITY then none
          else
            match parseEntityIdS (lexS (lexS (lexS s).2.2).2.2).2.2 with
            | (none, _) => none
            | (some entityId, s3) =>
              if (lexS s3).1 ≠ TOKEN_EOF then none
              else
                some (QueryAST.node AST_SHOW
                  (.showData { componentName := componentName, entityId := some entityId })
                  none none none 0)) = some ast := by
    unfold parseShowS at h
    by_cases hA : (lexS s).1 = TOKEN_ALL
    · rw [if_pos hA] at h
      exact ⟨by rw [hA]; exact kA, _, h⟩
    · rw [if_neg hA] at h
      by_cases hI : (lexS s).1 = TOKEN_IDENTIFIER
      · rw [if_pos hI] at h
        exact ⟨by rw [hI]; exact kI, _, h⟩
      · rw [if_neg hI] at h
        exact Option.noConfusion h
  obtain ⟨k0, componentName, h⟩ := first
  refine noCombining_step s k0 ?_
  by_cases hO : (lexS (lexS s).2.2).1 = TOKEN_OF
  · rw [if_neg (by simp [hO])] at h
    refine noCombining_of _ _ hO kO ?_
    by_cases hE : (lexS (lexS (lexS s).2.2).2.2).1 = TOKEN_ENTITY
    · rw [if_neg (by simp [hE])] at h
      refine noCombining_of _ _ hE kE ?_
      rcases hp : parseEntityIdS (lexS (lexS (lexS s).2.2).2.2).2.2 with ⟨l, s3⟩
      rw [hp] at h
      cases l with
      | none => exact Option.noConfusion h
      | some entityId =>
        simp only [] at h
        by_cases hF : (lexS s3).1 = TOKEN_EOF
        · exact noCombining_entity_id _ _ _ hp (noCombining_eof s3 hF)
        · rw [if_pos hF] at h
          exact Option.noConfusion h
    · rw [if_pos (by simp [hE])] at h
      exact Option.noConfusion h
  · rw [if_pos (by simp [hO])] at h
    exact Option.noConfusion h

theorem noCombining_parse (s : List Char) (ast : QueryAST) (h : parseS s = some ast) :
    NoCombiningToken s := by
  have k1 : ¬ isCombiningKind TOKEN_SELECT := by
    rintro (h | h | h) <;> exact TokenType.noConfusion h
  have k2 : ¬ isCombiningKind TOKEN_COUNT := by
    rintro (h | h | h) <;> exact TokenType.noConfusion h
  have k3 : ¬ isCombiningKind TOKEN_SHOW := by
    rintro (h | h | h) <;> exact TokenType.noConfusion h
  unfold parseS at h
  by_cases h1 : (lexS s).1 = TOKEN_SELECT
  · rw [if_pos h1] at h
    exact noCombining_of s _ h1 k1 (noCombining_entities _ _ _ h)
  · rw [if_neg h1] at h
    by_cases h2 : (lexS s).1 = TOKEN_COUNT
    · rw [if_pos h2] at h
      exact noCombining_of s _ h2 k2 (noCombining_entities _ _ _ h)
    · rw [if_neg h2] at h
      by_cases h3 : (lexS s).1 = TOKEN_SHOW
      · rw [if_pos h3] at h
        exact noCombining_of s _ h3 k3 (noCombining_show _ _ h)
      · rw [if_neg h3] at h
        exact Option.noConfusion h

theorem tokenKindAt_found (k : Nat) (x y : List Char) (c : Char) (hc : isspace c = true)
    (hk : x.length ≤ k) : ∃ n, tokenKindAt n (x ++ c :: y) = (lexS y).1 := by
  induction k generalizing x with
  | zero =>
    have hx : x = [] := List.length_eq_zero.mp (Nat.le_zero.mp hk)
    subst hx
    exact ⟨0, by unfold tokenKindAt; rw [Function.iterate_zero, id, List.nil_append,
      lexS_space c y hc]⟩
  | succ j ih =>
    by_cases hF : (lexS x).1 = TOKEN_EOF
    · exact ⟨0, by unfold tokenKindAt; rw [Function.iterate_zero, id,
        lexS_after_eof x y c hF hc]⟩
    · obtain ⟨-, a2⟩ := lexS_rest_length x
      have hlt := a2 hF
      obtain ⟨n, hn⟩ := ih (lexS x).2.2 (by omega)
      refine ⟨n + 1, ?_⟩
      rw [tokenKindAt_succ, lexS_append x y c hF hc]
      exact hn

theorem parseS_combining_token (x y : List Char) (c : Char) (hc : isspace c = true)
    (hk : isCombiningKind (lexS y).1) : parseS (x ++ c :: y) = none := by
  cases h : parseS (x ++ c :: y) with
  | none => rfl
  | some ast =>
    obtain ⟨n, hn⟩ := tokenKindAt_found x.length x y c hc (le_refl _)
    have := noCombining_parse _ ast h n
    rw [hn] at this
    exact absurd hk this

theorem iterate_next_token_spec (n : Nat) (p : QueryParser) (hwf : p.WF) :
    ((fun q => (QueryParser_next_token q).2)^[n] p).WF ∧
    ((fun q => (QueryParser_next_token q).2)^[n] p).rest =
      (fun t => (lexS t).2.2)^[n] p.rest := by
  induction n generalizing p with
  | zero => exact ⟨hwf, rfl⟩
  | succ m ih =>
    obtain ⟨w, -, r, -, -⟩ := next_token_spec p hwf
    rw [Function.iterate_succ_apply, Function.iterate_succ_apply, ← r]
    exact ih _ w

theorem token_kind_eq (n : Nat) (p : QueryParser) (hwf : p.WF) :
    (QueryParser_next_token ((fun q => (QueryParser_next_token q).2)^[n] p)).1.type =
      tokenKindAt n p.rest := by
  obtain ⟨w, r⟩ := iterate_next_token_spec n p hwf
  obtain ⟨-, -, -, t, -⟩ := next_token_spec _ w
  rw [t, r]
  rfl

/-- Claim C34: a statement has at most one predicate clause.  The tokenizer
recognises `AND`, `OR` and the comparison operators, but for all texts `p1`
and `p2`, predicates or not, `SELECT ENTITIES WHERE p1 AND p2` and
`SELECT ENTITIES WHERE p1 OR p2` fail to parse; and when `QueryParser_parse`
succeeds on a text, no token of that text, read from the start by repeated
`QueryParser_next_token`, is `AND`, `OR` or an operator, so a successful parse
has consumed none. -/
theorem C34_single_predicate_clause :
    (QueryParser_new (some "AND".toList)).map
      (fun parser => (QueryParser_next_token parser).1.type) = some TOKEN_AND ∧
    (QueryParser_new (some "OR".toList)).map
      (fun parser => (QueryParser_next_token parser).1.type) = some TOKEN_OR ∧
    (QueryParser_new (some ">=".toList)).map
      (fun parser => (QueryParser_next_token parser).1.type) = some TOKEN_OPERATOR ∧
    (∀ p1 p2 : List Char,
      (QueryParser_new (some ("SELECT ENTITIES WHERE ".toList ++ p1 ++ " AND ".toList ++ p2))).map
        (fun parser => (QueryParser_parse parser).1) = some none) ∧
    (∀ p1 p2 : List Char,
      (QueryParser_new (some ("SELECT ENTITIES WHERE ".toList ++ p1 ++ " OR ".toList ++ p2))).map
        (fun parser => (QueryParser_parse parser).1) = some none) ∧
    (∀ (q : List Char) (parser : QueryParser) (ast : QueryAST),
      QueryParser_new (some q) = some parser → (QueryParser_parse parser).1 = some ast →
      ∀ n, ¬ isCombiningKind
        (QueryParser_next_token ((fun p => (QueryParser_next_token p).2)^[n] parser)).1.type) := by
  have hsp : isspace ' ' = true := by decide
  refine ⟨rfl, rfl, rfl, ?_, ?_, ?_⟩
  · intro p1 p2
    have e : "SELECT ENTITIES WHERE ".toList ++ p1 ++ " AND ".toList ++ p2 =
        ("SELECT ENTITIES WHERE ".toList ++ p1) ++ ' ' :: ("AND".toList ++ ' ' :: p2) := by
      rw [List.append_assoc]
      rfl
    have hl : lexS ("AND".toList ++ ' ' :: p2) = (TOKEN_AND, "AND".toList, ' ' :: p2) :=
      lexS_word _ _ (by decide) (stopsWord_cons _ _ (by decide))
    rw [parse_new_eq, e, parseS_combining_token _ _ ' ' hsp (by rw [hl]; exact Or.inl rfl)]
  · intro p1 p2
    have e : "SELECT ENTITIES WHERE ".toList ++ p1 ++ " OR ".toList ++ p2 =
        ("SELECT ENTITIES WHERE ".toList ++ p1) ++ ' ' :: ("OR".toList ++ ' ' :: p2) := by
      rw [List.append_assoc]
      rfl
    have hl : lexS ("OR".toList ++ ' ' :: p2) = (TOKEN_OR, "OR".toList, ' ' :: p2) :=
      lexS_word _ _ (by decide) (stopsWord_cons _ _ (by decide))
    rw [parse_new_eq, e,
      parseS_combining_token _ _ ' ' hsp (by rw [hl]; exact Or.inr (Or.inl rfl))]
  · intro q parser ast hp h n
    obtain ⟨p, e, hwf, hr⟩ := QueryParser_new_spec q
    rw [e] at hp
    have hpp : p = parser := Option.some.inj hp
    subst hpp
    rw [token_kind_eq n p hwf, hr]
    rw [QueryParser_parse_spec p hwf, hr] at h
    exact noCombining_parse q ast h n

theorem C34_single_predicate_clause_witness :
    (QueryParser_new (some "SELECT ENTITIES WHERE HAS(a) AND HAS(b)".toList)).map
      (fun parser => (QueryParser_parse parser).1) = some none ∧
    ¬ isCombiningKind
      (QueryParser_next_token ((fun p => (QueryParser_next_token p).2)^[3]
        { input := "COUNT ENTITIES WHERE NOT_HAS(a, b)".toList, position := 0, length := 34,
          line := 1, column := 1 })).1.type :=
  ⟨C34_single_predicate_clause.2.2.2.1 "HAS(a)".toList "HAS(b)".toList,
    C34_single_predicate_clause.2.2.2.2.2 "COUNT ENTITIES WHERE NOT_HAS(a, b)".toList _
      (statementNode AST_COUNT (some (predicateNode AST_NOT_HAS ["a".toList, "b".toList])))
      rfl rfl 3⟩

/-! ## White space around and between tokens -/

theorem componentListLoopS_sim (R : List Char → List Char → Prop)
    (hlex : ∀ s t, R s t → (lexS t).1 = (lexS s).1 ∧ (lexS t).2.1 = (lexS s).2.1 ∧
      R (lexS s).2.2 (lexS t).2.2)
    (fuel fuel2 : Nat) (names : List (List Char)) (first : Bool) (s t : List Char)
    (h1 : s.length < fuel) (h2 : t.length < fuel2) (h : R s t) :
    ∃ res r r2, componentListLoopS fuel names first s = some (res, r) ∧
      componentListLoopS fuel2 names first t = some (res, r2) ∧ R r r2 := by
  induction fuel generalizing fuel2 names first s t with
  | zero => omega
  | succ k ih =>
    cases fuel2 with
    | zero => omega
    | succ k2 =>
      obtain ⟨e1, e2, e3⟩ := hlex s t h
      obtain ⟨a1, a2⟩ := lexS_rest_length s
      obtain ⟨b1, b2⟩ := lexS_rest_length t
      have step : ∀ (u v : List Char), R u v → u.length ≤ s.length → v.length ≤ t.length →
          ∃ res r r2,
            (if (lexS u).1 = TOKEN_IDENTIFIER then
              componentListLoopS k (names ++ [(lexS u).2.1.takeWhile (fun c => c ≠ NUL)]) false
                (lexS u).2.2
            else some (none, (lexS u).2.2)) = some (res, r) ∧
            (if (lexS v).1 = TOKEN_IDENTIFIER then
              componentListLoopS k2 (names ++ [(lexS v).2.1.takeWhile (fun c => c ≠ NUL)]) false
                (lexS v).2.2
            else some (none, (lexS v).2.2)) = some (res, r2) ∧ R r r2 := by
        intro u v huv hu hv
        obtain ⟨f1, f2, f3⟩ := hlex u v huv
        obtain ⟨-, c2⟩ := lexS_rest_length u
        obtain ⟨-, d2⟩ := lexS_rest_length v
        rw [f1, f2]
        by_cases hI : (lexS u).1 = TOKEN_IDENTIFIER
        · rw [if_pos hI, if_pos hI]
          have hu2 := c2 (by rw [hI]; decide)
          have hv2 := d2 (by rw [f1, hI]; decide)
          exact ih k2 _ false _ _ (by omega) (by omega) f3
        · rw [if_neg hI, if_neg hI]
          exact ⟨_, _, _, rfl, rfl, f3⟩
      unfold componentListLoopS
      rw [e1]
      by_cases hR : (lexS s).1 = TOKEN_RPAREN
      · rw [if_pos hR, if_pos hR]
        exact ⟨_, _, _, rfl, rfl, e3⟩
      · rw [if_neg hR, if_neg hR]
        cases first with
        | true =>
          simp only [Bool.not_true, Bool.false_eq_true, if_false]
          exact step s t h (le_refl _) (le_refl _)
        | false =>
          simp only [Bool.not_false, if_true]
          by_cases hC : (lexS s).1 = TOKEN_COMMA
          · simp only [hC, ne_eq, not_true_eq_false, if_false]
            exact step _ _ e3 a1 b1
          · simp only [hC, ne_eq, not_false_eq_true, if_true]
            exact ⟨_, _, _, rfl, rfl, e3⟩

theorem parseComponentListS_sim (R : List Char → List Char → Prop)
    (hlex : ∀ s t, R s t → (lexS t).1 = (lexS s).1 ∧ (lexS t).2.1 = (lexS s).2.1 ∧
      R (lexS s).2.2 (lexS t).2.2)
    (s t : List Char) (h : R s t) :
    (parseComponentListS t).1 = (parseComponentListS s).1 ∧
    R (parseComponentListS s).2 (parseComponentListS t).2 := by
  obtain ⟨e1, -, e3⟩ := hlex s t h
  unfold parseComponentListS
  rw [e1]
  by_cases hL : (lexS s).1 = TOKEN_LPAREN
  · rw [if_neg (by simp [hL]), if_neg (by simp [hL])]
    obtain ⟨res, r, r2, l1, l2, hr⟩ := componentListLoopS_sim R hlex
      ((lexS s).2.2.length + 1) ((lexS t).2.2.length + 1) [] true _ _
      (Nat.lt_succ_self _) (Nat.lt_succ_self _) e3
    rw [l1, l2]
    cases res with
    | none => exact ⟨rfl, hr⟩
    | some names =>
      simp only []
      by_cases hz : names.length = 0
      · rw [if_pos hz, if_pos hz]
        exact ⟨rfl, hr⟩
      · rw [if_neg hz, if_neg hz]
        exact ⟨rfl, hr⟩
  · rw [if_pos (by simp [hL]), if_pos (by simp [hL])]
    exact ⟨rfl, e3⟩

theorem parsePredicateS_sim (R : List Char → List Char → Prop)
    (hlex : ∀ s t, R s t → (lexS t).1 = (lexS s).1 ∧ (lexS t).2.1 = (lexS s).2.1 ∧
      R (lexS s).2.2 (lexS t).2.2)
    (s t : List Char) (h : R s t) :
    (parsePredicateS t).1 = (parsePredicateS s).1 ∧
    R (parsePredicateS s).2 (parsePredicateS t).2 := by
  obtain ⟨e1, -, e3⟩ := hlex s t h
  have tail : ∀ (kind : ASTNodeType),
      (match parseComponentListS (lexS t).2.2 with
        | (none, s1) => ((none : Option QueryAST), s1)
        | (some names, s1) => (some (predicateNode kind names), s1)).1 =
      (match parseComponentListS (lexS s).2.2 with
        | (none, s1) => ((none : Option QueryAST), s1)
        | (some names, s1) => (some (predicateNode kind names), s1)).1 ∧
      R (match parseComponentListS (lexS s).2.2 with
        | (none, s1) => ((none : Option QueryAST), s1)
        | (some names, s1) => (some (predicateNode kind names), s1)).2
        (match parseComponentListS (lexS t).2.2 with
        | (none, s1) => ((none : Option QueryAST), s1)
        | (some names, s1) => (some (predicateNode kind names), s1)).2 := by
    intro kind
    obtain ⟨l1, l2⟩ := parseComponentListS_sim R hlex _ _ e3
    rcases hs : parseComponentListS (lexS s).2.2 with ⟨a, ra⟩
    rcases ht : parseComponentListS (lexS t).2.2 with ⟨b, rb⟩
    rw [hs, ht] at l1 l2
    simp only [] at l1 l2
    subst l1
    cases b with
    | none => exact ⟨rfl, l2⟩
    | some names => exact ⟨rfl, l2⟩
  unfold parsePredicateS
  rw [e1]
  by_cases h1 : (lexS s).1 = TOKEN_HAS
  · rw [if_pos h1, if_pos h1]
    exact tail _
  · rw [if_neg h1, if_neg h1]
    by_cases h2 : (lexS s).1 = TOKEN_HAS_ANY
    · rw [if_pos h2, if_pos h2]
      exact tail _
    · rw [if_neg h2, if_neg h2]
      by_cases h3 : (lexS s).1 = TOKEN_NOT_HAS
      · rw [if_pos h3, if_pos h3]
        exact tail _
      · rw [if_neg h3, if_neg h3]
        exact ⟨rfl, e3⟩

theorem parseEntitiesS_sim (R : List Char → List Char → Prop)
    (hlex : ∀ s t, R s t → (lexS t).1 = (lexS s).1 ∧ (lexS t).2.1 = (lexS s).2.1 ∧
      R (lexS s).2.2 (lexS t).2.2)
    (type : ASTNodeType) (s t : List Char) (h : R s t) :
    parseEntitiesS type t = parseEntitiesS type s := by
  obtain ⟨e1, -, e3⟩ := hlex s t h
  obtain ⟨f1, -, f3⟩ := hlex _ _ e3
  unfold parseEntitiesS
  rw [e1]
  by_cases hE : (lexS s).1 = TOKEN_ENTITIES
  · rw [if_neg (by simp [hE]), if_neg (by simp [hE])]
    simp only []
    rw [f1]
    by_cases hW : (lexS (lexS s).2.2).1 = TOKEN_WHERE
    · rw [if_pos hW, if_pos hW]
      obtain ⟨p1, p2⟩ := parsePredicateS_sim R hlex _ _ f3
      rcases hs : parsePredicateS (lexS (lexS s).2.2).2.2 with ⟨a, ra⟩
      rcases ht : parsePredicateS (lexS (lexS t).2.2).2.2 with ⟨b, rb⟩
      rw [hs, ht] at p1 p2
      simp only [] at p1 p2
      subst p1
      cases b with
      | none => rfl
      | some predicate =>
        simp only []
        rw [(hlex _ _ p2).1]
    · rw [if_neg hW, if_neg hW]
      simp only []
      rw [f1]
  · rw [if_pos (by simp [hE]), if_pos (by simp [hE])]

theorem parseShowS_sim (R : List Char → List Char → Prop)
    (hlex : ∀ s t, R s t → (lexS t).1 = (lexS s).1 ∧ (lexS t).2.1 = (lexS s).2.1 ∧
      R (lexS s).2.2 (lexS t).2.2)
    (hid : ∀ s t, R s t → (parseEntityIdS t).1 = (parseEntityIdS s).1 ∧
      ((parseEntityIdS s).1 ≠ none → R (parseEntityIdS s).2 (parseEntityIdS t).2))
    (s t : List Char) (h : R s t) : parseShowS t = parseShowS s := by
  obtain ⟨e1, e2, e3⟩ := hlex s t h
  obtain ⟨f1, -, f3⟩ := hlex _ _ e3
  obtain ⟨g1, -, g3⟩ := hlex _ _ f3
  obtain ⟨i1, i2⟩ := hid _ _ g3
  unfold parseShowS
  simp only []
  rw [e1, e2, f1, g1]
  rcases hs : parseEntityIdS (lexS (lexS (lexS s).2.2).2.2).2.2 with ⟨a, ra⟩
  rcases ht : parseEntityIdS (lexS (lexS (lexS t).2.2).2.2).2.2 with ⟨b, rb⟩
  rw [hs, ht] at i1 i2
  simp only [] at i1 i2
  subst i1
  cases b with
  | none => rfl
  | some entityId =>
    have hk := (hlex _ _ (i2 (by simp))).1
    simp only []
    rw [hk]

theorem parseS_sim (R : List Char → List Char → Prop)
    (hlex : ∀ s t, R s t → (lexS t).1 = (lexS s).1 ∧ (lexS t).2.1 = (lexS s).2.1 ∧
      R (lexS s).2.2 (lexS t).2.2)
    (hid : ∀ s t, R s t → (parseEntityIdS t).1 = (parseEntityIdS s).1 ∧
      ((parseEntityIdS s).1 ≠ none → R (parseEntityIdS s).2 (parseEntityIdS t).2))
    (s t : List Char) (h : R s t) : parseS t = parseS s := by
  obtain ⟨e1, -, e3⟩ := hlex s t h
  unfold parseS
  rw [e1, parseEntitiesS_sim R hlex AST_SELECT _ _ e3,
    parseEntitiesS_sim R hlex AST_COUNT _ _ e3, parseShowS_sim R hlex hid _ _ e3]

theorem takeWhile_stop_rest (f : Char → Bool) (w r : List Char)
    (hlen : ((w ++ r).takeWhile f).length = w.length) (c : Char) (u : List Char)
    (hc : f c = false) : (w ++ c :: u).takeWhile f = (w ++ r).takeWhile f := by
  induction w with
  | nil =>
    simp only [List.nil_append, List.length_nil] at hlen ⊢
    rw [List.length_eq_zero.mp hlen, List.takeWhile_cons, hc]
    rfl
  | cons a w ih =>
    by_cases ha : f a = true
    · simp only [List.cons_append, List.takeWhile_cons, ha, if_true, List.length_cons,
        Nat.add_right_cancel_iff] at hlen ⊢
      rw [ih hlen]
    · simp [List.takeWhile_cons, ha] at hlen

theorem lexHead_space_rest (a : Char) (w r : List Char)
    (hlen : (lexHead (a :: w ++ r)).2 = (a :: w).length) (c : Char) (u : List Char)
    (hc : isspace c = true) :
    lexHead (a :: w ++ c :: u) = lexHead (a :: w ++ r) := by
  have hd : isdigit c = false := isspace_not_digit hc
  have hi : is_identifier_char c = false := isspace_not_identifier hc
  unfold lexHead at hlen ⊢
  simp only [List.cons_append] at hlen ⊢
  by_cases h1 : a = '('
  · simp only [h1, if_true]
  rw [if_neg h1] at hlen ⊢
  rw [if_neg h1]
  by_cases h2 : a = ')'
  · simp only [h2, if_true]
  rw [if_neg h2] at hlen ⊢
  rw [if_neg h2]
  by_cases h3 : a = '.'
  · simp only [h3, if_true]
  rw [if_neg h3] at hlen ⊢
  rw [if_neg h3]
  by_cases h4 : a = ','
  · simp only [h4, if_true]
  rw [if_neg h4] at hlen ⊢
  rw [if_neg h4]
  by_cases h5 : a = '>' ∨ a = '<' ∨ a = '=' ∨ a = '!'
  · rw [if_pos h5] at hlen ⊢
    rw [if_pos h5]
    cases w with
    | nil =>
      simp only [List.nil_append, List.length_cons, List.length_nil] at hlen ⊢
      have hr : ¬ r.head? = some '=' := by
        intro h
        rw [if_pos h] at hlen
        omega
      have hr2 : ¬ (c :: u).head? = some '=' := by
        intro h
        simp only [List.head?_cons, Option.some.injEq] at h
        rw [h] at hc
        exact absurd hc (by decide)
      rw [if_neg hr, if_neg hr2]
    | cons b v => rfl
  rw [if_neg h5] at hlen ⊢
  rw [if_neg h5]
  by_cases h6 : isdigit a = true
  · rw [if_pos h6] at hlen ⊢
    rw [if_pos h6]
    have := takeWhile_stop_rest isdigit (a :: w) r hlen c u hd
    simp only [List.cons_append] at this
    rw [this]
  rw [if_neg h6] at hlen ⊢
  rw [if_neg h6]
  by_cases h7 : (isalpha a || decide (a = '_')) = true
  · rw [if_pos h7] at hlen ⊢
    rw [if_pos h7]
    have := takeWhile_stop_rest is_identifier_char (a :: w) r hlen c u hi
    simp only [List.cons_append] at this
    rw [this]
  rw [if_neg h7, if_neg h7]

theorem lexS_space_rest (w r : List Char) (type : TokenType)
    (h : lexS (w ++ r) = (type, w, r)) (hne : type ≠ TOKEN_EOF) (c : Char) (u : List Char)
    (hc : isspace c = true) : lexS (w ++ c :: u) = (type, w, c :: u) := by
  obtain ⟨a, w2, e, ha, hl⟩ := lexS_token_facts w r type h hne
  subst e
  have hlen : (lexHead (a :: w2 ++ r)).2 = (a :: w2).length := by rw [hl]
  have := lexHead_space_rest a w2 r hlen c u hc
  rw [hl] at this
  exact lexS_of_lexHead a w2 (c :: u) type ha this

theorem lexS_eof_eq (s : List Char) (h : (lexS s).1 = TOKEN_EOF) :
    lexS s = (TOKEN_EOF, [], []) := by
  have e := (lexS_eof_iff s).1 h
  unfold lexS
  simp only [e]
  rfl

theorem lexS_trailing (s ws : List Char) (hws : ∀ c ∈ ws, isspace c = true) :
    (lexS (s ++ ws)).1 = (lexS s).1 ∧ (lexS (s ++ ws)).2.1 = (lexS s).2.1 ∧
    ∃ ws2, (∀ c ∈ ws2, isspace c = true) ∧ (lexS (s ++ ws)).2.2 = (lexS s).2.2 ++ ws2 := by
  cases ws with
  | nil =>
    rw [List.append_nil]
    exact ⟨rfl, rfl, [], fun c hc => absurd hc (List.not_mem_nil c), (List.append_nil _).symm⟩
  | cons c u =>
    have hc : isspace c = true := hws c (List.mem_cons_self c u)
    by_cases hF : (lexS s).1 = TOKEN_EOF
    · rw [lexS_after_eof s u c hF hc,
        lexS_only_spaces u (fun d hd => hws d (List.mem_cons_of_mem c hd)), lexS_eof_eq s hF]
      exact ⟨rfl, rfl, [], fun c hc => absurd hc (List.not_mem_nil c), rfl⟩
    · rw [lexS_append s u c hF hc]
      exact ⟨rfl, rfl, c :: u, hws, rfl⟩

theorem parseEntityIdS_trailing (s t : List Char) (c : Char) (hc : isspace c = true)
    (ht : ∀ d ∈ t, isspace d = true) :
    (parseEntityIdS (s ++ c :: t)).1 = (parseEntityIdS s).1 := by
  have hd := isspace_not_digit hc
  have hcolon : c ≠ ':' := by
    intro h
    rw [h] at hc
    exact absurd hc (by decide)
  unfold parseEntityIdS
  simp only []
  cases hs1 : s.dropWhile isspace with
  | nil =>
    have e1 : (s ++ c :: t).dropWhile isspace = [] := by
      rw [dropWhile_append_of_nil isspace s (c :: t) hs1, List.dropWhile_cons, if_pos hc]
      exact List.dropWhile_eq_nil_iff.mpr ht
    rw [e1]
  | cons a s2 =>
    have ha : isspace a = false := head_dropWhile_false _ _ _ _ hs1
    have e1 : (s ++ c :: t).dropWhile isspace = a :: (s2 ++ c :: t) := by
      rw [dropWhile_append_of_ne_nil isspace s (c :: t) (by rw [hs1]; simp), hs1]
      rfl
    rw [e1]
    simp only []
    have e2 : (a :: (s2 ++ c :: t)).dropWhile isdigit =
        (a :: s2).dropWhile isdigit ++ c :: t :=
      dropWhile_append_cons_stop isdigit (a :: s2) t c hd
    have e3 : (a :: (s2 ++ c :: t)).takeWhile isdigit = (a :: s2).takeWhile isdigit :=
      takeWhile_append_cons_stop isdigit (a :: s2) t c hd
    have e4 : strtoull (a :: (s2 ++ c :: t)) = strtoull (a :: s2) :=
      strtoull_append a s2 t c ha hc
    rw [e2, e3, e4]
    cases hs2 : (a :: s2).dropWhile isdigit with
    | nil =>
      simp only [List.nil_append]
      rw [if_pos hcolon]
    | cons b r0 =>
      simp only [List.cons_append]
      by_cases hb : b = ':'
      · subst hb
        simp only [ne_eq, not_true_eq_false, if_false]
        by_cases hst : (strtoull (a :: s2)).2 = ((a :: s2).takeWhile isdigit).length
        · simp only [hst, not_true_eq_false, if_false]
          cases r0 with
          | nil =>
            have hz : ((c :: t).takeWhile isdigit).length = 0 := by
              rw [List.takeWhile_cons, hd]
              rfl
            simp only [List.nil_append, hz, if_true]
          | cons b2 r1 =>
            have e5 : (b2 :: (r1 ++ c :: t)).takeWhile isdigit =
                (b2 :: r1).takeWhile isdigit :=
              takeWhile_append_cons_stop isdigit (b2 :: r1) t c hd
            simp only [List.cons_append]
            rw [e5]
            by_cases hz : ((b2 :: r1).takeWhile isdigit).length = 0
            · simp only [hz, if_true]
            · have hb2 : isdigit b2 = true := by
                by_contra hn
                apply hz
                simp [List.takeWhile_cons, hn]
              have e7 : strtoull (b2 :: (r1 ++ c :: t)) = strtoull (b2 :: r1) :=
                strtoull_append b2 r1 t c (isspace_of_digit hb2) hc
              rw [e7]
              simp only [hz, if_false]
              by_cases hst2 : (strtoull (b2 :: r1)).2 = ((b2 :: r1).takeWhile isdigit).length
              · simp only [hst2, not_true_eq_false, if_false]
              · simp only [hst2, not_false_eq_true, if_true]
        · simp only [hst, not_false_eq_true, if_true]
      · simp only [hb, ne_eq, not_false_eq_true, if_true]

theorem parseS_trailing_spaces (s ws : List Char) (hws : ∀ c ∈ ws, isspace c = true) :
    parseS (s ++ ws) = parseS s := by
  refine parseS_sim (fun s t => ∃ ws, (∀ c ∈ ws, isspace c = true) ∧ t = s ++ ws)
    ?_ ?_ s (s ++ ws) ⟨ws, hws, rfl⟩
  · rintro s t ⟨ws, hws, rfl⟩
    obtain ⟨a, b, ws2, h2, e⟩ := lexS_trailing s ws hws
    exact ⟨a, b, ws2, h2, e⟩
  · rintro s t ⟨ws, hws, rfl⟩
    cases ws with
    | nil =>
      rw [List.append_nil]
      exact ⟨rfl, fun _ => ⟨[], fun c hc => absurd hc (List.not_mem_nil c),
        (List.append_nil _).symm⟩⟩
    | cons c u =>
      have hc : isspace c = true := hws c (List.mem_cons_self c u)
      refine ⟨parseEntityIdS_trailing s u c hc
        (fun d hd => hws d (List.mem_cons_of_mem c hd)), ?_⟩
      intro hne
      rcases hp : parseEntityIdS s with ⟨l, r⟩
      rw [hp] at hne
      cases l with
      | none => exact absurd rfl hne
      | some entityId =>
        rw [parseEntityIdS_append s r entityId c u hc hp]
        exact ⟨c :: u, hws, rfl⟩

theorem parseS_leading_spaces (ws s : List Char) (hws : ∀ c ∈ ws, isspace c = true) :
    parseS (ws ++ s) = parseS s := by
  unfold parseS
  rw [lexS_spaces ws s hws]

theorem spacesInserted_head (ws r r2 : List Char) (hws : ∀ c ∈ ws, isspace c = true)
    (h : SpacesInserted ws r r2) :
    r.head?.map tolower = r2.head?.map tolower ∨ ∃ c u, r2 = c :: u ∧ isspace c = true := by
  cases h with
  | here s =>
    cases ws with
    | nil => exact Or.inl rfl
    | cons c u => exact Or.inr ⟨c, u ++ r, rfl, hws c (List.mem_cons_self c u)⟩
  | after lead w r1 r3 type hlead htoken hkind hrest =>
    left
    cases lead with
    | nil =>
      obtain ⟨a, w2, e, -, -⟩ := lexS_token_facts w r1 type htoken hkind.1
      subst e
      rfl
    | cons c u => rfl

theorem lexS_inserted (ws lead w r r2 : List Char) (type : TokenType)
    (hws : ∀ c ∈ ws, isspace c = true) (hlead : ∀ c ∈ lead, isspace c = true)
    (htoken : lexS (w ++ r) = (type, w, r)) (hne : type ≠ TOKEN_EOF)
    (hrest : SpacesInserted ws r r2) :
    lexS (lead ++ (w ++ r)) = (type, w, r) ∧ lexS (lead ++ (w ++ r2)) = (type, w, r2) := by
  rw [lexS_spaces lead _ hlead, lexS_spaces lead _ hlead]
  refine ⟨htoken, ?_⟩
  rcases spacesInserted_head ws r r2 hws hrest with hH | ⟨c, u, e, hc⟩
  · exact lexS_swap_rest w r r2 type htoken hne hH
  · rw [e]
    exact lexS_space_rest w r type htoken hne c u hc

theorem parseEntityIdS_spaces (ws s : List Char) (hws : ∀ c ∈ ws, isspace c = true) :
    parseEntityIdS (ws ++ s) = parseEntityIdS s := by
  have e : (ws ++ s).dropWhile isspace = s.dropWhile isspace :=
    dropWhile_append_of_nil isspace ws s (List.dropWhile_eq_nil_iff.mpr hws)
  unfold parseEntityIdS
  simp only [e]

theorem parseEntityIdS_needs_digit (s : List Char)
    (hn : (lexS s).1 ≠ TOKEN_NUMBER) (he : (lexS s).1 ≠ TOKEN_ERROR) :
    (parseEntityIdS s).1 = none := by
  rcases hp : parseEntityIdS s with ⟨l, r⟩
  cases l with
  | none => rfl
  | some entityId =>
    exfalso
    obtain ⟨a, s2, b2, r1, e1, e2, -, -, -⟩ := parseEntityIdS_some s r entityId hp
    have hl : lexS s = lexS (a :: s2) := by rw [← e1, lexS_dropWhile]
    by_cases ha : isdigit a = true
    · rw [hl, lexS_digit a s2 ha] at hn
      exact hn rfl
    · rw [List.dropWhile_cons, if_neg ha] at e2
      rw [hl, e2, lexS_colon] at he
      exact he rfl

theorem parseS_inserted (ws s t : List Char) (hws : ∀ c ∈ ws, isspace c = true)
    (h : SpacesInserted ws s t) : parseS t = parseS s := by
  refine parseS_sim (fun s t => t = s ∨ SpacesInserted ws s t) ?_ ?_ s t (Or.inr h)
  · rintro s t (rfl | h)
    · exact ⟨rfl, rfl, Or.inl rfl⟩
    · cases h with
      | here s =>
        rw [lexS_spaces ws s hws]
        exact ⟨rfl, rfl, Or.inl rfl⟩
      | after lead w r r2 type hlead htoken hkind hrest =>
        obtain ⟨e1, e2⟩ := lexS_inserted ws lead w r r2 type hws hlead htoken hkind.1 hrest
        rw [e1, e2]
        exact ⟨rfl, rfl, Or.inr hrest⟩
  · rintro s t (rfl | h)
    · exact ⟨rfl, fun _ => Or.inl rfl⟩
    · cases h with
      | here s =>
        rw [parseEntityIdS_spaces ws s hws]
        exact ⟨rfl, fun _ => Or.inl rfl⟩
      | after lead w r r2 type hlead htoken hkind hrest =>
        obtain ⟨e1, e2⟩ := lexS_inserted ws lead w r r2 type hws hlead htoken hkind.1 hrest
        have n1 := parseEntityIdS_needs_digit (lead ++ (w ++ r))
          (by rw [e1]; exact hkind.2.1) (by rw [e1]; exact hkind.2.2)
        have n2 := parseEntityIdS_needs_digit (lead ++ (w ++ r2))
          (by rw [e2]; exact hkind.2.1) (by rw [e2]; exact hkind.2.2)
        rw [n1, n2]
        exact ⟨rfl, fun hne => absurd rfl hne⟩

/-- Claim C31: white space around and between tokens does not change the
parse.  For every text `q` and all strings `w1`, `w2` of white space,
`QueryParser_parse` on `w1 ++ q ++ w2` returns what it returns on `q`: failure
for failure, and the same tree for a tree.  The same holds when a string `ws`
of white space is inserted into a text `s` before its first token or between
two of its tokens (an entity reference counting as one unit), and so for any
number of such insertions; for one,
`  SELECT   entities   WHERE   has(  Position  )  ` and
`SELECT entities WHERE has(Position)` parse to the same tree. -/
theorem C31_extra_white_space_is_ignored (q w1 w2 ws s t : List Char)
    (h1 : ∀ c ∈ w1, isspace c = true) (h2 : ∀ c ∈ w2, isspace c = true)
    (hws : ∀ c ∈ ws, isspace c = true) (hst : SpacesInserted ws s t) :
    (QueryParser_new (some (w1 ++ q ++ w2))).map (fun parser => (QueryParser_parse parser).1) =
      (QueryParser_new (some q)).map (fun parser => (QueryParser_parse parser).1) ∧
    (QueryParser_new (some t)).map (fun parser => (QueryParser_parse parser).1) =
      (QueryParser_new (some s)).map (fun parser => (QueryParser_parse parser).1) ∧
    (QueryParser_new (some "  SELECT   entities   WHERE   has(  Position  )  ".toList)).map
        (fun parser => (QueryParser_parse parser).1) =
      some (some (statementNode AST_SELECT (some (predicateNode AST_HAS ["Position".toList])))) ∧
    (QueryParser_new (some "SELECT entities WHERE has(Position)".toList)).map
        (fun parser => (QueryParser_parse parser).1) =
      some (some (statementNode AST_SELECT (some (predicateNode AST_HAS ["Position".toList])))) := by
  refine ⟨?_, ?_, ?_, ?_⟩
  · rw [parse_new_eq, parse_new_eq, List.append_assoc, parseS_leading_spaces w1 _ h1,
      parseS_trailing_spaces q w2 h2]
  · rw [parse_new_eq, parse_new_eq, parseS_inserted ws s t hws hst]
  · rw [parse_new_eq]
    rfl
  · rw [parse_new_eq]
    rfl

theorem C31_extra_white_space_is_ignored_witness :
    (QueryParser_new (some ("\t ".toList ++ "SHOW ALL OF ENTITY 1:2".toList ++ " \n".toList))).map
        (fun parser => (QueryParser_parse parser).1) =
      (QueryParser_new (some "SHOW ALL OF ENTITY 1:2".toList)).map
        (fun parser => (QueryParser_parse parser).1) ∧
    (QueryParser_new (some "COUNT ENTITIES \n WHERE HAS(a)".toList)).map
        (fun parser => (QueryParser_parse parser).1) =
      (QueryParser_new (some "COUNT ENTITIES WHERE HAS(a)".toList)).map
        (fun parser => (QueryParser_parse parser).1) :=
  have h := C31_extra_white_space_is_ignored "SHOW ALL OF ENTITY 1:2".toList "\t ".toList
    " \n".toList " \n".toList "COUNT ENTITIES WHERE HAS(a)".toList
    "COUNT ENTITIES \n WHERE HAS(a)".toList (by decide) (by decide) (by decide)
    (SpacesInserted.after [] "COUNT".toList " ENTITIES WHERE HAS(a)".toList
      " ENTITIES \n WHERE HAS(a)".toList TOKEN_COUNT (by decide) rfl (by decide)
      (SpacesInserted.after " ".toList "ENTITIES".toList " WHERE HAS(a)".toList
        " \n WHERE HAS(a)".toList TOKEN_ENTITIES (by decide) rfl (by decide)
        (SpacesInserted.here " WHERE HAS(a)".toList)))
  ⟨h.1, h.2.1⟩

/-! ## Allocation and release in the parser -/

theorem holds_refl (h : Heap) : Heap.Holds h h ∅ :=
  ⟨(Finset.union_empty _).symm, rfl, le_refl _, fun b hb => absurd hb (Finset.not_mem_empty b)⟩

theorem holds_inv {h0 h : Heap} {S : Finset Nat} (hi : h0.Inv) (hh : Heap.Holds h0 h S) :
    h.Inv := by
  obtain ⟨hl, -, hn, hS⟩ := hh
  intro b hb
  rw [hl, Finset.mem_union] at hb
  rcases hb with hb | hb
  · exact lt_of_lt_of_le (hi b hb) hn
  · exact (hS b hb).2

theorem holds_trans {h0 h1 h2 : Heap} {S T : Finset Nat} (a : Heap.Holds h0 h1 S)
    (b : Heap.Holds h1 h2 T) : Heap.Holds h0 h2 (S ∪ T) := by
  obtain ⟨al, af, an, aS⟩ := a
  obtain ⟨bl, bf, bn, bT⟩ := b
  refine ⟨by rw [bl, al, Finset.union_assoc], bf.trans af, le_trans an bn, ?_⟩
  intro x hx
  rw [Finset.mem_union] at hx
  rcases hx with hx | hx
  · exact ⟨(aS x hx).1, lt_of_lt_of_le (aS x hx).2 bn⟩
  · exact ⟨le_trans an (bT x hx).1, (bT x hx).2⟩

theorem holds_alloc {h0 h : Heap} {S : Finset Nat} (hh : Heap.Holds h0 h S) :
    (h.ALLOC).1 = h.next ∧ h.next ∉ S ∧ Heap.Holds h0 (h.ALLOC).2 (insert h.next S) := by
  obtain ⟨hl, hf, hn, hS⟩ := hh
  refine ⟨rfl, fun hm => absurd (hS _ hm).2 (lt_irrefl _), ?_, hf, ?_, ?_⟩
  · show insert h.next h.live = h0.live ∪ insert h.next S
    rw [hl, Finset.union_insert]
  · show h0.next ≤ h.next + 1
    omega
  · intro b hb
    show h0.next ≤ b ∧ b < h.next + 1
    rw [Finset.mem_insert] at hb
    rcases hb with hb | hb
    · rw [hb]
      exact ⟨hn, Nat.lt_succ_self _⟩
    · exact ⟨(hS b hb).1, Nat.lt_succ_of_lt (hS b hb).2⟩

theorem holds_free {h0 h : Heap} {S : Finset Nat} (hi : h0.Inv) (hh : Heap.Holds h0 h S)
    (b : Nat) (hb : b ∈ S) : Heap.Holds h0 (h.FREE (some b)) (S.erase b) := by
  obtain ⟨hl, hf, hn, hS⟩ := hh
  have hm : b ∈ h.live := by
    rw [hl]
    exact Finset.mem_union_right _ hb
  have hnot : b ∉ h0.live := fun hx => absurd (hi b hx) (not_lt.mpr (hS b hb).1)
  have e : h.FREE (some b) = { h with live := h.live.erase b } := by
    unfold Heap.FREE
    simp only [hm, if_true]
  rw [e]
  refine ⟨?_, hf, hn, fun x hx => hS x (Finset.mem_of_mem_erase hx)⟩
  show h.live.erase b = h0.live ∪ S.erase b
  rw [hl, Finset.erase_union_distrib, Finset.erase_eq_of_not_mem hnot]

theorem holds_free_names {h0 : Heap} (hi : h0.Inv) (ns : List (Nat × List Char)) :
    ∀ (h : Heap) (S : Finset Nat), Heap.Holds h0 h S → (ns.map Prod.fst).Nodup →
      (∀ b ∈ ns.map Prod.fst, b ∈ S) →
      Heap.Holds h0 (ns.foldl (fun (h : Heap) (n : Nat × List Char) => h.FREE (some n.1)) h)
        (S \ (ns.map Prod.fst).toFinset) := by
  induction ns with
  | nil =>
    intro h S hh _ _
    simp only [List.foldl_nil, List.map_nil, List.toFinset_nil, Finset.sdiff_empty]
    exact hh
  | cons n rest ih =>
    intro h S hh hnd hsub
    rw [List.map_cons, List.nodup_cons] at hnd
    have h1 := holds_free hi hh n.1 (hsub n.1 (by simp))
    have h2 := ih (h.FREE (some n.1)) (S.erase n.1) h1 hnd.2 (by
      intro b hb
      rw [Finset.mem_erase]
      refine ⟨?_, hsub b (by rw [List.map_cons]; exact List.mem_cons_of_mem _ hb)⟩
      intro e
      rw [e] at hb
      exact hnd.1 hb)
    have e : S \ (List.map Prod.fst (n :: rest)).toFinset =
        S.erase n.1 \ (List.map Prod.fst rest).toFinset := by
      ext x
      simp only [List.map_cons, List.toFinset_cons, Finset.mem_sdiff, Finset.mem_insert,
        Finset.mem_erase, List.mem_toFinset]
      tauto
    rw [e]
    exact h2

theorem componentList_blocks_eq (block arr : Nat) (names : List (Nat × List Char)) :
    HeapComponentList.blocks
      { block := block, componentNames := some arr, names := names, count := names.length } =
      block :: arr :: names.map Prod.fst := by
  unfold HeapComponentList.blocks
  simp only [List.take_length, Option.toList_some, List.singleton_append]

theorem componentList_wf_cases (list : HeapComponentList) (hw : list.WF) :
    ∃ block arr names,
      list = { block := block, componentNames := some arr, names := names,
               count := names.length } ∧
      (block :: arr :: names.map Prod.fst).Nodup := by
  obtain ⟨block, cn, names, count⟩ := list
  obtain ⟨h1, h2, h3⟩ := hw
  simp only at h1 h2
  subst h1
  cases cn with
  | none => exact absurd h2 (by simp)
  | some arr =>
    rw [componentList_blocks_eq] at h3
    exact ⟨block, arr, names, rfl, h3⟩

theorem free_component_list_spec {h0 h : Heap} (hi : h0.Inv) (list : HeapComponentList)
    (hw : list.WF) (hh : Heap.Holds h0 h list.blocks.toFinset) :
    Heap.Holds h0 (free_component_list h list) ∅ := by
  obtain ⟨block, arr, names, rfl, hnd⟩ := componentList_wf_cases list hw
  rw [componentList_blocks_eq] at hh
  rw [List.nodup_cons, List.nodup_cons] at hnd
  obtain ⟨n1, n2, n3⟩ := hnd
  simp only [List.mem_cons, not_or] at n1
  unfold free_component_list free_component_names
  simp only [List.take_length]
  have a1 := holds_free_names hi names h _ hh n3 (by
    intro b hb
    simp only [List.toFinset_cons, Finset.mem_insert, List.mem_toFinset]
    exact Or.inr (Or.inr hb))
  have a2 := holds_free hi a1 arr (by
    simp only [List.toFinset_cons, Finset.mem_sdiff, Finset.mem_insert, List.mem_toFinset,
      true_or, or_true, true_and]
    exact n2)
  have a3 := holds_free hi a2 block (by
    simp only [List.toFinset_cons, Finset.mem_erase, Finset.mem_sdiff, Finset.mem_insert,
      List.mem_toFinset, true_or, true_and]
    exact ⟨n1.1, n1.2⟩)
  have e : (((block :: arr :: names.map Prod.fst).toFinset \
      (names.map Prod.fst).toFinset).erase arr).erase block = ∅ := by
    ext x
    simp only [List.toFinset_cons, Finset.mem_erase, Finset.mem_sdiff, Finset.mem_insert,
      List.mem_toFinset, Finset.not_mem_empty, iff_false]
    tauto
  rw [e] at a3
  exact a3

theorem append_component_name_heap_spec {h0 h : Heap} (hi : h0.Inv) (list : HeapComponentList)
    (capacity : Nat) (name : List Char) (hw : list.WF)
    (hh : Heap.Holds h0 h list.blocks.toFinset) :
    (append_component_name_heap h list capacity name).1.WF ∧
    Heap.Holds h0 (append_component_name_heap h list capacity name).2.2
      (append_component_name_heap h list capacity name).1.blocks.toFinset ∧
    (append_component_name_heap h list capacity name).1.erase =
      (append_component_name list.erase capacity name).1 ∧
    (append_component_name_heap h list capacity name).2.1 =
      (append_component_name list.erase capacity name).2 := by
  obtain ⟨block, arr, names, rfl, hnd⟩ := componentList_wf_cases list hw
  rw [componentList_blocks_eq] at hh
  have hnd0 := hnd
  rw [List.nodup_cons, List.nodup_cons] at hnd
  obtain ⟨n1, n2, n3⟩ := hnd
  simp only [List.mem_cons, not_or] at n1
  have key : ∀ (g : Heap) (arr2 : Nat), (block :: arr2 :: names.map Prod.fst).Nodup →
      Heap.Holds h0 g (block :: arr2 :: names.map Prod.fst).toFinset →
      HeapComponentList.WF
        { block := block, componentNames := some arr2,
          names := names ++ [((g.ALLOC).1, name)],
          count := names.length + 1 } ∧
      Heap.Holds h0 (g.ALLOC).2
        (HeapComponentList.blocks
          { block := block, componentNames := some arr2,
            names := names ++ [((g.ALLOC).1, name)],
            count := names.length + 1 }).toFinset := by
    intro g arr2 gnd gh
    obtain ⟨b1, b2, b3⟩ := holds_alloc gh
    have ec : names.length + 1 = (names ++ [((g.ALLOC).1, name)]).length := by
      simp
    rw [ec, componentList_blocks_eq, b1]
    refine ⟨⟨?_, rfl, ?_⟩, ?_⟩
    · simp
    · rw [componentList_blocks_eq]
      simp only [List.map_append, List.map_cons, List.map_nil]
      have hperm : (block :: arr2 :: (names.map Prod.fst ++ [g.next])).Perm
          (g.next :: block :: arr2 :: names.map Prod.fst) := by
        have := (List.perm_append_singleton g.next (block :: arr2 :: names.map Prod.fst))
        simpa using this
      rw [hperm.nodup_iff, List.nodup_cons]
      refine ⟨?_, gnd⟩
      intro hm
      exact b2 (List.mem_toFinset.mpr hm)
    · have e : insert g.next (block :: arr2 :: names.map Prod.fst).toFinset =
          (block :: arr2 :: List.map Prod.fst (names ++ [(g.next, name)])).toFinset := by
        ext x
        simp only [List.toFinset_cons, Finset.mem_insert, List.mem_toFinset, List.map_append,
          List.map_cons, List.map_nil, List.mem_append, List.mem_singleton]
        tauto
      rw [← e]
      exact b3
  unfold append_component_name_heap append_component_name HeapComponentList.erase
  simp only []
  by_cases hc : names.length ≥ capacity
  · simp only [hc, if_true]
    obtain ⟨b1, b2, b3⟩ := holds_alloc hh
    have b4 := holds_free hi b3 arr (by
      simp only [List.toFinset_cons, Finset.mem_insert, true_or, or_true])
    have e : (insert h.next (block :: arr :: names.map Prod.fst).toFinset).erase arr =
        (block :: h.next :: names.map Prod.fst).toFinset := by
      have q1 : h.next ≠ arr := by
        intro q
        apply b2
        rw [q]
        simp
      ext x
      simp only [List.toFinset_cons, Finset.mem_erase, Finset.mem_insert, List.mem_toFinset]
      constructor
      · rintro ⟨x1, x2 | x2 | x2 | x2⟩
        · exact Or.inr (Or.inl x2)
        · exact Or.inl x2
        · exact absurd x2 x1
        · exact Or.inr (Or.inr x2)
      · rintro (x2 | x2 | x2)
        · exact ⟨by rw [x2]; exact n1.1, Or.inr (Or.inl x2)⟩
        · exact ⟨by rw [x2]; exact q1, Or.inl x2⟩
        · exact ⟨fun q => n2 (q ▸ x2), Or.inr (Or.inr (Or.inr x2))⟩
    rw [e] at b4
    have gnd : (block :: h.next :: names.map Prod.fst).Nodup := by
      rw [List.nodup_cons, List.nodup_cons]
      refine ⟨?_, ?_, n3⟩
      · simp only [List.mem_cons, not_or]
        refine ⟨?_, n1.2⟩
        intro q
        apply b2
        rw [← q]
        simp
      · intro hm
        apply b2
        simp only [List.toFinset_cons, Finset.mem_insert, List.mem_toFinset]
        exact Or.inr (Or.inr hm)
    obtain ⟨k1, k2⟩ := key _ h.next gnd b4
    have ht : List.take names.length (List.map Prod.snd names) = List.map Prod.snd names := by
      rw [← List.map_take, List.take_length]
    simp only [List.take_length, b1]
    refine ⟨k1, k2, ?_, ?_⟩
    · simp [ht]
    · simp
  · simp only [hc, if_false]
    obtain ⟨k1, k2⟩ := key h arr hnd0 hh
    simp only [List.take_length]
    refine ⟨k1, k2, ?_, ?_⟩
    · simp
    · simp

theorem parse_component_list_loop_heap_spec {h0 : Heap} (hi : h0.Inv) (fuel : Nat)
    (list : HeapComponentList) (capacity : Nat) (first : Bool) (parser : QueryParser)
    (heap : Heap) (hw : list.WF) (hh : Heap.Holds h0 heap list.blocks.toFinset) :
    match parse_component_list_loop_heap fuel
        { list := list, capacity := capacity, first := first, parser := parser, heap := heap },
      parse_component_list_loop fuel
        { list := list.erase, capacity := capacity, first := first, parser := parser } with
    | none, none => True
    | some (none, p, h), some (none, p2) => p = p2 ∧ Heap.Holds h0 h ∅
    | some (some l, p, h), some (some l2, p2) =>
      p = p2 ∧ l.erase = l2 ∧ l.WF ∧ Heap.Holds h0 h l.blocks.toFinset
    | _, _ => False := by
  induction fuel generalizing list capacity first parser heap with
  | zero => simp [parse_component_list_loop_heap, parse_component_list_loop]
  | succ k ih =>
    have hfree := free_component_list_spec hi list hw hh
    unfold parse_component_list_loop_heap parse_component_list_loop
    rcases e1 : QueryParser_next_token parser with ⟨tok, p1⟩
    simp only []
    by_cases hR : tok.type = TOKEN_RPAREN
    · simp only [if_pos hR]
      exact ⟨trivial, trivial, hw, hh⟩
    simp only [if_neg hR]
    have step : ∀ (tok2 : Token) (p2 : QueryParser),
        match (if tok2.type = TOKEN_IDENTIFIER then
            parse_component_list_loop_heap k
              { list := (append_component_name_heap heap list capacity
                  (copy_token_text p2 tok2)).1,
                capacity := (append_component_name_heap heap list capacity
                  (copy_token_text p2 tok2)).2.1,
                first := false, parser := p2,
                heap := (append_component_name_heap heap list capacity
                  (copy_token_text p2 tok2)).2.2 }
          else some (none, p2, free_component_list heap list)),
          (if tok2.type = TOKEN_IDENTIFIER then
            parse_component_list_loop k
              { list := (append_component_name list.erase capacity
                  (copy_token_text p2 tok2)).1,
                capacity := (append_component_name list.erase capacity
                  (copy_token_text p2 tok2)).2,
                first := false, parser := p2 }
          else some (none, p2)) with
        | none, none => True
        | some (none, p, h), some (none, p2) => p = p2 ∧ Heap.Holds h0 h ∅
        | some (some l, p, h), some (some l2, p2) =>
          p = p2 ∧ l.erase = l2 ∧ l.WF ∧ Heap.Holds h0 h l.blocks.toFinset
        | _, _ => False := by
      intro tok2 p2
      by_cases hI : tok2.type = TOKEN_IDENTIFIER
      · simp only [if_pos hI]
        obtain ⟨a1, a2, a3, a4⟩ :=
          append_component_name_heap_spec hi list capacity (copy_token_text p2 tok2) hw hh
        rw [← a3, ← a4]
        exact ih _ _ false p2 _ a1 a2
      · simp only [if_neg hI]
        exact ⟨trivial, hfree⟩
    cases first with
    | true =>
      simp only [Bool.not_true, Bool.false_eq_true, if_false]
      exact step tok p1
    | false =>
      simp only [Bool.not_false, if_true]
      by_cases hC : tok.type = TOKEN_COMMA
      · simp only [hC, ne_eq, not_true_eq_false, if_false]
        rcases e2 : QueryParser_next_token p1 with ⟨tok2, p2⟩
        exact step tok2 p2
      · simp only [hC, ne_eq, not_false_eq_true, if_true]
        exact ⟨trivial, hfree⟩

theorem holds_alloc_free {h0 h : Heap} {S : Finset Nat} (hi : h0.Inv)
    (hh : Heap.Holds h0 h S) : Heap.Holds h0 ((h.ALLOC).2.FREE (some h.next)) S := by
  obtain ⟨-, b2, b3⟩ := holds_alloc hh
  have := holds_free hi b3 h.next (Finset.mem_insert_self _ _)
  rw [Finset.erase_insert b2] at this
  exact this

theorem parse_component_list_heap_spec (h0 : Heap) (hi : h0.Inv) (p : QueryParser)
    (hwf : p.WF) :
    (parse_component_list_heap h0 p).2.1 = (parse_component_list p).2 ∧
    (parse_component_list_heap h0 p).1.map HeapComponentList.erase = (parse_component_list p).1 ∧
    match (parse_component_list_heap h0 p).1 with
    | none => Heap.Holds h0 (parse_component_list_heap h0 p).2.2 ∅
    | some l => l.WF ∧ Heap.Holds h0 (parse_component_list_heap h0 p).2.2 l.blocks.toFinset := by
  obtain ⟨w1, -, -, -, -⟩ := next_token_spec p hwf
  unfold parse_component_list_heap parse_component_list
  rcases e1 : QueryParser_next_token p with ⟨tok, p1⟩
  rw [e1] at w1
  simp only [] at w1 ⊢
  by_cases hL : tok.type = TOKEN_LPAREN
  · simp only [hL, ne_eq, not_true_eq_false, if_false]
    obtain ⟨-, a2, a3⟩ := holds_alloc (holds_refl h0)
    obtain ⟨-, b2, b3⟩ := holds_alloc a3
    have hne : h0.next ≠ h0.next + 1 := by omega
    have hw0 : HeapComponentList.WF
        { block := h0.next, componentNames := some (h0.next + 1), names := [], count := 0 } := by
      refine ⟨rfl, rfl, ?_⟩
      have := componentList_blocks_eq h0.next (h0.next + 1) []
      simp only [List.length_nil, List.map_nil] at this
      rw [this]
      simp
    have hh0 : Heap.Holds h0 ((h0.ALLOC).2.ALLOC).2
        (HeapComponentList.blocks
          { block := h0.next, componentNames := some (h0.next + 1), names := [],
            count := 0 }).toFinset := by
      have := componentList_blocks_eq h0.next (h0.next + 1) []
      simp only [List.length_nil, List.map_nil] at this
      rw [this]
      have e : [h0.next, h0.next + 1].toFinset = insert (h0.ALLOC).2.next (insert h0.next ∅) := by
        ext x
        simp only [List.toFinset_cons, List.toFinset_nil, Finset.mem_insert,
          Finset.not_mem_empty, or_false]
        show x = h0.next ∨ x = h0.next + 1 ↔ x = h0.next + 1 ∨ x = h0.next
        tauto
      rw [e]
      exact b3
    have hs := parse_component_list_loop_heap_spec hi (p1.length - p1.position + 1)
      { block := h0.next, componentNames := some (h0.next + 1), names := [], count := 0 }
      4 true p1 ((h0.ALLOC).2.ALLOC).2 hw0 hh0
    have ht := parse_component_list_loop_terminates [] 4 true p1 w1
      (p1.length - p1.position + 1) (Nat.lt_succ_self _)
    have e0 : HeapComponentList.erase
        { block := h0.next, componentNames := some (h0.next + 1), names := [], count := 0 } =
        ComponentList.ofNames [] := rfl
    have e00 : ({ componentNames := [], count := 0 } : ComponentList) =
        ComponentList.ofNames [] := rfl
    rw [e0] at hs
    rw [e00]
    revert hs
    generalize parse_component_list_loop (p1.length - p1.position + 1)
      { list := ComponentList.ofNames [], capacity := 4, first := true, parser := p1 } = c at ht ⊢
    have ea : (h0.ALLOC).1 = h0.next := rfl
    have eb : ((h0.ALLOC).2.ALLOC).1 = h0.next + 1 := rfl
    simp only [ea, eb]
    generalize parse_component_list_loop_heap (p1.length - p1.position + 1)
      { list := { block := h0.next, componentNames := some (h0.next + 1), names := [],
                  count := 0 },
        capacity := 4, first := true, parser := p1, heap := ((h0.ALLOC).2.ALLOC).2 } = a
    intro hs
    match a, c, hs, ht with
    | none, none, _, ht => exact absurd rfl ht
    | some (none, q, g), some (none, q2), hs, _ =>
      exact ⟨hs.1, rfl, hs.2⟩
    | some (some l, q, g), some (some l2, q2), hs, _ =>
      obtain ⟨s1, s2, s3, s4⟩ := hs
      subst s1 s2
      have hcount : l.erase.count = l.count := rfl
      simp only [hcount]
      by_cases hz : l.count = 0
      · simp only [hz, if_true]
        refine ⟨trivial, rfl, ?_⟩
        obtain ⟨block, arr, names, rfl, hnd⟩ := componentList_wf_cases l s3
        simp only [] at hz
        have hn : names = [] := List.length_eq_zero.mp hz
        subst hn
        rw [componentList_blocks_eq] at s4
        simp only [List.map_nil, List.nodup_cons, List.mem_singleton, List.not_mem_nil,
          not_false_eq_true, List.nodup_nil, and_true] at hnd
        have f1 := holds_free hi s4 arr (by simp)
        have f2 := holds_free hi f1 block (by
          simp only [List.map_nil, List.toFinset_cons, List.toFinset_nil, Finset.mem_erase,
            Finset.mem_insert, Finset.not_mem_empty, or_false, true_or, and_true]
          exact hnd)
        have e : (([block, arr] : List Nat).toFinset.erase arr).erase block = ∅ := by
          ext x
          simp only [List.toFinset_cons, List.toFinset_nil, Finset.mem_erase, Finset.mem_insert,
            Finset.not_mem_empty, or_false, iff_false]
          tauto
        simp only [List.map_nil] at f2
        rw [e] at f2
        exact f2
      · simp only [hz, if_false]
        exact ⟨trivial, rfl, s3, s4⟩
  · simp only [hL, ne_eq, not_false_eq_true, if_true]
    exact ⟨trivial, rfl, holds_alloc_free hi (holds_refl h0)⟩

theorem parse_predicate_heap_spec (h0 : Heap) (hi : h0.Inv) (p : QueryParser) (hwf : p.WF) :
    (parse_predicate_heap h0 p).2.1 = (parse_predicate p).2 ∧
    (parse_predicate_heap h0 p).1.map HeapQueryAST.erase = (parse_predicate p).1 ∧
    match (parse_predicate_heap h0 p).1 with
    | none => Heap.Holds h0 (parse_predicate_heap h0 p).2.2 ∅
    | some t => ∃ kind l, isPredicateKind kind ∧
        t = .node h0.next kind (.componentList l) none none none 0 ∧ l.WF ∧
        h0.next ∉ l.blocks ∧
        Heap.Holds h0 (parse_predicate_heap h0 p).2.2 (insert h0.next l.blocks.toFinset) := by
  obtain ⟨w1, -, -, -, -⟩ := next_token_spec p hwf
  rcases e1 : QueryParser_next_token p with ⟨tok, p1⟩
  rw [e1] at w1
  simp only [] at w1
  obtain ⟨-, a2, a3⟩ := holds_alloc (holds_refl h0)
  have hi1 : (h0.ALLOC).2.Inv := holds_inv hi a3
  obtain ⟨c1, c2, c3⟩ := parse_component_list_heap_spec (h0.ALLOC).2 hi1 p1 w1
  have tail : ∀ (kind : ASTNodeType), isPredicateKind kind →
      (match parse_component_list_heap (h0.ALLOC).2 p1 with
        | (none, parser, h) => ((none : Option HeapQueryAST), parser, h.FREE (some h0.next))
        | (some list, parser, h) =>
          (some (.node h0.next kind (.componentList list) none none none 0), parser, h)).2.1 =
      (match parse_component_list p1 with
        | (none, parser) => ((none : Option QueryAST), parser)
        | (some list, parser) => (some (.node kind (.componentList list) none none none 0),
            parser)).2 ∧
      (match parse_component_list_heap (h0.ALLOC).2 p1 with
        | (none, parser, h) => ((none : Option HeapQueryAST), parser, h.FREE (some h0.next))
        | (some list, parser, h) =>
          (some (.node h0.next kind (.componentList list) none none none 0), parser,
            h)).1.map HeapQueryAST.erase =
      (match parse_component_list p1 with
        | (none, parser) => ((none : Option QueryAST), parser)
        | (some list, parser) => (some (.node kind (.componentList list) none none none 0),
            parser)).1 ∧
      match (match parse_component_list_heap (h0.ALLOC).2 p1 with
        | (none, parser, h) => ((none : Option HeapQueryAST), parser, h.FREE (some h0.next))
        | (some list, parser, h) =>
          (some (.node h0.next kind (.componentList list) none none none 0), parser,
            h)).1 with
      | none => Heap.Holds h0
          (match parse_component_list_heap (h0.ALLOC).2 p1 with
            | (none, parser, h) => ((none : Option HeapQueryAST), parser, h.FREE (some h0.next))
            | (some list, parser, h) =>
              (some (.node h0.next kind (.componentList list) none none none 0), parser,
                h)).2.2 ∅
      | some t => ∃ kind2 l, isPredicateKind kind2 ∧
          t = .node h0.next kind2 (.componentList l) none none none 0 ∧ l.WF ∧
          h0.next ∉ l.blocks ∧
          Heap.Holds h0
            (match parse_component_list_heap (h0.ALLOC).2 p1 with
              | (none, parser, h) => ((none : Option HeapQueryAST), parser,
                  h.FREE (some h0.next))
              | (some list, parser, h) =>
                (some (.node h0.next kind (.componentList list) none none none 0), parser,
                  h)).2.2 (insert h0.next l.blocks.toFinset) := by
    intro kind hk
    rcases hs : parse_component_list_heap (h0.ALLOC).2 p1 with ⟨l, q, g⟩
    rcases ho : parse_component_list p1 with ⟨l2, q2⟩
    rw [hs, ho] at c1 c2
    rw [hs] at c3
    simp only [] at c1 c2 c3
    subst c1
    cases l with
    | none =>
      simp only [Option.map_none'] at c2
      subst c2
      simp only [] at c3 ⊢
      have t1 := holds_trans a3 c3
      rw [Finset.union_empty] at t1
      have t2 := holds_free hi t1 h0.next (Finset.mem_insert_self _ _)
      rw [Finset.erase_insert (Finset.not_mem_empty _)] at t2
      exact ⟨trivial, rfl, t2⟩
    | some list =>
      simp only [Option.map_some'] at c2
      subst c2
      simp only [] at c3 ⊢
      obtain ⟨lw, lh⟩ := c3
      have t1 := holds_trans a3 lh
      have hnot : h0.next ∉ list.blocks := by
        intro hm
        have := (lh.2.2.2 h0.next (List.mem_toFinset.mpr hm)).1
        have e : (h0.ALLOC).2.next = h0.next + 1 := rfl
        omega
      refine ⟨trivial, rfl, kind, list, hk, rfl, lw, hnot, ?_⟩
      have e : insert h0.next (∅ : Finset Nat) ∪ list.blocks.toFinset =
          insert h0.next list.blocks.toFinset := by
        rw [Finset.insert_union, Finset.empty_union]
      rw [← e]
      exact t1
  unfold parse_predicate_heap parse_predicate
  rw [e1]
  have ea : (h0.ALLOC).1 = h0.next := rfl
  simp only [ea]
  by_cases h1 : tok.type = TOKEN_HAS
  · simp only [if_pos h1]
    exact tail AST_HAS (Or.inl rfl)
  · simp only [if_neg h1]
    by_cases h2 : tok.type = TOKEN_HAS_ANY
    · simp only [if_pos h2]
      exact tail AST_HAS_ANY (Or.inr (Or.inl rfl))
    · simp only [if_neg h2]
      by_cases h3 : tok.type = TOKEN_NOT_HAS
      · simp only [if_pos h3]
        exact tail AST_NOT_HAS (Or.inr (Or.inr rfl))
      · simp only [if_neg h3]
        exact ⟨trivial, rfl, holds_alloc_free hi (holds_refl h0)⟩

theorem free_component_list_frame {h0 h : Heap} {S : Finset Nat} (hi : h0.Inv)
    (list : HeapComponentList) (hw : list.WF) (hh : Heap.Holds h0 h S)
    (hsub : ∀ b ∈ list.blocks, b ∈ S) :
    Heap.Holds h0 (free_component_list h list) (S \ list.blocks.toFinset) := by
  obtain ⟨block, arr, names, rfl, hnd⟩ := componentList_wf_cases list hw
  rw [componentList_blocks_eq] at hsub ⊢
  rw [List.nodup_cons, List.nodup_cons] at hnd
  obtain ⟨n1, n2, n3⟩ := hnd
  simp only [List.mem_cons, not_or] at n1
  unfold free_component_list free_component_names
  simp only [List.take_length]
  have a1 := holds_free_names hi names h _ hh n3 (by
    intro b hb
    exact hsub b (List.mem_cons_of_mem _ (List.mem_cons_of_mem _ hb)))
  have a2 := holds_free hi a1 arr (by
    rw [Finset.mem_sdiff]
    exact ⟨hsub arr (by simp), fun hm => n2 (List.mem_toFinset.mp hm)⟩)
  have a3 := holds_free hi a2 block (by
    rw [Finset.mem_erase, Finset.mem_sdiff]
    exact ⟨n1.1, hsub block (by simp), fun hm => n1.2 (List.mem_toFinset.mp hm)⟩)
  have e : ((S \ (names.map Prod.fst).toFinset).erase arr).erase block =
      S \ (block :: arr :: names.map Prod.fst).toFinset := by
    ext x
    simp only [List.toFinset_cons, Finset.mem_erase, Finset.mem_sdiff, Finset.mem_insert,
      List.mem_toFinset]
    tauto
  rw [e] at a3
  exact a3

theorem destroy_data_list {h0 h : Heap} {S : Finset Nat} (hi : h0.Inv) (kind : ASTNodeType)
    (hk : isPredicateKind kind) (list : HeapComponentList) (hw : list.WF)
    (hh : Heap.Holds h0 h S) (hsub : ∀ b ∈ list.blocks, b ∈ S) :
    Heap.Holds h0 (QueryAST_destroy_data kind (.componentList list) h)
      (S \ list.blocks.toFinset) := by
  have e : QueryAST_destroy_data kind (.componentList list) h = free_component_list h list := by
    obtain ⟨block, arr, names, rfl, -⟩ := componentList_wf_cases list hw
    unfold QueryAST_destroy_data free_component_list
    simp only []
    have hk2 : kind = AST_HAS ∨ kind = AST_HAS_ANY ∨ kind = AST_NOT_HAS := hk
    rw [if_pos hk2]
  rw [e]
  exact free_component_list_frame hi list hw hh hsub

theorem destroy_predicate_node {h0 h : Heap} {S : Finset Nat} (hi : h0.Inv) (pb : Nat)
    (kind : ASTNodeType) (hk : isPredicateKind kind) (list : HeapComponentList) (hw : list.WF)
    (hh : Heap.Holds h0 h S) (hpb : pb ∈ S) (hnot : pb ∉ list.blocks)
    (hsub : ∀ b ∈ list.blocks, b ∈ S) :
    Heap.Holds h0
      (QueryAST_destroy_node (.node pb kind (.componentList list) none none none 0) h)
      (S \ (pb :: list.blocks).toFinset) := by
  have a1 := destroy_data_list hi kind hk list hw hh hsub
  have a2 := holds_free hi a1 pb (by
    rw [Finset.mem_sdiff]
    exact ⟨hpb, fun hm => hnot (List.mem_toFinset.mp hm)⟩)
  have e : (S \ list.blocks.toFinset).erase pb = S \ (pb :: list.blocks).toFinset := by
    ext x
    simp only [List.toFinset_cons, Finset.mem_erase, Finset.mem_sdiff, Finset.mem_insert,
      List.mem_toFinset]
    tauto
  rw [e] at a2
  simp only [QueryAST_destroy_node]
  exact a2

theorem statement_node_held {h0 h : Heap} (hi : h0.Inv) (a : Nat) (type : ASTNodeType)
    (hh : Heap.Holds h0 h {a}) :
    Heap.HoldsTree h0 h (.node a type .null none none none 0) := by
  unfold Heap.HoldsTree QueryAST_destroy
  simp only []
  have eb : (HeapQueryAST.node a type .null none none none 0).blocks = [a] := by
    simp [HeapQueryAST.blocks, HeapASTData.blocks]
  rw [eb]
  refine ⟨List.nodup_singleton a, by simpa using hh, ?_⟩
  have a1 := holds_free hi hh a (Finset.mem_singleton_self a)
  rw [Finset.erase_singleton] at a1
  simp only [QueryAST_destroy_node, QueryAST_destroy_data]
  exact a1

theorem statement_with_predicate_held {h0 h : Heap} (hi : h0.Inv) (a pb : Nat)
    (type kind : ASTNodeType) (hk : isPredicateKind kind) (list : HeapComponentList)
    (hw : list.WF) (hab : a ≠ pb) (ha : a ∉ list.blocks) (hpb : pb ∉ list.blocks)
    (hh : Heap.Holds h0 h (insert a (insert pb list.blocks.toFinset))) :
    Heap.HoldsTree h0 h (.node a type .null
      (some (.node pb kind (.componentList list) none none none 0)) none none 0) := by
  unfold Heap.HoldsTree QueryAST_destroy
  simp only []
  have eb : (HeapQueryAST.node a type .null
      (some (.node pb kind (.componentList list) none none none 0)) none none 0).blocks =
      a :: pb :: list.blocks := by
    simp [HeapQueryAST.blocks, HeapASTData.blocks]
  rw [eb]
  refine ⟨?_, by simpa using hh, ?_⟩
  · rw [List.nodup_cons, List.nodup_cons]
    refine ⟨?_, hpb, hw.2.2⟩
    simp only [List.mem_cons, not_or]
    exact ⟨hab, ha⟩
  · have a1 := destroy_predicate_node hi pb kind hk list hw hh (by simp) hpb (by
      intro b hb
      simp only [Finset.mem_insert, List.mem_toFinset]
      exact Or.inr (Or.inr hb))
    have a2 := holds_free hi a1 a (by
      simp only [List.toFinset_cons, Finset.mem_sdiff, Finset.mem_insert, List.mem_toFinset,
        true_or, true_and, not_or]
      exact ⟨hab, ha⟩)
    have e : ((insert a (insert pb list.blocks.toFinset)) \
        (pb :: list.blocks).toFinset).erase a = ∅ := by
      ext x
      simp only [List.toFinset_cons, Finset.mem_erase, Finset.mem_sdiff, Finset.mem_insert,
        List.mem_toFinset, Finset.not_mem_empty, iff_false]
      tauto
    rw [e] at a2
    simp only [QueryAST_destroy_node, QueryAST_destroy_data]
    exact a2

theorem show_node_held {h0 h : Heap} (hi : h0.Inv) (a sd eb : Nat)
    (componentName : Option (Nat × List Char)) (idData : EntityIdData)
    (hnd : (a :: sd :: ((componentName.map Prod.fst).toList ++ [eb])).Nodup)
    (hh : Heap.Holds h0 h (a :: sd :: ((componentName.map Prod.fst).toList ++ [eb])).toFinset) :
    Heap.HoldsTree h0 h (.node a AST_SHOW
      (.showData { block := sd, componentName := componentName, entityId := some (eb, idData) })
      none none none 0) := by
  unfold Heap.HoldsTree QueryAST_destroy
  simp only []
  have eb2 : (HeapQueryAST.node a AST_SHOW
      (.showData { block := sd, componentName := componentName, entityId := some (eb, idData) })
      none none none 0).blocks = a :: sd :: ((componentName.map Prod.fst).toList ++ [eb]) := by
    simp [HeapQueryAST.blocks, HeapASTData.blocks]
  rw [eb2]
  refine ⟨hnd, hh, ?_⟩
  have hs : ¬ (AST_SHOW = AST_HAS ∨ AST_SHOW = AST_HAS_ANY ∨ AST_SHOW = AST_NOT_HAS) := by
    decide
  simp only [QueryAST_destroy_node, QueryAST_destroy_data, if_neg hs, if_true]
  cases componentName with
  | none =>
    simp only [Option.map_none', Option.toList_none, List.nil_append, List.nodup_cons,
      List.mem_cons, List.mem_singleton, List.not_mem_nil, not_or, not_false_eq_true,
      List.nodup_nil, and_true] at hnd hh ⊢
    obtain ⟨⟨n1, n2⟩, n3⟩ := hnd
    have a1 := holds_free hi hh eb (by simp)
    have a2 := holds_free hi a1 sd (by
      simp only [List.toFinset_cons, List.toFinset_nil, Finset.mem_erase, Finset.mem_insert,
        Finset.not_mem_empty, or_false, true_or, or_true, and_true]
      exact n3)
    have a3 := holds_free hi a2 a (by
      simp only [List.toFinset_cons, List.toFinset_nil, Finset.mem_erase, Finset.mem_insert,
        Finset.not_mem_empty, or_false, true_or, and_true]
      exact ⟨n1, n2⟩)
    have e : ((([a, sd, eb] : List Nat).toFinset.erase eb).erase sd).erase a = ∅ := by
      ext x
      simp only [List.toFinset_cons, List.toFinset_nil, Finset.mem_erase, Finset.mem_insert,
        Finset.not_mem_empty, or_false, iff_false]
      tauto
    rw [e] at a3
    exact a3
  | some name =>
    simp only [Option.map_some', Option.toList_some, List.singleton_append, List.nodup_cons,
      List.mem_cons, List.mem_singleton, List.not_mem_nil, not_or, not_false_eq_true,
      List.nodup_nil, and_true] at hnd hh ⊢
    obtain ⟨⟨n1, n2, n3⟩, ⟨n4, n5⟩, n6⟩ := hnd
    have a0 := holds_free hi hh name.1 (by simp)
    have a1 := holds_free hi a0 eb (by
      simp only [List.toFinset_cons, List.toFinset_nil, Finset.mem_erase, Finset.mem_insert,
        Finset.not_mem_empty, or_false, or_true, and_true]
      exact fun q => n6 q.symm)
    have a2 := holds_free hi a1 sd (by
      simp only [List.toFinset_cons, List.toFinset_nil, Finset.mem_erase, Finset.mem_insert,
        Finset.not_mem_empty, or_false, true_or, or_true, and_true]
      exact ⟨n5, n4⟩)
    have a3 := holds_free hi a2 a (by
      simp only [List.toFinset_cons, List.toFinset_nil, Finset.mem_erase, Finset.mem_insert,
        Finset.not_mem_empty, or_false, true_or, and_true]
      exact ⟨n1, n3, n2⟩)
    have e : (((([a, sd, name.1, eb] : List Nat).toFinset.erase name.1).erase eb).erase
        sd).erase a = ∅ := by
      ext x
      simp only [List.toFinset_cons, List.toFinset_nil, Finset.mem_erase, Finset.mem_insert,
        Finset.not_mem_empty, or_false, iff_false]
      tauto
    rw [e] at a3
    exact a3

theorem erase_statement_node (a : Nat) (type : ASTNodeType) (left : Option HeapQueryAST) :
    (HeapQueryAST.node a type .null left none none 0).erase =
      .node type .null (left.map HeapQueryAST.erase) none none 0 := by
  cases left <;> simp [HeapQueryAST.erase, HeapASTData.erase]

theorem peek_token_eq (p : QueryParser) :
    QueryParser_peek_token p = ((QueryParser_next_token p).1, p) :=
  Prod.ext rfl (peek_token_restores p)

section HeapStatements

attribute [local irreducible] QueryParser_next_token QueryParser_peek_token parse_predicate
  parse_predicate_heap parse_entity_id parse_entity_id_heap QueryAST_destroy_node
  QueryAST_destroy

theorem parse_entities_heap_spec (h0 h : Heap) (hi : h0.Inv) (a : Nat) (type : ASTNodeType)
    (hh : Heap.Holds h0 h {a}) (p0 p : QueryParser) (tok0 : Token) (hwf : p.WF)
    (e0 : QueryParser_next_token p0 = (tok0, p))
    (ht : (tok0.type = TOKEN_SELECT ∧ type = AST_SELECT) ∨
      (tok0.type = TOKEN_COUNT ∧ type = AST_COUNT)) :
    (parse_entities_heap a type h p).2.1 = (QueryParser_parse p0).2 ∧
    (parse_entities_heap a type h p).1.map HeapQueryAST.erase = (QueryParser_parse p0).1 ∧
    match (parse_entities_heap a type h p).1 with
    | none => Heap.Holds h0 (parse_entities_heap a type h p).2.2 ∅
    | some t => Heap.HoldsTree h0 (parse_entities_heap a type h p).2.2 t := by
  have hi1 : h.Inv := holds_inv hi hh
  have ha : a < h.next := (hh.2.2.2 a (Finset.mem_singleton_self a)).2
  have hfree : Heap.Holds h0 (h.FREE (some a)) ∅ := by
    have := holds_free hi hh a (Finset.mem_singleton_self a)
    rw [Finset.erase_singleton] at this
    exact this
  obtain ⟨w1, -, -, -, -⟩ := next_token_spec p hwf
  rcases e1 : QueryParser_next_token p with ⟨tok, p1⟩
  rw [e1] at w1
  simp only [] at w1
  have epk := peek_token_eq p1
  obtain ⟨w2, -, -, -, -⟩ := next_token_spec p1 w1
  rcases e2 : QueryParser_next_token p1 with ⟨tok2, p2⟩
  rw [e2] at w2 epk
  simp only [] at w2 epk
  obtain ⟨c1, c2, c3⟩ := parse_predicate_heap_spec h hi1 p2 w2
  unfold QueryParser_parse parse_entities_heap
  rw [e0]
  rcases ht with ⟨h1, rfl⟩ | ⟨h1, rfl⟩
  all_goals
    simp only [h1, reduceCtorEq, if_true, if_false, e1]
    by_cases hE : tok.type = TOKEN_ENTITIES
    · simp only [hE, ne_eq, not_true_eq_false, if_false, epk, e2]
      by_cases hW : tok2.type = TOKEN_WHERE
      · simp only [hW, if_true]
        rcases hs : parse_predicate_heap h p2 with ⟨l, q, g⟩
        rcases ho : parse_predicate p2 with ⟨l2, q2⟩
        rw [hs, ho] at c1 c2
        rw [hs] at c3
        simp only [] at c1 c2 c3
        subst c1
        cases l with
        | none =>
          simp only [Option.map_none'] at c2
          subst c2
          simp only [] at c3 ⊢
          have t1 := holds_trans hh c3
          rw [Finset.union_empty] at t1
          have t2 := holds_free hi t1 a (Finset.mem_singleton_self a)
          rw [Finset.erase_singleton] at t2
          exact ⟨trivial, rfl, t2⟩
        | some t =>
          simp only [Option.map_some'] at c2
          subst c2
          simp only [] at c3 ⊢
          obtain ⟨kind, list, hk, rfl, lw, hnot, lh⟩ := c3
          have t1 := holds_trans hh lh
          have e : ({a} : Finset Nat) ∪ insert h.next list.blocks.toFinset =
              insert a (insert h.next list.blocks.toFinset) := by
            rw [← Finset.insert_eq]
          rw [e] at t1
          have hab : a ≠ h.next := by omega
          have hal : a ∉ list.blocks := by
            intro hm
            have := (lh.2.2.2 a (Finset.mem_insert_of_mem (List.mem_toFinset.mpr hm))).1
            omega
          have held := fun ty => statement_with_predicate_held hi a h.next ty kind hk list lw hab hal hnot t1
          rcases e3 : QueryParser_next_token q with ⟨tok3, p3⟩
          simp only []
          by_cases hF : tok3.type = TOKEN_EOF
          · simp only [hF, ne_eq, not_true_eq_false, if_false]
            refine ⟨trivial, ?_, held _⟩
            rw [Option.map_some', erase_statement_node]
            rfl
          · simp only [hF, ne_eq, not_false_eq_true, if_true]
            exact ⟨trivial, rfl, (held _).2.2⟩

      · simp only [hW, if_false, e2]
        have held := fun ty => statement_node_held hi a ty hh
        by_cases hF : tok2.type = TOKEN_EOF
        · simp only [hF, ne_eq, not_true_eq_false, if_false]
          refine ⟨trivial, ?_, held _⟩
          rw [Option.map_some', erase_statement_node]
          rfl
        · simp only [hF, ne_eq, not_false_eq_true, if_true]
          exact ⟨trivial, rfl, (held _).2.2⟩

    · simp only [hE, ne_eq, not_false_eq_true, if_true]
      exact ⟨trivial, rfl, hfree⟩

end HeapStatements

theorem show_blocks_freed {h0 h : Heap} (hi : h0.Inv) (a sd : Nat)
    (componentName : Option (Nat × List Char))
    (hnd : (a :: sd :: (componentName.map Prod.fst).toList).Nodup)
    (hh : Heap.Holds h0 h (a :: sd :: (componentName.map Prod.fst).toList).toFinset) :
    Heap.Holds h0 (((h.FREE (componentName.map Prod.fst)).FREE (some sd)).FREE (some a)) ∅ := by
  cases componentName with
  | none =>
    simp only [Option.map_none', Option.toList_none, List.nodup_cons, List.mem_singleton,
      List.not_mem_nil, not_false_eq_true, List.nodup_nil, and_true] at hnd hh ⊢
    have a2 := holds_free hi hh sd (by simp)
    have a3 := holds_free hi a2 a (by
      simp only [List.toFinset_cons, List.toFinset_nil, Finset.mem_erase, Finset.mem_insert,
        Finset.not_mem_empty, or_false, true_or, and_true]
      exact hnd)
    have e : (([a, sd] : List Nat).toFinset.erase sd).erase a = ∅ := by
      ext x
      simp only [List.toFinset_cons, List.toFinset_nil, Finset.mem_erase, Finset.mem_insert,
        Finset.not_mem_empty, or_false, iff_false]
      tauto
    rw [e] at a3
    exact a3
  | some name =>
    simp only [Option.map_some', Option.toList_some, List.nodup_cons, List.mem_cons,
      List.mem_singleton, List.not_mem_nil, not_or, not_false_eq_true, List.nodup_nil,
      and_true] at hnd hh ⊢
    obtain ⟨⟨n1, n2⟩, n3⟩ := hnd
    have a1 := holds_free hi hh name.1 (by simp)
    have a2 := holds_free hi a1 sd (by
      simp only [List.toFinset_cons, List.toFinset_nil, Finset.mem_erase, Finset.mem_insert,
        Finset.not_mem_empty, or_false, true_or, or_true, and_true]
      exact n3)
    have a3 := holds_free hi a2 a (by
      simp only [List.toFinset_cons, List.toFinset_nil, Finset.mem_erase, Finset.mem_insert,
        Finset.not_mem_empty, or_false, true_or, and_true]
      exact ⟨n1, n2⟩)
    have e : ((([a, sd, name.1] : List Nat).toFinset.erase name.1).erase sd).erase a = ∅ := by
      ext x
      simp only [List.toFinset_cons, List.toFinset_nil, Finset.mem_erase, Finset.mem_insert,
        Finset.not_mem_empty, or_false, iff_false]
      tauto
    rw [e] at a3
    exact a3

theorem show_blocks_entity {h0 h : Heap} (hi : h0.Inv) (a sd : Nat)
    (componentName : Option (Nat × List Char)) (idData : EntityIdData)
    (hnd : (a :: sd :: (componentName.map Prod.fst).toList).Nodup)
    (hh : Heap.Holds h0 h (a :: sd :: (componentName.map Prod.fst).toList).toFinset) :
    Heap.HoldsTree h0 (h.ALLOC).2 (.node a AST_SHOW
      (.showData { block := sd, componentName := componentName,
                   entityId := some (h.next, idData) })
      none none none 0) := by
  obtain ⟨-, b2, b3⟩ := holds_alloc hh
  refine show_node_held hi a sd h.next componentName idData ?_ ?_
  · have hperm : (a :: sd :: ((componentName.map Prod.fst).toList ++ [h.next])).Perm
        (h.next :: a :: sd :: (componentName.map Prod.fst).toList) := by
      have := List.perm_append_singleton h.next (a :: sd :: (componentName.map Prod.fst).toList)
      simpa using this
    rw [hperm.nodup_iff, List.nodup_cons]
    exact ⟨fun hm => b2 (List.mem_toFinset.mpr hm), hnd⟩
  · have e : insert h.next (a :: sd :: (componentName.map Prod.fst).toList).toFinset =
        (a :: sd :: ((componentName.map Prod.fst).toList ++ [h.next])).toFinset := by
      ext x
      simp only [List.toFinset_cons, Finset.mem_insert, List.mem_toFinset, List.mem_append,
        List.mem_singleton]
      tauto
    rw [← e]
    exact b3

theorem erase_show_node (a sd : Nat) (componentName : Option (Nat × List Char))
    (entityId : Nat × EntityIdData) :
    (HeapQueryAST.node a AST_SHOW
      (.showData { block := sd, componentName := componentName, entityId := some entityId })
      none none none 0).erase =
      .node AST_SHOW
        (.showData { componentName := componentName.map Prod.snd, entityId := some entityId.2 })
        none none none 0 := by
  simp [HeapQueryAST.erase, HeapASTData.erase]

section HeapShow

attribute [local irreducible] QueryParser_next_token QueryParser_peek_token parse_predicate
  parse_predicate_heap parse_entity_id QueryAST_destroy_node QueryAST_destroy

theorem parse_show_heap_spec (h0 h : Heap) (hi : h0.Inv) (a : Nat) (hh : Heap.Holds h0 h {a})
    (p0 p : QueryParser) (tok0 : Token) (e0 : QueryParser_next_token p0 = (tok0, p))
    (ht : tok0.type = TOKEN_SHOW) :
    (parse_show_heap a h p).2.1 = (QueryParser_parse p0).2 ∧
    (parse_show_heap a h p).1.map HeapQueryAST.erase = (QueryParser_parse p0).1 ∧
    match (parse_show_heap a h p).1 with
    | none => Heap.Holds h0 (parse_show_heap a h p).2.2 ∅
    | some t => Heap.HoldsTree h0 (parse_show_heap a h p).2.2 t := by
  have ha : a < h.next := (hh.2.2.2 a (Finset.mem_singleton_self a)).2
  obtain ⟨-, b2, b3⟩ := holds_alloc hh
  have hsd : Heap.Holds h0 (h.ALLOC).2 ([a, h.next] : List Nat).toFinset := by
    have e : ([a, h.next] : List Nat).toFinset = insert h.next {a} := by
      ext x
      simp only [List.toFinset_cons, List.toFinset_nil, Finset.mem_insert,
        Finset.mem_singleton, Finset.not_mem_empty, or_false]
      tauto
    rw [e]
    exact b3
  have hnd2 : ([a, h.next] : List Nat).Nodup := by
    simp only [List.nodup_cons, List.mem_singleton, List.not_mem_nil, not_false_eq_true,
      List.nodup_nil, and_true]
    omega
  obtain ⟨-, d2, d3⟩ := holds_alloc hsd
  have hnb : Heap.Holds h0 ((h.ALLOC).2.ALLOC).2 ([a, h.next, h.next + 1] : List Nat).toFinset := by
    have e : ([a, h.next, h.next + 1] : List Nat).toFinset =
        insert (h.ALLOC).2.next ([a, h.next] : List Nat).toFinset := by
      ext x
      simp only [List.toFinset_cons, List.toFinset_nil, Finset.mem_insert,
        Finset.not_mem_empty, or_false]
      show x = a ∨ x = h.next ∨ x = h.next + 1 ↔ x = h.next + 1 ∨ x = a ∨ x = h.next
      tauto
    rw [e]
    exact d3
  have hnd3 : ([a, h.next, h.next + 1] : List Nat).Nodup := by
    simp only [List.nodup_cons, List.mem_cons, List.mem_singleton, List.not_mem_nil, not_or,
      not_false_eq_true, List.nodup_nil, and_true]
    omega
  rcases e1 : QueryParser_next_token p with ⟨tok, p1⟩
  rcases e2 : QueryParser_next_token p1 with ⟨tok2, p2⟩
  rcases e3 : QueryParser_next_token p2 with ⟨tok3, p3⟩
  rcases hc : parse_entity_id p3 with ⟨l, p4⟩
  rcases e5 : QueryParser_next_token p4 with ⟨tok5, p5⟩
  have hns : ¬ tok0.type = TOKEN_SELECT := by rw [ht]; decide
  have hnc : ¬ tok0.type = TOKEN_COUNT := by rw [ht]; decide
  have ea : (h.ALLOC).1 = h.next := rfl
  have eb : ((h.ALLOC).2.ALLOC).1 = h.next + 1 := rfl
  unfold QueryParser_parse parse_show_heap parse_entity_id_heap
  simp only [e0, ht, reduceCtorEq, if_true, if_false, e1, ea, eb]
  by_cases hA : tok.type = TOKEN_ALL
  · simp only [hA, if_true, e2, e3, hc]
    have freed := show_blocks_freed hi a h.next none hnd2 hsd
    have held := fun idData => show_blocks_entity hi a h.next none idData hnd2 hsd
    by_cases hO : tok2.type = TOKEN_OF
    · simp only [hO, ne_eq, not_true_eq_false, if_false]
      by_cases hE : tok3.type = TOKEN_ENTITY
      · simp only [hE, ne_eq, not_true_eq_false, if_false]
        cases l with
        | none =>
          simp only []
          exact ⟨trivial, rfl, freed⟩
        | some idData =>
          simp only [e5]
          by_cases hF : tok5.type = TOKEN_EOF
          · simp only [hF, ne_eq, not_true_eq_false, if_false]
            refine ⟨trivial, ?_, held idData⟩
            rw [Option.map_some', erase_show_node]
            rfl
          · simp only [hF, ne_eq, not_false_eq_true, if_true]
            exact ⟨trivial, rfl, (held idData).2.2⟩
      · simp only [hE, ne_eq, not_false_eq_true, if_true]
        exact ⟨trivial, rfl, freed⟩
    · simp only [hO, ne_eq, not_false_eq_true, if_true]
      exact ⟨trivial, rfl, freed⟩
  · by_cases hI : tok.type = TOKEN_IDENTIFIER
    · simp only [hI, reduceCtorEq, if_true, if_false, e2, e3, hc]
      have freed := show_blocks_freed hi a h.next (some (h.next + 1, copy_token_text p1 tok))
        hnd3 hnb
      have held := fun idData => show_blocks_entity hi a h.next
        (some (h.next + 1, copy_token_text p1 tok)) idData hnd3 hnb
      by_cases hO : tok2.type = TOKEN_OF
      · simp only [hO, ne_eq, not_true_eq_false, if_false]
        by_cases hE : tok3.type = TOKEN_ENTITY
        · simp only [hE, ne_eq, not_true_eq_false, if_false]
          cases l with
          | none =>
            simp only []
            exact ⟨trivial, rfl, freed⟩
          | some idData =>
            simp only [e5]
            by_cases hF : tok5.type = TOKEN_EOF
            · simp only [hF, ne_eq, not_true_eq_false, if_false]
              refine ⟨trivial, ?_, held idData⟩
              rw [Option.map_some', erase_show_node]
              rfl
            · simp only [hF, ne_eq, not_false_eq_true, if_true]
              exact ⟨trivial, rfl, (held idData).2.2⟩
        · simp only [hE, ne_eq, not_false_eq_true, if_true]
          exact ⟨trivial, rfl, freed⟩
      · simp only [hO, ne_eq, not_false_eq_true, if_true]
        exact ⟨trivial, rfl, freed⟩
    · simp only [hA, hI, if_false]
      exact ⟨trivial, rfl, show_blocks_freed hi a h.next none hnd2 hsd⟩

end HeapShow

section HeapParse

attribute [local irreducible] QueryParser_next_token parse_entities_heap parse_show_heap

theorem QueryParser_parse_heap_spec (h0 : Heap) (hi : h0.Inv) (p : QueryParser) (hwf : p.WF) :
    (QueryParser_parse_heap h0 p).2.1 = (QueryParser_parse p).2 ∧
    (QueryParser_parse_heap h0 p).1.map HeapQueryAST.erase = (QueryParser_parse p).1 ∧
    match (QueryParser_parse_heap h0 p).1 with
    | none => Heap.Holds h0 (QueryParser_parse_heap h0 p).2.2 ∅
    | some t => Heap.HoldsTree h0 (QueryParser_parse_heap h0 p).2.2 t := by
  obtain ⟨w1, -, -, -, -⟩ := next_token_spec p hwf
  rcases e0 : QueryParser_next_token p with ⟨tok0, p1⟩
  rw [e0] at w1
  simp only [] at w1
  obtain ⟨-, -, a3⟩ := holds_alloc (holds_refl h0)
  have hh : Heap.Holds h0 (h0.ALLOC).2 {h0.next} := a3
  have ea : (h0.ALLOC).1 = h0.next := rfl
  unfold QueryParser_parse_heap
  simp only [e0, ea]
  by_cases hS : tok0.type = TOKEN_SELECT
  · simp only [hS, if_true]
    exact parse_entities_heap_spec h0 _ hi h0.next AST_SELECT hh p p1 tok0 w1 e0
      (Or.inl ⟨hS, rfl⟩)
  · by_cases hC : tok0.type = TOKEN_COUNT
    · simp only [hC, reduceCtorEq, if_true, if_false]
      exact parse_entities_heap_spec h0 _ hi h0.next AST_COUNT hh p p1 tok0 w1 e0
        (Or.inr ⟨hC, rfl⟩)
    · by_cases hW : tok0.type = TOKEN_SHOW
      · simp only [hW, reduceCtorEq, if_true, if_false]
        exact parse_show_heap_spec h0 _ hi h0.next hh p p1 tok0 e0 hW
      · have eo : QueryParser_parse p = (none, p1) := by
          unfold QueryParser_parse
          simp only [e0, hS, hC, hW, if_false]
        simp only [hS, hC, hW, if_false, eo]
        exact ⟨trivial, rfl, holds_alloc_free hi (holds_refl h0)⟩

end HeapParse

/-- Claim C36: the parser frees what it allocates.  `QueryParser_parse_heap`
is `QueryParser_parse` with its `ALLOC` and `FREE` calls; from a cursor over a
whole input and a heap whose live blocks are all allocated, it returns the
tree and the cursor of `QueryParser_parse`.  When the parse fails, the live
blocks are again those from before the call and no fault has been recorded:
every block the call allocated has been freed, and none twice.  When the parse
succeeds, the blocks reachable from the tree are pairwise distinct, they are
new, they are exactly the blocks the call has left live, and
`QueryAST_destroy` on the tree leaves the live blocks from before the call and
records no fault: it frees every one of them once. -/
theorem C36_parser_frees_what_it_allocates (q : List Char) (parser : QueryParser) (h0 : Heap)
    (hq : QueryParser_new (some q) = some parser) (hi : h0.Inv) :
    (QueryParser_parse_heap h0 parser).1.map HeapQueryAST.erase = (QueryParser_parse parser).1 ∧
    (QueryParser_parse_heap h0 parser).2.1 = (QueryParser_parse parser).2 ∧
    ((QueryParser_parse parser).1 = none →
      (QueryParser_parse_heap h0 parser).2.2.live = h0.live ∧
      (QueryParser_parse_heap h0 parser).2.2.fault = h0.fault) ∧
    (∀ tree, (QueryParser_parse_heap h0 parser).1 = some tree →
      tree.blocks.Nodup ∧ (∀ b ∈ tree.blocks, b ∉ h0.live) ∧
      (QueryParser_parse_heap h0 parser).2.2.live = h0.live ∪ tree.blocks.toFinset ∧
      (QueryParser_parse_heap h0 parser).2.2.fault = h0.fault ∧
      (QueryAST_destroy (some tree) (QueryParser_parse_heap h0 parser).2.2).live = h0.live ∧
      (QueryAST_destroy (some tree) (QueryParser_parse_heap h0 parser).2.2).fault = h0.fault) := by
  obtain ⟨p, e, hwf, -⟩ := QueryParser_new_spec q
  rw [e] at hq
  have hpp : p = parser := Option.some.inj hq
  subst hpp
  obtain ⟨s1, s2, s3⟩ := QueryParser_parse_heap_spec h0 hi p hwf
  refine ⟨s2, s1, ?_, ?_⟩
  · intro hn
    rw [hn] at s2
    cases ht : (QueryParser_parse_heap h0 p).1 with
    | none =>
      rw [ht] at s3
      obtain ⟨l, f, -, -⟩ := s3
      exact ⟨by rw [l, Finset.union_empty], f⟩
    | some t =>
      rw [ht] at s2
      exact Option.noConfusion s2
  · intro tree ht
    rw [ht] at s3
    obtain ⟨nd, ⟨l, f, -, hb⟩, l2, f2, -, -⟩ := s3
    refine ⟨nd, ?_, l, f, by rw [l2, Finset.union_empty], f2⟩
    intro b hm hl
    have h1 := hi b hl
    have h2 := (hb b (List.mem_toFinset.mpr hm)).1
    omega

theorem C36_parser_frees_what_it_allocates_witness :
    ((QueryParser_parse_heap { next := 0, live := ∅, fault := false }
        { input := "SELECT ENTITIES WHERE HAS(a, b".toList, position := 0, length := 30,
          line := 1, column := 1 }).2.2.live = ∅ ∧
      (QueryParser_parse_heap { next := 0, live := ∅, fault := false }
        { input := "SELECT ENTITIES WHERE HAS(a, b".toList, position := 0, length := 30,
          line := 1, column := 1 }).2.2.fault = false) ∧
    ((HeapQueryAST.node 0 AST_SHOW
        (.showData { block := 1, componentName := some (2, "Health".toList),
                     entityId := some (3, { high := 1, low := 2 }) })
        none none none 0).blocks.Nodup ∧
      (QueryAST_destroy
        (some (HeapQueryAST.node 0 AST_SHOW
          (.showData { block := 1, componentName := some (2, "Health".toList),
                       entityId := some (3, { high := 1, low := 2 }) })
          none none none 0))
        (QueryParser_parse_heap { next := 0, live := ∅, fault := false }
          { input := "SHOW Health OF ENTITY 1:2".toList, position := 0, length := 25,
            line := 1, column := 1 }).2.2).live = ∅) :=
  ⟨(C36_parser_frees_what_it_allocates "SELECT ENTITIES WHERE HAS(a, b".toList _
      { next := 0, live := ∅, fault := false } rfl
      (fun b hb => absurd hb (Finset.not_mem_empty b))).2.2.1 rfl,
    ((C36_parser_frees_what_it_allocates "SHOW Health OF ENTITY 1:2".toList _
      { next := 0, live := ∅, fault := false } rfl
      (fun b hb => absurd hb (Finset.not_mem_empty b))).2.2.2 _ rfl).1,
    ((C36_parser_frees_what_it_allocates "SHOW Health OF ENTITY 1:2".toList _
      { next := 0, live := ∅, fault := false } rfl
      (fun b hb => absurd hb (Finset.not_mem_empty b))).2.2.2 _ rfl).2.2.2.2.1⟩

/-! ## A token written directly after a statement -/

theorem lexHead_cases (c : Char) (r : List Char) :
    (c = '(' ∧ lexHead (c :: r) = (TOKEN_LPAREN, 1)) ∨
    (c = ')' ∧ lexHead (c :: r) = (TOKEN_RPAREN, 1)) ∨
    (c = '.' ∧ lexHead (c :: r) = (TOKEN_DOT, 1)) ∨
    (c = ',' ∧ lexHead (c :: r) = (TOKEN_COMMA, 1)) ∨
    ((lexHead (c :: r)).1 = TOKEN_OPERATOR) ∨
    (isdigit c = true ∧ (lexHead (c :: r)).1 = TOKEN_NUMBER) ∨
    ((isalpha c || decide (c = '_')) = true ∧
      lexHead (c :: r) = (keywordType ((c :: r).takeWhile is_identifier_char),
        ((c :: r).takeWhile is_identifier_char).length)) ∨
    ((lexHead (c :: r)).1 = TOKEN_ERROR) := by
  unfold lexHead
  simp only []
  by_cases h1 : c = '('
  · rw [if_pos h1]; exact Or.inl ⟨h1, rfl⟩
  rw [if_neg h1]
  by_cases h2 : c = ')'
  · rw [if_pos h2]; exact Or.inr (Or.inl ⟨h2, rfl⟩)
  rw [if_neg h2]
  by_cases h3 : c = '.'
  · rw [if_pos h3]; exact Or.inr (Or.inr (Or.inl ⟨h3, rfl⟩))
  rw [if_neg h3]
  by_cases h4 : c = ','
  · rw [if_pos h4]; exact Or.inr (Or.inr (Or.inr (Or.inl ⟨h4, rfl⟩)))
  rw [if_neg h4]
  by_cases h5 : c = '>' ∨ c = '<' ∨ c = '=' ∨ c = '!'
  · rw [if_pos h5]; exact Or.inr (Or.inr (Or.inr (Or.inr (Or.inl rfl))))
  rw [if_neg h5]
  by_cases h6 : isdigit c = true
  · rw [if_pos h6]; exact Or.inr (Or.inr (Or.inr (Or.inr (Or.inr (Or.inl ⟨h6, rfl⟩)))))
  rw [if_neg h6]
  by_cases h7 : (isalpha c || decide (c = '_')) = true
  · rw [if_pos h7]
    exact Or.inr (Or.inr (Or.inr (Or.inr (Or.inr (Or.inr (Or.inl ⟨h7, rfl⟩))))))
  rw [if_neg h7]
  exact Or.inr (Or.inr (Or.inr (Or.inr (Or.inr (Or.inr (Or.inr rfl))))))

theorem lexS_decompose (s : List Char) :
    ∃ lead, (∀ c ∈ lead, isspace c = true) ∧ s = lead ++ ((lexS s).2.1 ++ (lexS s).2.2) := by
  refine ⟨s.takeWhile isspace, fun c hc => List.mem_takeWhile_imp hc, ?_⟩
  unfold lexS
  simp only [List.take_append_drop, List.takeWhile_append_dropWhile]

theorem lexS_append_rest (s y : List Char) (h : (lexS s).2.2 ≠ []) :
    lexS (s ++ y) = ((lexS s).1, (lexS s).2.1, (lexS s).2.2 ++ y) := by
  have hne : (lexS s).1 ≠ TOKEN_EOF := fun e => h (lexS_eof_rest s e)
  obtain ⟨lead, hl, e⟩ := lexS_decompose s
  rcases hs : lexS s with ⟨k, w, r⟩
  rw [hs] at e h hne
  simp only [] at e h hne
  subst e
  rw [lexS_spaces lead _ hl] at hs
  rw [List.append_assoc, List.append_assoc, lexS_spaces lead _ hl]
  refine lexS_swap_rest w r (r ++ y) k hs hne ?_
  cases r with
  | nil => exact absurd rfl h
  | cons a v => rfl

theorem lexS_rparen_append (s y : List Char) (h : (lexS s).1 = TOKEN_RPAREN) :
    lexS (s ++ y) = (TOKEN_RPAREN, (lexS s).2.1, (lexS s).2.2 ++ y) := by
  have hne : (lexS s).1 ≠ TOKEN_EOF := by rw [h]; decide
  cases hd : s.dropWhile isspace with
  | nil => exact absurd ((lexS_eof_iff s).2 hd) hne
  | cons c r =>
    have e1 : (s ++ y).dropWhile isspace = c :: (r ++ y) := by
      rw [dropWhile_append_of_ne_nil isspace s y (by rw [hd]; simp), hd]
      rfl
    have hk : (lexHead (c :: r)).1 = TOKEN_RPAREN := by
      unfold lexS at h
      simp only [hd] at h
      exact h
    have hc : c = ')' := by
      rcases lexHead_cases c r with a | a | a | a | a | a | a | a
      · rw [a.2] at hk; exact TokenType.noConfusion hk
      · exact a.1
      · rw [a.2] at hk; exact TokenType.noConfusion hk
      · rw [a.2] at hk; exact TokenType.noConfusion hk
      · rw [a] at hk; exact TokenType.noConfusion hk
      · rw [a.2] at hk; exact TokenType.noConfusion hk
      · rw [a.2] at hk; exact absurd hk (keywordType_ne_rparen _)
      · rw [a] at hk; exact TokenType.noConfusion hk
    subst hc
    unfold lexS
    simp only [hd, e1]
    rfl

theorem componentListLoopS_ne_nil (fuel : Nat) (names : List (List Char)) (first : Bool)
    (s r : List Char) (res : List (List Char))
    (h : componentListLoopS fuel names first s = some (some res, r)) : s ≠ [] := by
  intro e
  subst e
  cases fuel with
  | zero => exact Option.noConfusion h
  | succ k =>
    unfold componentListLoopS at h
    cases first <;> simp [lexS_nil] at h

theorem componentListLoopS_glue (fuel : Nat) (names : List (List Char)) (first : Bool)
    (s r : List Char) (res : List (List Char)) (y : List Char)
    (h : componentListLoopS fuel names first s = some (some res, r)) (fuel2 : Nat)
    (hf : fuel ≤ fuel2) :
    componentListLoopS fuel2 names first (s ++ y) = some (some res, r ++ y) := by
  induction fuel generalizing names first s fuel2 with
  | zero => exact Option.noConfusion h
  | succ k ih =>
    cases fuel2 with
    | zero => omega
    | succ k2 =>
      have hk : k ≤ k2 := by omega
      unfold componentListLoopS at h ⊢
      by_cases hR : (lexS s).1 = TOKEN_RPAREN
      · rw [lexS_rparen_append s y hR]
        rw [if_pos hR] at h
        simp only [Option.some.injEq, Prod.mk.injEq] at h
        simp only [if_true]
        rw [h.1, h.2]
      · rw [if_neg hR] at h
        cases first with
        | true =>
          simp only [Bool.not_true, Bool.false_eq_true, if_false] at h
          by_cases hI : (lexS s).1 = TOKEN_IDENTIFIER
          · rw [if_pos hI] at h
            have hr := componentListLoopS_ne_nil _ _ _ _ _ _ h
            have e := lexS_append_rest s y hr
            have := ih _ _ _ h k2 hk
            rw [e]
            simp only [hI, reduceCtorEq, if_false, Bool.not_true, Bool.false_eq_true]
            rw [e]
            simp only [hI, if_true]
            exact this
          · rw [if_neg hI] at h
            simp at h
        | false =>
          simp only [Bool.not_false, if_true] at h
          by_cases hC : (lexS s).1 = TOKEN_COMMA
          · simp only [hC, ne_eq, not_true_eq_false, if_false] at h
            by_cases hI : (lexS (lexS s).2.2).1 = TOKEN_IDENTIFIER
            · rw [if_pos hI] at h
              have hr := componentListLoopS_ne_nil _ _ _ _ _ _ h
              have hr0 : (lexS s).2.2 ≠ [] := by
                intro e0
                rw [e0, lexS_nil] at hI
                exact TokenType.noConfusion hI
              have e0 := lexS_append_rest s y hr0
              have e := lexS_append_rest (lexS s).2.2 y hr
              have := ih _ _ _ h k2 hk
              rw [e0]
              simp only [hC, reduceCtorEq, if_false, Bool.not_false, if_true, ne_eq,
                not_true_eq_false]
              rw [e]
              simp only [hI, if_true]
              exact this
            · rw [if_neg hI] at h
              simp at h
          · simp only [hC, ne_eq, not_false_eq_true, if_true] at h
            simp at h

theorem parseComponentListS_glue (s r : List Char) (names : List (List Char)) (y : List Char)
    (h : parseComponentListS s = (some names, r)) :
    parseComponentListS (s ++ y) = (some names, r ++ y) := by
  unfold parseComponentListS at h ⊢
  by_cases hL : (lexS s).1 = TOKEN_LPAREN
  · rw [if_neg (by simp [hL])] at h
    cases hl : componentListLoopS ((lexS s).2.2.length + 1) [] true (lexS s).2.2 with
    | none => rw [hl] at h; simp at h
    | some x =>
      obtain ⟨res, r2⟩ := x
      rw [hl] at h
      cases res with
      | none => simp at h
      | some ns =>
        have hr := componentListLoopS_ne_nil _ _ _ _ _ _ hl
        have e := lexS_append_rest s y hr
        have g := componentListLoopS_glue _ _ _ _ _ _ y hl (((lexS s).2.2 ++ y).length + 1)
          (by rw [List.length_append]; omega)
        rw [e]
        simp only [hL, ne_eq, not_true_eq_false, if_false]
        rw [g]
        simp only [] at h ⊢
        by_cases hz : ns.length = 0
        · rw [if_pos hz] at h; simp at h
        · rw [if_neg hz] at h ⊢
          simp only [Prod.mk.injEq, Option.some.injEq] at h ⊢
          exact ⟨h.1, by rw [h.2]⟩
  · rw [if_pos (by simp [hL])] at h
    simp at h

theorem parseComponentListS_ne_nil (s r : List Char) (names : List (List Char))
    (h : parseComponentListS s = (some names, r)) : s ≠ [] := by
  intro e
  subst e
  unfold parseComponentListS at h
  simp [lexS_nil] at h

theorem parsePredicateS_glue (s r : List Char) (predicate : QueryAST) (y : List Char)
    (h : parsePredicateS s = (some predicate, r)) :
    parsePredicateS (s ++ y) = (some predicate, r ++ y) := by
  have tail : ∀ (kind : ASTNodeType),
      (match parseComponentListS (lexS s).2.2 with
        | (none, s1) => ((none : Option QueryAST), s1)
        | (some names, s1) => (some (predicateNode kind names), s1)) = (some predicate, r) →
      (lexS s).2.2 ≠ [] ∧
      (match parseComponentListS ((lexS s).2.2 ++ y) with
        | (none, s1) => ((none : Option QueryAST), s1)
        | (some names, s1) => (some (predicateNode kind names), s1)) =
          (some predicate, r ++ y) := by
    intro kind h
    rcases hl : parseComponentListS (lexS s).2.2 with ⟨l, s1⟩
    rw [hl] at h
    cases l with
    | none => simp at h
    | some names =>
      simp only [Prod.mk.injEq, Option.some.injEq] at h
      rw [parseComponentListS_glue _ _ _ y hl]
      refine ⟨parseComponentListS_ne_nil _ _ _ hl, ?_⟩
      simp only [Prod.mk.injEq, Option.some.injEq]
      exact ⟨h.1, by rw [h.2]⟩
  unfold parsePredicateS at h ⊢
  by_cases h1 : (lexS s).1 = TOKEN_HAS
  · rw [if_pos h1] at h
    obtain ⟨hr, t⟩ := tail _ h
    rw [lexS_append_rest s y hr]
    simp only [h1, if_true]
    exact t
  · rw [if_neg h1] at h
    by_cases h2 : (lexS s).1 = TOKEN_HAS_ANY
    · rw [if_pos h2] at h
      obtain ⟨hr, t⟩ := tail _ h
      rw [lexS_append_rest s y hr]
      simp only [h2, reduceCtorEq, if_true, if_false]
      exact t
    · rw [if_neg h2] at h
      by_cases h3 : (lexS s).1 = TOKEN_NOT_HAS
      · rw [if_pos h3] at h
        obtain ⟨hr, t⟩ := tail _ h
        rw [lexS_append_rest s y hr]
        simp only [h3, reduceCtorEq, if_true, if_false]
        exact t
      · rw [if_neg h3] at h
        simp at h

theorem parsePredicateS_ne_nil (s r : List Char) (predicate : QueryAST)
    (h : parsePredicateS s = (some predicate, r)) : s ≠ [] := by
  intro e
  subst e
  unfold parsePredicateS at h
  simp [lexS_nil] at h

theorem parseEntitiesS_one_more (type : ASTNodeType) (s : List Char)
    (h1 : (lexS (lexS s).2.2).1 ≠ TOKEN_EOF)
    (h2 : (lexS (lexS (lexS s).2.2).2.2).1 = TOKEN_EOF) : parseEntitiesS type s = none := by
  unfold parseEntitiesS
  by_cases hE : (lexS s).1 = TOKEN_ENTITIES
  · rw [if_neg (by simp [hE])]
    simp only []
    by_cases hW : (lexS (lexS s).2.2).1 = TOKEN_WHERE
    · rw [if_pos hW]
      have hn := parsePredicateS_eof _ h2
      rcases hp : parsePredicateS (lexS (lexS s).2.2).2.2 with ⟨l, s2⟩
      rw [hp] at hn
      simp only [] at hn
      subst hn
      rfl
    · rw [if_neg hW]
      simp only []
      rw [if_pos h1]
  · rw [if_pos (by simp [hE])]

theorem lexS_entities_inv (s : List Char) (h : (lexS s).1 = TOKEN_ENTITIES) :
    isIdentifierText (lexS s).2.1 = true ∧ keywordType (lexS s).2.1 = TOKEN_ENTITIES := by
  unfold lexS at h ⊢
  simp only [] at h ⊢
  cases hs : s.dropWhile isspace with
  | nil => rw [hs] at h; exact TokenType.noConfusion h
  | cons c r =>
    rw [hs] at h
    have hw : (isalpha c || decide (c = '_')) = true ∧
        lexHead (c :: r) = (keywordType ((c :: r).takeWhile is_identifier_char),
          ((c :: r).takeWhile is_identifier_char).length) := by
      rcases lexHead_cases c r with a | a | a | a | a | a | a | a
      · rw [a.2] at h; exact TokenType.noConfusion h
      · rw [a.2] at h; exact TokenType.noConfusion h
      · rw [a.2] at h; exact TokenType.noConfusion h
      · rw [a.2] at h; exact TokenType.noConfusion h
      · rw [a] at h; exact TokenType.noConfusion h
      · rw [a.2] at h; exact TokenType.noConfusion h
      · exact a
      · rw [a] at h; exact TokenType.noConfusion h
    obtain ⟨hc, hl⟩ := hw
    rw [hl] at h ⊢
    simp only [] at h ⊢
    rw [take_length_takeWhile]
    have hic : is_identifier_char c = true := by
      simp only [Bool.or_eq_true, decide_eq_true_eq] at hc
      simp only [is_identifier_char, isalnum, Bool.or_eq_true, decide_eq_true_eq]
      rcases hc with hc | hc
      · exact Or.inl (Or.inl hc)
      · exact Or.inr hc
    have htw : (c :: r).takeWhile is_identifier_char = c :: r.takeWhile is_identifier_char := by
      rw [List.takeWhile_cons, if_pos hic]
    refine ⟨?_, h⟩
    rw [htw]
    simp only [isIdentifierText, Bool.and_eq_true, List.all_eq_true]
    refine ⟨hc, ?_⟩
    intro x hx
    simp only [List.mem_cons] at hx
    rcases hx with hx | hx
    · rw [hx]; exact hic
    · exact List.mem_takeWhile_imp hx

theorem lexS_entities_glue (s y : List Char) (c : Char) (y2 : List Char) (hy : y = c :: y2)
    (hE : (lexS s).1 = TOKEN_ENTITIES) (hF : (lexS (lexS s).2.2).1 = TOKEN_EOF) :
    (lexS (s ++ y)).1 ≠ TOKEN_ENTITIES ∨
    ((lexS (s ++ y)).1 = TOKEN_ENTITIES ∧ lexS (lexS (s ++ y)).2.2 = lexS y) := by
  by_cases hr : (lexS s).2.2 = []
  · obtain ⟨hw, hk⟩ := lexS_entities_inv s hE
    obtain ⟨lead, hl, e⟩ := lexS_decompose s
    rcases hs : lexS s with ⟨k, w, r⟩
    rw [hs] at e hr hw hk
    simp only [] at e hr hw hk
    subst hr
    rw [List.append_nil] at e
    subst e
    rw [List.append_assoc, lexS_spaces lead _ hl, hy]
    by_cases hc : is_identifier_char c = true
    · left
      obtain ⟨w2, r2, e2, hid⟩ := lexS_glued_word w y2 c hw hc
      rw [e2]
      have hlen : w.length = 8 := by
        by_contra hne
        exact keywordType_long_word w "ENTITIES".toList TOKEN_ENTITIES (by decide)
          (identifierText_no_nul hw) (fun q => hne q.symm) hk
      refine keywordType_long_word _ "ENTITIES".toList TOKEN_ENTITIES (by decide)
        (identifierText_no_nul hid) ?_
      rw [List.length_append, List.length_cons, hlen]
      show (8 : Nat) ≠ 8 + (w2.length + 1)
      omega
    · right
      have hc2 : is_identifier_char c = false := by
        cases hx : is_identifier_char c with
        | false => rfl
        | true => exact absurd hx hc
      rw [lexS_word w (c :: y2) hw (stopsWord_cons c y2 hc2), hk]
      exact ⟨rfl, rfl⟩
  · right
    rw [lexS_append_rest s y hr]
    exact ⟨hE, lexS_eof_append _ y hF⟩

theorem parseEntitiesS_glue (type : ASTNodeType) (s y : List Char) (ast : QueryAST)
    (c : Char) (y2 : List Char) (hy : y = c :: y2)
    (hy1 : (lexS y).1 ≠ TOKEN_EOF) (hy2 : (lexS y).2.2 = [])
    (h : parseEntitiesS type s = some ast) : parseEntitiesS type (s ++ y) = none := by
  have hy3 : (lexS (lexS y).2.2).1 = TOKEN_EOF := by rw [hy2]; rfl
  unfold parseEntitiesS at h
  by_cases hE : (lexS s).1 = TOKEN_ENTITIES
  · rw [if_neg (by simp [hE])] at h
    simp only [] at h
    by_cases hW : (lexS (lexS s).2.2).1 = TOKEN_WHERE
    · rw [if_pos hW] at h
      rcases hp : parsePredicateS (lexS (lexS s).2.2).2.2 with ⟨l, s2⟩
      rw [hp] at h
      cases l with
      | none => exact Option.noConfusion h
      | some predicate =>
        simp only [] at h
        by_cases hF : (lexS s2).1 = TOKEN_EOF
        · have hr0 : (lexS s).2.2 ≠ [] := by
            intro e0
            rw [e0, lexS_nil] at hW
            exact TokenType.noConfusion hW
          have hr1 := parsePredicateS_ne_nil _ _ _ hp
          unfold parseEntitiesS
          rw [lexS_append_rest s y hr0]
          simp only [hE, ne_eq, not_true_eq_false, if_false]
          rw [lexS_append_rest _ y hr1]
          simp only [hW, if_true]
          rw [parsePredicateS_glue _ _ _ y hp]
          simp only []
          rw [lexS_eof_append s2 y hF, if_pos hy1]
        · rw [if_pos hF] at h
          exact Option.noConfusion h
    · rw [if_neg hW] at h
      simp only [] at h
      by_cases hF : (lexS (lexS s).2.2).1 = TOKEN_EOF
      · rcases lexS_entities_glue s y c y2 hy hE hF with a | ⟨-, a⟩
        · unfold parseEntitiesS
          rw [if_pos a]
        · refine parseEntitiesS_one_more type (s ++ y) ?_ ?_
          · rw [a]; exact hy1
          · rw [a]; exact hy3
      · rw [if_pos hF] at h
        exact Option.noConfusion h
  · rw [if_pos (by simp [hE])] at h
    exact Option.noConfusion h

theorem strtoull_congr (a : Char) (l l2 : List Char) (ha : isspace a = false)
    (h1 : a ≠ '-') (h2 : a ≠ '+')
    (e : (a :: l).takeWhile isdigit = (a :: l2).takeWhile isdigit) :
    strtoull (a :: l) = strtoull (a :: l2) := by
  have hw1 : (a :: l).takeWhile isspace = [] := by
    simp [List.takeWhile_cons, ha]
  have hw2 : (a :: l2).takeWhile isspace = [] := by
    simp [List.takeWhile_cons, ha]
  unfold strtoull
  rw [hw1, hw2]
  simp only [List.length_nil, List.drop_zero, List.head?_cons]
  simp only [h1, h2, if_false, List.drop_zero, e]

theorem parseEntityIdS_inv (s r : List Char) (entityId : EntityIdData)
    (h : parseEntityIdS s = (some entityId, r)) :
    ∃ a s2 b2 r1, s.dropWhile isspace = a :: s2 ∧
      (a :: s2).dropWhile isdigit = ':' :: b2 :: r1 ∧ isdigit b2 = true ∧
      r = (b2 :: r1).dropWhile isdigit ∧
      entityId = { high := (strtoull (a :: s2)).1, low := (strtoull (b2 :: r1)).1 } ∧
      (strtoull (a :: s2)).2 = ((a :: s2).takeWhile isdigit).length ∧
      (strtoull (b2 :: r1)).2 = ((b2 :: r1).takeWhile isdigit).length ∧
      isspace a = false ∧ a ≠ '-' ∧ a ≠ '+' := by
  unfold parseEntityIdS at h
  simp only [] at h
  cases hs1 : s.dropWhile isspace with
  | nil => rw [hs1] at h; simp at h
  | cons a s2 =>
    have ha : isspace a = false := head_dropWhile_false _ _ _ _ hs1
    rw [hs1] at h
    simp only [] at h
    cases hs2 : (a :: s2).dropWhile isdigit with
    | nil => rw [hs2] at h; simp at h
    | cons b r0 =>
      rw [hs2] at h
      simp only [] at h
      by_cases hb : b = ':'
      · simp only [hb, ne_eq, not_true_eq_false, if_false] at h
        by_cases hst : (strtoull (a :: s2)).2 = ((a :: s2).takeWhile isdigit).length
        · simp only [hst, not_true_eq_false, if_false] at h
          cases r0 with
          | nil => simp at h
          | cons b2 r1 =>
            simp only [] at h
            by_cases hz : ((b2 :: r1).takeWhile isdigit).length = 0
            · simp [hz] at h
            · have hb2 : isdigit b2 = true := by
                by_contra hn
                apply hz
                simp [List.takeWhile_cons, hn]
              by_cases hst2 : (strtoull (b2 :: r1)).2 = ((b2 :: r1).takeWhile isdigit).length
              · simp only [hz, hst2, not_true_eq_false, if_false, Prod.mk.injEq,
                  Option.some.injEq] at h
                have hsign : a ≠ '-' ∧ a ≠ '+' := by
                  by_cases hda : isdigit a = true
                  · exact ⟨ne_of_digit hda (by decide), ne_of_digit hda (by decide)⟩
                  · rw [List.dropWhile_cons, if_neg hda, hb] at hs2
                    have ea : a = ':' := (List.cons.inj hs2).1
                    rw [ea]
                    exact ⟨by decide, by decide⟩
                exact ⟨a, s2, b2, r1, rfl, by rw [hs2, hb], hb2, h.2.symm, h.1.symm, hst, hst2,
                  ha, hsign.1, hsign.2⟩
              · simp [hz, hst2] at h
        · simp [hst] at h
      · simp [hb] at h

theorem parseEntityIdS_glue (s r : List Char) (entityId : EntityIdData) (c : Char)
    (y2 : List Char) (h : parseEntityIdS s = (some entityId, r))
    (hc : r ≠ [] ∨ isdigit c = false) :
    parseEntityIdS (s ++ c :: y2) = (some entityId, r ++ c :: y2) := by
  obtain ⟨a, s2, b2, r1, e1, e2, hb2, er, eid, hst, hst2, ha, hm, hp⟩ :=
    parseEntityIdS_inv s r entityId h
  have f1 : (s ++ c :: y2).dropWhile isspace = a :: (s2 ++ c :: y2) := by
    rw [dropWhile_append_of_ne_nil isspace s _ (by rw [e1]; simp), e1]
    rfl
  have f2 : (a :: (s2 ++ c :: y2)).dropWhile isdigit = ':' :: (b2 :: (r1 ++ c :: y2)) := by
    have := dropWhile_append_of_ne_nil isdigit (a :: s2) (c :: y2) (by rw [e2]; simp)
    rw [e2] at this
    exact this
  have f3 : (a :: (s2 ++ c :: y2)).takeWhile isdigit = (a :: s2).takeWhile isdigit :=
    takeWhile_append_of_ne_nil isdigit (a :: s2) (c :: y2) (by rw [e2]; simp)
  have f4 : strtoull (a :: (s2 ++ c :: y2)) = strtoull (a :: s2) :=
    strtoull_congr a _ _ ha hm hp f3
  have low : (b2 :: (r1 ++ c :: y2)).takeWhile isdigit = (b2 :: r1).takeWhile isdigit ∧
      (b2 :: (r1 ++ c :: y2)).dropWhile isdigit = (b2 :: r1).dropWhile isdigit ++ c :: y2 := by
    by_cases hr : (b2 :: r1).dropWhile isdigit = []
    · have hd : isdigit c = false := by
        rcases hc with hc | hc
        · exact absurd (er.trans hr) hc
        · exact hc
      exact ⟨takeWhile_append_cons_stop isdigit (b2 :: r1) y2 c hd,
        dropWhile_append_cons_stop isdigit (b2 :: r1) y2 c hd⟩
    · exact ⟨takeWhile_append_of_ne_nil isdigit (b2 :: r1) (c :: y2) hr,
        dropWhile_append_of_ne_nil isdigit (b2 :: r1) (c :: y2) hr⟩
  have f5 : strtoull (b2 :: (r1 ++ c :: y2)) = strtoull (b2 :: r1) :=
    strtoull_congr b2 _ _ (isspace_of_digit hb2) (ne_of_digit hb2 (by decide))
      (ne_of_digit hb2 (by decide)) low.1
  have hz : ((b2 :: r1).takeWhile isdigit).length ≠ 0 := by
    rw [List.takeWhile_cons, if_pos hb2]
    simp
  have := parseEntityIdS_of (s ++ c :: y2) (a :: (s2 ++ c :: y2)) (b2 :: (r1 ++ c :: y2)) f1
    (by simp) f2 (by rw [f4, f3]; exact hst) (by simp) (by rw [low.1]; exact hz)
    (by rw [f5, low.1]; exact hst2)
  rw [this, f4, f5, low.2, eid, er]

theorem parseEntityIdS_join (s : List Char) (entityId : EntityIdData) (y : List Char)
    (h : parseEntityIdS s = (some entityId, []))
    (hy : ∀ c ∈ y, isdigit c = true) :
    ∃ ds, (':' :: ds) <:+ s ∧ ds ≠ [] ∧ (∀ c ∈ ds, isdigit c = true) ∧
      entityId.low = (strtoull ds).1 ∧
      parseEntityIdS (s ++ y) =
        (some { high := entityId.high, low := (strtoull (ds ++ y)).1 }, []) := by
  obtain ⟨a, s2, b2, r1, e1, e2, hb2, er, eid, hst, hst2, ha, hm, hp⟩ :=
    parseEntityIdS_inv s [] entityId h
  have f1 : (s ++ y).dropWhile isspace = a :: (s2 ++ y) := by
    rw [dropWhile_append_of_ne_nil isspace s _ (by rw [e1]; simp), e1]
    rfl
  have f2 : (a :: (s2 ++ y)).dropWhile isdigit = ':' :: (b2 :: (r1 ++ y)) := by
    have := dropWhile_append_of_ne_nil isdigit (a :: s2) y (by rw [e2]; simp)
    rw [e2] at this
    exact this
  have f3 : (a :: (s2 ++ y)).takeWhile isdigit = (a :: s2).takeWhile isdigit :=
    takeWhile_append_of_ne_nil isdigit (a :: s2) y (by rw [e2]; simp)
  have f4 : strtoull (a :: (s2 ++ y)) = strtoull (a :: s2) :=
    strtoull_congr a _ _ ha hm hp f3
  have hr : ∀ x ∈ b2 :: r1, isdigit x = true := by
    intro x hx
    have e := List.takeWhile_append_dropWhile isdigit (b2 :: r1)
    rw [← er, List.append_nil] at e
    rw [← e] at hx
    exact List.mem_takeWhile_imp hx
  have hall : ∀ x ∈ b2 :: (r1 ++ y), isdigit x = true := by
    intro x hx
    rw [← List.cons_append, List.mem_append] at hx
    rcases hx with hx | hx
    · exact hr x hx
    · exact hy x hx
  have hd := strtoull_digits (b2 :: (r1 ++ y)) [] (by simp) hall (by intro x hx; simp at hx)
  rw [List.append_nil] at hd
  have htw : (b2 :: (r1 ++ y)).takeWhile isdigit = b2 :: (r1 ++ y) :=
    List.takeWhile_eq_self_iff.mpr hall
  have hdw : (b2 :: (r1 ++ y)).dropWhile isdigit = [] :=
    List.dropWhile_eq_nil_iff.mpr hall
  have := parseEntityIdS_of (s ++ y) (a :: (s2 ++ y)) (b2 :: (r1 ++ y)) f1
    (by simp) f2 (by rw [f4, f3]; exact hst) (by simp) (by rw [htw]; simp)
    (by rw [hd, htw])
  have hsuf : (':' :: b2 :: r1) <:+ s := by
    have h1 : (':' :: b2 :: r1) <:+ a :: s2 := by
      rw [← e2]
      exact List.dropWhile_suffix _
    have h2 : (a :: s2) <:+ s := by
      rw [← e1]
      exact List.dropWhile_suffix _
    exact h1.trans h2
  refine ⟨b2 :: r1, hsuf, by simp, hr, by rw [eid], ?_⟩
  rw [this, f4, hdw, eid]
  rfl

theorem parseEntityIdS_rest_suffix (s r : List Char) (entityId : EntityIdData)
    (h : parseEntityIdS s = (some entityId, r)) :
    r <:+ s ∧ (r = [] → ∃ d, s.getLast? = some d ∧ isdigit d = true) := by
  obtain ⟨a, s2, b2, r1, e1, e2, hb2, er, eid, hst, hst2, ha, hm, hp⟩ :=
    parseEntityIdS_inv s r entityId h
  have h0 : r <:+ b2 :: r1 := by
    rw [er]
    exact List.dropWhile_suffix _
  have h1 : (b2 :: r1) <:+ a :: s2 := by
    have : (':' :: b2 :: r1) <:+ a :: s2 := by
      rw [← e2]
      exact List.dropWhile_suffix _
    exact (List.suffix_cons ':' (b2 :: r1)).trans this
  have h2 : (a :: s2) <:+ s := by
    rw [← e1]
    exact List.dropWhile_suffix _
  refine ⟨h0.trans (h1.trans h2), ?_⟩
  intro hr
  have hall : ∀ x ∈ b2 :: r1, isdigit x = true := by
    intro x hx
    have e := List.takeWhile_append_dropWhile isdigit (b2 :: r1)
    rw [← er, hr, List.append_nil] at e
    rw [← e] at hx
    exact List.mem_takeWhile_imp hx
  obtain ⟨pre, hpre⟩ := h1.trans h2
  have hl : s.getLast? = some ((b2 :: r1).getLast (by simp)) := by
    rw [← hpre, List.getLast?_append_of_ne_nil _ (by simp), List.getLast?_eq_getLast]
  exact ⟨_, hl, hall _ (List.getLast_mem _)⟩

theorem lexS_single (t : List Char) (h : (lexS t).2.1.length = t.length) :
    (lexS t).2.1 = t ∧ (lexS t).2.2 = [] := by
  obtain ⟨lead, -, e⟩ := lexS_decompose t
  have hl := congrArg List.length e
  simp only [List.length_append] at hl
  have h1 : lead = [] := List.length_eq_zero.mp (by omega)
  have h2 : (lexS t).2.2 = [] := List.length_eq_zero.mp (by omega)
  rw [h1, h2, List.nil_append, List.append_nil] at e
  exact ⟨e.symm, h2⟩

theorem lexS_rest_suffix (s : List Char) : (lexS s).2.2 <:+ s := by
  unfold lexS
  exact (List.drop_suffix _ _).trans (List.dropWhile_suffix _)

theorem lexS_rest_ne_nil (s : List Char) (h : (lexS (lexS s).2.2).1 ≠ TOKEN_EOF) :
    (lexS s).2.2 ≠ [] := by
  intro e
  rw [e] at h
  exact h rfl

theorem eof_last_not_digit (r q : List Char) (hr : (lexS r).1 = TOKEN_EOF) (hne : r ≠ [])
    (hs : r <:+ q) (d : Char) (hd : q.getLast? = some d) : isdigit d = false := by
  obtain ⟨pre, hpre⟩ := hs
  have h0 : r.dropWhile isspace = [] := (lexS_eof_iff r).mp hr
  have hall : ∀ x ∈ r, isspace x = true := List.dropWhile_eq_nil_iff.mp h0
  rw [← hpre, List.getLast?_append_of_ne_nil _ hne, List.getLast?_eq_getLast _ hne] at hd
  have hm : d ∈ r := by
    rw [← Option.some.inj hd]
    exact List.getLast_mem _
  have hsp := hall d hm
  cases hdg : isdigit d with
  | false => rfl
  | true =>
    rw [isspace_of_digit hdg] at hsp
    exact absurd hsp (by decide)

theorem parseShowS_glue (s : List Char) (ast : QueryAST) (h : parseShowS s = some ast) :
    ∃ componentName entityId sE r, sE <:+ s ∧
      parseEntityIdS sE = (some entityId, r) ∧ (lexS r).1 = TOKEN_EOF ∧
      ast = showNode componentName entityId.high entityId.low ∧
      ∀ y, parseShowS (s ++ y) =
        match parseEntityIdS (sE ++ y) with
        | (none, _) => none
        | (some e2, s3) =>
          if (lexS s3).1 ≠ TOKEN_EOF then none
          else some (showNode componentName e2.high e2.low) := by
  unfold parseShowS at h
  have tail : ∀ componentName : Option (List Char),
      (if (lexS (lexS s).2.2).1 ≠ TOKEN_OF then none
        else if (lexS (lexS (lexS s).2.2).2.2).1 ≠ TOKEN_ENTITY then none
        else
          match parseEntityIdS (lexS (lexS (lexS s).2.2).2.2).2.2 with
          | (none, _) => none
          | (some entityId, s3) =>
            if (lexS s3).1 ≠ TOKEN_EOF then none
            else
              some (QueryAST.node AST_SHOW
                (.showData { componentName := componentName, entityId := some entityId })
                none none none 0)) = some ast →
      (lexS (lexS s).2.2).1 = TOKEN_OF ∧
      (lexS (lexS (lexS s).2.2).2.2).1 = TOKEN_ENTITY ∧
      ∃ entityId r, parseEntityIdS (lexS (lexS (lexS s).2.2).2.2).2.2 = (some entityId, r) ∧
        (lexS r).1 = TOKEN_EOF ∧
        ast = showNode componentName entityId.high entityId.low := by
    intro componentName h
    by_cases hO : (lexS (lexS s).2.2).1 = TOKEN_OF
    · simp only [hO, ne_eq, not_true_eq_false, if_false] at h
      by_cases hY : (lexS (lexS (lexS s).2.2).2.2).1 = TOKEN_ENTITY
      · simp only [hY, not_true_eq_false, if_false] at h
        rcases hp : parseEntityIdS (lexS (lexS (lexS s).2.2).2.2).2.2 with ⟨l, s3⟩
        rw [hp] at h
        cases l with
        | none => simp at h
        | some entityId =>
          simp only [] at h
          by_cases hF : (lexS s3).1 = TOKEN_EOF
          · simp only [hF, not_true_eq_false, if_false, Option.some.injEq] at h
            exact ⟨hO, hY, entityId, s3, rfl, hF, h.symm⟩
          · simp [hF] at h
      · simp [hY] at h
    · simp [hO] at h
  have build : ∀ componentName : Option (List Char),
      ((lexS s).1 = TOKEN_ALL ∧ componentName = none ∨
        (lexS s).1 ≠ TOKEN_ALL ∧ (lexS s).1 = TOKEN_IDENTIFIER ∧
          componentName = some ((lexS s).2.1.takeWhile (fun c => c ≠ NUL))) →
      (lexS (lexS s).2.2).1 = TOKEN_OF ∧
      (lexS (lexS (lexS s).2.2).2.2).1 = TOKEN_ENTITY ∧
      (∃ entityId r, parseEntityIdS (lexS (lexS (lexS s).2.2).2.2).2.2 = (some entityId, r) ∧
        (lexS r).1 = TOKEN_EOF ∧
        ast = showNode componentName entityId.high entityId.low) →
      ∃ componentName entityId sE r, sE <:+ s ∧
        parseEntityIdS sE = (some entityId, r) ∧ (lexS r).1 = TOKEN_EOF ∧
        ast = showNode componentName entityId.high entityId.low ∧
        ∀ y, parseShowS (s ++ y) =
          match parseEntityIdS (sE ++ y) with
          | (none, _) => none
          | (some e2, s3) =>
            if (lexS s3).1 ≠ TOKEN_EOF then none
            else some (showNode componentName e2.high e2.low) := by
    intro componentName hT ⟨hO, hY, entityId, r, hp, hF, hast⟩
    have n1 : (lexS s).2.2 ≠ [] := lexS_rest_ne_nil s (by rw [hO]; decide)
    have n2 : (lexS (lexS s).2.2).2.2 ≠ [] := lexS_rest_ne_nil _ (by rw [hY]; decide)
    have n3 : (lexS (lexS (lexS s).2.2).2.2).2.2 ≠ [] := by
      intro e
      rw [e] at hp
      have hn : (parseEntityIdS []).1 = none := rfl
      rw [hp] at hn
      exact Option.noConfusion hn
    refine ⟨componentName, entityId, (lexS (lexS (lexS s).2.2).2.2).2.2, r,
      (lexS_rest_suffix _).trans ((lexS_rest_suffix _).trans (lexS_rest_suffix _)),
      hp, hF, hast, ?_⟩
    intro y
    unfold parseShowS
    rw [lexS_append_rest s y n1]
    simp only []
    rw [lexS_append_rest _ y n2]
    simp only []
    rw [lexS_append_rest _ y n3]
    simp only [hO, hY, ne_eq, not_true_eq_false, if_false]
    rcases hT with ⟨hA, hc⟩ | ⟨hA, hI, hc⟩
    · simp only [hA, if_true, hc]
      rfl
    · simp only [hA, hI, if_false, if_true, hc]
      rfl
  by_cases hA : (lexS s).1 = TOKEN_ALL
  · simp only [hA, if_true] at h
    exact build none (Or.inl ⟨hA, rfl⟩) (tail none h)
  · by_cases hI : (lexS s).1 = TOKEN_IDENTIFIER
    · simp only [hI, reduceCtorEq, if_false, if_true] at h
      exact build _ (Or.inr ⟨hA, hI, rfl⟩) (tail _ h)
    · simp [hA, hI] at h

theorem parseEntitiesS_type (type : ASTNodeType) (s : List Char) (ast : QueryAST)
    (h : parseEntitiesS type s = some ast) : QueryAST_get_type (some ast) = type := by
  rcases parseEntitiesS_shape type s ast h with e | ⟨kind, names, -, -, e⟩
  · rw [e]; rfl
  · rw [e]; rfl

theorem parseShowS_glue_cases (s y : List Char) (ast : QueryAST) (c : Char) (y2 : List Char)
    (hy : y = c :: y2) (hy1 : (lexS y).1 ≠ TOKEN_EOF) (hy2 : (lexS y).2.2 = [])
    (h : parseShowS s = some ast) :
    ((isdigit c = false ∨ ∀ d, s.getLast? = some d → isdigit d = false) →
      parseShowS (s ++ y) = none) ∧
    (isdigit c = true → (∃ d, s.getLast? = some d ∧ isdigit d = true) →
      ∃ componentName high ds, (':' :: ds) <:+ s ∧ ds ≠ [] ∧
        (∀ x ∈ ds, isdigit x = true) ∧
        ast = showNode componentName high (strtoull ds).1 ∧
        parseShowS (s ++ y) = some (showNode componentName high (strtoull (ds ++ y)).1)) := by
  obtain ⟨componentName, entityId, sE, r, hsuf, hp, hF, hast, hglue⟩ := parseShowS_glue s ast h
  obtain ⟨hrs, hlast⟩ := parseEntityIdS_rest_suffix sE r entityId hp
  have sE_ne : sE ≠ [] := by
    intro e
    rw [e] at hp
    have hn : (parseEntityIdS []).1 = none := rfl
    rw [hp] at hn
    exact Option.noConfusion hn
  have lastS : ∀ d, sE.getLast? = some d → s.getLast? = some d := by
    intro d hd
    obtain ⟨pre, hpre⟩ := hsuf
    rw [← hpre, List.getLast?_append_of_ne_nil _ sE_ne]
    exact hd
  have fail : r ≠ [] ∨ isdigit c = false → parseShowS (s ++ y) = none := by
    intro hc
    rw [hglue y, hy, parseEntityIdS_glue sE r entityId c y2 hp hc]
    simp only []
    rw [← hy, lexS_eof_append r y hF, if_pos hy1]
  refine ⟨?_, ?_⟩
  · rintro (hc | hc)
    · exact fail (Or.inr hc)
    · refine fail (Or.inl ?_)
      intro hr
      obtain ⟨d, hd, hdig⟩ := hlast hr
      rw [hc d (lastS d hd)] at hdig
      exact absurd hdig (by decide)
  · rintro hc ⟨d, hd, hdig⟩
    have hr : r = [] := by
      by_contra hne
      rw [eof_last_not_digit r s hF hne (hrs.trans hsuf) d hd] at hdig
      exact absurd hdig (by decide)
    subst hr
    have hyd : ∀ x ∈ y, isdigit x = true := by
      have e := lexS_digit c y2 hc
      rw [← hy] at e
      rw [e] at hy2
      exact List.dropWhile_eq_nil_iff.mp hy2
    obtain ⟨ds, hds, hne, hall, hlow, hj⟩ := parseEntityIdS_join sE entityId y hp hyd
    refine ⟨componentName, entityId.high, ds, hds.trans hsuf, hne, hall, ?_, ?_⟩
    · rw [hast, hlow]
    · rw [hglue y, hj]
      simp only []
      rw [if_neg (by rw [lexS_nil]; exact fun hh => hh rfl)]

theorem parseS_glue (q y : List Char) (ast : QueryAST) (c : Char) (y2 : List Char)
    (hy : y = c :: y2) (hy1 : (lexS y).1 ≠ TOKEN_EOF) (hy2 : (lexS y).2.2 = [])
    (h : parseS q = some ast) :
    ((isdigit c = false ∨ QueryAST_get_type (some ast) ≠ AST_SHOW ∨
        ∀ d, q.getLast? = some d → isdigit d = false) →
      parseS (q ++ y) = none) ∧
    (isdigit c = true → QueryAST_get_type (some ast) = AST_SHOW →
      (∃ d, q.getLast? = some d ∧ isdigit d = true) →
      ∃ componentName high q0 ds, q = q0 ++ ':' :: ds ∧ ds ≠ [] ∧
        (∀ x ∈ ds, isdigit x = true) ∧
        ast = showNode componentName high (strtoull ds).1 ∧
        parseS (q ++ y) = some (showNode componentName high (strtoull (ds ++ y)).1)) := by
  have entities : ∀ type, type ≠ AST_SHOW →
      parseEntitiesS type (lexS q).2.2 = some ast →
      parseS (q ++ y) = parseEntitiesS type ((lexS q).2.2 ++ y) →
      ((isdigit c = false ∨ QueryAST_get_type (some ast) ≠ AST_SHOW ∨
          ∀ d, q.getLast? = some d → isdigit d = false) →
        parseS (q ++ y) = none) ∧
      (isdigit c = true → QueryAST_get_type (some ast) = AST_SHOW →
        (∃ d, q.getLast? = some d ∧ isdigit d = true) →
        ∃ componentName high q0 ds, q = q0 ++ ':' :: ds ∧ ds ≠ [] ∧
          (∀ x ∈ ds, isdigit x = true) ∧
          ast = showNode componentName high (strtoull ds).1 ∧
          parseS (q ++ y) = some (showNode componentName high (strtoull (ds ++ y)).1)) := by
    intro type hty he hq
    refine ⟨fun _ => ?_, fun _ hs _ => ?_⟩
    · rw [hq]
      exact parseEntitiesS_glue type _ y ast c y2 hy hy1 hy2 he
    · rw [parseEntitiesS_type type _ ast he] at hs
      exact absurd hs hty
  have rest_ne : ∀ o : Option QueryAST, o = some ast →
      (o = parseEntitiesS AST_SELECT (lexS q).2.2 ∨ o = parseEntitiesS AST_COUNT (lexS q).2.2 ∨
        o = parseShowS (lexS q).2.2) → (lexS q).2.2 ≠ [] := by
    intro o ho hcase e
    rw [e] at hcase
    rw [ho] at hcase
    rcases hcase with hh | hh | hh
    · exact Option.noConfusion hh
    · exact Option.noConfusion hh
    · exact Option.noConfusion hh
  unfold parseS at h
  by_cases h1 : (lexS q).1 = TOKEN_SELECT
  · simp only [h1, if_true] at h
    have hr := rest_ne _ h (Or.inl rfl)
    refine entities AST_SELECT (by decide) h ?_
    unfold parseS
    rw [lexS_append_rest q y hr]
    simp only [h1, if_true]
  · by_cases h2 : (lexS q).1 = TOKEN_COUNT
    · simp only [h2, reduceCtorEq, if_false, if_true] at h
      have hr := rest_ne _ h (Or.inr (Or.inl rfl))
      refine entities AST_COUNT (by decide) h ?_
      unfold parseS
      rw [lexS_append_rest q y hr]
      simp only [h2, reduceCtorEq, if_false, if_true]
    · by_cases h3 : (lexS q).1 = TOKEN_SHOW
      · simp only [h3, reduceCtorEq, if_false, if_true] at h
        have hr := rest_ne _ h (Or.inr (Or.inr rfl))
        have hq : parseS (q ++ y) = parseShowS ((lexS q).2.2 ++ y) := by
          unfold parseS
          rw [lexS_append_rest q y hr]
          simp only [h3, reduceCtorEq, if_false, if_true]
        obtain ⟨f1, f2⟩ := parseShowS_glue_cases _ y ast c y2 hy hy1 hy2 h
        have lastQ : ∀ d, q.getLast? = some d ↔ (lexS q).2.2.getLast? = some d := by
          intro d
          obtain ⟨pre, hpre⟩ := lexS_rest_suffix q
          have e := List.getLast?_append_of_ne_nil pre hr
          rw [hpre] at e
          rw [e]
        refine ⟨?_, ?_⟩
        · rintro (hc | hc | hc)
          · rw [hq]; exact f1 (Or.inl hc)
          · exfalso
            apply hc
            obtain ⟨cn, eid, sE, r, -, -, -, hast, -⟩ := parseShowS_glue _ ast h
            rw [hast]
            rfl
          · rw [hq]
            exact f1 (Or.inr (fun d hd => hc d ((lastQ d).mpr hd)))
        · rintro hc - ⟨d, hd, hdig⟩
          obtain ⟨cn, high, ds, hsuf, hne, hall, hast, hres⟩ :=
            f2 hc ⟨d, (lastQ d).mp hd, hdig⟩
          obtain ⟨q0, hq0⟩ := hsuf.trans (lexS_rest_suffix q)
          exact ⟨cn, high, q0, ds, hq0.symm, hne, hall, hast, by rw [hq, hres]⟩
      · simp [h1, h2, h3] at h

theorem keywordType_ne_number (w : List Char) : keywordType w ≠ TOKEN_NUMBER := by
  unfold keywordType
  repeat refine ite_ne_of (by decide) ?_
  decide

theorem lexS_number_head (c : Char) (y2 : List Char)
    (h1 : (lexS (c :: y2)).1 = TOKEN_NUMBER) (h2 : (lexS (c :: y2)).2.1 = c :: y2)
    (h3 : (lexS (c :: y2)).2.2 = []) : isdigit c = true := by
  have e : lexS ((c :: y2) ++ []) = (TOKEN_NUMBER, c :: y2, []) := by
    rw [List.append_nil]
    rcases hl : lexS (c :: y2) with ⟨k, w, r⟩
    rw [hl] at h1 h2 h3
    simp only [] at h1 h2 h3
    rw [h1, h2, h3]
  obtain ⟨a, w2, hw, -, hl⟩ := lexS_token_facts (c :: y2) [] TOKEN_NUMBER e (by decide)
  rw [List.append_nil] at hl
  have hk : (lexHead (c :: y2)).1 = TOKEN_NUMBER := by rw [hl]
  rcases lexHead_cases c y2 with ⟨-, x⟩ | ⟨-, x⟩ | ⟨-, x⟩ | ⟨-, x⟩ | x | ⟨x, -⟩ | ⟨-, x⟩ | x
  · rw [x] at hk; exact TokenType.noConfusion hk
  · rw [x] at hk; exact TokenType.noConfusion hk
  · rw [x] at hk; exact TokenType.noConfusion hk
  · rw [x] at hk; exact TokenType.noConfusion hk
  · rw [x] at hk; exact TokenType.noConfusion hk
  · exact x
  · rw [x] at hk; exact absurd hk (keywordType_ne_number _)
  · rw [x] at hk; exact TokenType.noConfusion hk

/-- C15, a counterexample: `SHOW ALL OF ENTITY 1:2` parses, the text `3` is one
token (a NUMBER, then end-of-input) and is not white space, and yet
`SHOW ALL OF ENTITY 1:2` with `3` appended parses: `parse_entity_id` reads the
digits `23` as the low half, so the result is the SHOW node of entity 1:23. -/
theorem C15_counterexample :
    (QueryParser_new (some "SHOW ALL OF ENTITY 1:2".toList)).map
        (fun parser => (QueryParser_parse parser).1) =
      some (some (showNode none 1 2)) ∧
    (QueryParser_new (some "3".toList)).map
        (fun p => ((QueryParser_next_token p).1.type,
          Token.text p.input (QueryParser_next_token p).1,
          (QueryParser_next_token (QueryParser_next_token p).2).1.type)) =
      some (TOKEN_NUMBER, "3".toList, TOKEN_EOF) ∧
    isspace '3' = false ∧
    (QueryParser_new (some ("SHOW ALL OF ENTITY 1:2".toList ++ "3".toList))).map
        (fun parser => (QueryParser_parse parser).1) =
      some (some (showNode none 1 23)) :=
  ⟨rfl, by decide, by decide, rfl⟩

/-- C15, amended: every statement must be followed by the end of the input, and a
token written after a statement is a parse failure unless the parser joins it
to the statement.  Let `QueryParser_parse` succeed on the text `q` with the tree
`ast`, and let `t` be a text the tokenizer reads as one token other than
end-of-input and then end-of-input.  (1) On `q`, any white-space byte, then `t`,
`QueryParser_parse` fails.  (2) If the token is the whole of `t` (its length is
the length of `t`), then on `q` directly followed by `t` it fails as well,
provided the token is not a NUMBER, or the statement is not a SHOW statement,
or `q` does not end in a digit.  (3) In the remaining case, a NUMBER written
directly after a SHOW statement that ends in a digit, `QueryParser_parse`
succeeds: `q` ends in `:` and the digits `ds` of the low half, and the result is
the same SHOW node with the low half read from `ds` followed by `t`.  (4)
"SELECT entities has(Position)" fails, the token after ENTITIES being neither
WHERE nor the end of the input, and so do `... HAS(a))`, `... 1:2x` and
`SELECT ENTITIES,`. -/
theorem C15_appended_token_fails_unless_digits_join (q t : List Char) (ast : QueryAST)
    (tokenizer : QueryParser)
    (hq : (QueryParser_new (some q)).map (fun parser => (QueryParser_parse parser).1) =
      some (some ast))
    (hp : QueryParser_new (some t) = some tokenizer)
    (ht : (QueryParser_next_token tokenizer).1.type ≠ TOKEN_EOF)
    (ht2 : (QueryParser_next_token (QueryParser_next_token tokenizer).2).1.type = TOKEN_EOF) :
    (∀ c, isspace c = true →
      (QueryParser_new (some (q ++ c :: t))).map (fun parser => (QueryParser_parse parser).1) =
        some none) ∧
    ((QueryParser_next_token tokenizer).1.length = t.length →
      ((QueryParser_next_token tokenizer).1.type ≠ TOKEN_NUMBER ∨
        QueryAST_get_type (some ast) ≠ AST_SHOW ∨
        ∀ d, q.getLast? = some d → isdigit d = false) →
      (QueryParser_new (some (q ++ t))).map (fun parser => (QueryParser_parse parser).1) =
        some none) ∧
    ((QueryParser_next_token tokenizer).1.length = t.length →
      (QueryParser_next_token tokenizer).1.type = TOKEN_NUMBER →
      QueryAST_get_type (some ast) = AST_SHOW →
      (∃ d, q.getLast? = some d ∧ isdigit d = true) →
      ∃ componentName high q0 ds, q = q0 ++ ':' :: ds ∧ ds ≠ [] ∧
        (∀ x ∈ ds, isdigit x = true) ∧
        ast = showNode componentName high (strtoull ds).1 ∧
        (QueryParser_new (some (q ++ t))).map (fun parser => (QueryParser_parse parser).1) =
          some (some (showNode componentName high (strtoull (ds ++ t)).1))) ∧
    (QueryParser_new (some "SELECT entities has(Position)".toList)).map
      (fun parser => (QueryParser_parse parser).1) = some none ∧
    (QueryParser_new (some "COUNT ENTITIES WHERE HAS(a))".toList)).map
      (fun parser => (QueryParser_parse parser).1) = some none ∧
    (QueryParser_new (some "SHOW ALL OF ENTITY 1:2x".toList)).map
      (fun parser => (QueryParser_parse parser).1) = some none ∧
    (QueryParser_new (some "SELECT ENTITIES,".toList)).map
      (fun parser => (QueryParser_parse parser).1) = some none := by
  obtain ⟨e1, e2⟩ := first_tokens_eq t tokenizer hp
  obtain ⟨p, hp2, -, -, -, -, elen, -⟩ := new_next_token t
  rw [hp] at hp2
  have ep : tokenizer = p := Option.some.inj hp2
  subst ep
  rw [e1] at ht
  rw [e2] at ht2
  rw [e1, elen]
  rw [parse_new_eq] at hq
  simp only [Option.some.injEq] at hq
  have single : (lexS t).2.1.length = t.length →
      ∃ c y2, t = c :: y2 ∧ (lexS t).2.1 = t ∧ (lexS t).2.2 = [] := by
    intro hlen
    obtain ⟨s1, s2⟩ := lexS_single t hlen
    cases t with
    | nil => exact absurd rfl ht
    | cons c y2 => exact ⟨c, y2, rfl, s1, s2⟩
  refine ⟨?_, ?_, ?_, rfl, rfl, rfl, rfl⟩
  · intro c hc
    rw [parse_new_eq, parseS_trailing q t c ast hc ht ht2 hq]
  · intro hlen hcase
    obtain ⟨c, y2, hy, s1, s2⟩ := single hlen
    rw [parse_new_eq]
    refine congrArg some ((parseS_glue q t ast c y2 hy ht s2 hq).1 ?_)
    rcases hcase with hn | hn | hn
    · left
      cases hd : isdigit c with
      | false => rfl
      | true =>
        exfalso
        apply hn
        rw [hy, lexS_digit c y2 hd]
    · exact Or.inr (Or.inl hn)
    · exact Or.inr (Or.inr hn)
  · intro hlen hn hs hd
    obtain ⟨c, y2, hy, s1, s2⟩ := single hlen
    have hc : isdigit c = true := by
      rw [hy] at hn s1 s2
      exact lexS_number_head c y2 hn s1 s2
    obtain ⟨cn, high, q0, ds, h1, h2, h3, h4, h5⟩ :=
      (parseS_glue q t ast c y2 hy ht s2 hq).2 hc hs hd
    refine ⟨cn, high, q0, ds, h1, h2, h3, h4, ?_⟩
    rw [parse_new_eq, h5]

/-- A use of the amended C15: `SHOW Health OF ENTITY 0:2` parses; followed by a
line break and `WHERE`, or directly by `WHERE`, it does not; followed directly
by the number `7` it parses again, with the low half read from the joined
digits. -/
theorem C15_appended_token_fails_unless_digits_join_witness :
    (QueryParser_new (some "SHOW Health OF ENTITY 0:2".toList)).map
        (fun parser => (QueryParser_parse parser).1) =
      some (some (showNode (some "Health".toList) 0 2)) ∧
    QueryParser_new (some "WHERE".toList) =
      some { input := "WHERE".toList, position := 0, length := 5, line := 1, column := 1 } ∧
    (QueryParser_next_token
      { input := "WHERE".toList, position := 0, length := 5, line := 1,
        column := 1 }).1.type ≠ TOKEN_EOF ∧
    (QueryParser_next_token (QueryParser_next_token
      { input := "WHERE".toList, position := 0, length := 5, line := 1,
        column := 1 }).2).1.type = TOKEN_EOF ∧
    (QueryParser_new (some ("SHOW Health OF ENTITY 0:2".toList ++ '\n' :: "WHERE".toList))).map
        (fun parser => (QueryParser_parse parser).1) = some none ∧
    (QueryParser_new (some ("SHOW Health OF ENTITY 0:2".toList ++ "WHERE".toList))).map
        (fun parser => (QueryParser_parse parser).1) = some none ∧
    (∃ componentName high q0 ds, "SHOW Health OF ENTITY 0:2".toList = q0 ++ ':' :: ds ∧
      ds ≠ [] ∧ (∀ x ∈ ds, isdigit x = true) ∧
      showNode (some "Health".toList) 0 2 = showNode componentName high (strtoull ds).1 ∧
      (QueryParser_new (some ("SHOW Health OF ENTITY 0:2".toList ++ "7".toList))).map
          (fun parser => (QueryParser_parse parser).1) =
        some (some (showNode componentName high (strtoull (ds ++ "7".toList)).1))) :=
  ⟨rfl, rfl, by decide, by decide,
    (C15_appended_token_fails_unless_digits_join "SHOW Health OF ENTITY 0:2".toList
      "WHERE".toList (showNode (some "Health".toList) 0 2) _ rfl rfl (by decide)
      (by decide)).1 '\n' (by decide),
    (C15_appended_token_fails_unless_digits_join "SHOW Health OF ENTITY 0:2".toList
      "WHERE".toList (showNode (some "Health".toList) 0 2) _ rfl rfl (by decide)
      (by decide)).2.1 (by decide) (Or.inl (by decide)),
    (C15_appended_token_fails_unless_digits_join "SHOW Health OF ENTITY 0:2".toList
      "7".toList (showNode (some "Health".toList) 0 2)
      { input := "7".toList, position := 0, length := 1, line := 1, column := 1 } rfl rfl
      (by decide) (by decide)).2.2.1 (by decide) (by decide) rfl ⟨'2', rfl, by decide⟩⟩

end GramaryeQuery
